import Mathlib

/-!
# Sky path blocks: a verification development of `src/path.c`

The C code of `path.c` is embedded shallowly:

* memory is a list of bytes (`List Nat`, a cell is read modulo 256) and a pointer
  is an offset into it;
* a `sky_event*` is a record that carries the address of the heap object in
  `addr` (pointers are compared by address in `sky_path_add_event`);
* `path->events` with `path->event_count` is a list: after every `realloc` in
  `path.c` the array has exactly `event_count` slots, so `event_count` is the
  length of the list;
* `qsort` is a parameter of the functions that sort, and the theorems hold for
  every function that sorts by `compare_events`;
* loops over raw bytes take a fuel argument that the top-level function sets from
  the header of the block.

`event.c`, `cursor.c`, `types.h` and `path.h` are not among the sources; what `path.c`
uses of them is modelled from the specification and marked so.
-/

namespace Sky

/-! ## Scalars and raw memory -/

/-- Modelled from the spec: `sizeof(sky_object_id_t)` of the missing `types.h`
(`ObjectId` is unsigned 64-bit). -/
def SKY_OBJECT_ID_SIZE : Nat := 8

/-- Modelled from the spec: `sizeof(sky_path_event_data_length_t)` of the missing
`types.h` (`PathEventDataLength` is unsigned 32-bit). -/
def SKY_PATH_EVENT_DATA_LENGTH_SIZE : Nat := 4

/-- Modelled from the spec: `SKY_PATH_HEADER_LENGTH` of the missing `path.h`
(object id, 8 bytes, then event data length, 4 bytes: 12 bytes). -/
def SKY_PATH_HEADER_LENGTH : Nat := 12

/-- Modelled from the spec: the length of the fixed event header of the missing
`event.h` (`timestamp` i64, `action_id` u32, `data_length` u32: 16 bytes). -/
def SKY_EVENT_HEADER_LENGTH : Nat := 16

/-- Modelled from the spec: `SKY_TIMESTAMP_MIN` of the missing `types.h`, the least
value of the signed 64-bit `Timestamp`. -/
def SKY_TIMESTAMP_MIN : Int := -(2 : Int) ^ 63

/-- The `n` low bytes of `v`, least significant first. -/
def le_bytes : Nat → Nat → List Nat
  | 0, _ => []
  | n + 1, v => v % 256 :: le_bytes n (v / 256)

/-- The value of a little-endian byte string (each cell taken modulo 256). -/
def le_val : List Nat → Nat
  | [] => 0
  | b :: bs => b % 256 + 256 * le_val bs

/-- An unsigned load of `n` bytes at offset `ptr`: `*((uintN_t*)ptr)`. Cells past the end
of the list read as 0. -/
def mem_read (mem : List Nat) (ptr n : Nat) : Nat :=
  le_val ((mem.drop ptr).take n)

/-- The two's complement image of a signed 64-bit value. -/
def of_i64 (t : Int) : Nat := (t % (2 : Int) ^ 64).toNat

/-- The signed 64-bit value of an unsigned 64-bit pattern. -/
def to_i64 (v : Nat) : Int :=
  if v % 2 ^ 64 < 2 ^ 63 then ((v % 2 ^ 64 : Nat) : Int) else ((v % 2 ^ 64 : Nat) : Int) - (2 : Int) ^ 64

/-! ## Events -/

/-- The in-memory event (`sky_event`, declared in the missing `event.h`; the fields are
the ones `path.c` and the specification name). `addr` is the address of the heap
object, `data` the array of `data_count` data entries. -/
structure sky_event (D : Type) where
  addr : Nat
  object_id : Nat
  timestamp : Int
  action_id : Nat
  data : List D
deriving DecidableEq, Repr

/-- The field `event->data_count`. -/
def sky_event.data_count {D : Type} (e : sky_event D) : Nat := e.data.length

/-- Modelled from the spec: the codec of one (property-id, typed-value) entry of an
event's data blob. `event_data.c` is missing and the specification does not fix the
layout of an entry, so the codec is a parameter: the serialized size of an entry, its
bytes, and the decoder which, given memory and an offset, returns the entry and the
number of bytes read, or fails. -/
structure sky_event_data_codec (D : Type) where
  sizeof : D → Nat
  pack : D → List Nat
  unpack : List Nat → Nat → Option (D × Nat)

/-- Modelled from the spec: `sky_event_create` of the missing `event.c`; `addr` is the
address the allocation returns. -/
def sky_event_create {D : Type} (addr object_id : Nat) (timestamp : Int) (action_id : Nat) :
    sky_event D :=
  { addr := addr, object_id := object_id, timestamp := timestamp, action_id := action_id,
    data := [] }

/-! ## Event sorting (`path.c`, lines 20-57) -/

/-- `compare_events`: by timestamp, then by the flag `data_count > 0`. -/
def compare_events {D : Type} (a b : sky_event D) : Int :=
  if a.timestamp > b.timestamp then 1
  else if a.timestamp < b.timestamp then -1
  else
    let ad : Int := if a.data_count > 0 then 1 else 0
    let bd : Int := if b.data_count > 0 then 1 else 0
    if ad > bd then 1
    else if ad < bd then -1
    else 0

/-- What `qsort` with `compare_events` guarantees of its result: a rearrangement of the
input in which no element compares greater than a later one. -/
def qsort_correct {D : Type} (qsort : List (sky_event D) → List (sky_event D)) : Prop :=
  ∀ l, (qsort l).Perm l ∧ (qsort l).Pairwise (fun a b => compare_events a b ≤ 0)

/-- Insertion of one event into a list sorted by `compare_events`. -/
def ordered_insert {D : Type} (e : sky_event D) : List (sky_event D) → List (sky_event D)
  | [] => [e]
  | x :: xs => if compare_events e x ≤ 0 then e :: x :: xs else x :: ordered_insert e xs

/-- A concrete sort by `compare_events` (insertion sort), one admissible `qsort`. -/
def insertion_qsort {D : Type} : List (sky_event D) → List (sky_event D)
  | [] => []
  | x :: xs => ordered_insert x (insertion_qsort xs)

/-- The path (`sky_path`, declared in the missing `path.h`): `events` is the array
`path->events`, whose length is `path->event_count`. -/
structure sky_path (D : Type) where
  object_id : Nat
  events : List (sky_event D)
deriving DecidableEq, Repr

/-- The field `path->event_count`. -/
def sky_path.event_count {D : Type} (p : sky_path D) : Nat := p.events.length

/-- `sort_events`: `qsort(path->events, path->event_count, ..., compare_events)`. -/
def sort_events {D : Type} (qsort : List (sky_event D) → List (sky_event D))
    (path : sky_path D) : sky_path D :=
  { path with events := qsort path.events }

/-- `sky_path_create`: a zeroed path with the given object id. -/
def sky_path_create {D : Type} (object_id : Nat) : sky_path D :=
  { object_id := object_id, events := [] }

/-- `sky_path_add_event`: returns the return code and the path after the call. -/
def sky_path_add_event {D : Type} (qsort : List (sky_event D) → List (sky_event D))
    (path : sky_path D) (event : sky_event D) : Int × sky_path D :=
  if path.object_id = 0 then (-1, path)
  else if path.object_id ≠ event.object_id then (-1, path)
  else if path.events.any (fun x => x.addr == event.addr) then (-1, path)
  else (0, sort_events qsort { path with events := path.events ++ [event] })

/-- A sequence of `sky_path_add_event` calls, each on the path the previous call left:
the final path when every call returns 0. -/
def sky_path_add_events {D : Type} (qsort : List (sky_event D) → List (sky_event D))
    (path : sky_path D) : List (sky_event D) → Option (sky_path D)
  | [] => some path
  | e :: es =>
    match sky_path_add_event qsort path e with
    | (rc, path) => if rc = 0 then sky_path_add_events qsort path es else none

/-- The order of two adjacent events as the specification states it: earlier timestamp
first and, on a tie, not an event without data before an event with data. -/
def data_first {D : Type} (a b : sky_event D) : Prop :=
  a.timestamp < b.timestamp ∨
    (a.timestamp = b.timestamp ∧ (a.data_count > 0 ∨ b.data_count = 0))

/-- The order of two events that `compare_events` yields: earlier timestamp first and,
on a tie, not an event with data before an event without data. -/
def data_last {D : Type} (a b : sky_event D) : Prop :=
  a.timestamp < b.timestamp ∨
    (a.timestamp = b.timestamp ∧ (a.data_count = 0 ∨ b.data_count > 0))

instance {D : Type} (a b : sky_event D) : Decidable (data_first a b) :=
  inferInstanceAs (Decidable (a.timestamp < b.timestamp ∨
    (a.timestamp = b.timestamp ∧ (a.data_count > 0 ∨ b.data_count = 0))))

instance {D : Type} (a b : sky_event D) : Decidable (data_last a b) :=
  inferInstanceAs (Decidable (a.timestamp < b.timestamp ∨
    (a.timestamp = b.timestamp ∧ (a.data_count = 0 ∨ b.data_count > 0))))

/-- An action event of object 1 at timestamp 5 without data, at address `addr`. -/
def tie_action (addr : Nat) : sky_event Nat :=
  { addr := addr, object_id := 1, timestamp := 5, action_id := 7, data := [] }

/-- An event of object 1 at timestamp 5 with one data entry, at address `addr`. -/
def tie_data (addr : Nat) : sky_event Nat :=
  { addr := addr, object_id := 1, timestamp := 5, action_id := 0, data := [42] }

/-! ## Event records (modelled from the specification) -/

/-- Modelled from the spec: the byte length of an event's data blob, "the sum of its
entries" (`event.c` is missing). -/
def sky_event_get_data_length {D : Type} (C : sky_event_data_codec D) (e : sky_event D) : Nat :=
  (e.data.map C.sizeof).sum

/-- Modelled from the spec: `sky_event_sizeof` of the missing `event.c`,
"`size(event)` returns header + `data_length`". -/
def sky_event_sizeof {D : Type} (C : sky_event_data_codec D) (e : sky_event D) : Nat :=
  SKY_EVENT_HEADER_LENGTH + sky_event_get_data_length C e

/-- Modelled from the spec: `sky_event_pack_hdr` of the missing `event.c`; the header is
`[timestamp: i64 LE][action_id: u32 LE][data_length: u32 LE]`. -/
def sky_event_pack_hdr (timestamp : Int) (action_id data_length : Nat) : List Nat :=
  le_bytes 8 (of_i64 timestamp) ++ le_bytes 4 action_id ++ le_bytes 4 data_length

/-- Modelled from the spec: the payload of an event, its entries one after the other. -/
def sky_event_pack_data {D : Type} (C : sky_event_data_codec D) : List D → List Nat
  | [] => []
  | d :: ds => C.pack d ++ sky_event_pack_data C ds

/-- Modelled from the spec: `sky_event_pack` of the missing `event.c`: "writes the header
then the payload; fails with `Invalid` if ... payload length mismatches sum of entries".
Returns the return code, the number of bytes written and the bytes written at `ptr`. -/
def sky_event_pack {D : Type} (C : sky_event_data_codec D) (e : sky_event D) :
    Int × Nat × List Nat :=
  let data_length := sky_event_get_data_length C e
  let payload := sky_event_pack_data C e.data
  let bytes := sky_event_pack_hdr e.timestamp e.action_id data_length ++ payload
  if payload.length ≠ data_length then (-1, 0, bytes)
  else (0, SKY_EVENT_HEADER_LENGTH + data_length, bytes)

/-- Modelled from the spec: `sky_event_unpack_hdr` of the missing `event.c`,
"`unpack_header(ptr)` → (timestamp, action_id, data_length, hdr_size)", preceded by the
return code, which is always 0. -/
def sky_event_unpack_hdr (mem : List Nat) (ptr : Nat) : Int × Int × Nat × Nat × Nat :=
  (0, to_i64 (mem_read mem ptr 8), mem_read mem (ptr + 8) 4, mem_read mem (ptr + 12) 4,
    SKY_EVENT_HEADER_LENGTH)

/-- Modelled from the spec: `sky_event_sizeof_raw` of the missing `event.c`, "computes
one event's full length from its header alone". -/
def sky_event_sizeof_raw (mem : List Nat) (ptr : Nat) : Nat :=
  SKY_EVENT_HEADER_LENGTH + mem_read mem (ptr + 12) 4

/-- Modelled from the spec: the entries of a data blob, decoded one after the other until
the declared `data_length` is consumed. A failing entry decoder, and an entry of zero
bytes (which would make no progress), fail the decoding. The fuel is the blob length. -/
def sky_event_unpack_data {D : Type} (C : sky_event_data_codec D) (mem : List Nat) :
    Nat → Nat → Nat → List D → Option (List D × Nat)
  | 0, ptr, endptr, acc => if ptr < endptr then none else some (acc, ptr)
  | fuel + 1, ptr, endptr, acc =>
    if ptr < endptr then
      match C.unpack mem ptr with
      | none => none
      | some (d, sz) =>
        if sz = 0 then none
        else sky_event_unpack_data C mem fuel (ptr + sz) endptr (acc ++ [d])
    else some (acc, ptr)

/-- Modelled from the spec: `sky_event_unpack` of the missing `event.c`, the inverse of
`sky_event_pack`: it fills `timestamp`, `action_id` and `data` of the given event and
returns the return code, the event and the number of bytes read. -/
def sky_event_unpack {D : Type} (C : sky_event_data_codec D) (event : sky_event D)
    (mem : List Nat) (ptr : Nat) : Int × sky_event D × Nat :=
  match sky_event_unpack_hdr mem ptr with
  | (_, timestamp, action_id, data_length, hsz) =>
    match sky_event_unpack_data C mem data_length (ptr + hsz) (ptr + hsz + data_length) [] with
    | none => (-1, { event with timestamp := timestamp, action_id := action_id }, 0)
    | some (data, p) =>
      (0, { event with timestamp := timestamp, action_id := action_id, data := data }, p - ptr)

/-! ## Path serialization (`path.c`, lines 102-283) -/

/-- `get_event_data_length`: the sum of `sky_event_sizeof` over the events. -/
def get_event_data_length {D : Type} (C : sky_event_data_codec D) (path : sky_path D) : Nat :=
  (path.events.map (sky_event_sizeof C)).sum

/-- `sky_path_sizeof`: header length plus event data length. -/
def sky_path_sizeof {D : Type} (C : sky_event_data_codec D) (path : sky_path D) : Nat :=
  let sz := 0
  let event_data_length := get_event_data_length C path
  let sz := sz + SKY_PATH_HEADER_LENGTH
  sz + event_data_length

/-- `sky_path_sizeof_raw`: the length of the raw path at `ptr`. -/
def sky_path_sizeof_raw (mem : List Nat) (ptr : Nat) : Nat :=
  let sz := 0
  let sz := sz + SKY_OBJECT_ID_SIZE
  let event_data_length := mem_read mem (ptr + sz) SKY_PATH_EVENT_DATA_LENGTH_SIZE
  let sz := sz + SKY_PATH_EVENT_DATA_LENGTH_SIZE
  sz + event_data_length

/-- `sky_path_pack_hdr`: returns the return code, `*sz` and the bytes written at `ptr`.
`event_data_length` is the `uint32_t` argument. -/
def sky_path_pack_hdr (object_id event_data_length : Nat) : Int × Nat × List Nat :=
  if object_id = 0 then (-1, 0, [])
  else if ¬ (event_data_length > 0) then (-1, 0, [])
  else (0, SKY_PATH_HEADER_LENGTH,
    le_bytes SKY_OBJECT_ID_SIZE object_id
      ++ le_bytes SKY_PATH_EVENT_DATA_LENGTH_SIZE event_data_length)

/-- The loop of `sky_path_pack` over `path->events`: the return code, the bytes counted
(the sum of the `_sz` of the events) and the bytes written. -/
def sky_path_pack_events {D : Type} (C : sky_event_data_codec D) :
    List (sky_event D) → Int × Nat × List Nat
  | [] => (0, 0, [])
  | e :: es =>
    match sky_event_pack C e with
    | (rc, _sz, bytes) =>
      if rc ≠ 0 then (-1, 0, bytes)
      else
        match sky_path_pack_events C es with
        | (rc', sz', bytes') => (rc', _sz + sz', bytes ++ bytes')

/-- `sky_path_pack`: returns the return code, `*sz` and the bytes written at `ptr`. The
`size_t` event data length is converted to the `uint32_t` parameter of
`sky_path_pack_hdr`, whose return code is not inspected. -/
def sky_path_pack {D : Type} (C : sky_event_data_codec D) (path : sky_path D) :
    Int × Nat × List Nat :=
  let event_data_length := get_event_data_length C path
  match sky_path_pack_hdr path.object_id (event_data_length % 2 ^ 32) with
  | (_, _sz, hdr) =>
    match sky_path_pack_events C path.events with
    | (rc, sz, bytes) =>
      if rc ≠ 0 then (-1, 0, hdr ++ bytes)
      else (0, _sz + sz, hdr ++ bytes)

/-- The `while(ptr < endptr)` loop of `sky_path_unpack`. `alloc index` is the address of
the event that `sky_event_create` allocates in iteration `index`, `uninit` the content of
the slot that `realloc` adds. Returns the return code, the path and the final `ptr`;
`none` only when the fuel runs out. -/
def sky_path_unpack_loop {D : Type} (C : sky_event_data_codec D) (alloc : Nat → Nat)
    (uninit : sky_event D) (mem : List Nat) :
    Nat → sky_path D → Nat → Nat → Nat → Option (Int × sky_path D × Nat)
  | 0, path, ptr, endptr, _ => if ptr < endptr then none else some (0, path, ptr)
  | fuel + 1, path, ptr, endptr, index =>
    if ptr < endptr then
      let events := path.events ++ [uninit]
      let created : sky_event D := sky_event_create (alloc index) path.object_id 0 0
      match sky_event_unpack C created mem ptr with
      | (rc, event, _sz) =>
        let path := { path with events := events.set index event }
        if rc ≠ 0 then some (-1, path, ptr)
        else sky_path_unpack_loop C alloc uninit mem fuel path (ptr + _sz) endptr (index + 1)
    else some (0, path, ptr)

/-- `sky_path_unpack`: returns the return code, the path after the call and `*sz`. The
fuel is the declared event data length (every event read is at least 16 bytes long). -/
def sky_path_unpack {D : Type} (C : sky_event_data_codec D) (alloc : Nat → Nat)
    (uninit : sky_event D) (path : sky_path D) (mem : List Nat) (ptr : Nat) :
    Option (Int × sky_path D × Nat) :=
  let start := ptr
  let path := { path with object_id := mem_read mem ptr SKY_OBJECT_ID_SIZE }
  let ptr := ptr + SKY_OBJECT_ID_SIZE
  let event_data_length := mem_read mem ptr SKY_PATH_EVENT_DATA_LENGTH_SIZE
  let ptr := ptr + SKY_PATH_EVENT_DATA_LENGTH_SIZE
  match sky_path_unpack_loop C alloc uninit mem event_data_length path ptr
      (ptr + event_data_length) 0 with
  | none => none
  | some (rc, path, p) =>
    if rc ≠ 0 then some (-1, path, 0)
    else some (0, path, p - start)

/-! ## Cursor (modelled from the specification) -/

/-- The cursor (`sky_cursor` of `cursor.h`); pointers are offsets into the memory. -/
structure sky_cursor where
  paths : List Nat
  path_count : Nat
  path_index : Nat
  event_index : Nat
  ptr : Nat
  endptr : Nat
  eof : Bool
deriving DecidableEq, Repr

/-- Modelled from the spec: `sky_cursor_init` of the missing `cursor.c`, the empty
cursor. -/
def sky_cursor_init : sky_cursor :=
  { paths := [], path_count := 0, path_index := 0, event_index := 0, ptr := 0, endptr := 0,
    eof := false }

/-- Modelled from the spec: positioning the cursor on the path at `path_ptr` (missing
`cursor.c`): `ptr` at the first event, `endptr` "just past the last event of the current
path"; "if the path's `event_data_length` is zero, the cursor immediately transitions to
`Eof`". -/
def sky_cursor_set_ptr (mem : List Nat) (cursor : sky_cursor) (path_ptr : Nat) : sky_cursor :=
  { cursor with
    ptr := path_ptr + SKY_PATH_HEADER_LENGTH
    endptr := path_ptr + sky_path_sizeof_raw mem path_ptr
    eof := decide (sky_path_sizeof_raw mem path_ptr = SKY_PATH_HEADER_LENGTH) }

/-- Modelled from the spec: `sky_cursor_set_paths` of the missing `cursor.c`: installs
the paths and resets the position to the first event of the first path; without any path
there is no event and the cursor is at `Eof`. -/
def sky_cursor_set_paths (mem : List Nat) (cursor : sky_cursor) (ptrs : List Nat) :
    Int × sky_cursor :=
  let cursor := { cursor with
    paths := ptrs, path_count := ptrs.length, path_index := 0, event_index := 0 }
  match ptrs with
  | [] => (0, { cursor with ptr := 0, endptr := 0, eof := true })
  | p :: _ => (0, sky_cursor_set_ptr mem cursor p)

/-- Modelled from the spec: `sky_cursor_set_path` of the missing `cursor.c`, "installs a
single path". -/
def sky_cursor_set_path (mem : List Nat) (cursor : sky_cursor) (path_ptr : Nat) :
    Int × sky_cursor :=
  sky_cursor_set_paths mem cursor [path_ptr]

/-- Modelled from the spec: `sky_cursor_next` of the missing `cursor.c`: "advances by the
current event's raw size. When it reaches `endptr`, it advances to the next path
(resetting `ptr`/`endptr`) ...; when all paths are exhausted, it sets `eof = true`". -/
def sky_cursor_next (mem : List Nat) (cursor : sky_cursor) : Int × sky_cursor :=
  let cursor := { cursor with
    ptr := cursor.ptr + sky_event_sizeof_raw mem cursor.ptr
    event_index := cursor.event_index + 1 }
  if cursor.ptr ≥ cursor.endptr then
    let cursor := { cursor with path_index := cursor.path_index + 1, event_index := 0 }
    if cursor.path_index < cursor.path_count then
      (0, sky_cursor_set_ptr mem cursor (cursor.paths.getD cursor.path_index 0))
    else (0, { cursor with eof := true })
  else (0, cursor)

/-! ## Splice stats (`path.c`, lines 285-377) -/

/-- One entry of the stats (`sky_path_event_stat`, declared in the missing `path.h`;
the fields are the ones `path.c` assigns). -/
structure sky_path_event_stat where
  timestamp : Int
  start_pos : Nat
  end_pos : Nat
  sz : Nat
deriving DecidableEq, Repr

/-- The `while(!cursor.eof)` loop of `sky_path_get_event_stats`. `event` is the incoming
event (`none` for a null pointer), `events` the stats array (its length is
`*event_count`). Returns the return code, `last_timestamp` and the stats; `none` only
when the fuel runs out. -/
def sky_path_get_event_stats_loop {D : Type} (mem : List Nat) (path_ptr : Nat)
    (event : Option (sky_event D)) (event_length : Nat) :
    Nat → sky_cursor → Int → List sky_path_event_stat →
      Option (Int × Int × List sky_path_event_stat)
  | 0, cursor, last_timestamp, events =>
    if cursor.eof then some (0, last_timestamp, events) else none
  | fuel + 1, cursor, last_timestamp, events =>
    if cursor.eof then some (0, last_timestamp, events)
    else
      match sky_event_unpack_hdr mem cursor.ptr with
      | (rc, timestamp, _, _, _) =>
        if rc ≠ 0 then some (-1, last_timestamp, events)
        else
          let events :=
            match event with
            | some e =>
              if e.timestamp ≥ last_timestamp ∧ e.timestamp < timestamp then
                events ++ [{ timestamp := e.timestamp, start_pos := cursor.ptr - path_ptr,
                             end_pos := cursor.ptr - path_ptr, sz := event_length }]
              else events
            | none => events
          let current_event_length := sky_event_sizeof_raw mem cursor.ptr
          let events := events ++ [{ timestamp := timestamp, start_pos := cursor.ptr - path_ptr,
                                     end_pos := cursor.ptr - path_ptr + current_event_length,
                                     sz := current_event_length }]
          match sky_cursor_next mem cursor with
          | (rc, cursor) =>
            if rc ≠ 0 then some (-1, timestamp, events)
            else sky_path_get_event_stats_loop mem path_ptr event event_length fuel cursor
              timestamp events

/-- `sky_path_get_event_stats`: returns the return code and the stats (`*events`, with
`*event_count` its length; both are cleared on error). The fuel is the raw length of the
path (every step of the cursor is at least 16 bytes long). -/
def sky_path_get_event_stats {D : Type} (C : sky_event_data_codec D) (mem : List Nat)
    (path_ptr : Nat) (event : Option (sky_event D)) :
    Option (Int × List sky_path_event_stat) :=
  match sky_cursor_set_path mem sky_cursor_init path_ptr with
  | (rc, cursor) =>
    if rc ≠ 0 then some (-1, [])
    else
      let path_length := sky_path_sizeof_raw mem path_ptr
      let event_length := match event with
        | some e => sky_event_sizeof C e
        | none => 0
      match sky_path_get_event_stats_loop mem path_ptr event event_length path_length cursor
          SKY_TIMESTAMP_MIN [] with
      | none => none
      | some (rc, last_timestamp, events) =>
        if rc ≠ 0 then some (-1, [])
        else
          match event with
          | some e =>
            if e.timestamp ≥ last_timestamp then
              some (0, events ++ [{ timestamp := e.timestamp, start_pos := path_length,
                                    end_pos := path_length, sz := event_length }])
            else some (0, events)
          | none => some (0, events)

/-! ## Raw blocks -/

/-- A raw event record: its header fields and its payload bytes. -/
structure raw_event where
  timestamp : Int
  action_id : Nat
  data : List Nat
deriving DecidableEq, Repr

/-- The bytes of a raw event record: `[timestamp][action_id][data_length][data]`. -/
def raw_event.bytes (r : raw_event) : List Nat :=
  sky_event_pack_hdr r.timestamp r.action_id r.data.length ++ r.data

/-- The size of a raw event record. -/
def raw_event.size (r : raw_event) : Nat := SKY_EVENT_HEADER_LENGTH + r.data.length

/-- The fields of a record fit their C types and the payload is made of bytes. -/
def raw_event.wf (r : raw_event) : Prop :=
  -(2 : Int) ^ 63 ≤ r.timestamp ∧ r.timestamp < (2 : Int) ^ 63 ∧ r.action_id < 2 ^ 32 ∧
    r.data.length < 2 ^ 32

/-- The event data region of a raw path: the records one after the other. -/
def raw_events_bytes : List raw_event → List Nat
  | [] => []
  | r :: rs => r.bytes ++ raw_events_bytes rs

/-- The length of the event data region. -/
def raw_events_size : List raw_event → Nat
  | [] => 0
  | r :: rs => r.size + raw_events_size rs

/-- The raw path block of object `object_id` that holds the records `rs`:
`[object_id: u64][event_data_length: u32][events]`. -/
def raw_path_bytes (object_id : Nat) (rs : List raw_event) : List Nat :=
  le_bytes 8 object_id ++ le_bytes 4 (raw_events_size rs) ++ raw_events_bytes rs

/-- A well-formed raw path: every record is well formed and the event data length fits
the 32-bit length field. -/
def raw_path_wf (rs : List raw_event) : Prop :=
  (∀ r ∈ rs, r.wf) ∧ raw_events_size rs < 2 ^ 32

/-- The timestamps of the records are in non-decreasing order. -/
def raw_sorted (rs : List raw_event) : Prop :=
  rs.Pairwise (fun a b => a.timestamp ≤ b.timestamp)

/-! ## The stats of a raw block, as lists -/

/-- The stat of the record `r` that starts at offset `off` of the block. -/
def raw_stat (off : Nat) (r : raw_event) : sky_path_event_stat :=
  { timestamp := r.timestamp, start_pos := off, end_pos := off + r.size, sz := r.size }

/-- The stats of the records `rs` laid out from offset `off`, in block order. -/
def raw_stats : Nat → List raw_event → List sky_path_event_stat
  | _, [] => []
  | off, r :: rs => raw_stat off r :: raw_stats (off + r.size) rs

/-- The stat of an incoming event of timestamp `t` and size `len` placed at offset `off`:
an empty range. -/
def incoming_stat (t : Int) (len off : Nat) : sky_path_event_stat :=
  { timestamp := t, start_pos := off, end_pos := off, sz := len }

/-- The timestamp and size of the incoming event, if there is one. -/
def incoming {D : Type} (event : Option (sky_event D)) (event_length : Nat) :
    Option (Int × Nat) :=
  event.map (fun e => (e.timestamp, event_length))

/-- What the loop of `sky_path_get_event_stats` appends while it walks the records `rs`
from offset `off` with `last_timestamp = last`. -/
def walk_stats (inc : Option (Int × Nat)) : Int → Nat → List raw_event →
    List sky_path_event_stat
  | _, _, [] => []
  | last, off, r :: rs =>
    (match inc with
      | some (t, len) =>
        if t ≥ last ∧ t < r.timestamp then [incoming_stat t len off] else []
      | none => [])
    ++ raw_stat off r :: walk_stats inc r.timestamp (off + r.size) rs

/-- The value of `last_timestamp` after the loop has walked `rs`. -/
def walk_last : Int → List raw_event → Int
  | last, [] => last
  | _, r :: rs => walk_last r.timestamp rs

/-- What `sky_path_get_event_stats` appends after the loop, at offset `off`. -/
def end_stats (inc : Option (Int × Nat)) (last : Int) (off : Nat) : List sky_path_event_stat :=
  match inc with
  | some (t, len) => if t ≥ last then [incoming_stat t len off] else []
  | none => []

/-- The records that stay before an incoming event of timestamp `t`: the leading records
whose timestamp is at most `t`. -/
def records_before (t : Int) (rs : List raw_event) : List raw_event :=
  rs.takeWhile (fun r => decide (r.timestamp ≤ t))

/-- The records that come after an incoming event of timestamp `t`. -/
def records_after (t : Int) (rs : List raw_event) : List raw_event :=
  rs.dropWhile (fun r => decide (r.timestamp ≤ t))

/-! ## Validity and examples -/

/-- The fields of an in-memory event fit their C types (`int64_t` timestamp, `uint32_t`
action id, `uint64_t` object id). -/
def sky_event.in_range {D : Type} (e : sky_event D) : Prop :=
  -(2 : Int) ^ 63 ≤ e.timestamp ∧ e.timestamp < (2 : Int) ^ 63 ∧ e.action_id < 2 ^ 32 ∧
    e.object_id < 2 ^ 64

/-- An entry that the codec handles: its size is positive, its bytes have that size, and
decoding its bytes, whatever follows them, gives the entry and its size back. -/
def sky_event_data_codec.ok {D : Type} (C : sky_event_data_codec D) (d : D) : Prop :=
  0 < C.sizeof d ∧ (C.pack d).length = C.sizeof d ∧
    ∀ (mem : List Nat) (ptr : Nat) (rest : List Nat),
      mem.drop ptr = C.pack d ++ rest → C.unpack mem ptr = some (d, C.sizeof d)

/-- A valid event: the fields fit their C types, the data length fits the 32-bit length
field and the codec handles every data entry. -/
def sky_event.valid {D : Type} (C : sky_event_data_codec D) (e : sky_event D) : Prop :=
  e.in_range ∧ sky_event_get_data_length C e < 2 ^ 32 ∧ ∀ d ∈ e.data, C.ok d

/-- A valid path: a non-zero object id, at least one event, every event valid and of
the path's object, and an event data length that fits the 32-bit length field. -/
def sky_path.valid {D : Type} (C : sky_event_data_codec D) (p : sky_path D) : Prop :=
  p.object_id ≠ 0 ∧ p.object_id < 2 ^ 64 ∧ p.events ≠ [] ∧
    (∀ e ∈ p.events, e.object_id = p.object_id ∧ e.valid C) ∧
    get_event_data_length C p < 2 ^ 32

/-- What an event is apart from its address: object id, timestamp, action id, data. -/
def sky_event.content {D : Type} (e : sky_event D) : Nat × Int × Nat × List D :=
  (e.object_id, e.timestamp, e.action_id, e.data)

/-- The record of an event: header, then the entries. -/
def sky_event.bytes {D : Type} (C : sky_event_data_codec D) (e : sky_event D) : List Nat :=
  sky_event_pack_hdr e.timestamp e.action_id (sky_event_get_data_length C e)
    ++ sky_event_pack_data C e.data

/-- The records of a list of events, one after the other. -/
def sky_events_bytes {D : Type} (C : sky_event_data_codec D) : List (sky_event D) → List Nat
  | [] => []
  | e :: es => e.bytes C ++ sky_events_bytes C es

/-- An example codec: an entry is one byte. -/
def byte_codec : sky_event_data_codec Nat :=
  { sizeof := fun _ => 1
    pack := fun d => [d % 256]
    unpack := fun mem ptr =>
      match mem.drop ptr with
      | [] => none
      | b :: _ => some (b % 256, 1) }

/-- An example path: object 1 with an action event and a data event. -/
def example_path : sky_path Nat :=
  { object_id := 1
    events := [{ addr := 1, object_id := 1, timestamp := -3, action_id := 7, data := [] },
               { addr := 2, object_id := 1, timestamp := 5, action_id := 0, data := [42, 43] }] }

/-- The records of scenario S3: timestamps 10, 20, 30 (the second with two payload
bytes). -/
def s3_records : List raw_event :=
  [{ timestamp := 10, action_id := 1, data := [] },
   { timestamp := 20, action_id := 2, data := [1, 2] },
   { timestamp := 30, action_id := 3, data := [] }]

/-- An incoming event of object 1 with the given timestamp and one data entry. -/
def incoming_event (t : Int) : sky_event Nat :=
  { addr := 100, object_id := 1, timestamp := t, action_id := 4, data := [9] }

/-! ## Removing events (`path.c`, lines 424-461) -/

/-- The array after the first event at address `addr` is taken out and the events after
it are moved one slot down (the loops of `sky_path_remove_event`). -/
def shift_out {D : Type} (addr : Nat) : List (sky_event D) → List (sky_event D)
  | [] => []
  | x :: xs => if x.addr = addr then xs else x :: shift_out addr xs

/-- `sky_path_remove_event`: returns the return code and the path after the call. When
the event is found the array is reallocated to the new `event_count` and `check_mem`
(of the missing `dbg.h`: jump to `error` on a null pointer) inspects the result;
`realloc_zero_null` tells whether `realloc` of zero bytes returns a null pointer, which
the C library is free to do. The events are sorted again before the function returns 0. -/
def sky_path_remove_event {D : Type} (qsort : List (sky_event D) → List (sky_event D))
    (realloc_zero_null : Bool) (path : sky_path D) (event : sky_event D) :
    Int × sky_path D :=
  if path.events.any (fun x => x.addr == event.addr) then
    let path := { path with events := shift_out event.addr path.events }
    if path.event_count = 0 ∧ realloc_zero_null = true then (-1, path)
    else (0, sort_events qsort path)
  else (0, sort_events qsort path)

/-- A sequence of `sky_path_add_event` calls, whatever each call returns: the path after
the last call. -/
def sky_path_add_event_calls {D : Type} (qsort : List (sky_event D) → List (sky_event D))
    (path : sky_path D) (es : List (sky_event D)) : sky_path D :=
  es.foldl (fun p e => (sky_path_add_event qsort p e).2) path

/-- Every event of the path has the path's object id. -/
def sky_path.events_owned {D : Type} (p : sky_path D) : Prop :=
  ∀ e ∈ p.events, e.object_id = p.object_id

/-- What `compare_events` looks at: the timestamp and the flag `data_count > 0`. -/
def sort_key {D : Type} (e : sky_event D) : Int × Bool :=
  (e.timestamp, decide (e.data_count > 0))

/-- The order of the sort keys that `compare_events` implements. -/
def sort_key_le (a b : Int × Bool) : Prop :=
  a.1 < b.1 ∨ (a.1 = b.1 ∧ (a.2 = false ∨ b.2 = true))

/-! ## Moving-pointer copies (`mem.h`) -/

/-- The loop `while(!cursor.eof) { ...; sky_cursor_next(&cursor); }` (the shape of the
loop of `sky_path_get_event_stats`, `path.c` lines 327-358), recording the position
`cursor.ptr` of every event it visits. -/
def sky_cursor_visit (mem : List Nat) : Nat → sky_cursor → Option (List Nat × sky_cursor)
  | 0, cursor => if cursor.eof then some ([], cursor) else none
  | fuel + 1, cursor =>
    if cursor.eof then some ([], cursor)
    else
      match sky_cursor_visit mem fuel (sky_cursor_next mem cursor).2 with
      | none => none
      | some (visited, last) => some (cursor.ptr :: visited, last)

/-- The cursor that `sky_cursor_next` leaves when it steps off the last event of the
current path: on the next path if there is one, at `Eof` otherwise. -/
def sky_cursor_leave (mem : List Nat) (c : sky_cursor) : sky_cursor :=
  if c.path_index + 1 < c.path_count then
    sky_cursor_set_ptr mem
      { c with ptr := c.endptr, event_index := 0, path_index := c.path_index + 1 }
      (c.paths.getD (c.path_index + 1) 0)
  else { c with ptr := c.endptr, event_index := 0, path_index := c.path_index + 1, eof := true }

/-- A raw path block somewhere in memory: where it starts, its object id, its records. -/
structure raw_path where
  ptr : Nat
  object_id : Nat
  records : List raw_event
deriving DecidableEq, Repr

/-- The block of `p` lies in the memory at `p.ptr`. -/
def raw_path.placed (mem : List Nat) (p : raw_path) : Prop :=
  ∃ after, mem.drop p.ptr = raw_path_bytes p.object_id p.records ++ after

/-- The positions of the records `rs` laid out from `ptr` on. -/
def raw_event_ptrs : Nat → List raw_event → List Nat
  | _, [] => []
  | ptr, r :: rs => ptr :: raw_event_ptrs (ptr + r.size) rs

/-- The positions of the events of the paths, path after path in the order given, the
events of a path in block order. -/
def raw_paths_ptrs : List raw_path → List Nat
  | [] => []
  | p :: ps => raw_event_ptrs (p.ptr + SKY_PATH_HEADER_LENGTH) p.records ++ raw_paths_ptrs ps

/-- The timestamps of the events of the paths, in the same order. -/
def raw_paths_timestamps : List raw_path → List Int
  | [] => []
  | p :: ps => p.records.map (fun r => r.timestamp) ++ raw_paths_timestamps ps

/-- The sum of the event counts of the paths. -/
def raw_paths_event_count : List raw_path → Nat
  | [] => 0
  | p :: ps => p.records.length + raw_paths_event_count ps

/-- Two paths one after the other in memory: `P1` with events at timestamps 1 and 2 at
offset 0, `P2` with events at timestamps 3 and 4 at offset 44. -/
def two_paths : List raw_path :=
  [⟨0, 1, [⟨1, 1, []⟩, ⟨2, 1, []⟩]⟩, ⟨44, 2, [⟨3, 1, []⟩, ⟨4, 1, []⟩]⟩]

/-- The memory that holds the blocks of `two_paths`. -/
def two_paths_mem : List Nat :=
  raw_path_bytes 1 [⟨1, 1, []⟩, ⟨2, 1, []⟩] ++ raw_path_bytes 2 [⟨3, 1, []⟩, ⟨4, 1, []⟩]

/-- A header-only path block (no event) followed by a block with two events. -/
def empty_then_two_mem : List Nat :=
  raw_path_bytes 1 [] ++ raw_path_bytes 2 [⟨3, 1, []⟩, ⟨4, 1, []⟩]

/-! ## QIP: the syntax tree (`qip/node.h` is absent; modelled from the specification) -/

/-- Modelled from the spec: the operators of a binary expression (`qip_ast_binop_e` of
the missing `node.h`): the five that `binary_expr.c` and `parser.c` name. -/
inductive qip_ast_binop_e where
  | QIP_BINOP_PLUS
  | QIP_BINOP_MINUS
  | QIP_BINOP_MUL
  | QIP_BINOP_DIV
  | QIP_BINOP_EQUALS
deriving DecidableEq, Repr

/-- Modelled from the spec: the access of a class member (`qip_ast_access_e` of the
missing `node.h`): the two that `parser.c` names. -/
inductive qip_ast_access_e where
  | QIP_ACCESS_PUBLIC
  | QIP_ACCESS_PRIVATE
deriving DecidableEq, Repr

/-- Modelled from the spec: the discriminator of a node (`qip_ast_node_type_e` of the
missing `node.h`), one tag for each kind of node that `parser.c` creates. -/
inductive qip_ast_node_type_e where
  | QIP_AST_TYPE_INT_LITERAL
  | QIP_AST_TYPE_FLOAT_LITERAL
  | QIP_AST_TYPE_BOOLEAN_LITERAL
  | QIP_AST_TYPE_STRING_LITERAL
  | QIP_AST_TYPE_NULL_LITERAL
  | QIP_AST_TYPE_ARRAY_LITERAL
  | QIP_AST_TYPE_BINARY_EXPR
  | QIP_AST_TYPE_VAR_DECL
  | QIP_AST_TYPE_VAR_REF
  | QIP_AST_TYPE_VAR_ASSIGN
  | QIP_AST_TYPE_TYPE_REF
  | QIP_AST_TYPE_FARG
  | QIP_AST_TYPE_FRETURN
  | QIP_AST_TYPE_FUNCTION
  | QIP_AST_TYPE_BLOCK
  | QIP_AST_TYPE_IF_STMT
  | QIP_AST_TYPE_FOR_EACH_STMT
  | QIP_AST_TYPE_METHOD
  | QIP_AST_TYPE_PROPERTY
  | QIP_AST_TYPE_CLASS
  | QIP_AST_TYPE_TEMPLATE_VAR
  | QIP_AST_TYPE_MODULE
  | QIP_AST_TYPE_SIZEOF
  | QIP_AST_TYPE_OFFSETOF
  | QIP_AST_TYPE_METADATA
  | QIP_AST_TYPE_METADATA_ITEM
deriving DecidableEq, Repr

/-- What every node has ("Every node has `parent`, `line_no`, `char_no`, `generated`
flag"), and the address of the node, which stands for the pointer to it: `parent` is the
address of the parent node, `none` for `NULL`. -/
structure qip_ast_hdr where
  addr : Nat
  parent : Option Nat
  line_no : Int
  char_no : Int
  generated : Bool
deriving DecidableEq, Repr

/-- Modelled from the spec: a node of the syntax tree (`qip_ast_node` of the missing
`node.h`). A node owns its children, so a child pointer is the child itself, `none` for
`NULL`; an array of children is a list. The fields of a binary expression are those that
`binary_expr.c` uses; the kinds that no property below looks into are kept as `other`,
with their tag, their strings and their children in the order the parser supplies them. -/
inductive qip_ast_node where
  | int_literal (hdr : qip_ast_hdr) (value : Int)
  | float_literal (hdr : qip_ast_hdr) (value : Nat)
  | boolean_literal (hdr : qip_ast_hdr) (value : Bool)
  | string_literal (hdr : qip_ast_hdr) (value : Option String)
  | null_literal (hdr : qip_ast_hdr)
  | var_ref (hdr : qip_ast_hdr) (name : Option String) (invoke : Bool)
      (args : List (Option qip_ast_node)) (member : Option qip_ast_node)
  | type_ref (hdr : qip_ast_hdr) (name : Option String)
      (subtypes : List (Option qip_ast_node)) (return_type : Option qip_ast_node)
      (arg_name : Option String)
  | binary_expr (hdr : qip_ast_hdr) (operator : qip_ast_binop_e)
      (lhs rhs boolean_type_ref : Option qip_ast_node)
  | block (hdr : qip_ast_hdr) (name : Option String) (exprs : List (Option qip_ast_node))
  | function (hdr : qip_ast_hdr) (name : Option String) (return_type : Option qip_ast_node)
      (args : List (Option qip_ast_node)) (body : Option qip_ast_node) (bound : Bool)
  | class_decl (hdr : qip_ast_hdr) (name : Option String)
      (template_vars members metadatas : List (Option qip_ast_node))
  | module (hdr : qip_ast_hdr) (name : Option String) (classes : List (Option qip_ast_node))
      (main_function : Option qip_ast_node)
  | other (hdr : qip_ast_hdr) (type : qip_ast_node_type_e) (strings : List (Option String))
      (access : Option qip_ast_access_e) (children : List (Option qip_ast_node))
deriving Repr

/-- The common fields of a node. -/
def qip_ast_node.hdr : qip_ast_node → qip_ast_hdr
  | .int_literal h _ => h
  | .float_literal h _ => h
  | .boolean_literal h _ => h
  | .string_literal h _ => h
  | .null_literal h => h
  | .var_ref h _ _ _ _ => h
  | .type_ref h _ _ _ _ => h
  | .binary_expr h _ _ _ _ => h
  | .block h _ _ => h
  | .function h _ _ _ _ _ => h
  | .class_decl h _ _ _ _ => h
  | .module h _ _ _ => h
  | .other h _ _ _ _ => h

/-- An assignment to the common fields of a node. -/
def qip_ast_node.map_hdr (f : qip_ast_hdr → qip_ast_hdr) : qip_ast_node → qip_ast_node
  | .int_literal h v => .int_literal (f h) v
  | .float_literal h v => .float_literal (f h) v
  | .boolean_literal h v => .boolean_literal (f h) v
  | .string_literal h v => .string_literal (f h) v
  | .null_literal h => .null_literal (f h)
  | .var_ref h n i a m => .var_ref (f h) n i a m
  | .type_ref h n s r a => .type_ref (f h) n s r a
  | .binary_expr h o l r b => .binary_expr (f h) o l r b
  | .block h n e => .block (f h) n e
  | .function h n r a b bd => .function (f h) n r a b bd
  | .class_decl h n t m md => .class_decl (f h) n t m md
  | .module h n c m => .module (f h) n c m
  | .other h t s a c => .other (f h) t s a c

/-- The discriminator `node->type`. -/
def qip_ast_node.type : qip_ast_node → qip_ast_node_type_e
  | .int_literal _ _ => .QIP_AST_TYPE_INT_LITERAL
  | .float_literal _ _ => .QIP_AST_TYPE_FLOAT_LITERAL
  | .boolean_literal _ _ => .QIP_AST_TYPE_BOOLEAN_LITERAL
  | .string_literal _ _ => .QIP_AST_TYPE_STRING_LITERAL
  | .null_literal _ => .QIP_AST_TYPE_NULL_LITERAL
  | .var_ref _ _ _ _ _ => .QIP_AST_TYPE_VAR_REF
  | .type_ref _ _ _ _ _ => .QIP_AST_TYPE_TYPE_REF
  | .binary_expr _ _ _ _ _ => .QIP_AST_TYPE_BINARY_EXPR
  | .block _ _ _ => .QIP_AST_TYPE_BLOCK
  | .function _ _ _ _ _ _ => .QIP_AST_TYPE_FUNCTION
  | .class_decl _ _ _ _ _ => .QIP_AST_TYPE_CLASS
  | .module _ _ _ _ => .QIP_AST_TYPE_MODULE
  | .other _ t _ _ _ => t

/-- The address of a node. -/
def qip_ast_node.addr (node : qip_ast_node) : Nat := node.hdr.addr

/-- The field `node->parent`. -/
def qip_ast_node.parent (node : qip_ast_node) : Option Nat := node.hdr.parent

/-- The field `node->line_no`. -/
def qip_ast_node.line_no (node : qip_ast_node) : Int := node.hdr.line_no

/-- The assignment `node->parent = parent`. -/
def qip_ast_node.set_parent (parent : Option Nat) (node : qip_ast_node) : qip_ast_node :=
  node.map_hdr (fun h => { h with parent := parent })

/-- The assignment `node->line_no = line_no`. -/
def qip_ast_node.set_line_no (line_no : Int) (node : qip_ast_node) : qip_ast_node :=
  node.map_hdr (fun h => { h with line_no := line_no })

/-- The assignment `child->parent = node` for a child pointer that may be `NULL`. -/
def adopt (addr : Nat) (child : Option qip_ast_node) : Option qip_ast_node :=
  child.map (qip_ast_node.set_parent (some addr))

/-- The assignment `child->parent = node` for every child of an array. -/
def adopt_all (addr : Nat) (children : List (Option qip_ast_node)) :
    List (Option qip_ast_node) :=
  children.map (adopt addr)

/-- The common fields of a node that has just been allocated at `addr`: no parent, line
and column 0, not generated (what `qip_ast_binary_expr_create` assigns). -/
def qip_ast_hdr.fresh (addr : Nat) : qip_ast_hdr :=
  { addr := addr, parent := none, line_no := 0, char_no := 0, generated := false }

/-- Modelled from the spec: `qip_ast_type_ref_create_cstr` of the missing `type_ref.c`:
a type reference of the given name, allocated at `addr`. -/
def qip_ast_type_ref_create_cstr (addr : Nat) (name : String) : qip_ast_node :=
  .type_ref (qip_ast_hdr.fresh addr) (some name) [] none none

/-- The function `qip_ast_binary_expr_create` of `binary_expr.c` (lines 24-53): the node
is allocated at `addr` and its Boolean type reference at `addr + 1`; both children get
the node as parent. Allocation does not fail here. -/
def qip_ast_binary_expr_create (addr : Nat) (operator : qip_ast_binop_e)
    (lhs rhs : Option qip_ast_node) : qip_ast_node :=
  .binary_expr (qip_ast_hdr.fresh addr) operator (adopt addr lhs) (adopt addr rhs)
    (some (qip_ast_type_ref_create_cstr (addr + 1) "Boolean"))

/-! ## QIP: binary expressions (`qip/binary_expr.c`) -/

/-- Modelled from the spec: an error of the accumulators (`qip_error` of the missing
`error.h`): the line number and the message that `parser.c` assigns. -/
structure qip_error where
  line_no : Int
  message : String
deriving DecidableEq, Repr

/-- Modelled from the spec: the compilation unit (`qip_module` of the missing `module.h`)
as far as validation writes to it: its "error accumulator". -/
structure qip_module where
  errors : List qip_error
deriving DecidableEq, Repr

/-- Modelled from the spec: `qip_module_add_error` of the missing `module.c`: pushes an
error for the node, at the line of the node, onto the module; returns 0. -/
def qip_module_add_error (module : qip_module) (node : qip_ast_node) (message : String) :
    Int × qip_module :=
  (0, { module with errors := module.errors ++ [⟨node.line_no, message⟩] })

/-- The values of the IR builder (`LLVMValueRef`), as the terms that the builder calls of
`binary_expr.c` construct: `NULL`, a value that comes from elsewhere, or the instruction
that a builder call emits. The builder itself is outside the repository; its calls are
taken to return the instruction, never `NULL`. -/
inductive LLVMValueRef where
  | NULL
  | value (id : Nat)
  | LLVMBuildAdd (lhs rhs : LLVMValueRef)
  | LLVMBuildSub (lhs rhs : LLVMValueRef)
  | LLVMBuildMul (lhs rhs : LLVMValueRef)
  | LLVMBuildSDiv (lhs rhs : LLVMValueRef)
  | LLVMBuildICmp_LLVMIntEQ (lhs rhs : LLVMValueRef)
  | LLVMBuildFAdd (lhs rhs : LLVMValueRef)
  | LLVMBuildFSub (lhs rhs : LLVMValueRef)
  | LLVMBuildFMul (lhs rhs : LLVMValueRef)
  | LLVMBuildFDiv (lhs rhs : LLVMValueRef)
  | LLVMBuildFCmp_LLVMRealOEQ (lhs rhs : LLVMValueRef)
  | LLVMBuildLoad (ptr : LLVMValueRef)
  | LLVMBuildIsNull (val : LLVMValueRef)
deriving DecidableEq, Repr

/-- The functions of the missing `node.c` and `module.c` that `binary_expr.c` calls and
that the specification does not pin down: each returns its return code and what it
writes through its last argument. -/
structure qip_env where
  qip_ast_node_get_type : qip_ast_node → qip_module → Int × Option qip_ast_node
  qip_ast_node_get_type_name : qip_ast_node → qip_module → Int × Option String
  qip_ast_node_codegen : Option qip_ast_node → qip_module → Int × LLVMValueRef
  qip_ast_node_get_var_pointer : Option qip_ast_node → qip_module → Int × LLVMValueRef
  qip_module_cast_value :
    qip_module → LLVMValueRef → Option String → Option String → Int × LLVMValueRef

/-- Modelled from the spec: `qip_ast_var_ref_get_last_member` of the missing `var_ref.c`:
"walks the `.member` chain to the terminal node"; returns 0. -/
def qip_ast_var_ref_get_last_member : qip_ast_node → Int × qip_ast_node
  | .var_ref _ _ _ _ (some member) => qip_ast_var_ref_get_last_member member
  | node => (0, node)

/-- The library function `biseqcstr` of bstrlib: 1 when the string equals the C string, 0
when it does not, `BSTR_ERR` = -1 for a null string. -/
def biseqcstr (b : Option String) (s : String) : Int :=
  match b with
  | none => -1
  | some x => if x = s then 1 else 0

/-- Modelled from the spec: `qip_is_builtin_type_name` of the missing `util.c`:
"Built-in type names recognized by validation: `Int`, `Float`, `Boolean`, `String`". -/
def qip_is_builtin_type_name (name : Option String) : Bool :=
  decide (name = some "Int" ∨ name = some "Float" ∨ name = some "Boolean"
    ∨ name = some "String")

/-- The message `bformat("Incompatible types (%s, %s)", bdata(lhs_type), bdata(rhs_type))`
of `qip_ast_binary_expr_validate`; a null string is printed as `(null)`. -/
def incompatible_types_msg (lhs_type rhs_type : Option String) : String :=
  "Incompatible types (" ++ lhs_type.getD "(null)" ++ ", " ++ rhs_type.getD "(null)" ++ ")"

/-- The lines "Retrieve the last variable reference in a chain to determine the type" of
`binary_expr.c`: the node itself unless it is a variable reference. -/
def target_node (node : qip_ast_node) : Int × qip_ast_node :=
  if node.type = .QIP_AST_TYPE_VAR_REF then qip_ast_var_ref_get_last_member node
  else (0, node)

/-- The function `qip_ast_binary_expr_get_type` of `binary_expr.c` (lines 385-420);
returns the return code and `*type_ref`. -/
def qip_ast_binary_expr_get_type (env : qip_env) (node : qip_ast_node)
    (module : qip_module) : Int × Option qip_ast_node :=
  match node with
  | .binary_expr _ operator (some lhs) _ boolean_type_ref =>
    let (rc, lhs_target_node) := target_node lhs
    if rc ≠ 0 then (-1, none)
    else
      match operator with
      | .QIP_BINOP_EQUALS => (0, boolean_type_ref)
      | _ =>
        let (rc, type_ref) := env.qip_ast_node_get_type lhs_target_node module
        if rc ≠ 0 then (-1, none) else (0, type_ref)
  | _ => (-1, none)

/-- The function `qip_ast_binary_expr_validate` of `binary_expr.c` (lines 433-476);
returns the return code and the module. A null child, which the source dereferences, is
an error here. -/
def qip_ast_binary_expr_validate (env : qip_env) (node : qip_ast_node)
    (module : qip_module) : Int × qip_module :=
  match node with
  | .binary_expr _ _ (some lhs) (some rhs) _ =>
    let (rc, lhs_target_node) := target_node lhs
    if rc ≠ 0 then (-1, module)
    else
      let (rc, rhs_target_node) := target_node rhs
      if rc ≠ 0 then (-1, module)
      else
        let (rc, lhs_type) := env.qip_ast_node_get_type_name lhs_target_node module
        if rc ≠ 0 then (-1, module)
        else
          let (rc, rhs_type) := env.qip_ast_node_get_type_name rhs_target_node module
          if rc ≠ 0 then (-1, module)
          else
            let msg : Option String :=
              if (biseqcstr lhs_type "Int" ≠ 0 ∨ biseqcstr lhs_type "Float" ≠ 0)
                  ∧ (biseqcstr rhs_type "Boolean" ≠ 0 ∨ ¬ qip_is_builtin_type_name rhs_type)
              then some (incompatible_types_msg lhs_type rhs_type)
              else if (biseqcstr lhs_type "Boolean" ≠ 0 ∨ ¬ qip_is_builtin_type_name lhs_type)
                  ∧ (biseqcstr rhs_type "Int" ≠ 0 ∨ biseqcstr rhs_type "Float" ≠ 0)
              then some (incompatible_types_msg lhs_type rhs_type)
              else none
            match msg with
            | some m =>
              let (rc, module) := qip_module_add_error module node m
              if rc ≠ 0 then (-1, module) else (0, module)
            | none => (0, module)
  | _ => (-1, module)

/-- The check `check(*value != NULL, ...)` that ends the code generators: 0 and the
value, or -1 and `*value = NULL`. -/
def check_value (value : LLVMValueRef) : Int × LLVMValueRef :=
  if value ≠ .NULL then (0, value) else (-1, .NULL)

/-- The function `codegen_int` of `binary_expr.c` (lines 119-149). -/
def codegen_int (operator : qip_ast_binop_e) (lhs rhs : LLVMValueRef) : Int × LLVMValueRef :=
  match operator with
  | .QIP_BINOP_PLUS => check_value (.LLVMBuildAdd lhs rhs)
  | .QIP_BINOP_MINUS => check_value (.LLVMBuildSub lhs rhs)
  | .QIP_BINOP_MUL => check_value (.LLVMBuildMul lhs rhs)
  | .QIP_BINOP_DIV => check_value (.LLVMBuildSDiv lhs rhs)
  | .QIP_BINOP_EQUALS => check_value (.LLVMBuildICmp_LLVMIntEQ lhs rhs)

/-- The function `codegen_float` of `binary_expr.c` (lines 160-191). -/
def codegen_float (operator : qip_ast_binop_e) (lhs rhs : LLVMValueRef) :
    Int × LLVMValueRef :=
  match operator with
  | .QIP_BINOP_PLUS => check_value (.LLVMBuildFAdd lhs rhs)
  | .QIP_BINOP_MINUS => check_value (.LLVMBuildFSub lhs rhs)
  | .QIP_BINOP_MUL => check_value (.LLVMBuildFMul lhs rhs)
  | .QIP_BINOP_DIV => check_value (.LLVMBuildFDiv lhs rhs)
  | .QIP_BINOP_EQUALS => check_value (.LLVMBuildFCmp_LLVMRealOEQ lhs rhs)

/-- The function `codegen_boolean` of `binary_expr.c` (lines 202-222): `==` only; any
other operator is the `sentinel`. -/
def codegen_boolean (operator : qip_ast_binop_e) (lhs rhs : LLVMValueRef) :
    Int × LLVMValueRef :=
  match operator with
  | .QIP_BINOP_EQUALS => check_value (.LLVMBuildICmp_LLVMIntEQ lhs rhs)
  | _ => (-1, .NULL)

/-- The function `codegen_is_null` of `binary_expr.c` (lines 232-259). -/
def codegen_is_null (env : qip_env) (operator : qip_ast_binop_e) (module : qip_module)
    (lhs : Option qip_ast_node) : Int × LLVMValueRef :=
  let (rc, ptr) := env.qip_ast_node_get_var_pointer lhs module
  if rc ≠ 0 then (-1, .NULL)
  else
    match operator with
    | .QIP_BINOP_EQUALS => check_value (.LLVMBuildIsNull (.LLVMBuildLoad ptr))
    | _ => (-1, .NULL)

/-- The function `qip_ast_binary_expr_codegen` of `binary_expr.c` (lines 268-349);
`value` is what `*value` holds when the function is called. The label `error:` destroys
the strings `lhs_type_name` and `rhs_type_name`, which are declared and set to `NULL` at
line 314 only: a jump to `error:` from a check before that line passes over the
initialisers and hands uninitialised pointers to `bdestroy`, so the call has no defined
behaviour and no result, `none`; so has a call with a null child, which the source
dereferences. A failure after line 314 returns -1 with `*value = NULL`. -/
def qip_ast_binary_expr_codegen (env : qip_env) (node : qip_ast_node) (module : qip_module)
    (value : LLVMValueRef) : Option (Int × LLVMValueRef) :=
  match node with
  | .binary_expr _ operator lhs (some rhs_node) _ =>
    if rhs_node.type = .QIP_AST_TYPE_NULL_LITERAL then
      let (rc, value) := codegen_is_null env operator module lhs
      if rc ≠ 0 then none else some (0, value)
    else
      let (rc, lhs_value) := env.qip_ast_node_codegen lhs module
      if ¬ (rc = 0 ∧ lhs_value ≠ .NULL) then none
      else
        let (rc, rhs_value) := env.qip_ast_node_codegen (some rhs_node) module
        if ¬ (rc = 0 ∧ rhs_value ≠ .NULL) then none
        else
          match lhs with
          | none => none
          | some lhs_node =>
            let (rc, lhs_target_node) := target_node lhs_node
            if rc ≠ 0 then none
            else
              let (rc, rhs_target_node) := target_node rhs_node
              if rc ≠ 0 then none
              else
                let (rc, lhs_type_name) :=
                  env.qip_ast_node_get_type_name lhs_target_node module
                if rc ≠ 0 then some (-1, .NULL)
                else
                  let (rc, rhs_type_name) :=
                    env.qip_ast_node_get_type_name rhs_target_node module
                  if rc ≠ 0 then some (-1, .NULL)
                  else
                    let (rc, rhs_value) :=
                      env.qip_module_cast_value module rhs_value rhs_type_name lhs_type_name
                    if ¬ (rc = 0 ∧ rhs_value ≠ .NULL) then some (-1, .NULL)
                    else
                      let (rc, value) :=
                        if biseqcstr lhs_type_name "Int" ≠ 0 then
                          codegen_int operator lhs_value rhs_value
                        else if biseqcstr lhs_type_name "Float" ≠ 0 then
                          codegen_float operator lhs_value rhs_value
                        else if biseqcstr lhs_type_name "Boolean" ≠ 0 then
                          codegen_boolean operator lhs_value rhs_value
                        else (0, value)
                      if rc ≠ 0 then some (-1, .NULL) else some (check_value value)
  | _ => none

/-- An instance of the missing functions, for examples: a literal has the type of its
kind, a variable reference has the type that its name spells, code generation yields a
value numbered by the address of the node, and a cast leaves the value alone. -/
def example_env : qip_env where
  qip_ast_node_get_type := fun node _ =>
    match node with
    | .int_literal h _ => (0, some (qip_ast_type_ref_create_cstr (h.addr + 100) "Int"))
    | .float_literal h _ => (0, some (qip_ast_type_ref_create_cstr (h.addr + 100) "Float"))
    | _ => (-1, none)
  qip_ast_node_get_type_name := fun node _ =>
    match node with
    | .int_literal _ _ => (0, some "Int")
    | .float_literal _ _ => (0, some "Float")
    | .boolean_literal _ _ => (0, some "Boolean")
    | .string_literal _ _ => (0, some "String")
    | .var_ref _ name _ _ _ => (0, name)
    | _ => (-1, none)
  qip_ast_node_codegen := fun node _ =>
    match node with
    | some n => (0, .value n.addr)
    | none => (-1, .NULL)
  qip_ast_node_get_var_pointer := fun node _ =>
    match node with
    | some n => (0, .value n.addr)
    | none => (-1, .NULL)
  qip_module_cast_value := fun _ value _ _ => (0, value)

/-- The integer literal `value` at address `addr`. -/
def int_lit (addr : Nat) (value : Int) : qip_ast_node :=
  .int_literal (qip_ast_hdr.fresh addr) value

/-- The float literal of bits `value` at address `addr`. -/
def float_lit (addr : Nat) (value : Nat) : qip_ast_node :=
  .float_literal (qip_ast_hdr.fresh addr) value

/-- The boolean literal `value` at address `addr`. -/
def bool_lit (addr : Nat) (value : Bool) : qip_ast_node :=
  .boolean_literal (qip_ast_hdr.fresh addr) value

/-- The null literal at address `addr`. -/
def null_lit (addr : Nat) : qip_ast_node :=
  .null_literal (qip_ast_hdr.fresh addr)

/-- The variable reference `name` at address `addr`, without member. -/
def var_lit (addr : Nat) (name : String) : qip_ast_node :=
  .var_ref (qip_ast_hdr.fresh addr) (some name) false [] none

/-- The condition under which `qip_ast_binary_expr_validate` builds its message: the
disjunction of its two tests ("lhs=numeric, rhs=non-numeric", "lhs=non-numeric,
rhs=numeric"). -/
def validate_rejects (lhs_type rhs_type : Option String) : Prop :=
  ((biseqcstr lhs_type "Int" ≠ 0 ∨ biseqcstr lhs_type "Float" ≠ 0)
      ∧ (biseqcstr rhs_type "Boolean" ≠ 0 ∨ ¬ qip_is_builtin_type_name rhs_type))
    ∨ ((biseqcstr lhs_type "Boolean" ≠ 0 ∨ ¬ qip_is_builtin_type_name lhs_type)
      ∧ (biseqcstr rhs_type "Int" ≠ 0 ∨ biseqcstr rhs_type "Float" ≠ 0))

instance (lhs_type rhs_type : Option String) : Decidable (validate_rejects lhs_type rhs_type) :=
  inferInstanceAs (Decidable (_ ∨ _))

/-! ## QIP: the nodes that the parser creates (their sources are absent; modelled from the
specification) -/

/-- A node of a kind kept as `other`, allocated at `addr`, with its children adopted. -/
def qip_ast_other_create (addr : Nat) (type : qip_ast_node_type_e)
    (strings : List (Option String)) (access : Option qip_ast_access_e)
    (children : List (Option qip_ast_node)) : qip_ast_node :=
  .other (qip_ast_hdr.fresh addr) type strings access (adopt_all addr children)

/-- More children for a node kept as `other`, adopted by it. -/
def qip_ast_other_add (node : qip_ast_node) (children : List (Option qip_ast_node)) :
    qip_ast_node :=
  match node with
  | .other h t s a c => .other h t s a (c ++ adopt_all h.addr children)
  | n => n

/-- Modelled from the spec: `qip_ast_int_literal_create` of the missing `int_literal.c`. -/
def qip_ast_int_literal_create (addr : Nat) (value : Int) : qip_ast_node :=
  .int_literal (qip_ast_hdr.fresh addr) value

/-- Modelled from the spec: `qip_ast_float_literal_create` of the missing
`float_literal.c`; the double is kept as the number the lexer hands over. -/
def qip_ast_float_literal_create (addr : Nat) (value : Nat) : qip_ast_node :=
  .float_literal (qip_ast_hdr.fresh addr) value

/-- Modelled from the spec: `qip_ast_boolean_literal_create` of the missing
`boolean_literal.c`. -/
def qip_ast_boolean_literal_create (addr : Nat) (value : Bool) : qip_ast_node :=
  .boolean_literal (qip_ast_hdr.fresh addr) value

/-- Modelled from the spec: `qip_ast_string_literal_create` of the missing
`string_literal.c`. -/
def qip_ast_string_literal_create (addr : Nat) (value : Option String) : qip_ast_node :=
  .string_literal (qip_ast_hdr.fresh addr) value

/-- Modelled from the spec: `qip_ast_null_literal_create` of the missing
`null_literal.c`. -/
def qip_ast_null_literal_create (addr : Nat) : qip_ast_node :=
  .null_literal (qip_ast_hdr.fresh addr)

/-- Modelled from the spec: `qip_ast_var_ref_create_value` of the missing `var_ref.c`: a
reference to the variable `name`, without member. -/
def qip_ast_var_ref_create_value (addr : Nat) (name : Option String) : qip_ast_node :=
  .var_ref (qip_ast_hdr.fresh addr) name false [] none

/-- Modelled from the spec: `qip_ast_var_ref_create_invoke` of the missing `var_ref.c`: a
call of `name` with the arguments `args`. -/
def qip_ast_var_ref_create_invoke (addr : Nat) (name : Option String)
    (args : List (Option qip_ast_node)) : qip_ast_node :=
  .var_ref (qip_ast_hdr.fresh addr) name true (adopt_all addr args) none

/-- Modelled from the spec: `qip_ast_var_ref_set_member` of the missing `var_ref.c`: the
member becomes the terminal node of the `.member` chain ("chains are resolved
left-to-right"), with the node before it as parent. -/
def qip_ast_var_ref_set_member : qip_ast_node → qip_ast_node → qip_ast_node
  | .var_ref h n i a (some m), member =>
    .var_ref h n i a (some (qip_ast_var_ref_set_member m member))
  | .var_ref h n i a none, member => .var_ref h n i a (adopt h.addr (some member))
  | node, _ => node

/-- Modelled from the spec: `qip_ast_type_ref_create` of the missing `type_ref.c`. -/
def qip_ast_type_ref_create (addr : Nat) (name : Option String) : qip_ast_node :=
  .type_ref (qip_ast_hdr.fresh addr) name [] none none

/-- Modelled from the spec: `qip_ast_type_ref_add_subtypes` of the missing `type_ref.c`. -/
def qip_ast_type_ref_add_subtypes (node : qip_ast_node)
    (subtypes : List (Option qip_ast_node)) : qip_ast_node :=
  match node with
  | .type_ref h n s r a => .type_ref h n (s ++ adopt_all h.addr subtypes) r a
  | n => n

/-- Modelled from the spec: `qip_ast_type_ref_set_return_type` of the missing
`type_ref.c`. -/
def qip_ast_type_ref_set_return_type (node : qip_ast_node)
    (return_type : Option qip_ast_node) : qip_ast_node :=
  match node with
  | .type_ref h n s _ a => .type_ref h n s (adopt h.addr return_type) a
  | n => n

/-- Modelled from the spec: `qip_ast_type_ref_set_arg_name` of the missing `type_ref.c`. -/
def qip_ast_type_ref_set_arg_name (node : qip_ast_node) (arg_name : Option String) :
    qip_ast_node :=
  match node with
  | .type_ref h n s r _ => .type_ref h n s r arg_name
  | n => n

/-- Modelled from the spec: `qip_ast_block_create` of the missing `block.c`: a block of
the given expressions. -/
def qip_ast_block_create (addr : Nat) (name : Option String)
    (exprs : List (Option qip_ast_node)) : qip_ast_node :=
  .block (qip_ast_hdr.fresh addr) name (adopt_all addr exprs)

/-- Modelled from the spec: `qip_ast_block_add_expr` of the missing `block.c`: the
expression goes to the end of the block. -/
def qip_ast_block_add_expr (block : qip_ast_node) (expr : Option qip_ast_node) :
    qip_ast_node :=
  match block with
  | .block h n exprs => .block h n (exprs ++ [adopt h.addr expr])
  | n => n

/-- Modelled from the spec: `qip_ast_function_create` of the missing `function.c`. -/
def qip_ast_function_create (addr : Nat) (name : Option String)
    (return_type : Option qip_ast_node) (args : List (Option qip_ast_node))
    (body : Option qip_ast_node) : qip_ast_node :=
  .function (qip_ast_hdr.fresh addr) name (adopt addr return_type) (adopt_all addr args)
    (adopt addr body) true

/-- The assignment `node->function.bound = bound`. -/
def qip_ast_function_set_bound (node : qip_ast_node) (bound : Bool) : qip_ast_node :=
  match node with
  | .function h n r a b _ => .function h n r a b bound
  | n => n

/-- Modelled from the spec: `qip_ast_class_create` of the missing `class.c`, without
members. -/
def qip_ast_class_create (addr : Nat) (name : Option String) : qip_ast_node :=
  .class_decl (qip_ast_hdr.fresh addr) name [] [] []

/-- Modelled from the spec: `qip_ast_class_add_template_vars` of the missing `class.c`. -/
def qip_ast_class_add_template_vars (node : qip_ast_node)
    (template_vars : List (Option qip_ast_node)) : qip_ast_node :=
  match node with
  | .class_decl h n t m md => .class_decl h n (t ++ adopt_all h.addr template_vars) m md
  | n => n

/-- Modelled from the spec: `qip_ast_class_add_members` of the missing `class.c`. -/
def qip_ast_class_add_members (node : qip_ast_node) (members : List (Option qip_ast_node)) :
    qip_ast_node :=
  match node with
  | .class_decl h n t m md => .class_decl h n t (m ++ adopt_all h.addr members) md
  | n => n

/-- Modelled from the spec: `qip_ast_class_add_metadatas` of the missing `class.c`. -/
def qip_ast_class_add_metadatas (node : qip_ast_node)
    (metadatas : List (Option qip_ast_node)) : qip_ast_node :=
  match node with
  | .class_decl h n t m md => .class_decl h n t m (md ++ adopt_all h.addr metadatas)
  | n => n

/-- Modelled from the spec: `qip_ast_module_create` of the missing `module.c` (the
syntax-tree module): "a set of classes, a synthetic `main` function". -/
def qip_ast_module_create (addr : Nat) (name : Option String) : qip_ast_node :=
  .module (qip_ast_hdr.fresh addr) name [] none

/-- Modelled from the spec: `qip_ast_module_add_class` of the missing `module.c`. -/
def qip_ast_module_add_class (module : qip_ast_node) (cls : Option qip_ast_node) :
    qip_ast_node :=
  match module with
  | .module h n classes m => .module h n (classes ++ [adopt h.addr cls]) m
  | n => n

/-- The field `root->module.main_function`. -/
def qip_ast_node.main_function : qip_ast_node → Option qip_ast_node
  | .module _ _ _ m => m
  | _ => none

/-- The field `root->module.classes`, as a list. -/
def qip_ast_node.classes : qip_ast_node → List (Option qip_ast_node)
  | .module _ _ classes _ => classes
  | _ => []

/-- The assignment `root->module.main_function = main_function` (the function is not
given the module as parent by this assignment). -/
def qip_ast_module_set_main_function (module : qip_ast_node)
    (main_function : Option qip_ast_node) : qip_ast_node :=
  match module with
  | .module h n classes _ => .module h n classes main_function
  | n => n

/-- The field `node->function.body`. -/
def qip_ast_node.body : qip_ast_node → Option qip_ast_node
  | .function _ _ _ _ body _ => body
  | _ => none

/-- The field `node->function.name`. -/
def qip_ast_node.function_name : qip_ast_node → Option String
  | .function _ name _ _ _ _ => name
  | _ => none

/-- The field `node->block.exprs`, as a list; `node->block.expr_count` is its length. -/
def qip_ast_node.exprs : qip_ast_node → List (Option qip_ast_node)
  | .block _ _ exprs => exprs
  | _ => []

/-- The statement `qip_ast_block_add_expr(root->module.main_function->function.body,
expr)` of rule 4 of the grammar, on the module `root`. -/
def qip_ast_main_add_expr (root : qip_ast_node) (expr : Option qip_ast_node) :
    qip_ast_node :=
  match root with
  | .module h n classes (some (.function fh fn rt args (some body) bound)) =>
    .module h n classes
      (some (.function fh fn rt args (some (qip_ast_block_add_expr body expr)) bound))
  | n => n

/-! ## QIP: the tables of the generated parser (`qip/parser.c`, lines 486-823) -/

/-- The table `yytranslate`: the symbol number of a token number of the lexer. -/
def yytranslate : List Nat :=
  [0, 2, 2, 2, 2, 2, 2, 2, 2, 2, 2, 2, 2, 2, 2, 2, 2, 2, 2, 2, 2, 2, 2, 2, 2, 2, 2, 2, 2, 2, 2,
   2, 2, 2, 2, 2, 2, 2, 2, 2, 2, 2, 2, 2, 2, 2, 2, 2, 2, 2, 2, 2, 2, 2, 2, 2, 2, 2, 2, 2, 2, 2,
   2, 2, 2, 2, 2, 2, 2, 2, 2, 2, 2, 2, 2, 2, 2, 2, 2, 2, 2, 2, 2, 2, 2, 2, 2, 2, 2, 2, 2, 2, 2,
   2, 2, 2, 2, 2, 2, 2, 2, 2, 2, 2, 2, 2, 2, 2, 2, 2, 2, 2, 2, 2, 2, 2, 2, 2, 2, 2, 2, 2, 2, 2,
   2, 2, 2, 2, 2, 2, 2, 2, 2, 2, 2, 2, 2, 2, 2, 2, 2, 2, 2, 2, 2, 2, 2, 2, 2, 2, 2, 2, 2, 2, 2,
   2, 2, 2, 2, 2, 2, 2, 2, 2, 2, 2, 2, 2, 2, 2, 2, 2, 2, 2, 2, 2, 2, 2, 2, 2, 2, 2, 2, 2, 2, 2,
   2, 2, 2, 2, 2, 2, 2, 2, 2, 2, 2, 2, 2, 2, 2, 2, 2, 2, 2, 2, 2, 2, 2, 2, 2, 2, 2, 2, 2, 2, 2,
   2, 2, 2, 2, 2, 2, 2, 2, 2, 2, 2, 2, 2, 2, 2, 2, 2, 2, 2, 2, 2, 2, 2, 2, 2, 2, 2, 2, 2, 2, 2,
   2, 2, 2, 2, 2, 2, 2, 2, 1, 2, 3, 4, 5, 6, 7, 8, 9, 10, 11, 12, 13, 14, 15, 16, 17, 18, 19,
   20, 21, 22, 23, 24, 25, 26, 27, 28, 29, 30, 31, 32, 33, 34, 35, 36, 37, 38, 39, 40, 41]

/-- The table `yyr1`: the symbol that rule `yyn` derives. -/
def yyr1 : List Nat :=
  [0, 42, 43, 43, 43, 44, 44, 45, 45, 46, 46, 46, 46, 46, 46, 46, 47, 47, 47, 47, 47, 47, 47,
   47, 47, 47, 47, 47, 47, 48, 48, 48, 48, 49, 49, 50, 51, 51, 52, 53, 54, 54, 54, 55, 56, 56,
   56, 56, 57, 57, 57, 58, 59, 59, 60, 61, 61, 61, 62, 62, 63, 64, 65, 65, 66, 67, 67, 67, 68,
   68, 69, 69, 69, 70, 71, 72, 72, 72, 73, 73, 74, 74, 75, 75, 76, 77, 78, 79, 79, 80, 81, 81,
   82, 83, 83, 84, 85, 85, 86, 86, 87, 87, 88, 89, 89, 89, 90, 91, 92, 92, 93, 93, 94, 94, 94,
   95, 95, 96, 97, 98]

/-- The table `yyr2`: the number of symbols on the right-hand side of rule `yyn`. -/
def yyr2 : List Nat :=
  [0, 2, 0, 2, 2, 0, 1, 1, 2, 2, 2, 3, 2, 2, 1, 1, 3, 3, 3, 3, 3, 1, 1, 1, 1, 1, 1, 1, 3, 1, 4,
   3, 6, 1, 1, 2, 4, 4, 3, 3, 0, 1, 3, 1, 1, 4, 7, 5, 0, 1, 3, 2, 0, 1, 1, 1, 1, 1, 1, 1, 1, 1,
   1, 1, 1, 0, 1, 3, 8, 6, 0, 1, 3, 1, 8, 0, 1, 3, 2, 1, 0, 2, 2, 4, 1, 3, 7, 0, 2, 2, 0, 4,
   10, 1, 1, 7, 1, 1, 0, 3, 1, 3, 1, 0, 2, 2, 3, 4, 0, 2, 3, 6, 0, 1, 3, 3, 1, 4, 4, 1]

/-- The table `yydefact`: the default reduction of a state, 0 for an error. -/
def yydefact : List Nat :=
  [2, 108, 1, 29, 64, 60, 61, 62, 63, 0, 0, 0, 0, 0, 0, 0, 119, 0, 4, 0, 23, 0, 34, 33, 0, 0,
   22, 57, 59, 58, 55, 56, 26, 27, 14, 87, 15, 3, 0, 24, 25, 21, 65, 48, 29, 12, 0, 23, 0, 0,
   0, 5, 0, 84, 82, 0, 0, 75, 9, 0, 0, 0, 0, 0, 0, 0, 10, 13, 35, 90, 0, 0, 109, 66, 0, 44, 0,
   52, 0, 49, 11, 0, 0, 28, 0, 6, 7, 0, 0, 79, 0, 0, 76, 16, 17, 18, 19, 20, 38, 31, 0, 0, 88,
   85, 96, 97, 98, 0, 30, 0, 0, 53, 51, 45, 0, 0, 0, 0, 83, 8, 117, 118, 78, 80, 0, 65, 40, 36,
   37, 5, 89, 0, 0, 112, 110, 67, 47, 0, 50, 5, 0, 35, 0, 0, 77, 0, 43, 0, 41, 0, 102, 0, 100,
   103, 0, 54, 116, 0, 113, 0, 0, 0, 81, 5, 32, 39, 0, 91, 99, 0, 108, 0, 0, 0, 46, 86, 0, 0,
   42, 101, 95, 104, 105, 0, 115, 111, 114, 5, 74, 93, 94, 0, 0, 0, 0, 106, 92, 107, 35, 70,
   73, 0, 71, 0, 0, 5, 69, 72, 0, 68]

/-- The table `yydefgoto`. -/
def yydefgoto : List Int :=
  [-1, 1, 84, 85, 86, 19, 47, 21, 22, 23, 24, 128, 147, 148, 25, 78, 79, 112, 156, 26, 27, 28,
   29, 30, 31, 74, 195, 201, 202, 32, 91, 92, 143, 33, 54, 34, 35, 69, 102, 103, 36, 191, 37,
   106, 132, 151, 152, 170, 181, 182, 38, 72, 157, 158, 39, 40, 41]

/-- The table `yypact`: the index in `yytable` of the portion of a state. -/
def yypact : List Int :=
  [-117, 136, -117, 18, -117, -117, -117, -117, -117, 177, -13, 23, 184, 14, 25, 40, -117, 57,
   -117, 198, 37, 64, -117, -117, 70, 106, -117, -117, -117, -117, -117, -117, -117, -117,
   -117, -117, -117, -117, 15, -117, -117, -117, 184, 3, 109, -117, 205, 92, 184, 112, 88, 73,
   37, -117, -117, 130, 131, 132, -117, 184, 184, 184, 184, 184, 184, 134, -117, -117, 110,
   133, 101, 149, -117, 167, 19, 129, 130, 152, 69, -117, -117, 137, 130, -117, 138, 73, -117,
   141, -15, 7, 154, 26, -117, 83, 83, -117, -117, 211, 167, 143, 22, 39, -117, -117, -117,
   -117, 140, 77, -117, 184, 142, -117, -117, -117, 4, 146, 161, 176, -117, -117, -117, -117,
   -117, 164, 132, 184, 184, 167, -117, 73, -117, 191, 187, 122, -117, 167, -117, 130, -117,
   73, 184, -117, 130, 188, -117, 27, 167, 67, -117, 175, -117, 78, -117, -117, 185, -117,
   -117, 34, -117, 194, 200, 178, -117, 73, -117, -117, 184, -117, -117, 191, 206, 224, 212,
   122, -117, -117, 220, 225, -117, -117, -117, -117, -117, -2, -117, -117, -117, 73, -117,
   -117, -117, 130, 226, 221, 245, -117, -117, -117, 232, 130, -117, 63, -117, -9, 130, 73,
   -117, -117, 230, -117]

/-- The table `yypgoto`. -/
def yypgoto : List Int :=
  [-117, -117, -116, -117, 2, 6, -1, -117, -81, -117, 239, -117, -117, 87, -41, -117, 144,
   -117, 84, -117, -117, -117, -117, -117, -117, 135, -117, -117, 50, -117, -117, 139, -117,
   -117, -117, -117, 155, -117, -117, -117, -117, -117, -117, -117, -117, -117, 90, -117, -117,
   -117, 91, -117, -117, 89, -117, -117, -117]

/-- The table `yytable`: positive, the state to shift to; negative, the rule to reduce by. -/
def yytable : List Int :=
  [20, 116, 77, 18, 121, 48, 75, 75, 189, 190, -44, 205, 52, 149, 87, 46, 90, 44, 50, 206, 71,
   -44, 65, 160, 70, 44, 4, 5, 6, 7, 8, 43, 76, 137, 51, 110, 42, 71, 108, 49, 12, 117, 43, 55,
   126, 123, 164, 177, 73, 109, 20, 13, 10, 172, 81, 88, 124, 109, 56, 129, 14, 15, 16, 17,
   173, 93, 94, 95, 96, 97, 98, 192, 64, 77, 65, 57, 3, 4, 5, 6, 7, 8, 203, 90, 20, 9, 10, 119,
   11, 208, 165, 12, 66, 204, 113, 133, 159, 166, 67, 114, 134, 162, 13, 168, 104, 105, 127,
   83, 169, 68, 193, 14, 15, 16, 17, 135, 61, 62, 200, 59, 60, 61, 62, 200, 63, 154, 155, 42,
   20, 65, 82, 73, 146, 75, 44, 89, 2, 99, 20, 3, 4, 5, 6, 7, 8, 100, 161, 101, 9, 10, 194, 11,
   107, 43, 12, 111, 115, 122, 117, 118, 120, 125, 20, 117, 131, 13, 139, 136, 59, 60, 61, 62,
   146, 63, 14, 15, 16, 17, 140, 141, 44, 4, 5, 6, 7, 8, 20, 44, 4, 5, 6, 7, 8, 142, 150, 12,
   167, 176, 59, 60, 61, 62, 12, 63, 20, 45, 13, 153, 163, 59, 60, 61, 62, 13, 63, 14, 15, 16,
   17, 174, 171, 175, 14, 15, 16, 17, 58, 180, 155, 59, 60, 61, 62, 80, 63, 185, 59, 60, 61,
   62, 187, 63, 59, 60, 61, 62, 188, 196, 198, 197, 199, 209, 53, 178, 207, 184, 130, 0, 138,
   179, 145, 183, 186, 144]

/-- The table `yycheck`. -/
def yycheck : List Int :=
  [1, 82, 43, 1, 19, 18, 3, 3, 10, 11, 3, 20, 13, 129, 55, 9, 57, 3, 12, 28, 22, 3, 37, 139, 9,
   3, 4, 5, 6, 7, 8, 24, 29, 29, 20, 76, 18, 22, 19, 16, 18, 82, 24, 18, 22, 19, 19, 163, 42,
   30, 51, 29, 13, 19, 48, 56, 30, 30, 18, 20, 38, 39, 40, 41, 30, 59, 60, 61, 62, 63, 64, 187,
   35, 114, 37, 18, 3, 4, 5, 6, 7, 8, 19, 124, 85, 12, 13, 85, 15, 205, 23, 18, 28, 30, 25, 18,
   137, 30, 28, 30, 23, 142, 29, 25, 3, 4, 100, 19, 30, 3, 191, 38, 39, 40, 41, 109, 33, 34,
   199, 31, 32, 33, 34, 204, 36, 3, 4, 18, 129, 37, 18, 125, 126, 3, 3, 3, 0, 3, 139, 3, 4, 5,
   6, 7, 8, 35, 140, 14, 12, 13, 191, 15, 3, 24, 18, 3, 19, 3, 199, 21, 19, 18, 163, 204, 24,
   29, 20, 25, 31, 32, 33, 34, 166, 36, 38, 39, 40, 41, 17, 3, 3, 4, 5, 6, 7, 8, 187, 3, 4, 5,
   6, 7, 8, 29, 3, 18, 21, 19, 31, 32, 33, 34, 18, 36, 205, 28, 29, 20, 20, 31, 32, 33, 34, 29,
   36, 38, 39, 40, 41, 25, 35, 21, 38, 39, 40, 41, 28, 21, 4, 31, 32, 33, 34, 28, 36, 23, 31,
   32, 33, 34, 20, 36, 31, 32, 33, 34, 21, 21, 3, 28, 18, 21, 13, 166, 204, 171, 101, -1, 114,
   169, 125, 170, 173, 124]

/-! ## QIP: the generated parser (`qip/parser.c`) -/

/-- The location of a symbol (`YYLTYPE`, `parser.c` lines 203-209). -/
structure YYLTYPE where
  first_line : Int
  first_column : Int
  last_line : Int
  last_column : Int
deriving DecidableEq, Repr

/-- The semantic value of a symbol (the union `YYSTYPE`, `parser.c` lines 169-193), as the
member that was stored last; `garbage` is a slot that nothing was stored in. An array
(`qip_array`) is the list of its elements. -/
inductive YYSTYPE where
  | garbage
  | as_string (string : Option String)
  | as_int_value (int_value : Int)
  | as_float_value (float_value : Nat)
  | as_access (access : qip_ast_access_e)
  | as_node (node : Option qip_ast_node)
  | as_array (array : List (Option qip_ast_node))
  | as_if_block (condition block : Option qip_ast_node)
  | as_if_blocks (conditions blocks : List (Option qip_ast_node))
deriving Repr

/-- The member `.string` of a semantic value (null when another member was stored). -/
def YYSTYPE.string : YYSTYPE → Option String
  | .as_string s => s
  | _ => none

/-- The member `.int_value` of a semantic value. -/
def YYSTYPE.int_value : YYSTYPE → Int
  | .as_int_value v => v
  | _ => 0

/-- The member `.float_value` of a semantic value. -/
def YYSTYPE.float_value : YYSTYPE → Nat
  | .as_float_value v => v
  | _ => 0

/-- The member `.access` of a semantic value. -/
def YYSTYPE.access : YYSTYPE → qip_ast_access_e
  | .as_access a => a
  | _ => .QIP_ACCESS_PUBLIC

/-- The member `.node` of a semantic value (null when another member was stored). -/
def YYSTYPE.node : YYSTYPE → Option qip_ast_node
  | .as_node n => n
  | _ => none

/-- The elements of the member `.array` of a semantic value. -/
def YYSTYPE.array : YYSTYPE → List (Option qip_ast_node)
  | .as_array a => a
  | _ => []

/-- The member `.if_block.condition` of a semantic value. -/
def YYSTYPE.condition : YYSTYPE → Option qip_ast_node
  | .as_if_block c _ => c
  | _ => none

/-- The member `.if_block.block` of a semantic value. -/
def YYSTYPE.block : YYSTYPE → Option qip_ast_node
  | .as_if_block _ b => b
  | _ => none

/-- The elements of the member `.if_blocks.conditions` of a semantic value. -/
def YYSTYPE.conditions : YYSTYPE → List (Option qip_ast_node)
  | .as_if_blocks c _ => c
  | _ => []

/-- The elements of the member `.if_blocks.blocks` of a semantic value. -/
def YYSTYPE.blocks : YYSTYPE → List (Option qip_ast_node)
  | .as_if_blocks _ b => b
  | _ => []

/-- What one call of the lexer `yylex` hands over (the lexer is absent): the token number
it returns and what it stores in `yylval` and `yylloc`. -/
structure qip_token where
  yychar : Int
  yylval : YYSTYPE
  yylloc : YYLTYPE
deriving Repr

/-- The parser object (`qip_parser`, `parser.c` lines 221-224): its errors; `error_count`
is the length of the list. -/
structure qip_parser_t where
  errors : List qip_error
deriving DecidableEq, Repr

/-- The field `parser->error_count`. -/
def qip_parser_t.error_count (parser : qip_parser_t) : Nat := parser.errors.length

/-- The function `qip_parser_add_error` of `parser.c` (lines 2852-2873), for a parser and
a message that are not null: appends the error; returns 0. -/
def qip_parser_add_error (parser : qip_parser_t) (line_no : Int) (message : String) :
    Int × qip_parser_t :=
  (0, { parser with errors := parser.errors ++ [⟨line_no, message⟩] })

/-- The function `yyerror` of `parser.c` (lines 76-80): adds an error at the first line of
the location; the return code of `qip_parser_add_error` is dropped. -/
def yyerror (loc : YYLTYPE) (parser : qip_parser_t) (s : String) : qip_parser_t :=
  (qip_parser_add_error parser loc.first_line s).2

/-- The function `qip_set_pos` of `parser.c` (lines 2911-2915). -/
def qip_set_pos (node : qip_ast_node) (loc : YYLTYPE) : qip_ast_node :=
  node.set_line_no (if loc.first_line > 0 then loc.first_line else 0)

/-- The constant `YYFINAL`: the state of termination. -/
def YYFINAL : Nat := 2

/-- The constant `YYLAST`: the last index of `yytable`. -/
def YYLAST : Int := 263

/-- The constant `YYNTOKENS`: the number of terminals. -/
def YYNTOKENS : Nat := 42

/-- The constant `YYPACT_NINF`: the entry of `yypact` of a state that has only a default
action. -/
def YYPACT_NINF : Int := -117

/-- The constant `YYMAXUTOK`: the greatest token number of the lexer. -/
def YYMAXUTOK : Int := 296

/-- The constant `YYUNDEFTOK`: the symbol of a token number that the grammar does not
know. -/
def YYUNDEFTOK : Nat := 2

/-- The constant `YYTERROR`: the symbol `error`. -/
def YYTERROR : Int := 1

/-- The constant `YYEOF`: the token number of the end of the input. -/
def YYEOF : Int := 0

/-- The constant `YYMAXDEPTH`: the greatest size of the stacks. -/
def YYMAXDEPTH : Nat := 10000

/-- The macro `YYTRANSLATE` (`parser.c` line 482): the symbol of a token number; the
comparison is unsigned, so a negative number is out of range. -/
def YYTRANSLATE (yychar : Int) : Nat :=
  if 0 ≤ yychar ∧ yychar ≤ YYMAXUTOK then yytranslate.getD yychar.toNat YYUNDEFTOK
  else YYUNDEFTOK

/-- The macro `YYLLOC_DEFAULT` (`parser.c` lines 904-921) for a rule of `n` symbols whose
locations are `rhs` (`RHS[1]` to `RHS[N]`); `rhs0` is `RHS[0]`, the location below
them on the stack. -/
def YYLLOC_DEFAULT (rhs0 : YYLTYPE) (rhs : List YYLTYPE) (n : Nat) : YYLTYPE :=
  if n ≠ 0 then
    { first_line := (rhs.getD 0 rhs0).first_line
      first_column := (rhs.getD 0 rhs0).first_column
      last_line := (rhs.getD (n - 1) rhs0).last_line
      last_column := (rhs.getD (n - 1) rhs0).last_column }
  else
    { first_line := rhs0.last_line
      first_column := rhs0.last_column
      last_line := rhs0.last_line
      last_column := rhs0.last_column }

/-- The semantic actions of `yyreduce` (the `switch` of `parser.c`, lines 1736-2511) as
far as they assign `$$`: all rules but rules 3 and 4, whose actions assign nothing to
`$$`. `rhs` holds the values `$1`, `$2`, ... of the rule and `rhs_locs` their locations,
`yyval` is `$$` before the action (`$1`, or the slot above the stack for an empty rule),
`yyloc` the location of the rule and `heap` the next free address. Returns `$$` and the
next free address. -/
def yy_action_value (yyn : Nat) (rhs : List YYSTYPE) (rhs_locs : List YYLTYPE)
    (yyval : YYSTYPE) (yyloc : YYLTYPE) (heap : Nat) : YYSTYPE × Nat :=
  let a := fun (i : Nat) => rhs.getD (i - 1) .garbage
  let made := fun (node : qip_ast_node) (allocated : Nat) =>
    (YYSTYPE.as_node (some (qip_set_pos node yyloc)), heap + allocated)
  match yyn with
  | 5 => (.as_node none, heap)
  | 6 => made (qip_ast_block_create heap none (a 1).array) 1
  | 7 => (.as_array [(a 1).node], heap)
  | 8 => (.as_array ((a 1).array ++ [(a 2).node]), heap)
  | 11 => made (qip_ast_other_create heap .QIP_AST_TYPE_FRETURN [] none [(a 2).node]) 1
  | 12 => made (qip_ast_other_create heap .QIP_AST_TYPE_FRETURN [] none [none]) 1
  | 16 => made (qip_ast_binary_expr_create heap .QIP_BINOP_PLUS (a 1).node (a 3).node) 2
  | 17 => made (qip_ast_binary_expr_create heap .QIP_BINOP_MINUS (a 1).node (a 3).node) 2
  | 18 => made (qip_ast_binary_expr_create heap .QIP_BINOP_MUL (a 1).node (a 3).node) 2
  | 19 => made (qip_ast_binary_expr_create heap .QIP_BINOP_DIV (a 1).node (a 3).node) 2
  | 20 => made (qip_ast_binary_expr_create heap .QIP_BINOP_EQUALS (a 1).node (a 3).node) 2
  | 28 => (.as_node (a 2).node, heap)
  | 29 => made (qip_ast_var_ref_create_value heap (a 1).string) 1
  | 30 => made (qip_ast_var_ref_create_invoke heap (a 1).string (a 3).array) 1
  | 31 =>
    (.as_node ((a 1).node.map (fun n => qip_ast_var_ref_set_member n
        (qip_set_pos (qip_ast_var_ref_create_value heap (a 3).string) yyloc))),
      heap + 1)
  | 32 =>
    (.as_node ((a 1).node.map (fun n => qip_ast_var_ref_set_member n
        (qip_set_pos (qip_ast_var_ref_create_invoke heap (a 3).string (a 5).array) yyloc))),
      heap + 1)
  | 35 =>
    made (qip_ast_other_create heap .QIP_AST_TYPE_VAR_DECL [(a 2).string] none
      [(a 1).node, none]) 1
  | 36 =>
    made (qip_ast_other_create heap .QIP_AST_TYPE_VAR_DECL [(a 2).string] none
      [(a 1).node, (a 4).node]) 1
  | 37 =>
    made (qip_ast_other_create heap .QIP_AST_TYPE_VAR_DECL [(a 2).string] none
      [(a 1).node, (a 4).node]) 1
  | 38 =>
    made (qip_ast_other_create heap .QIP_AST_TYPE_VAR_ASSIGN [] none
      [(a 1).node, (a 3).node]) 1
  | 39 =>
    made (qip_ast_other_add (qip_ast_other_create heap .QIP_AST_TYPE_ARRAY_LITERAL [] none [])
      (a 2).array) 1
  | 40 => (.as_array [], heap)
  | 41 => (.as_array [(a 1).node], heap)
  | 42 => (.as_array ((a 1).array ++ [(a 3).node]), heap)
  | 44 => made (qip_ast_type_ref_create heap (a 1).string) 1
  | 45 =>
    made (qip_ast_type_ref_add_subtypes (qip_ast_type_ref_create heap (a 1).string)
      (a 3).array) 1
  | 46 =>
    made (qip_ast_type_ref_set_return_type
      (qip_ast_type_ref_add_subtypes (qip_ast_type_ref_create heap (a 1).string) (a 3).array)
      (a 6).node) 1
  | 47 =>
    made (qip_ast_type_ref_set_return_type (qip_ast_type_ref_create heap (a 1).string)
      (a 4).node) 1
  | 48 => (.as_array [], heap)
  | 49 => (.as_array [(a 1).node], heap)
  | 50 => (.as_array ((a 1).array ++ [(a 3).node]), heap)
  | 51 =>
    (.as_node ((a 1).node.map (fun n => qip_ast_type_ref_set_arg_name n (a 2).string)),
      heap)
  | 52 => (.as_string none, heap)
  | 60 => made (qip_ast_int_literal_create heap (a 1).int_value) 1
  | 61 => made (qip_ast_float_literal_create heap (a 1).float_value) 1
  | 62 => made (qip_ast_boolean_literal_create heap true) 1
  | 63 => made (qip_ast_boolean_literal_create heap false) 1
  | 64 => made (qip_ast_string_literal_create heap (a 1).string) 1
  | 65 => (.as_array [], heap)
  | 66 => (.as_array [(a 1).node], heap)
  | 67 => (.as_array ((a 1).array ++ [(a 3).node]), heap)
  | 68 => made (qip_ast_function_create heap (a 2).string (a 1).node (a 4).array (a 7).node) 1
  | 69 => made (qip_ast_function_create heap (a 2).string (a 1).node (a 4).array none) 1
  | 70 => (.as_array [], heap)
  | 71 => (.as_array [(a 1).node], heap)
  | 72 => (.as_array ((a 1).array ++ [(a 3).node]), heap)
  | 73 => made (qip_ast_other_create heap .QIP_AST_TYPE_FARG [] none [(a 1).node]) 1
  | 74 => made (qip_ast_function_create heap none (a 5).node (a 3).array (a 7).node) 1
  | 75 => (.as_array [], heap)
  | 76 => (.as_array [(a 1).node], heap)
  | 77 => (.as_array ((a 1).array ++ [(a 3).node]), heap)
  | 78 =>
    (.as_node (some (qip_set_pos
        (qip_ast_other_create (heap + 1) .QIP_AST_TYPE_FARG [] none
          [some (qip_set_pos
            (qip_ast_other_create heap .QIP_AST_TYPE_VAR_DECL [(a 2).string] none
              [(a 1).node, none]) yyloc)]) yyloc)),
      heap + 2)
  | 79 =>
    (.as_node (some (qip_set_pos
        (qip_ast_other_create (heap + 1) .QIP_AST_TYPE_FARG [] none
          [some (qip_set_pos
            (qip_ast_other_create heap .QIP_AST_TYPE_VAR_DECL [(a 1).string] none
              [none, none]) yyloc)]) yyloc)),
      heap + 2)
  | 80 => (.as_node none, heap)
  | 81 => (.as_node (a 2).node, heap)
  | 82 =>
    (.as_node (some (qip_set_pos
        (qip_ast_function_set_bound
          (qip_ast_function_create (heap + 1) none none []
            (some (qip_set_pos (qip_ast_block_create heap none [(a 2).node]) yyloc)))
          false) yyloc)),
      heap + 2)
  | 83 =>
    made (qip_ast_function_set_bound
      (qip_ast_function_create heap none none [] (a 3).node) false) 1
  | 85 =>
    (.as_node (some
        (qip_ast_other_add
          (qip_ast_other_add
            (qip_ast_other_add
              (qip_set_pos (qip_ast_other_create heap .QIP_AST_TYPE_IF_STMT [] none []) yyloc)
              [(a 1).condition, (a 1).block])
            ((a 2).conditions ++ (a 2).blocks))
          [(a 3).node])),
      heap + 1)
  | 86 => (.as_if_block (a 3).node (a 6).node, heap)
  | 87 => (.as_if_blocks [] [], heap)
  | 88 =>
    (.as_if_blocks ((a 1).conditions ++ [(a 2).condition]) ((a 1).blocks ++ [(a 2).block]),
      heap)
  | 89 => (.as_if_block (a 2).condition (a 2).block, heap)
  | 90 => (.as_node none, heap)
  | 91 => (.as_node (a 3).node, heap)
  | 92 =>
    made (qip_ast_other_create heap .QIP_AST_TYPE_FOR_EACH_STMT [] none
      [(a 4).node, (a 6).node, (a 9).node]) 1
  | 93 => (.as_access .QIP_ACCESS_PUBLIC, heap)
  | 94 => (.as_access .QIP_ACCESS_PRIVATE, heap)
  | 95 =>
    (.as_node (some
        (qip_ast_class_add_metadatas
          (qip_ast_class_add_members
            (qip_ast_class_add_template_vars (qip_ast_class_create heap (a 3).string)
              (a 4).array)
            (a 6).array)
          (a 1).array)),
      heap + 1)
  | 98 => (.as_array [], heap)
  | 99 => (.as_array (a 2).array, heap)
  | 100 => (.as_array [(a 1).node], heap)
  | 101 => (.as_array ((a 1).array ++ [(a 3).node]), heap)
  | 102 =>
    made (qip_ast_other_create heap .QIP_AST_TYPE_TEMPLATE_VAR [(a 1).string] none []) 1
  | 103 => (.as_array [], heap)
  | 104 => (.as_array (yyval.array ++ [(a 2).node]), heap)
  | 105 => (.as_array (yyval.array ++ [(a 2).node]), heap)
  | 106 =>
    made (qip_ast_other_add
      (qip_ast_other_create heap .QIP_AST_TYPE_METHOD [] (some (a 2).access) [(a 3).node])
      (a 1).array) 1
  | 107 =>
    (.as_node (some (qip_set_pos
        (qip_ast_other_add
          (qip_ast_other_create heap .QIP_AST_TYPE_PROPERTY [] (some (a 2).access)
            [(a 3).node])
          (a 1).array)
        (rhs_locs.getD 1 yyloc))),
      heap + 1)
  | 108 => (.as_array [], heap)
  | 109 => (.as_array (yyval.array ++ [(a 2).node]), heap)
  | 110 => made (qip_ast_other_create heap .QIP_AST_TYPE_METADATA [(a 2).string] none []) 1
  | 111 =>
    made (qip_ast_other_create heap .QIP_AST_TYPE_METADATA [(a 2).string] none (a 4).array) 1
  | 112 => (.as_array [], heap)
  | 113 => (.as_array [(a 1).node], heap)
  | 114 => (.as_array ((a 1).array ++ [(a 3).node]), heap)
  | 115 =>
    made (qip_ast_other_create heap .QIP_AST_TYPE_METADATA_ITEM [(a 1).string, (a 3).string]
      none []) 1
  | 116 =>
    made (qip_ast_other_create heap .QIP_AST_TYPE_METADATA_ITEM [none, (a 1).string]
      none []) 1
  | 117 =>
    (.as_node (some (qip_ast_other_create heap .QIP_AST_TYPE_SIZEOF [] none [(a 3).node])),
      heap + 1)
  | 118 =>
    (.as_node (some (qip_ast_other_create heap .QIP_AST_TYPE_OFFSETOF [] none [(a 3).node])),
      heap + 1)
  | 119 => (.as_node (some (qip_ast_null_literal_create heap)), heap + 1)
  | _ => (yyval, heap)

/-- The semantic actions of rules 3 and 4 (`parser.c` lines 1738-1750), the two that
touch the global module `root`: `qip_ast_module_add_class(root, $2)` and
`qip_ast_block_add_expr(root->module.main_function->function.body, $2)`. -/
def yy_action_root (yyn : Nat) (rhs : List YYSTYPE) (root : qip_ast_node) : qip_ast_node :=
  match yyn with
  | 3 => qip_ast_module_add_class root (rhs.getD 1 .garbage).node
  | 4 => qip_ast_main_add_expr root (rhs.getD 1 .garbage).node
  | _ => root

/-- The semantic action of rule `yyn`: `$$`, the global module and the next free address
after it. -/
def yy_action (yyn : Nat) (rhs : List YYSTYPE) (rhs_locs : List YYLTYPE) (yyval : YYSTYPE)
    (yyloc : YYLTYPE) (root : qip_ast_node) (heap : Nat) : YYSTYPE × qip_ast_node × Nat :=
  ((yy_action_value yyn rhs rhs_locs yyval yyloc heap).1, yy_action_root yyn rhs root,
    (yy_action_value yyn rhs rhs_locs yyval yyloc heap).2)

/-- The token number `YYEMPTY`: no lookahead token. -/
def YYEMPTY : Int := -2

/-- The variables of `yyparse` (`parser.c` lines 1462-1520), with the global `root`, the
parser object, the tokens that the lexer has not handed over yet and the next free
address. The three stacks are lists, top first; `yystate` is the top of `yyss`. -/
structure yy_state where
  yyss : List Nat
  yyvs : List YYSTYPE
  yyls : List YYLTYPE
  yychar : Int
  yylval : YYSTYPE
  yylloc : YYLTYPE
  yyerrstatus : Nat
  input : List qip_token
  root : qip_ast_node
  parser : qip_parser_t
  heap : Nat

/-- What `yybackup` and `yydefault` decide to do in a state. -/
inductive yy_todo where
  | shift (yyn : Nat)
  | reduce (yyn : Nat)
  | errlab
deriving DecidableEq, Repr

/-- The call `yychar = YYLEX`: the next token of the input, or 0 at the end of the input,
where `yylval` and `yylloc` stay as they are. -/
def yylex (st : yy_state) : yy_state :=
  match st.input with
  | [] => { st with yychar := 0 }
  | t :: rest => { st with yychar := t.yychar, yylval := t.yylval, yylloc := t.yylloc,
                           input := rest }

/-- The label `yydefault` (`parser.c` lines 1707-1711). -/
def yydefault (yystate : Nat) : yy_todo :=
  if yydefact.getD yystate 0 = 0 then .errlab else .reduce (yydefact.getD yystate 0)

/-- The decision of `yybackup` once the lookahead symbol `yytoken` is known (`parser.c`
lines 1678-1688): the entry of `yytable` for the state and the symbol, or the default
action when there is none. -/
def yy_lookup (yystate : Nat) (yytoken : Nat) : yy_todo :=
  let yyn := yypact.getD yystate 0 + yytoken
  if yyn < 0 ∨ YYLAST < yyn ∨ yycheck.getD yyn.toNat 0 ≠ yytoken then yydefault yystate
  else
    let yyn := yytable.getD yyn.toNat 0
    if yyn ≤ 0 then .reduce (-yyn).toNat
    else .shift yyn.toNat

/-- The label `yybackup` (`parser.c` lines 1645-1702), up to the decision: reads a
lookahead token if one is needed and none is there. -/
def yybackup (st : yy_state) : yy_state × yy_todo :=
  let yystate := st.yyss.headD 0
  let yyn := yypact.getD yystate 0
  if yyn = YYPACT_NINF then (st, yydefault yystate)
  else
    let st := if st.yychar = YYEMPTY then yylex st else st
    let st := if st.yychar ≤ YYEOF then { st with yychar := YYEOF } else st
    let yytoken : Nat := if st.yychar ≤ YYEOF then 0 else YYTRANSLATE st.yychar
    (st, yy_lookup yystate yytoken)

/-- The lookahead token that `yybackup` works with: the pending one, or the next token of
the input when none is pending. -/
def yy_peek (st : yy_state) : Int :=
  (if st.yychar = YYEMPTY then yylex st else st).yychar

/-- The shift of the lookahead token (`parser.c` lines 1689-1702), into state `yyn`. -/
def yyshift (st : yy_state) (yyn : Nat) : yy_state :=
  { st with
    yyerrstatus := st.yyerrstatus - 1
    yychar := YYEMPTY
    yyss := yyn :: st.yyss
    yyvs := st.yylval :: st.yyvs
    yyls := st.yylloc :: st.yyls }

/-- The state after a reduction to the symbol of rule `yyn`, on top of the state `top`
(`parser.c` lines 2537-2545). -/
def yygoto (yyn : Nat) (top : Nat) : Nat :=
  let lhs := yyr1.getD yyn 0
  let yystate : Int := yypgoto.getD (lhs - YYNTOKENS) 0 + top
  if 0 ≤ yystate ∧ yystate ≤ YYLAST ∧ yycheck.getD yystate.toNat 0 = top then
    (yytable.getD yystate.toNat 0).toNat
  else (yydefgoto.getD (lhs - YYNTOKENS) 0).toNat

/-- The label `yyreduce` (`parser.c` lines 1716-2547): the reduction by rule `yyn`. -/
def yyreduce (st : yy_state) (yyn : Nat) : yy_state :=
  let yylen := yyr2.getD yyn 0
  let rhs := (st.yyvs.take yylen).reverse
  let rhs_locs := (st.yyls.take yylen).reverse
  let yyval := if yylen = 0 then YYSTYPE.garbage else rhs.getD 0 .garbage
  let yyloc := YYLLOC_DEFAULT ((st.yyls.drop yylen).headD st.yylloc) rhs_locs yylen
  let (yyval, root, heap) := yy_action yyn rhs rhs_locs yyval yyloc st.root st.heap
  { st with
    yyss := yygoto yyn ((st.yyss.drop yylen).headD 0) :: st.yyss.drop yylen
    yyvs := yyval :: st.yyvs.drop yylen
    yyls := yyloc :: st.yyls.drop yylen
    root := root
    heap := heap }

/-- The loop of `yyerrlab1` (`parser.c` lines 2652-2676): pops states until one shifts the
error token; `range1` is `yyerror_range[1]`. Returns the state to shift to, the stacks
and `yyerror_range[1]`, or nothing when the stack is used up (`YYABORT`). -/
def yyerrlab1_pop : List Nat → List YYSTYPE → List YYLTYPE → YYLTYPE →
    Option (Nat × List Nat × List YYSTYPE × List YYLTYPE × YYLTYPE)
  | [], _, _, _ => none
  | yystate :: yyss, yyvs, yyls, range1 =>
    let yyn := yypact.getD yystate 0
    if yyn ≠ YYPACT_NINF ∧ 0 ≤ yyn + YYTERROR ∧ yyn + YYTERROR ≤ YYLAST
        ∧ yycheck.getD (yyn + YYTERROR).toNat 0 = YYTERROR
        ∧ 0 < yytable.getD (yyn + YYTERROR).toNat 0 then
      some ((yytable.getD (yyn + YYTERROR).toNat 0).toNat, yystate :: yyss, yyvs, yyls, range1)
    else
      match yyss with
      | [] => none
      | _ :: _ => yyerrlab1_pop yyss yyvs.tail yyls.tail (yyls.headD range1)

/-- The result of `yyparse`: `yyresult` and the variables at the end. -/
abbrev yy_result := Int × yy_state

/-- The labels `yyerrlab` and `yyerrlab1` (`parser.c` lines 2552-2688): reports the
syntax error unless the parser is recovering from one, then looks for a state that
shifts the error token. `yymsg` is the text that `yysyntax_error` builds from the state
and the lookahead symbol. Returns the result of the parse when it ends here, the state
to go on with otherwise. -/
def yyerrlab (yymsg : Nat → Int → String) (st : yy_state) : yy_result ⊕ yy_state :=
  let yytoken : Int := if st.yychar = YYEMPTY then YYEMPTY else YYTRANSLATE st.yychar
  let st :=
    if st.yyerrstatus = 0 then
      { st with parser := yyerror st.yylloc st.parser (yymsg (st.yyss.headD 0) yytoken) }
    else st
  if st.yyerrstatus = 3 ∧ st.yychar = YYEOF then .inl (1, st)
  else
    let st :=
      if st.yyerrstatus = 3 ∧ ¬ st.yychar ≤ YYEOF then { st with yychar := YYEMPTY } else st
    match yyerrlab1_pop st.yyss st.yyvs st.yyls st.yylloc with
    | none => .inl (1, { st with yyerrstatus := 3 })
    | some (yyn, yyss, yyvs, yyls, range1) =>
      .inr { st with
        yyerrstatus := 3
        yyss := yyn :: yyss
        yyvs := st.yylval :: yyvs
        yyls := YYLLOC_DEFAULT range1 [range1, st.yylloc] 2 :: yyls }

/-- The loop of `yyparse` from the label `yysetstate` on (`parser.c` lines 1565-2745):
with the new state on the stack, stops when the stack is full (`yyexhaustedlab`, result
2) or the state is final (result 0), otherwise shifts, reduces or handles an error. One
unit of fuel per state pushed; without fuel there is no result. -/
def yyparse_loop (yymsg : Nat → Int → String) : Nat → yy_state → Option yy_result
  | 0, _ => none
  | fuel + 1, st =>
    if YYMAXDEPTH ≤ st.yyss.length then
      some (2, { st with parser := yyerror st.yylloc st.parser "memory exhausted" })
    else if st.yyss.headD 0 = YYFINAL then some (0, st)
    else
      match yybackup st with
      | (st, .shift yyn) => yyparse_loop yymsg fuel (yyshift st yyn)
      | (st, .reduce yyn) => yyparse_loop yymsg fuel (yyreduce st yyn)
      | (st, .errlab) =>
        match yyerrlab yymsg st with
        | .inl result => some result
        | .inr st => yyparse_loop yymsg fuel st

/-- The function `yyparse` of `parser.c` (lines 1455-2745): the parse of the tokens
`input` that the lexer produces, with the global `root`. `uninit` is the content of the
slot of the location stack that is never initialised. -/
def yyparse (yymsg : Nat → Int → String) (fuel : Nat) (uninit : YYLTYPE)
    (input : List qip_token) (root : qip_ast_node) (parser : qip_parser_t) (heap : Nat) :
    Option yy_result :=
  yyparse_loop yymsg fuel
    { yyss := [0], yyvs := [.garbage], yyls := [uninit], yychar := YYEMPTY,
      yylval := .garbage, yylloc := ⟨1, 1, 1, 1⟩, yyerrstatus := 0, input := input,
      root := root, parser := parser, heap := heap }

/-- The part of `qip_parser_parse` that follows the call of `yyparse` (`parser.c` lines
2820-2836), with `rc` the result of `yyparse`: adds the unknown error, removes an empty
main function, returns the return code and `*module`. -/
def qip_parser_parse_finish (rc : Int) (parser : qip_parser_t) (root : qip_ast_node) :
    Int × qip_parser_t × Option qip_ast_node :=
  let (rc, parser) :=
    if rc ≠ 0 ∧ parser.error_count = 0 then qip_parser_add_error parser 0 "Unknown error"
    else (0, parser)
  if rc ≠ 0 then (-1, parser, none)
  else
    let root :=
      if (root.main_function.bind qip_ast_node.body).isNone
          ∨ ((root.main_function.bind qip_ast_node.body).map
              (fun body => body.exprs.length)) = some 0 then
        qip_ast_module_set_main_function root none
      else root
    (0, parser, some root)

/-- The module and its main function that `qip_parser_parse` sets up before it calls
`yyparse` (`parser.c` lines 2805-2814): three allocations, from `heap` on. -/
def qip_parser_parse_setup (heap : Nat) (name : Option String) : qip_ast_node :=
  qip_ast_module_set_main_function (qip_ast_module_create heap name)
    (some (qip_ast_function_create (heap + 2) (some "main") none []
      (some (qip_ast_block_create (heap + 1) none []))))

/-- The function `qip_parser_parse` of `parser.c` (lines 2797-2840), for a parser that is
not null; `text` is the tokens that the lexer produces for the text. Returns the return
code, the parser, `*module` and the next free address. -/
def qip_parser_parse (yymsg : Nat → Int → String) (fuel : Nat) (uninit : YYLTYPE) (heap : Nat)
    (parser : qip_parser_t) (name : Option String) (text : List qip_token) :
    Option (Int × qip_parser_t × Option qip_ast_node) :=
  match yyparse yymsg fuel uninit text (qip_parser_parse_setup heap name) parser (heap + 3) with
  | none => none
  | some (rc, st) => some (qip_parser_parse_finish rc st.parser st.root)

/-! ## QIP: tokens and shapes, to state what the parser builds -/

/-- The token number `TIDENTIFIER` (`enum yytokentype`, `parser.c` lines 126-164). -/
def TIDENTIFIER : Int := 258

/-- The token number `TINT`. -/
def TINT : Int := 260

/-- The token number `TCLASS`. -/
def TCLASS : Int := 264

/-- The token number `TLBRACE`. -/
def TLBRACE : Int := 275

/-- The token number `TRBRACE`. -/
def TRBRACE : Int := 276

/-- The token number `TSEMICOLON`. -/
def TSEMICOLON : Int := 283

/-- The token number `TPLUS`. -/
def TPLUS : Int := 286

/-- The token number `TMINUS`. -/
def TMINUS : Int := 287

/-- The token number `TMUL`. -/
def TMUL : Int := 288

/-- The token number `TDIV`. -/
def TDIV : Int := 289

/-- The token number `TEQUALS`. -/
def TEQUALS : Int := 291

/-- A location on one line. -/
def on_line (line : Int) : YYLTYPE := ⟨line, 1, line, 1⟩

/-- A token without value (a keyword or a punctuation mark) on line `line`. -/
def tok (yychar : Int) (line : Int) : qip_token := ⟨yychar, .garbage, on_line line⟩

/-- An operand of the examples: an integer literal or an identifier. -/
inductive qip_operand where
  | int (value : Int)
  | var (name : String)
deriving DecidableEq, Repr

/-- The token of an operand on line `line`: `TINT` with the value, or `TIDENTIFIER` with
the name. -/
def qip_operand.token (line : Int) : qip_operand → qip_token
  | .int value => ⟨TINT, .as_int_value value, on_line line⟩
  | .var name => ⟨TIDENTIFIER, .as_string (some name), on_line line⟩

/-- The token number of an operator. -/
def qip_ast_binop_e.yychar : qip_ast_binop_e → Int
  | .QIP_BINOP_PLUS => TPLUS
  | .QIP_BINOP_MINUS => TMINUS
  | .QIP_BINOP_MUL => TMUL
  | .QIP_BINOP_DIV => TDIV
  | .QIP_BINOP_EQUALS => TEQUALS

/-- The token of an operator on line `line`. -/
def qip_ast_binop_e.token (line : Int) (operator : qip_ast_binop_e) : qip_token :=
  tok operator.yychar line

/-- The rule of the grammar for an operator, `expr: expr TPLUS expr` and so on (rules 16 to
20 of `parser.c`). -/
def qip_ast_binop_e.rule : qip_ast_binop_e → Nat
  | .QIP_BINOP_PLUS => 16
  | .QIP_BINOP_MINUS => 17
  | .QIP_BINOP_MUL => 18
  | .QIP_BINOP_DIV => 19
  | .QIP_BINOP_EQUALS => 20

/-- The state of the parser in which `expr op expr` is on top of the stack. -/
def qip_ast_binop_e.state : qip_ast_binop_e → Nat
  | .QIP_BINOP_PLUS => 93
  | .QIP_BINOP_MINUS => 94
  | .QIP_BINOP_MUL => 95
  | .QIP_BINOP_DIV => 96
  | .QIP_BINOP_EQUALS => 97

/-- The state that the parser enters when it shifts an operator after an expression. -/
def qip_ast_binop_e.shift_state : qip_ast_binop_e → Nat
  | .QIP_BINOP_PLUS => 59
  | .QIP_BINOP_MINUS => 60
  | .QIP_BINOP_MUL => 61
  | .QIP_BINOP_DIV => 62
  | .QIP_BINOP_EQUALS => 63

/-- The precedence levels that the specification gives the operators: "multiplicatives
over additives over equality". -/
def qip_ast_binop_e.precedence : qip_ast_binop_e → Nat
  | .QIP_BINOP_EQUALS => 0
  | .QIP_BINOP_PLUS => 1
  | .QIP_BINOP_MINUS => 1
  | .QIP_BINOP_MUL => 2
  | .QIP_BINOP_DIV => 2

/-- The shape of an expression, written `binary-expr(+, 2, binary-expr(*, 3, 4))` in the
specification: operators and operands, without addresses, parents and positions. -/
inductive qip_shape where
  | operand (o : qip_operand)
  | binary_expr (operator : qip_ast_binop_e) (lhs rhs : qip_shape)
  | other
deriving DecidableEq, Repr

/-- The shape of a node. -/
def qip_ast_node.shape : qip_ast_node → qip_shape
  | .int_literal _ value => .operand (.int value)
  | .var_ref _ (some name) false [] none => .operand (.var name)
  | .binary_expr _ operator (some lhs) (some rhs) _ => .binary_expr operator lhs.shape rhs.shape
  | _ => .other

/-- The shapes of the statements of the main function of a module, `none` when the module
has no main function. -/
def main_shapes (module : Option qip_ast_node) : Option (List qip_shape) :=
  ((module.bind qip_ast_node.main_function).bind qip_ast_node.body).map
    (fun body => body.exprs.map (fun e => match e with
      | some n => n.shape
      | none => .other))

/-- The tokens of `a op1 b op2 c;` on line 1. -/
def expr_tokens (a : qip_operand) (op1 : qip_ast_binop_e) (b : qip_operand)
    (op2 : qip_ast_binop_e) (c : qip_operand) : List qip_token :=
  [a.token 1, op1.token 1, b.token 1, op2.token 1, c.token 1, tok TSEMICOLON 1]

/-- The shape that the precedence levels of the specification give `a op1 b op2 c`: the
operator of higher precedence binds its operands first, and of two operators of the same
precedence the left one does. -/
def precedence_shape (a : qip_operand) (op1 : qip_ast_binop_e) (b : qip_operand)
    (op2 : qip_ast_binop_e) (c : qip_operand) : qip_shape :=
  if op1.precedence < op2.precedence then
    .binary_expr op1 (.operand a) (.binary_expr op2 (.operand b) (.operand c))
  else .binary_expr op2 (.binary_expr op1 (.operand a) (.operand b)) (.operand c)

/-- A parse of the tokens `text` for the examples: an empty parser, addresses from 0 on,
and the text `syntax error` for every message of `yysyntax_error`. -/
def example_parse (fuel : Nat) (text : List qip_token) :
    Option (Int × qip_parser_t × Option qip_ast_node) :=
  qip_parser_parse (fun _ _ => "syntax error") fuel ⟨0, 0, 0, 0⟩ 0 ⟨[]⟩ (some "m") text

/-- The tokens of the source `class Foo { }`: a class declaration and no statement. -/
def class_only_tokens : List qip_token :=
  [tok TCLASS 1, ⟨TIDENTIFIER, .as_string (some "Foo"), on_line 1⟩, tok TLBRACE 1,
   tok TRBRACE 1]

/-- The tokens of the source `x;` `class Foo { }` `2 + 3;` `y;` on lines 1 to 4: three free
statements around a class declaration. -/
def mixed_tokens : List qip_token :=
  [(qip_operand.var "x").token 1, tok TSEMICOLON 1,
   tok TCLASS 2, ⟨TIDENTIFIER, .as_string (some "Foo"), on_line 2⟩, tok TLBRACE 2,
   tok TRBRACE 2,
   (qip_operand.int 2).token 3, tok TPLUS 3, (qip_operand.int 3).token 3, tok TSEMICOLON 3,
   (qip_operand.var "y").token 4, tok TSEMICOLON 4]

/-- The tokens of the source `2 + ;`, which has a syntax error. -/
def broken_tokens : List qip_token :=
  [(qip_operand.int 2).token 1, tok TPLUS 1, tok TSEMICOLON 1]

/-- The form that the global module `root` has from the set-up of `qip_parser_parse` on:
a module whose main function is named `main` and has a block as body. -/
def root_ok (root : qip_ast_node) : Prop :=
  ∃ h name classes fh ret args bh bname exprs bound,
    root = .module h name classes
      (some (.function fh (some "main") ret args (some (.block bh bname exprs)) bound))

/-- What `qip_parser_parse` hands back in `*module`: a module without main function, or
one whose main function is named `main` and has a block with at least one statement as
body. -/
def module_ok (module : qip_ast_node) : Prop :=
  ∃ h name classes,
    module = .module h name classes none ∨
    ∃ fh ret args bh bname exprs bound, exprs ≠ [] ∧
      module = .module h name classes
        (some (.function fh (some "main") ret args (some (.block bh bname exprs)) bound))

/-- Whether a decision of the parser in state `s` agrees with "rule `16 + k` (the rule of
an operator) is reduced in state `93 + k` only". -/
def yy_reduce_in_state (todo : yy_todo) (s : Nat) : Bool :=
  match todo with
  | .reduce n => decide (16 ≤ n ∧ n ≤ 20 → s = 77 + n)
  | _ => true

/-- The variables of `yyparse` on the source `a + b * c;` when `a + b` has been read and
`*` is the lookahead token: the states of `module`, `expr`, `+` and `expr + expr` are on
the stack. -/
def expr_plus_expr_state : yy_state :=
  { yyss := [93, 59, 19, 1, 0]
    yyvs := [.as_node (some (qip_ast_var_ref_create_value 4 (some "b"))), .garbage,
             .as_node (some (qip_ast_var_ref_create_value 3 (some "a"))), .garbage, .garbage]
    yyls := [on_line 1, on_line 1, on_line 1, on_line 1, on_line 1]
    yychar := TMUL
    yylval := .garbage
    yylloc := on_line 1
    yyerrstatus := 0
    input := [(qip_operand.var "c").token 1, tok TSEMICOLON 1]
    root := qip_parser_parse_setup 0 (some "m")
    parser := ⟨[]⟩
    heap := 5 }

/-! ## QIP: a bound of the length of a parse -/

/-- A rank of the states of the parser, from 0 to 13, that goes down along reductions: a
reduction by a rule of `n` symbols, which pops `n` states and pushes one, lowers the rank
of the state on top of the stack by more than twice the growth of the stack (`yy_reduce_ok`
and `yy_rank_goto_ok` check it against the tables). -/
def yy_rank : List Nat :=
  [12, 3, 13, 13, 13, 13, 13, 13, 13, 13, 13, 13, 13, 13, 13, 13, 13, 13, 4, 8, 12, 7, 12, 8,
   8, 12, 10, 11, 12, 12, 12, 12, 12, 10, 5, 12, 12, 12, 0, 12, 12, 12, 13, 13, 13, 13, 9, 12,
   13, 13, 9, 13, 12, 12, 11, 13, 13, 13, 13, 13, 13, 13, 13, 13, 13, 13, 13, 13, 13, 9, 13,
   13, 12, 9, 8, 13, 13, 12, 7, 8, 13, 9, 13, 13, 2, 3, 4, 12, 12, 13, 12, 10, 12, 9, 9, 9, 9,
   9, 9, 13, 13, 13, 12, 6, 13, 13, 12, 13, 13, 13, 12, 13, 9, 13, 13, 13, 13, 12, 13, 4, 13,
   13, 13, 13, 13, 13, 13, 9, 12, 13, 13, 13, 9, 13, 13, 9, 13, 13, 10, 13, 13, 13, 13, 10, 12,
   8, 9, 7, 8, 2, 13, 11, 12, 13, 13, 13, 12, 10, 11, 12, 2, 9, 12, 13, 13, 13, 13, 13, 13, 13,
   10, 13, 13, 13, 13, 13, 13, 2, 8, 12, 13, 11, 12, 7, 12, 13, 11, 13, 13, 13, 13, 12, 2, 13,
   12, 12, 13, 13, 13, 13, 13, 10, 12, 13, 13, 13, 13, 12, 2, 13]

/-- For each nonterminal (numbered from `YYNTOKENS` on), a bound of the rank of the states
that a reduction to it enters, whatever the state below. -/
def yy_rank_goto : List Nat :=
  [12, 3, 2, 3, 4, 9, 12, 7, 13, 8, 12, 12, 7, 8, 12, 7, 10, 9, 12, 10, 11, 12, 12, 12, 12, 8,
   12, 10, 12, 12, 10, 12, 10, 10, 11, 5, 13, 9, 12, 6, 12, 12, 12, 12, 9, 11, 12, 10, 11, 12,
   7, 12, 10, 11, 12, 12, 12]

/-- Whether `p j c v` holds for the entries `c` and `v` at every index `j` of two tables,
counted from the index of their first entries. -/
def yy_scan (p : Int → Int → Int → Bool) : Int → List Int → List Int → Bool
  | _, [], _ => true
  | _, _ :: _, [] => true
  | j, c :: cs, v :: vs => p j c v && yy_scan p (j + 1) cs vs

/-- Whether the state `yyn` that a shift enters is a state of the tables, and is the final
state when the symbol shifted is the end of the input. -/
def yy_shift_ok (yyn : Nat) (eof : Bool) : Bool :=
  decide (yyn < 210 ∧ (eof = true → yyn = YYFINAL))

/-- Whether the reduction by rule `yyn` in state `s` lowers the rank by more than twice the
growth of the stack: for an empty rule the new state lies on top of `s`; for a rule of
`n` symbols the bound `yy_rank_goto` of the new state is used, and the state on top of
state 0 when the stack holds fewer than `n` states. -/
def yy_reduce_ok (yyn s : Nat) : Bool :=
  decide (yyr1.getD yyn 0 - YYNTOKENS < 57 ∧
    if yyr2.getD yyn 0 = 0 then yy_rank.getD (yygoto yyn s) 0 + 3 ≤ yy_rank.getD s 0
    else yy_rank_goto.getD (yyr1.getD yyn 0 - YYNTOKENS) 0 + 3
        ≤ yy_rank.getD s 0 + 2 * yyr2.getD yyn 0 ∧
      yy_rank.getD (yygoto yyn 0) 0 + 1 ≤ yy_rank.getD s 0)

/-- Whether a decision of the parser in state `s` passes `yy_shift_ok` or `yy_reduce_ok`;
`eof` says that the lookahead symbol is the end of the input. -/
def yy_todo_ok (todo : yy_todo) (s : Nat) (eof : Bool) : Bool :=
  match todo with
  | .shift yyn => yy_shift_ok yyn eof
  | .reduce yyn => yy_reduce_ok yyn s
  | .errlab => true

/-- Whether the entry `v` of `yytable` at index `j`, with the entry `c` of `yycheck`,
passes `yy_todo_ok` when it is the action of state `s` for the symbol `c`. -/
def yy_entry_ok (s : Nat) (j c v : Int) : Bool :=
  decide (yypact.getD s 0 + c = j → 0 ≤ c → c < 42 →
    yy_todo_ok (if v ≤ 0 then .reduce (-v).toNat else .shift v.toNat) s (decide (c = 0)) = true)

/-- Whether the default action of state `s` and, unless the state has the default action
only, its actions in `yytable` pass `yy_todo_ok`. -/
def yy_state_ok (s : Nat) : Bool :=
  yy_todo_ok (yydefault s) s false
  && (decide (yypact.getD s 0 = YYPACT_NINF) || yy_scan (yy_entry_ok s) 0 yycheck yytable)

/-- Whether the entry `v` of `yytable` at index `j`, with the entry `c` of `yycheck`, is
a state of the tables with a rank within the bound `yy_rank_goto` when it is the state
that a reduction to the nonterminal `a` enters on top of state `c`. -/
def yy_goto_entry_ok (a : Nat) (j c v : Int) : Bool :=
  decide (yypgoto.getD a 0 + c = j → 0 ≤ c → c < 210 →
    v.toNat < 210 ∧ yy_rank.getD v.toNat 0 ≤ yy_rank_goto.getD a 0)

/-- Whether the states that a reduction to the nonterminal `a` enters, by default and by
`yytable`, are states of the tables with a rank within the bound `yy_rank_goto`. -/
def yy_rank_goto_ok (a : Nat) : Bool :=
  decide ((yydefgoto.getD a 0).toNat < 210
    ∧ yy_rank.getD (yydefgoto.getD a 0).toNat 0 ≤ yy_rank_goto.getD a 0)
  && yy_scan (yy_goto_entry_ok a) 0 yycheck yytable

/-- Whether state `yystate` has no shift of the error token (the test of the loop of
`yyerrlab1` fails). -/
def yy_no_error_shift (yystate : Nat) : Bool :=
  decide (¬ (yypact.getD yystate 0 ≠ YYPACT_NINF ∧ 0 ≤ yypact.getD yystate 0 + YYTERROR
    ∧ yypact.getD yystate 0 + YYTERROR ≤ YYLAST
    ∧ yycheck.getD (yypact.getD yystate 0 + YYTERROR).toNat 0 = YYTERROR
    ∧ 0 < yytable.getD (yypact.getD yystate 0 + YYTERROR).toNat 0))

/-- The number of tokens that the parser has still to shift, the end of the input
included: the tokens that the lexer has not handed over and the lookahead token. -/
def yy_pending (st : yy_state) : Nat :=
  if st.yychar = YYEMPTY then st.input.length + 1
  else if st.yychar ≤ YYEOF then 1
  else st.input.length + 2

/-- A bound of the number of states that `yyparse` still pushes: it goes down at every
shift of a token (by the token) and at every reduction (by the rank and the depth of the
stack). -/
def yy_potential (st : yy_state) : Nat :=
  16 * yy_pending st + yy_rank.getD (st.yyss.headD 0) 0 + 2 * st.yyss.length

/-- The state stack is not empty and holds states of the tables. -/
def yy_inv (st : yy_state) : Prop :=
  st.yyss ≠ [] ∧ ∀ s ∈ st.yyss, s < 210

/-! ## Blocks and the events that `sky_path_unpack` makes of them -/

/-- The event that `sky_path_unpack` makes of the record of `e` in iteration `index`: the
event that `sky_event_create` allocates at `alloc index` for the object of the block, with
the timestamp, the action and the data of the record. -/
def sky_event_decoded {D : Type} (alloc : Nat → Nat) (object_id index : Nat)
    (e : sky_event D) : sky_event D :=
  { addr := alloc index, object_id := object_id, timestamp := e.timestamp,
    action_id := e.action_id, data := e.data }

/-- The events that `sky_path_unpack` makes of the records of `es`, from iteration `index`
on. -/
def sky_events_decoded {D : Type} (alloc : Nat → Nat) (object_id : Nat) :
    Nat → List (sky_event D) → List (sky_event D)
  | _, [] => []
  | index, e :: es =>
    sky_event_decoded alloc object_id index e :: sky_events_decoded alloc object_id (index + 1) es

/-- The raw path block of object `object_id` that holds the records of the events `es`:
`[object_id: u64][event_data_length: u32][events]`. -/
def sky_path_block {D : Type} (C : sky_event_data_codec D) (object_id : Nat)
    (es : List (sky_event D)) : List Nat :=
  le_bytes 8 object_id ++ le_bytes 4 ((es.map (sky_event_sizeof C)).sum)
    ++ sky_events_bytes C es

/-- A path of object 0 that holds the action event of `tie_action`. -/
def zero_id_path : sky_path Nat :=
  { object_id := 0, events := [tie_action 1] }

/-! ## QIP: copying a binary expression (`qip/binary_expr.c`) -/

/-- The field `node->binary_expr.lhs`; a node of another kind has none. -/
def qip_ast_node.lhs : qip_ast_node → Option qip_ast_node
  | .binary_expr _ _ lhs _ _ => lhs
  | _ => none

/-- The field `node->binary_expr.rhs`; a node of another kind has none. -/
def qip_ast_node.rhs : qip_ast_node → Option qip_ast_node
  | .binary_expr _ _ _ rhs _ => rhs
  | _ => none

/-- The field `node->binary_expr.boolean_type_ref`; a node of another kind has none. -/
def qip_ast_node.boolean_type_ref : qip_ast_node → Option qip_ast_node
  | .binary_expr _ _ _ _ b => b
  | _ => none

/-- The field `node->binary_expr.operator`, if the node is a binary expression. -/
def qip_ast_node.operator : qip_ast_node → Option qip_ast_binop_e
  | .binary_expr _ operator _ _ _ => some operator
  | _ => none

/-- The assignment `node->binary_expr.lhs = lhs`. -/
def qip_ast_node.set_lhs (lhs : Option qip_ast_node) : qip_ast_node → qip_ast_node
  | .binary_expr h o _ r b => .binary_expr h o lhs r b
  | n => n

/-- The assignment `node->binary_expr.rhs = rhs`. -/
def qip_ast_node.set_rhs (rhs : Option qip_ast_node) : qip_ast_node → qip_ast_node
  | .binary_expr h o l _ b => .binary_expr h o l rhs b
  | n => n

/-- The function `qip_ast_binary_expr_copy` of `binary_expr.c` (lines 76-100). `node` is
the node to copy (`none` for `NULL`), `ret` says that the return pointer is not null and
`heap` is the next free address. `qip_ast_node_copy` is the function of the missing
`node.c` that copies a child: given the child and the next free address it returns its
return code, what it stores through its second argument and the next free address.
Returns the return code, `*ret` and the next free address. A node of another kind, whose
fields the source would misread, is an error here. -/
def qip_ast_binary_expr_copy
    (qip_ast_node_copy : Option qip_ast_node → Nat → Int × Option qip_ast_node × Nat)
    (heap : Nat) (node : Option qip_ast_node) (ret : Bool) :
    Int × Option qip_ast_node × Nat :=
  match node, ret with
  | some (.binary_expr _ operator lhs rhs _), true =>
    let clone := qip_ast_binary_expr_create heap operator none none
    let (rc, child, heap) := qip_ast_node_copy lhs (heap + 2)
    let clone := clone.set_lhs child
    if rc ≠ 0 then (-1, none, heap)
    else
      let clone := clone.set_lhs (adopt clone.addr clone.lhs)
      let (rc, child, heap) := qip_ast_node_copy rhs heap
      let clone := clone.set_rhs child
      if rc ≠ 0 then (-1, none, heap)
      else
        let clone := clone.set_rhs (adopt clone.addr clone.rhs)
        (0, some clone, heap)
  | _, _ => (-1, none, heap)

/-- An instance of the missing `qip_ast_node_copy`, for examples: `NULL` is copied to
`NULL`; a node is copied to the next free address, without parent, with its line and
column, and keeps its fields (the examples copy nodes without children). -/
def example_copy (node : Option qip_ast_node) (heap : Nat) :
    Int × Option qip_ast_node × Nat :=
  match node with
  | none => (0, none, heap)
  | some n =>
    (0, some (n.map_hdr (fun h => { h with addr := heap, parent := none })), heap + 1)

/-! ## QIP: what the parser has read when it stops -/

/-- The variables of `yyparse` on the source `a - b - c;` when `a - b` has been read and
the second `-` is the lookahead token. -/
def expr_minus_expr_state : yy_state :=
  { yyss := [94, 60, 19, 1, 0]
    yyvs := [.as_node (some (qip_ast_var_ref_create_value 4 (some "b"))), .garbage,
             .as_node (some (qip_ast_var_ref_create_value 3 (some "a"))), .garbage, .garbage]
    yyls := [on_line 1, on_line 1, on_line 1, on_line 1, on_line 1]
    yychar := TMINUS
    yylval := .garbage
    yylloc := on_line 1
    yyerrstatus := 0
    input := [(qip_operand.var "c").token 1, tok TSEMICOLON 1]
    root := qip_parser_parse_setup 0 (some "m")
    parser := ⟨[]⟩
    heap := 5 }

/-- The location that `yylloc` holds when the lexer has handed over the tokens `pre`: the
location of the last of them, or the initial location of `yyparse` when there is none. -/
def yy_last_loc (pre : List qip_token) : YYLTYPE :=
  (pre.getLast?.map (fun t => t.yylloc)).getD ⟨1, 1, 1, 1⟩

/-- The lexer has handed over a first part of the tokens `text` and `yylloc` is the
location of the last token handed over; a lookahead token that is not the end of the
input is that last token. -/
def yy_lexed (text : List qip_token) (st : yy_state) : Prop :=
  (∃ pre, text = pre ++ st.input ∧ st.yylloc = yy_last_loc pre) ∧
  (0 < st.yychar →
    ∃ pre t, text = pre ++ t :: st.input ∧ t.yychar = st.yychar ∧ t.yylloc = st.yylloc)

/-- Whether state `yystate`, if it has the default action only, has a default reduction:
such a state does not detect an error before a lookahead token is read. -/
def yy_default_reduces (yystate : Nat) : Bool :=
  decide (yypact.getD yystate 0 = YYPACT_NINF → yydefact.getD yystate 0 ≠ 0)

/-- The tokens of the source `2`, `+`, `;` on lines 1, 2 and 3: the syntax error is at the
token `;` of line 3. -/
def broken_lines_tokens : List qip_token :=
  [(qip_operand.int 2).token 1, tok TPLUS 2, tok TSEMICOLON 3]

/-! # Theorems -/

/-! ## `compare_events` -/

section Compare

variable {D : Type}

theorem compare_events_le_iff (a b : sky_event D) :
    compare_events a b ≤ 0 ↔ data_last a b := by
  unfold compare_events data_last
  by_cases h1 : a.timestamp > b.timestamp
  · simp only [h1, if_true]
    constructor
    · intro h; omega
    · rintro (h | ⟨h, _⟩) <;> omega
  · by_cases h2 : a.timestamp < b.timestamp
    · simp [h1, h2]
    · have heq : a.timestamp = b.timestamp := by omega
      by_cases ha : a.data_count > 0 <;> by_cases hb : b.data_count > 0 <;>
        simp [h1, h2, heq, ha, hb] <;> omega

theorem compare_events_total (a b : sky_event D) :
    compare_events a b ≤ 0 ∨ compare_events b a ≤ 0 := by
  rw [compare_events_le_iff, compare_events_le_iff]
  unfold data_last
  omega

theorem compare_events_trans (a b c : sky_event D) (hab : compare_events a b ≤ 0)
    (hbc : compare_events b c ≤ 0) : compare_events a c ≤ 0 := by
  rw [compare_events_le_iff] at *
  unfold data_last at *
  omega

theorem ordered_insert_perm (e : sky_event D) (l : List (sky_event D)) :
    (ordered_insert e l).Perm (e :: l) := by
  induction l with
  | nil => exact List.Perm.refl _
  | cons x xs ih =>
    unfold ordered_insert
    split
    · exact List.Perm.refl _
    · exact (List.Perm.cons x ih).trans (List.Perm.swap e x xs)

theorem ordered_insert_pairwise (e : sky_event D) (l : List (sky_event D))
    (hl : l.Pairwise (fun a b => compare_events a b ≤ 0)) :
    (ordered_insert e l).Pairwise (fun a b => compare_events a b ≤ 0) := by
  induction l with
  | nil => simp [ordered_insert]
  | cons x xs ih =>
    rw [List.pairwise_cons] at hl
    unfold ordered_insert
    split
    · rename_i hle
      refine List.pairwise_cons.mpr ⟨?_, List.pairwise_cons.mpr hl⟩
      intro y hy
      rcases List.mem_cons.mp hy with rfl | hy
      · exact hle
      · exact compare_events_trans _ _ _ hle (hl.1 y hy)
    · rename_i hle
      have hxe : compare_events x e ≤ 0 := by
        rcases compare_events_total e x with h | h
        · exact absurd h hle
        · exact h
      refine List.pairwise_cons.mpr ⟨?_, ih hl.2⟩
      intro y hy
      rcases List.mem_cons.mp ((ordered_insert_perm e xs).mem_iff.mp hy) with rfl | hy
      · exact hxe
      · exact hl.1 y hy

theorem insertion_qsort_correct : qsort_correct (insertion_qsort : List (sky_event D) → _) := by
  intro l
  induction l with
  | nil => exact ⟨List.Perm.refl _, List.Pairwise.nil⟩
  | cons x xs ih =>
    refine ⟨?_, ordered_insert_pairwise _ _ ih.2⟩
    exact (ordered_insert_perm x _).trans (List.Perm.cons x ih.1)

end Compare

/-! ## `sky_path_add_event` -/

section AddEvent

variable {D : Type}

theorem sky_path_add_event_ok (qsort : List (sky_event D) → List (sky_event D))
    (path : sky_path D) (e : sky_event D) (h0 : path.object_id ≠ 0)
    (hid : path.object_id = e.object_id) (hnew : ∀ x ∈ path.events, x.addr ≠ e.addr) :
    sky_path_add_event qsort path e
      = (0, { object_id := path.object_id, events := qsort (path.events ++ [e]) }) := by
  have hany : path.events.any (fun x => x.addr == e.addr) = false := by
    rw [List.any_eq_false]
    intro x hx
    simpa using hnew x hx
  have h0e : e.object_id ≠ 0 := hid ▸ h0
  simp [sky_path_add_event, h0e, hid, hany, sort_events]

theorem sky_path_add_events_ok (qsort : List (sky_event D) → List (sky_event D))
    (hq : qsort_correct qsort) :
    ∀ (es : List (sky_event D)) (path : sky_path D), path.object_id ≠ 0 →
      (∀ e ∈ es, e.object_id = path.object_id) →
      ((path.events ++ es).map (fun e => e.addr)).Nodup →
      path.events.Pairwise (fun a b => compare_events a b ≤ 0) →
      ∃ p, sky_path_add_events qsort path es = some p ∧ p.object_id = path.object_id ∧
        p.events.Perm (path.events ++ es) ∧
        p.events.Pairwise (fun a b => compare_events a b ≤ 0) := by
  intro es
  induction es with
  | nil =>
    intro path _ _ _ hs
    exact ⟨path, rfl, rfl, by simp, hs⟩
  | cons e es ih =>
    intro path h0 hid hnd _
    have hnew : ∀ x ∈ path.events, x.addr ≠ e.addr := by
      intro x hx heq
      rw [List.map_append, List.nodup_append] at hnd
      exact hnd.2.2 (List.mem_map_of_mem _ hx)
        (by rw [heq]; exact List.mem_map_of_mem _ (List.mem_cons_self e es))
    have hstep := sky_path_add_event_ok qsort path e h0
      (hid e (List.mem_cons_self e es)).symm hnew
    have hperm := (hq (path.events ++ [e])).1
    have hnd2 : (((qsort (path.events ++ [e])) ++ es).map (fun e => e.addr)).Nodup := by
      have hp : ((qsort (path.events ++ [e])) ++ es).Perm (path.events ++ e :: es) := by
        have := List.Perm.append_right es hperm
        simpa using this
      exact (List.Perm.nodup_iff (List.Perm.map _ hp)).mpr hnd
    obtain ⟨p, hp1, hp2, hp3, hp4⟩ :=
      ih { object_id := path.object_id, events := qsort (path.events ++ [e]) } h0
        (fun x hx => hid x (List.mem_cons_of_mem e hx)) hnd2 (hq _).2
    refine ⟨p, ?_, hp2, ?_, hp4⟩
    · simp [sky_path_add_events, hstep, hp1]
    · refine hp3.trans ?_
      have := List.Perm.append_right es hperm
      simpa using this

end AddEvent

/-- C2 (the code at the claim's inputs): for events `a`, `b` with equal timestamps, `a`
with data (`data_count > 0`) and `b` without, `compare_events(a, b)` is 1 and
`compare_events(b, a)` is -1: the data-carrying event sorts after the pure action
event, the reverse of the claimed order. -/
theorem compare_events_tie_data_after {D : Type} (a b : sky_event D)
    (hts : a.timestamp = b.timestamp) (ha : a.data_count > 0) (hb : b.data_count = 0) :
    compare_events a b = 1 ∧ compare_events b a = -1 := by
  unfold compare_events
  simp [hts, ha, hb]

theorem compare_events_tie_data_after_witness :
    (tie_data 2).timestamp = (tie_action 1).timestamp ∧ (tie_data 2).data_count > 0 ∧
      (tie_action 1).data_count = 0 ∧
      compare_events (tie_data 2) (tie_action 1) = 1 ∧
      compare_events (tie_action 1) (tie_data 2) = -1 :=
  ⟨rfl, by decide, by decide,
    compare_events_tie_data_after (tie_data 2) (tie_action 1) rfl (by decide) (by decide)⟩

theorem tie_sorted_forms (l : List (sky_event Nat))
    (hperm : l.Perm [tie_action 1, tie_data 2, tie_action 3])
    (hs : l.Pairwise (fun a b => compare_events a b ≤ 0)) :
    l = [tie_action 1, tie_action 3, tie_data 2] ∨
      l = [tie_action 3, tie_action 1, tie_data 2] := by
  have hlen : l.length = 3 := by simpa using hperm.length_eq
  obtain ⟨x, y, z, rfl⟩ := List.length_eq_three.mp hlen
  have hnd : [x, y, z].Nodup := hperm.nodup_iff.mpr (by decide)
  have hx := hperm.mem_iff.mp (List.mem_cons_self x _)
  have hy := hperm.mem_iff.mp (show y ∈ [x, y, z] by simp)
  have hz := hperm.mem_iff.mp (show z ∈ [x, y, z] by simp)
  simp only [List.mem_cons, List.mem_singleton, List.not_mem_nil, or_false] at hx hy hz
  clear hperm hlen
  rcases hx with rfl | rfl | rfl <;> rcases hy with rfl | rfl | rfl <;>
    rcases hz with rfl | rfl | rfl <;> revert hnd hs <;> decide

/-- C1 (the code at the failing input): for every `qsort` that sorts by `compare_events`,
adding the three events of object 1 at timestamp 5 with `data_count`s (0, 1, 0) in any
order to the path of `sky_path_create(1)` succeeds and leaves the `data_count = 1` event
last, so the adjacent pair before it breaks the claimed order (data first on a tie). -/
theorem sky_path_add_event_tie_data_last
    (qsort : List (sky_event Nat) → List (sky_event Nat)) (hq : qsort_correct qsort)
    (es : List (sky_event Nat)) (hes : es.Perm [tie_action 1, tie_data 2, tie_action 3]) :
    ∃ p, sky_path_add_events qsort (sky_path_create 1) es = some p ∧
      p.events.getLast? = some (tie_data 2) ∧ ¬ p.events.Chain' data_first := by
  have hid : ∀ e ∈ es, e.object_id = (sky_path_create 1 : sky_path Nat).object_id := by
    intro e he
    have := hes.mem_iff.mp he
    simp only [List.mem_cons, List.mem_singleton, List.not_mem_nil, or_false] at this
    rcases this with rfl | rfl | rfl <;> rfl
  have hnd : (((sky_path_create 1 : sky_path Nat).events ++ es).map (fun e => e.addr)).Nodup := by
    have : (es.map (fun e => e.addr)).Perm
        ([tie_action 1, tie_data 2, tie_action 3].map (fun e => e.addr)) := List.Perm.map _ hes
    simpa [sky_path_create] using this.nodup_iff.mpr (by decide)
  obtain ⟨p, hp1, _, hp3, hp4⟩ :=
    sky_path_add_events_ok qsort hq es (sky_path_create 1) (by decide) hid hnd List.Pairwise.nil
  have hp3 : p.events.Perm [tie_action 1, tie_data 2, tie_action 3] := by
    have : p.events.Perm es := by simpa [sky_path_create] using hp3
    exact this.trans hes
  refine ⟨p, hp1, ?_⟩
  rcases tie_sorted_forms p.events hp3 hp4 with h | h <;> rw [h] <;>
    refine ⟨by decide, ?_⟩ <;>
    simp [List.chain'_cons, data_first, tie_action, tie_data, sky_event.data_count]

theorem sky_path_add_event_tie_data_last_witness :
    qsort_correct (insertion_qsort : List (sky_event Nat) → List (sky_event Nat)) ∧
    [tie_data 2, tie_action 3, tie_action 1].Perm [tie_action 1, tie_data 2, tie_action 3] ∧
    ∃ p, sky_path_add_events insertion_qsort (sky_path_create 1)
        [tie_data 2, tie_action 3, tie_action 1] = some p ∧
      p.events.getLast? = some (tie_data 2) ∧ ¬ p.events.Chain' data_first :=
  ⟨insertion_qsort_correct, by decide,
    sky_path_add_event_tie_data_last insertion_qsort insertion_qsort_correct
      [tie_data 2, tie_action 3, tie_action 1] (by decide)⟩

/-! ## Bytes -/

theorem le_bytes_length (n v : Nat) : (le_bytes n v).length = n := by
  induction n generalizing v with
  | zero => rfl
  | succ n ih => simp [le_bytes, ih]

theorem le_val_le_bytes (n v : Nat) : le_val (le_bytes n v) = v % 256 ^ n := by
  induction n generalizing v with
  | zero => simp [le_bytes, le_val, Nat.mod_one]
  | succ n ih =>
    simp only [le_bytes, le_val, ih, Nat.mod_mod]
    rw [pow_succ, Nat.mul_comm (256 ^ n) 256, Nat.mod_mul]

theorem mem_read_of_drop (mem : List Nat) (ptr n v : Nat) (rest : List Nat)
    (h : mem.drop ptr = le_bytes n v ++ rest) : mem_read mem ptr n = v % 256 ^ n := by
  unfold mem_read
  rw [h, List.take_left' (le_bytes_length n v), le_val_le_bytes]

theorem drop_add_of_drop (mem : List Nat) (ptr : Nat) (a b : List Nat)
    (h : mem.drop ptr = a ++ b) : mem.drop (ptr + a.length) = b := by
  rw [← List.drop_drop, h, List.drop_left]

theorem of_i64_lt (t : Int) : of_i64 t < 2 ^ 64 := by
  unfold of_i64
  have h1 : 0 ≤ t % (2 : Int) ^ 64 := Int.emod_nonneg _ (by norm_num)
  have h2 : t % (2 : Int) ^ 64 < (2 : Int) ^ 64 := Int.emod_lt_of_pos _ (by norm_num)
  omega

theorem to_i64_of_i64 (t : Int) (h1 : -(2 : Int) ^ 63 ≤ t) (h2 : t < (2 : Int) ^ 63) :
    to_i64 (of_i64 t) = t := by
  have hlt := of_i64_lt t
  unfold to_i64
  rw [Nat.mod_eq_of_lt hlt]
  unfold of_i64 at *
  have h3 : 0 ≤ t % (2 : Int) ^ 64 := Int.emod_nonneg _ (by norm_num)
  by_cases ht : 0 ≤ t
  · have : t % (2 : Int) ^ 64 = t := Int.emod_eq_of_lt ht (by omega)
    rw [this]
    have h4 : t.toNat < 2 ^ 63 := by omega
    simp only [h4, if_true]
    omega
  · have : t % (2 : Int) ^ 64 = t + (2 : Int) ^ 64 := by
      rw [← Int.add_emod_self]
      exact Int.emod_eq_of_lt (by omega) (by omega)
    rw [this]
    have h4 : ¬ (t + (2 : Int) ^ 64).toNat < 2 ^ 63 := by omega
    simp only [h4, if_false]
    omega

/-! ## Raw event headers -/

theorem sky_event_pack_hdr_length (t : Int) (a d : Nat) :
    (sky_event_pack_hdr t a d).length = 16 := by
  simp [sky_event_pack_hdr, le_bytes_length]

theorem sky_event_unpack_hdr_of_drop (mem : List Nat) (ptr : Nat) (t : Int) (a d : Nat)
    (rest : List Nat) (h : mem.drop ptr = sky_event_pack_hdr t a d ++ rest)
    (h1 : -(2 : Int) ^ 63 ≤ t) (h2 : t < (2 : Int) ^ 63) (ha : a < 2 ^ 32) (hd : d < 2 ^ 32) :
    sky_event_unpack_hdr mem ptr = (0, t, a, d, 16) := by
  unfold sky_event_pack_hdr at h
  have e1 : mem_read mem ptr 8 = of_i64 t := by
    rw [mem_read_of_drop mem ptr 8 (of_i64 t) (le_bytes 4 a ++ le_bytes 4 d ++ rest)
      (by simpa using h)]
    exact Nat.mod_eq_of_lt (of_i64_lt t)
  have h8 : mem.drop (ptr + 8) = le_bytes 4 a ++ (le_bytes 4 d ++ rest) := by
    have := drop_add_of_drop mem ptr (le_bytes 8 (of_i64 t)) (le_bytes 4 a ++ (le_bytes 4 d ++ rest))
      (by simpa using h)
    simpa [le_bytes_length] using this
  have e2 : mem_read mem (ptr + 8) 4 = a := by
    rw [mem_read_of_drop mem (ptr + 8) 4 a _ h8]
    exact Nat.mod_eq_of_lt ha
  have h12 : mem.drop (ptr + 12) = le_bytes 4 d ++ rest := by
    have := drop_add_of_drop mem (ptr + 8) (le_bytes 4 a) (le_bytes 4 d ++ rest) h8
    simpa [le_bytes_length, Nat.add_assoc] using this
  have e3 : mem_read mem (ptr + 12) 4 = d := by
    rw [mem_read_of_drop mem (ptr + 12) 4 d _ h12]
    exact Nat.mod_eq_of_lt hd
  simp [sky_event_unpack_hdr, e1, e2, e3, to_i64_of_i64 t h1 h2, SKY_EVENT_HEADER_LENGTH]

theorem sky_event_sizeof_raw_of_drop (mem : List Nat) (ptr : Nat) (t : Int) (a d : Nat)
    (rest : List Nat) (h : mem.drop ptr = sky_event_pack_hdr t a d ++ rest)
    (h1 : -(2 : Int) ^ 63 ≤ t) (h2 : t < (2 : Int) ^ 63) (ha : a < 2 ^ 32) (hd : d < 2 ^ 32) :
    sky_event_sizeof_raw mem ptr = 16 + d := by
  have := sky_event_unpack_hdr_of_drop mem ptr t a d rest h h1 h2 ha hd
  simp only [sky_event_unpack_hdr, Prod.mk.injEq] at this
  simp [sky_event_sizeof_raw, this.2.2.2.1, SKY_EVENT_HEADER_LENGTH]

/-! ## Raw path headers -/

theorem sky_path_sizeof_raw_eq (mem : List Nat) (ptr : Nat) :
    sky_path_sizeof_raw mem ptr = 12 + mem_read mem (ptr + 8) 4 := by
  simp [sky_path_sizeof_raw, SKY_OBJECT_ID_SIZE, SKY_PATH_EVENT_DATA_LENGTH_SIZE]

theorem path_hdr_read (mem : List Nat) (ptr oid len : Nat) (rest : List Nat)
    (h : mem.drop ptr = le_bytes 8 oid ++ le_bytes 4 len ++ rest) :
    mem_read mem ptr 8 = oid % 2 ^ 64 ∧ mem_read mem (ptr + 8) 4 = len % 2 ^ 32 ∧
      mem.drop (ptr + 12) = rest := by
  have e1 : mem_read mem ptr 8 = oid % 2 ^ 64 := by
    rw [mem_read_of_drop mem ptr 8 oid (le_bytes 4 len ++ rest) (by simpa using h)]
    norm_num
  have h8 : mem.drop (ptr + 8) = le_bytes 4 len ++ rest := by
    have := drop_add_of_drop mem ptr (le_bytes 8 oid) (le_bytes 4 len ++ rest) (by simpa using h)
    simpa [le_bytes_length] using this
  have e2 : mem_read mem (ptr + 8) 4 = len % 2 ^ 32 := by
    rw [mem_read_of_drop mem (ptr + 8) 4 len rest h8]
    norm_num
  have h12 : mem.drop (ptr + 12) = rest := by
    have := drop_add_of_drop mem (ptr + 8) (le_bytes 4 len) rest h8
    simpa [le_bytes_length, Nat.add_assoc] using this
  exact ⟨e1, e2, h12⟩

/-- C5: for a raw path block whose header holds the object id and the 32-bit event data
length `len`, placed anywhere in memory, `sky_path_sizeof_raw` returns
`SKY_PATH_HEADER_LENGTH` = 12 = 8 + 4 plus the unsigned 32-bit value stored at byte
offset 8 of the block, which is `len`: the block length comes from the header alone,
whatever follows the header. -/
theorem sky_path_sizeof_raw_header (before rest : List Nat) (oid len : Nat)
    (hlen : len < 2 ^ 32) :
    sky_path_sizeof_raw (before ++ (le_bytes 8 oid ++ le_bytes 4 len ++ rest)) before.length
        = SKY_PATH_HEADER_LENGTH
          + mem_read (before ++ (le_bytes 8 oid ++ le_bytes 4 len ++ rest)) (before.length + 8) 4 ∧
      mem_read (before ++ (le_bytes 8 oid ++ le_bytes 4 len ++ rest)) (before.length + 8) 4 = len ∧
      SKY_PATH_HEADER_LENGTH = SKY_OBJECT_ID_SIZE + SKY_PATH_EVENT_DATA_LENGTH_SIZE ∧
      SKY_PATH_HEADER_LENGTH = 12 := by
  have h := path_hdr_read (before ++ (le_bytes 8 oid ++ le_bytes 4 len ++ rest)) before.length
    oid len rest (List.drop_left _ _)
  refine ⟨?_, ?_, rfl, rfl⟩
  · rw [sky_path_sizeof_raw_eq]; rfl
  · rw [h.2.1]; exact Nat.mod_eq_of_lt hlen

theorem sky_path_sizeof_raw_header_witness :
    16 < 2 ^ 32 ∧
    sky_path_sizeof_raw ([7, 7] ++ (le_bytes 8 1 ++ le_bytes 4 16 ++ [])) 2
        = SKY_PATH_HEADER_LENGTH + mem_read ([7, 7] ++ (le_bytes 8 1 ++ le_bytes 4 16 ++ [])) (2 + 8) 4 ∧
      mem_read ([7, 7] ++ (le_bytes 8 1 ++ le_bytes 4 16 ++ [])) (2 + 8) 4 = 16 ∧
      SKY_PATH_HEADER_LENGTH = SKY_OBJECT_ID_SIZE + SKY_PATH_EVENT_DATA_LENGTH_SIZE ∧
      SKY_PATH_HEADER_LENGTH = 12 :=
  ⟨by norm_num, sky_path_sizeof_raw_header [7, 7] [] 1 16 (by norm_num)⟩

/-! ## The loop of `sky_path_get_event_stats` on a well-formed block -/

theorem raw_event_bytes_length (r : raw_event) : r.bytes.length = r.size := by
  simp [raw_event.bytes, raw_event.size, sky_event_pack_hdr_length, SKY_EVENT_HEADER_LENGTH]

theorem raw_events_bytes_length (rs : List raw_event) :
    (raw_events_bytes rs).length = raw_events_size rs := by
  induction rs with
  | nil => rfl
  | cons r rs ih => simp [raw_events_bytes, raw_events_size, raw_event_bytes_length, ih]

theorem raw_events_size_pos (r : raw_event) (rs : List raw_event) :
    16 ≤ raw_events_size (r :: rs) := by
  simp only [raw_events_size, raw_event.size, SKY_EVENT_HEADER_LENGTH]
  omega

theorem sky_cursor_next_step (mem : List Nat) (c : sky_cursor) (n : Nat)
    (hn : sky_event_sizeof_raw mem c.ptr = n) (hlt : c.ptr + n < c.endptr) :
    sky_cursor_next mem c
      = (0, { c with ptr := c.ptr + n, event_index := c.event_index + 1 }) := by
  have : ¬ c.ptr + n ≥ c.endptr := by omega
  simp [sky_cursor_next, hn, this]

theorem sky_cursor_next_last (mem : List Nat) (c : sky_cursor) (n : Nat)
    (hn : sky_event_sizeof_raw mem c.ptr = n) (hge : c.endptr ≤ c.ptr + n)
    (hp : c.path_count ≤ c.path_index + 1) :
    sky_cursor_next mem c
      = (0, { c with ptr := c.ptr + n, event_index := 0, path_index := c.path_index + 1,
                     eof := true }) := by
  have h1 : c.ptr + n ≥ c.endptr := hge
  have h2 : ¬ c.path_index + 1 < c.path_count := by omega
  simp [sky_cursor_next, hn, h1, h2]

theorem stats_loop_walk {D : Type} (mem : List Nat) (path_ptr : Nat)
    (event : Option (sky_event D)) (len : Nat) (post : List Nat) :
    ∀ (rs : List raw_event) (fuel : Nat) (c : sky_cursor) (last : Int)
      (acc : List sky_path_event_stat) (off : Nat),
      (∀ r ∈ rs, r.wf) →
      mem.drop (path_ptr + off) = raw_events_bytes rs ++ post →
      rs.length ≤ fuel →
      (rs = [] → c.eof = true) →
      (rs ≠ [] → c.eof = false ∧ c.ptr = path_ptr + off ∧
        c.endptr = path_ptr + off + raw_events_size rs ∧ c.path_count ≤ c.path_index + 1) →
      sky_path_get_event_stats_loop mem path_ptr event len fuel c last acc
        = some (0, walk_last last rs, acc ++ walk_stats (incoming event len) last off rs) := by
  intro rs
  induction rs with
  | nil =>
    intro fuel c last acc off _ _ _ he _
    have heof := he rfl
    cases fuel <;> simp [sky_path_get_event_stats_loop, heof, walk_last, walk_stats]
  | cons r rs ih =>
    intro fuel c last acc off hwf hdrop hfuel _ hne
    obtain ⟨heof, hptr, hend, hpc⟩ := hne (List.cons_ne_nil r rs)
    obtain ⟨f, rfl⟩ : ∃ f, fuel = f + 1 := ⟨fuel - 1, by simp at hfuel; omega⟩
    obtain ⟨hw1, hw2, hw3, hw4⟩ := hwf r (List.mem_cons_self r rs)
    have hdrop1 : mem.drop c.ptr = sky_event_pack_hdr r.timestamp r.action_id r.data.length
        ++ (r.data ++ (raw_events_bytes rs ++ post)) := by
      rw [hptr, hdrop]; simp [raw_events_bytes, raw_event.bytes]
    have hh := sky_event_unpack_hdr_of_drop mem c.ptr _ _ _ _ hdrop1 hw1 hw2 hw3 hw4
    have hsz := sky_event_sizeof_raw_of_drop mem c.ptr _ _ _ _ hdrop1 hw1 hw2 hw3 hw4
    have hsz2 : sky_event_sizeof_raw mem c.ptr = r.size := by
      rw [hsz]; simp [raw_event.size, SKY_EVENT_HEADER_LENGTH]
    have hdrop2 : mem.drop (path_ptr + (off + r.size)) = raw_events_bytes rs ++ post := by
      have := drop_add_of_drop mem (path_ptr + off) r.bytes (raw_events_bytes rs ++ post)
        (by rw [hdrop]; simp [raw_events_bytes])
      rw [raw_event_bytes_length] at this
      rw [← Nat.add_assoc]; exact this
    have hoff : c.ptr - path_ptr = off := by omega
    have hstep : ∃ c', sky_cursor_next mem c = (0, c') ∧ (rs = [] → c'.eof = true) ∧
        (rs ≠ [] → c'.eof = false ∧ c'.ptr = path_ptr + (off + r.size) ∧
          c'.endptr = path_ptr + (off + r.size) + raw_events_size rs ∧
          c'.path_count ≤ c'.path_index + 1) := by
      cases rs with
      | nil =>
        refine ⟨_, sky_cursor_next_last mem c r.size hsz2 ?_ hpc, fun _ => rfl, fun h => absurd rfl h⟩
        rw [hend, hptr]; simp [raw_events_size]
      | cons r2 rs2 =>
        have hpos := raw_events_size_pos r2 rs2
        refine ⟨_, sky_cursor_next_step mem c r.size hsz2 ?_, fun h => (by simp at h), fun _ => ?_⟩
        · rw [hend, hptr]; simp only [raw_events_size] at hpos ⊢; omega
        · refine ⟨heof, ?_, ?_, hpc⟩
          · simp only [hptr]; omega
          · simp only [hend, raw_events_size]; omega
    obtain ⟨c', hnext, hc1, hc2⟩ := hstep
    rw [sky_path_get_event_stats_loop]
    simp only [heof, hh, hsz2, hnext, hoff]
    simp only [Bool.false_eq_true, if_false, ne_eq, not_true_eq_false]
    rw [ih f c' r.timestamp _ (off + r.size)
      (fun x hx => hwf x (List.mem_cons_of_mem r hx)) hdrop2
      (by simp at hfuel; omega) hc1 hc2]
    simp only [walk_last, walk_stats, Option.some.injEq, Prod.mk.injEq, true_and]
    cases event with
    | none => simp [incoming, raw_stat]
    | some e =>
      by_cases hc : e.timestamp ≥ last ∧ e.timestamp < r.timestamp
      · simp [incoming, hc, incoming_stat, raw_stat]
      · simp [incoming, hc, raw_stat]

theorem raw_path_drop (before after : List Nat) (oid : Nat) (rs : List raw_event) :
    (before ++ (raw_path_bytes oid rs ++ after)).drop before.length
      = le_bytes 8 oid ++ le_bytes 4 (raw_events_size rs) ++ (raw_events_bytes rs ++ after) := by
  rw [List.drop_left]
  simp [raw_path_bytes]

theorem raw_path_sizeof_raw (before after : List Nat) (oid : Nat) (rs : List raw_event)
    (hsz : raw_events_size rs < 2 ^ 32) :
    sky_path_sizeof_raw (before ++ (raw_path_bytes oid rs ++ after)) before.length
      = 12 + raw_events_size rs := by
  have h := path_hdr_read _ before.length oid (raw_events_size rs) _
    (raw_path_drop before after oid rs)
  rw [sky_path_sizeof_raw_eq, h.2.1, Nat.mod_eq_of_lt hsz]

theorem raw_events_size_eq_zero (rs : List raw_event) : raw_events_size rs = 0 ↔ rs = [] := by
  cases rs with
  | nil => simp [raw_events_size]
  | cons r rs =>
    have := raw_events_size_pos r rs
    simp only [reduceCtorEq, iff_false]
    omega

theorem raw_events_length_le (rs : List raw_event) : rs.length ≤ raw_events_size rs := by
  induction rs with
  | nil => simp
  | cons r rs ih =>
    simp only [raw_events_size, raw_event.size, SKY_EVENT_HEADER_LENGTH, List.length_cons]
    omega

/-- On a well-formed block the code returns 0 with the stats the walk describes. -/
theorem sky_path_get_event_stats_walk {D : Type} (C : sky_event_data_codec D)
    (before after : List Nat) (oid : Nat) (rs : List raw_event) (hwf : raw_path_wf rs)
    (event : Option (sky_event D)) (len : Nat)
    (hlen : len = match event with
      | some e => sky_event_sizeof C e
      | none => 0) :
    sky_path_get_event_stats C (before ++ (raw_path_bytes oid rs ++ after)) before.length event
      = some (0, walk_stats (incoming event len) SKY_TIMESTAMP_MIN 12 rs
          ++ end_stats (incoming event len) (walk_last SKY_TIMESTAMP_MIN rs)
              (12 + raw_events_size rs)) := by
  obtain ⟨hwf1, hwf2⟩ := hwf
  have hsize := raw_path_sizeof_raw before after oid rs hwf2
  have hhdr := path_hdr_read _ before.length oid (raw_events_size rs) _
    (raw_path_drop before after oid rs)
  have hloop := stats_loop_walk (before ++ (raw_path_bytes oid rs ++ after)) before.length
    event len after rs (12 + raw_events_size rs)
    (sky_cursor_set_path (before ++ (raw_path_bytes oid rs ++ after)) sky_cursor_init
      before.length).2 SKY_TIMESTAMP_MIN [] 12 hwf1 hhdr.2.2
    (by have := raw_events_length_le rs; omega)
    (by
      intro h
      subst h
      simp [sky_cursor_set_path, sky_cursor_set_paths, sky_cursor_set_ptr, hsize,
        raw_events_size, SKY_PATH_HEADER_LENGTH])
    (by
      intro h
      have h0 : raw_events_size rs ≠ 0 := fun h' => h ((raw_events_size_eq_zero rs).mp h')
      simp [sky_cursor_set_path, sky_cursor_set_paths, sky_cursor_set_ptr, hsize,
        SKY_PATH_HEADER_LENGTH, sky_cursor_init, h0]
      omega)
  unfold sky_path_get_event_stats
  have hrc : (sky_cursor_set_path (before ++ (raw_path_bytes oid rs ++ after)) sky_cursor_init
      before.length).1 = 0 := rfl
  rw [show sky_cursor_set_path (before ++ (raw_path_bytes oid rs ++ after)) sky_cursor_init
      before.length = (0, (sky_cursor_set_path (before ++ (raw_path_bytes oid rs ++ after))
        sky_cursor_init before.length).2) from rfl]
  simp only [ne_eq, not_true_eq_false, if_false, hsize, ← hlen, hloop, List.nil_append]
  cases event with
  | none => simp [incoming, end_stats]
  | some e =>
    simp only [incoming, Option.map_some', end_stats]
    split <;> simp [incoming_stat]

/-! ## The stats on a sorted block -/

theorem raw_stats_append (xs ys : List raw_event) (off : Nat) :
    raw_stats off (xs ++ ys) = raw_stats off xs ++ raw_stats (off + raw_events_size xs) ys := by
  induction xs generalizing off with
  | nil => simp [raw_stats, raw_events_size]
  | cons x xs ih => simp [raw_stats, raw_events_size, ih, Nat.add_assoc]

theorem raw_stats_length (rs : List raw_event) (off : Nat) :
    (raw_stats off rs).length = rs.length := by
  induction rs generalizing off with
  | nil => rfl
  | cons r rs ih => simp [raw_stats, ih]

theorem raw_stats_sz_sum (rs : List raw_event) (off : Nat) :
    ((raw_stats off rs).map (fun s => s.sz)).sum = raw_events_size rs := by
  induction rs generalizing off with
  | nil => rfl
  | cons r rs ih => simp [raw_stats, raw_stat, raw_events_size, ih]

theorem raw_stats_timestamp (rs : List raw_event) (off : Nat) :
    ∀ s ∈ raw_stats off rs, ∃ r ∈ rs, s.timestamp = r.timestamp := by
  induction rs generalizing off with
  | nil => simp [raw_stats]
  | cons r rs ih =>
    intro s hs
    simp only [raw_stats, List.mem_cons] at hs
    rcases hs with rfl | hs
    · exact ⟨r, List.mem_cons_self r rs, rfl⟩
    · obtain ⟨x, hx, hxs⟩ := ih _ s hs
      exact ⟨x, List.mem_cons_of_mem r hx, hxs⟩

theorem raw_events_size_append (xs ys : List raw_event) :
    raw_events_size (xs ++ ys) = raw_events_size xs + raw_events_size ys := by
  induction xs with
  | nil => simp [raw_events_size]
  | cons x xs ih => simp [raw_events_size, ih, Nat.add_assoc]

theorem records_before_append_after (t : Int) (rs : List raw_event) :
    records_before t rs ++ records_after t rs = rs :=
  List.takeWhile_append_dropWhile _ rs

theorem walk_none (rs : List raw_event) (last : Int) (off : Nat) :
    walk_stats none last off rs ++ end_stats none (walk_last last rs) (off + raw_events_size rs)
      = raw_stats off rs := by
  induction rs generalizing last off with
  | nil => rfl
  | cons r rs ih =>
    have := ih r.timestamp (off + r.size)
    simp only [end_stats, List.append_nil] at this
    simp [walk_stats, walk_last, end_stats, raw_stats, this]

theorem walk_no_insert (t : Int) (len : Nat) (rs : List raw_event) :
    ∀ (last : Int) (off : Nat), t < last → (∀ r ∈ rs, last ≤ r.timestamp) → raw_sorted rs →
      walk_stats (some (t, len)) last off rs
          ++ end_stats (some (t, len)) (walk_last last rs) (off + raw_events_size rs)
        = raw_stats off rs := by
  induction rs with
  | nil =>
    intro last off hlt _ _
    have : ¬ t ≥ last := by omega
    simp [walk_stats, walk_last, end_stats, raw_stats, this]
  | cons r rs ih =>
    intro last off hlt hlast hs
    have hr := hlast r (List.mem_cons_self r rs)
    have hs' := List.pairwise_cons.mp hs
    have hrec := ih r.timestamp (off + r.size) (by omega) hs'.1 hs'.2
    have h1 : ¬ (t ≥ last ∧ t < r.timestamp) := by omega
    simp only [walk_stats, walk_last, h1, if_false, List.nil_append, List.cons_append,
      raw_stats, raw_events_size]
    rw [← Nat.add_assoc, hrec]

theorem walk_insert (t : Int) (len : Nat) (rs : List raw_event) :
    ∀ (last : Int) (off : Nat), last ≤ t → raw_sorted rs →
      walk_stats (some (t, len)) last off rs
          ++ end_stats (some (t, len)) (walk_last last rs) (off + raw_events_size rs)
        = raw_stats off (records_before t rs)
          ++ incoming_stat t len (off + raw_events_size (records_before t rs))
            :: raw_stats (off + raw_events_size (records_before t rs)) (records_after t rs) := by
  induction rs with
  | nil =>
    intro last off hle _
    have : t ≥ last := hle
    simp [walk_stats, walk_last, end_stats, raw_stats, records_before, records_after,
      raw_events_size, this]
  | cons r rs ih =>
    intro last off hle hs
    have hs' := List.pairwise_cons.mp hs
    by_cases hr : r.timestamp ≤ t
    · have hrec := ih r.timestamp (off + r.size) hr hs'.2
      have h1 : ¬ (t ≥ last ∧ t < r.timestamp) := by omega
      simp only [walk_stats, walk_last, h1, if_false, List.nil_append, List.cons_append,
        raw_events_size]
      rw [← Nat.add_assoc, hrec]
      simp [records_before, records_after, hr, raw_stats, raw_events_size, Nat.add_assoc]
    · have hlt : t < r.timestamp := by omega
      have hrec := walk_no_insert t len rs r.timestamp (off + r.size) hlt hs'.1 hs'.2
      have h1 : t ≥ last ∧ t < r.timestamp := ⟨hle, hlt⟩
      simp only [walk_stats, walk_last, h1, if_true, List.cons_append, List.nil_append,
        List.singleton_append, and_self, raw_events_size]
      rw [← Nat.add_assoc, hrec]
      simp [records_before, records_after, hr, raw_stats, raw_events_size]

/-- On a well-formed sorted block the stats are: the stats of the records whose
timestamp is at most the incoming timestamp, the stat of the incoming event, the stats
of the other records; all offsets are offsets of the block as it is. -/
theorem sky_path_get_event_stats_sorted {D : Type} (C : sky_event_data_codec D)
    (before after : List Nat) (oid : Nat) (rs : List raw_event) (hwf : raw_path_wf rs)
    (hs : raw_sorted rs) (e : sky_event D) (he : e.in_range) :
    sky_path_get_event_stats C (before ++ (raw_path_bytes oid rs ++ after)) before.length (some e)
      = some (0, raw_stats 12 (records_before e.timestamp rs)
          ++ incoming_stat e.timestamp (sky_event_sizeof C e)
              (12 + raw_events_size (records_before e.timestamp rs))
            :: raw_stats (12 + raw_events_size (records_before e.timestamp rs))
                (records_after e.timestamp rs)) := by
  rw [sky_path_get_event_stats_walk C before after oid rs hwf (some e) (sky_event_sizeof C e) rfl]
  simp only [incoming, Option.map_some']
  rw [walk_insert e.timestamp (sky_event_sizeof C e) rs SKY_TIMESTAMP_MIN 12 he.1 hs]

theorem s3_records_wf : raw_path_wf s3_records := by
  refine ⟨?_, by decide⟩
  intro r hr
  simp only [s3_records, List.mem_cons, List.mem_singleton, List.not_mem_nil, or_false] at hr
  rcases hr with rfl | rfl | rfl <;> simp [raw_event.wf]

theorem s3_records_sorted : raw_sorted s3_records := by
  simp [raw_sorted, s3_records]

theorem incoming_event_in_range (t : Int) (h1 : -(2 : Int) ^ 63 ≤ t) (h2 : t < (2 : Int) ^ 63) :
    (incoming_event t).in_range := by
  refine ⟨h1, h2, ?_, ?_⟩ <;> simp [incoming_event]

/-- C6: for a well-formed raw path block that holds `N` records in non-decreasing
timestamp order (`N` may be 0), placed anywhere in memory, and every incoming event,
`sky_path_get_event_stats` returns 0 with exactly `N + 1` stats: taking out one stat
(the one for the incoming event) leaves one stat per existing record, in block order. -/
theorem sky_path_get_event_stats_count {D : Type} (C : sky_event_data_codec D)
    (before after : List Nat) (oid : Nat) (rs : List raw_event) (hwf : raw_path_wf rs)
    (hs : raw_sorted rs) (e : sky_event D) (he : e.in_range) :
    ∃ stats, sky_path_get_event_stats C (before ++ (raw_path_bytes oid rs ++ after))
        before.length (some e) = some (0, stats) ∧
      stats.length = rs.length + 1 ∧
      ∃ A B s, stats = A ++ s :: B ∧ A ++ B = raw_stats 12 rs ∧ s.timestamp = e.timestamp := by
  refine ⟨_, sky_path_get_event_stats_sorted C before after oid rs hwf hs e he, ?_, ?_⟩
  · have := congrArg List.length (records_before_append_after e.timestamp rs)
    simp only [List.length_append] at this
    simp only [List.length_append, List.length_cons, raw_stats_length]
    omega
  · refine ⟨_, _, _, rfl, ?_, rfl⟩
    rw [← raw_stats_append, records_before_append_after]

theorem sky_path_get_event_stats_count_witness :
    raw_path_wf s3_records ∧ raw_sorted s3_records ∧ (incoming_event 20).in_range ∧
    ∃ stats, sky_path_get_event_stats byte_codec ([7] ++ (raw_path_bytes 1 s3_records ++ []))
        [7].length (some (incoming_event 20)) = some (0, stats) ∧
      stats.length = s3_records.length + 1 ∧
      ∃ A B s, stats = A ++ s :: B ∧ A ++ B = raw_stats 12 s3_records ∧
        s.timestamp = (incoming_event 20).timestamp :=
  ⟨s3_records_wf, s3_records_sorted, incoming_event_in_range 20 (by norm_num) (by norm_num),
    sky_path_get_event_stats_count byte_codec [7] [] 1 s3_records s3_records_wf
      s3_records_sorted (incoming_event 20)
      (incoming_event_in_range 20 (by norm_num) (by norm_num))⟩

/-- C8: for a well-formed raw path with records in non-decreasing timestamp order and
every incoming event `e`, the sum of `sz` over the stats that `sky_path_get_event_stats`
returns is the `event_data_length` stored in the header of the block plus
`sky_event_sizeof(e)`. -/
theorem sky_path_get_event_stats_sz_sum {D : Type} (C : sky_event_data_codec D)
    (before after : List Nat) (oid : Nat) (rs : List raw_event) (hwf : raw_path_wf rs)
    (hs : raw_sorted rs) (e : sky_event D) (he : e.in_range) :
    ∃ stats, sky_path_get_event_stats C (before ++ (raw_path_bytes oid rs ++ after))
        before.length (some e) = some (0, stats) ∧
      (stats.map (fun s => s.sz)).sum
        = mem_read (before ++ (raw_path_bytes oid rs ++ after)) (before.length + 8) 4
          + sky_event_sizeof C e ∧
      mem_read (before ++ (raw_path_bytes oid rs ++ after)) (before.length + 8) 4
        = raw_events_size rs := by
  have hhdr := path_hdr_read _ before.length oid (raw_events_size rs) _
    (raw_path_drop before after oid rs)
  have hedl : mem_read (before ++ (raw_path_bytes oid rs ++ after)) (before.length + 8) 4
      = raw_events_size rs := by
    rw [hhdr.2.1]; exact Nat.mod_eq_of_lt hwf.2
  refine ⟨_, sky_path_get_event_stats_sorted C before after oid rs hwf hs e he, ?_, hedl⟩
  have := raw_events_size_append (records_before e.timestamp rs) (records_after e.timestamp rs)
  rw [records_before_append_after] at this
  simp only [List.map_append, List.map_cons, List.sum_append, List.sum_cons, raw_stats_sz_sum,
    incoming_stat, hedl]
  omega

theorem sky_path_get_event_stats_sz_sum_witness :
    raw_path_wf s3_records ∧ raw_sorted s3_records ∧ (incoming_event 20).in_range ∧
    ∃ stats, sky_path_get_event_stats byte_codec ([7] ++ (raw_path_bytes 1 s3_records ++ [8]))
        [7].length (some (incoming_event 20)) = some (0, stats) ∧
      (stats.map (fun s => s.sz)).sum
        = mem_read ([7] ++ (raw_path_bytes 1 s3_records ++ [8])) ([7].length + 8) 4
          + sky_event_sizeof byte_codec (incoming_event 20) ∧
      mem_read ([7] ++ (raw_path_bytes 1 s3_records ++ [8])) ([7].length + 8) 4
        = raw_events_size s3_records :=
  ⟨s3_records_wf, s3_records_sorted, incoming_event_in_range 20 (by norm_num) (by norm_num),
    sky_path_get_event_stats_sz_sum byte_codec [7] [8] 1 s3_records s3_records_wf
      s3_records_sorted (incoming_event 20)
      (incoming_event_in_range 20 (by norm_num) (by norm_num))⟩

theorem records_before_le (t : Int) (rs : List raw_event) :
    ∀ r ∈ records_before t rs, r.timestamp ≤ t := by
  intro r hr
  have := List.mem_takeWhile_imp hr
  simpa using this

theorem records_after_gt (t : Int) (rs : List raw_event) (hs : raw_sorted rs) :
    ∀ r ∈ records_after t rs, t < r.timestamp := by
  induction rs with
  | nil => simp [records_after]
  | cons r rs ih =>
    have hs' := List.pairwise_cons.mp hs
    by_cases hr : r.timestamp ≤ t
    · have : records_after t (r :: rs) = records_after t rs := by
        simp [records_after, List.dropWhile_cons, hr]
      rw [this]
      exact ih hs'.2
    · have : records_after t (r :: rs) = r :: rs := by
        simp [records_after, List.dropWhile_cons, hr]
      rw [this]
      intro x hx
      rcases List.mem_cons.mp hx with rfl | hx
      · omega
      · have := hs'.1 x hx
        omega

/-- C9 (counterexample): a block with one record at timestamp 10 and an incoming event
at timestamp 10. The code puts the incoming event's stat (the empty range at 28) after
the stat of the existing record, so the stat before it does not have a timestamp below
10: the insertion is not a lower-bound insertion. -/
theorem sky_path_get_event_stats_not_lower_bound :
    sky_path_get_event_stats byte_codec
        (raw_path_bytes 1 [{ timestamp := 10, action_id := 1, data := [] }]) 0
        (some (incoming_event 10))
      = some (0, [{ timestamp := 10, start_pos := 12, end_pos := 28, sz := 16 },
                  { timestamp := 10, start_pos := 28, end_pos := 28, sz := 17 }]) ∧
    ¬ (∀ A B s, ([{ timestamp := 10, start_pos := 12, end_pos := 28, sz := 16 },
                  { timestamp := 10, start_pos := 28, end_pos := 28, sz := 17 }] :
                  List sky_path_event_stat) = A ++ s :: B →
        s.start_pos = s.end_pos →
        (∀ x ∈ A, x.timestamp < 10) ∧ (∀ x ∈ B, 10 ≤ x.timestamp)) := by
  refine ⟨by decide, ?_⟩
  intro h
  have h1 := (h [{ timestamp := 10, start_pos := 12, end_pos := 28, sz := 16 }] []
    { timestamp := 10, start_pos := 28, end_pos := 28, sz := 17 } rfl rfl).1
    { timestamp := 10, start_pos := 12, end_pos := 28, sz := 16 } (List.mem_singleton.mpr rfl)
  exact absurd h1 (by decide)

/-- C9 (amended): for a well-formed raw path with records in non-decreasing timestamp
order and every incoming event with timestamp `T`, every stat before the incoming
event's stat has timestamp at most `T` and every stat after it has a timestamp above
`T`: an upper-bound insertion, the new event goes after the existing events whose
timestamp equals `T`. -/
theorem sky_path_get_event_stats_upper_bound {D : Type} (C : sky_event_data_codec D)
    (before after : List Nat) (oid : Nat) (rs : List raw_event) (hwf : raw_path_wf rs)
    (hs : raw_sorted rs) (e : sky_event D) (he : e.in_range) :
    ∃ A B s, sky_path_get_event_stats C (before ++ (raw_path_bytes oid rs ++ after))
        before.length (some e) = some (0, A ++ s :: B) ∧
      A ++ B = raw_stats 12 rs ∧
      s.timestamp = e.timestamp ∧ s.start_pos = s.end_pos ∧
      (∀ x ∈ A, x.timestamp ≤ e.timestamp) ∧ (∀ x ∈ B, e.timestamp < x.timestamp) := by
  refine ⟨_, _, _, sky_path_get_event_stats_sorted C before after oid rs hwf hs e he, ?_,
    rfl, rfl, ?_, ?_⟩
  · rw [← raw_stats_append, records_before_append_after]
  · intro x hx
    obtain ⟨r, hr, hxr⟩ := raw_stats_timestamp _ _ x hx
    rw [hxr]
    exact records_before_le e.timestamp rs r hr
  · intro x hx
    obtain ⟨r, hr, hxr⟩ := raw_stats_timestamp _ _ x hx
    rw [hxr]
    exact records_after_gt e.timestamp rs hs r hr

theorem sky_path_get_event_stats_upper_bound_witness :
    raw_path_wf s3_records ∧ raw_sorted s3_records ∧ (incoming_event 20).in_range ∧
    ∃ A B s, sky_path_get_event_stats byte_codec ([7] ++ (raw_path_bytes 1 s3_records ++ []))
        [7].length (some (incoming_event 20)) = some (0, A ++ s :: B) ∧
      A ++ B = raw_stats 12 s3_records ∧
      s.timestamp = (incoming_event 20).timestamp ∧ s.start_pos = s.end_pos ∧
      (∀ x ∈ A, x.timestamp ≤ (incoming_event 20).timestamp) ∧
      (∀ x ∈ B, (incoming_event 20).timestamp < x.timestamp) :=
  ⟨s3_records_wf, s3_records_sorted, incoming_event_in_range 20 (by norm_num) (by norm_num),
    sky_path_get_event_stats_upper_bound byte_codec [7] [] 1 s3_records s3_records_wf
      s3_records_sorted (incoming_event 20)
      (incoming_event_in_range 20 (by norm_num) (by norm_num))⟩

/-- C10 (counterexample): scenario S3, records at timestamps 10, 20, 30 (sizes 16, 18,
16) and an incoming event at timestamp 5 (size 17). The `start_pos` values are 12, 12,
28, 46, not 12, 12+17, 12+17+16, 12+17+16+18: the existing records are not shifted by
the incoming event's size. -/
theorem sky_path_get_event_stats_s3_not_shifted :
    (sky_path_get_event_stats byte_codec (raw_path_bytes 1 s3_records) 0
        (some (incoming_event 5))).map (fun r => (r.1, r.2.map (fun s => s.start_pos)))
      = some (0, [12, 12, 28, 46]) ∧
    sky_event_sizeof byte_codec (incoming_event 5) = 17 ∧
    s3_records.map raw_event.size = [16, 18, 16] ∧
    ([12, 12, 28, 46] : List Nat) ≠ [12, 12 + 17, 12 + 17 + 16, 12 + 17 + 16 + 18] := by
  decide

/-! ## Packing and unpacking events -/

section Codec

variable {D : Type} (C : sky_event_data_codec D)

theorem sky_event_pack_data_length (ds : List D) (hok : ∀ d ∈ ds, C.ok d) :
    (sky_event_pack_data C ds).length = (ds.map C.sizeof).sum := by
  induction ds with
  | nil => rfl
  | cons d ds ih =>
    have h1 := (hok d (List.mem_cons_self d ds)).2.1
    have h2 := ih (fun x hx => hok x (List.mem_cons_of_mem d hx))
    simp [sky_event_pack_data, h1, h2]

theorem sky_event_pack_valid (e : sky_event D) (he : e.valid C) :
    sky_event_pack C e = (0, sky_event_sizeof C e, e.bytes C) := by
  have hlen := sky_event_pack_data_length C e.data he.2.2
  simp [sky_event_pack, sky_event_get_data_length, hlen, sky_event_sizeof, sky_event.bytes]

theorem sky_event_bytes_length (e : sky_event D) (he : e.valid C) :
    (e.bytes C).length = sky_event_sizeof C e := by
  have hlen := sky_event_pack_data_length C e.data he.2.2
  simp [sky_event.bytes, sky_event_pack_hdr_length, hlen, sky_event_sizeof,
    sky_event_get_data_length, SKY_EVENT_HEADER_LENGTH]

theorem sky_event_unpack_data_packed (mem : List Nat) (ds : List D) :
    ∀ (fuel ptr : Nat) (acc : List D) (rest : List Nat), (∀ d ∈ ds, C.ok d) →
      mem.drop ptr = sky_event_pack_data C ds ++ rest → (ds.map C.sizeof).sum ≤ fuel →
      sky_event_unpack_data C mem fuel ptr (ptr + (ds.map C.sizeof).sum) acc
        = some (acc ++ ds, ptr + (ds.map C.sizeof).sum) := by
  induction ds with
  | nil =>
    intro fuel ptr acc rest _ _ _
    cases fuel <;> simp [sky_event_unpack_data]
  | cons d ds ih =>
    intro fuel ptr acc rest hok hdrop hfuel
    obtain ⟨hpos, hlen, hdec⟩ := hok d (List.mem_cons_self d ds)
    simp only [List.map_cons, List.sum_cons] at hfuel ⊢
    obtain ⟨f, rfl⟩ : ∃ f, fuel = f + 1 := ⟨fuel - 1, by omega⟩
    have hd := hdec mem ptr (sky_event_pack_data C ds ++ rest)
      (by rw [hdrop]; simp [sky_event_pack_data])
    have hdrop2 : mem.drop (ptr + C.sizeof d) = sky_event_pack_data C ds ++ rest := by
      have := drop_add_of_drop mem ptr (C.pack d) (sky_event_pack_data C ds ++ rest)
        (by rw [hdrop]; simp [sky_event_pack_data])
      rwa [hlen] at this
    have hrec := ih f (ptr + C.sizeof d) (acc ++ [d]) rest
      (fun x hx => hok x (List.mem_cons_of_mem d hx)) hdrop2 (by omega)
    have hlt : ptr < ptr + (C.sizeof d + (ds.map C.sizeof).sum) := by omega
    have hne : C.sizeof d ≠ 0 := by omega
    rw [sky_event_unpack_data]
    simp only [hlt, if_true, hd, hne, if_false]
    rw [← Nat.add_assoc, hrec]
    simp

theorem sky_event_unpack_packed (mem : List Nat) (ptr : Nat) (rest : List Nat)
    (e created : sky_event D) (he : e.valid C) (hdrop : mem.drop ptr = e.bytes C ++ rest) :
    sky_event_unpack C created mem ptr
      = (0, { created with timestamp := e.timestamp, action_id := e.action_id, data := e.data },
          sky_event_sizeof C e) := by
  obtain ⟨⟨h1, h2, h3, _⟩, hdl, hok⟩ := he
  have hdrop1 : mem.drop ptr
      = sky_event_pack_hdr e.timestamp e.action_id (sky_event_get_data_length C e)
        ++ (sky_event_pack_data C e.data ++ rest) := by
    rw [hdrop]; simp [sky_event.bytes]
  have hh := sky_event_unpack_hdr_of_drop mem ptr _ _ _ _ hdrop1 h1 h2 h3 hdl
  have hdrop2 : mem.drop (ptr + 16) = sky_event_pack_data C e.data ++ rest := by
    have := drop_add_of_drop mem ptr _ _ hdrop1
    rwa [sky_event_pack_hdr_length] at this
  have hdata := sky_event_unpack_data_packed C mem e.data (sky_event_get_data_length C e)
    (ptr + 16) [] rest hok hdrop2 (le_of_eq rfl)
  unfold sky_event_unpack
  rw [hh]
  simp only
  rw [show sky_event_get_data_length C e = (e.data.map C.sizeof).sum from rfl] at hdata ⊢
  rw [hdata]
  simp only [List.nil_append, sky_event_sizeof, sky_event_get_data_length,
    SKY_EVENT_HEADER_LENGTH]
  congr 2
  omega

end Codec

/-! ## Packing and unpacking paths -/

section PathCodec

variable {D : Type} (C : sky_event_data_codec D)

theorem sky_event_sizeof_ge (e : sky_event D) : 16 ≤ sky_event_sizeof C e := by
  simp [sky_event_sizeof, SKY_EVENT_HEADER_LENGTH]

theorem sky_path_pack_events_valid (es : List (sky_event D)) (hv : ∀ e ∈ es, e.valid C) :
    sky_path_pack_events C es
      = (0, (es.map (sky_event_sizeof C)).sum, sky_events_bytes C es) := by
  induction es with
  | nil => rfl
  | cons e es ih =>
    have h1 := sky_event_pack_valid C e (hv e (List.mem_cons_self e es))
    have h2 := ih (fun x hx => hv x (List.mem_cons_of_mem e hx))
    simp [sky_path_pack_events, h1, h2, sky_events_bytes]

theorem sky_events_bytes_length (es : List (sky_event D)) (hv : ∀ e ∈ es, e.valid C) :
    (sky_events_bytes C es).length = (es.map (sky_event_sizeof C)).sum := by
  induction es with
  | nil => rfl
  | cons e es ih =>
    have h1 := sky_event_bytes_length C e (hv e (List.mem_cons_self e es))
    have h2 := ih (fun x hx => hv x (List.mem_cons_of_mem e hx))
    simp [sky_events_bytes, h1, h2]

theorem sky_path_pack_valid (p : sky_path D) (hv : p.valid C) :
    sky_path_pack C p
      = (0, sky_path_sizeof C p,
          le_bytes 8 p.object_id ++ le_bytes 4 (get_event_data_length C p)
            ++ sky_events_bytes C p.events) := by
  obtain ⟨h0, _, hne, hev, hlen⟩ := hv
  have hpos : 0 < get_event_data_length C p := by
    unfold get_event_data_length
    cases hp : p.events with
    | nil => exact absurd hp hne
    | cons e es =>
      have := sky_event_sizeof_ge C e
      simp only [List.map_cons, List.sum_cons]
      omega
  have hmod : get_event_data_length C p % 2 ^ 32 = get_event_data_length C p :=
    Nat.mod_eq_of_lt hlen
  have hpk := sky_path_pack_events_valid C p.events (fun e he => (hev e he).2)
  have hne0 : ¬ get_event_data_length C p = 0 := by omega
  simp only [sky_path_pack, hmod]
  simp [sky_path_pack_hdr, h0, hne0, hpk, sky_path_sizeof, SKY_PATH_HEADER_LENGTH,
    SKY_OBJECT_ID_SIZE, SKY_PATH_EVENT_DATA_LENGTH_SIZE]
  rfl

theorem list_set_length_append {α : Type} (l : List α) (a b : α) :
    (l ++ [a]).set l.length b = l ++ [b] := by
  induction l with
  | nil => rfl
  | cons x xs ih => simp [ih]

theorem sky_path_unpack_loop_packed (alloc : Nat → Nat) (uninit : sky_event D)
    (mem : List Nat) (es : List (sky_event D)) :
    ∀ (fuel : Nat) (path : sky_path D) (ptr : Nat) (rest : List Nat),
      (∀ e ∈ es, e.object_id = path.object_id ∧ e.valid C) →
      mem.drop ptr = sky_events_bytes C es ++ rest →
      (es.map (sky_event_sizeof C)).sum ≤ fuel →
      ∃ q, sky_path_unpack_loop C alloc uninit mem fuel path ptr
            (ptr + (es.map (sky_event_sizeof C)).sum) path.events.length
          = some (0, q, ptr + (es.map (sky_event_sizeof C)).sum) ∧
        q.object_id = path.object_id ∧
        q.events.map sky_event.content
          = path.events.map sky_event.content ++ es.map sky_event.content := by
  induction es with
  | nil =>
    intro fuel path ptr rest _ _ _
    refine ⟨path, ?_, rfl, by simp⟩
    cases fuel <;> simp [sky_path_unpack_loop]
  | cons e es ih =>
    intro fuel path ptr rest hev hdrop hfuel
    obtain ⟨hid, hval⟩ := hev e (List.mem_cons_self e es)
    have hge := sky_event_sizeof_ge C e
    simp only [List.map_cons, List.sum_cons] at hfuel ⊢
    obtain ⟨f, rfl⟩ : ∃ f, fuel = f + 1 := ⟨fuel - 1, by omega⟩
    have hun := sky_event_unpack_packed C mem ptr (sky_events_bytes C es ++ rest) e
      (sky_event_create (alloc path.events.length) path.object_id 0 0) hval
      (by rw [hdrop]; simp [sky_events_bytes])
    have hdrop2 : mem.drop (ptr + sky_event_sizeof C e) = sky_events_bytes C es ++ rest := by
      have := drop_add_of_drop mem ptr (e.bytes C) (sky_events_bytes C es ++ rest)
        (by rw [hdrop]; simp [sky_events_bytes])
      rwa [sky_event_bytes_length C e hval] at this
    obtain ⟨q, hq1, hq2, hq3⟩ := ih f
      ⟨path.object_id, path.events ++
        [⟨alloc path.events.length, path.object_id, e.timestamp, e.action_id, e.data⟩]⟩
      (ptr + sky_event_sizeof C e) rest
      (fun x hx => hev x (List.mem_cons_of_mem e hx)) hdrop2 (by omega)
    refine ⟨q, ?_, hq2, ?_⟩
    · have hlt : ptr < ptr + (sky_event_sizeof C e + (es.map (sky_event_sizeof C)).sum) := by
        omega
      rw [sky_path_unpack_loop]
      simp only [hlt, if_true, hun, list_set_length_append, ne_eq, not_true_eq_false, if_false]
      rw [← Nat.add_assoc]
      simpa using hq1
    · rw [hq3]
      simp [sky_event.content, sky_event_create, hid]

theorem sky_path_unpack_packed (alloc : Nat → Nat) (uninit : sky_event D) (oid : Nat)
    (p : sky_path D) (hv : p.valid C) (before after : List Nat) :
    ∃ q, sky_path_unpack C alloc uninit (sky_path_create oid)
          (before ++ ((sky_path_pack C p).2.2 ++ after)) before.length
        = some (0, q, sky_path_sizeof C p) ∧
      q.object_id = p.object_id ∧
      q.events.map sky_event.content = p.events.map sky_event.content := by
  rw [sky_path_pack_valid C p hv]
  obtain ⟨h0, h64, hne, hev, hlen⟩ := hv
  have hhdr := path_hdr_read (before ++ (le_bytes 8 p.object_id
      ++ le_bytes 4 (get_event_data_length C p) ++ sky_events_bytes C p.events ++ after))
    before.length p.object_id (get_event_data_length C p) (sky_events_bytes C p.events ++ after)
    (by rw [List.drop_left]; simp)
  obtain ⟨hr1, hr2, hr3⟩ := hhdr
  have hoid : p.object_id % 2 ^ 64 = p.object_id := Nat.mod_eq_of_lt h64
  have hedl : get_event_data_length C p % 2 ^ 32 = get_event_data_length C p :=
    Nat.mod_eq_of_lt hlen
  obtain ⟨q, hq1, hq2, hq3⟩ := sky_path_unpack_loop_packed C alloc uninit
    (before ++ (le_bytes 8 p.object_id
      ++ le_bytes 4 (get_event_data_length C p) ++ sky_events_bytes C p.events ++ after))
    p.events (get_event_data_length C p) { object_id := p.object_id, events := [] }
    (before.length + 12) after hev hr3 (le_of_eq rfl)
  refine ⟨q, ?_, hq2, by simpa using hq3⟩
  have h12 : before.length + 8 + 4 = before.length + 12 := by omega
  unfold sky_path_unpack
  simp only [SKY_OBJECT_ID_SIZE, SKY_PATH_EVENT_DATA_LENGTH_SIZE, hr1, hr2, hoid, hedl,
    sky_path_create, h12]
  simp only [List.length_nil, get_event_data_length] at hq1 ⊢
  rw [hq1]
  simp [sky_path_sizeof, get_event_data_length, SKY_PATH_HEADER_LENGTH]
  omega

end PathCodec

theorem byte_codec_ok (d : Nat) (h : d < 256) : byte_codec.ok d := by
  refine ⟨Nat.one_pos, rfl, ?_⟩
  intro mem ptr rest hdrop
  simp [byte_codec, hdrop, Nat.mod_eq_of_lt h]

theorem example_path_valid : example_path.valid byte_codec := by
  refine ⟨by decide, by decide, by decide, ?_, by decide⟩
  intro e he
  simp only [example_path, List.mem_cons, List.mem_singleton, List.not_mem_nil, or_false] at he
  rcases he with rfl | rfl
  · refine ⟨rfl, ⟨by norm_num, by norm_num, by norm_num, by norm_num⟩, by decide, ?_⟩
    intro d hd
    simp at hd
  · refine ⟨rfl, ⟨by norm_num, by norm_num, by norm_num, by norm_num⟩, by decide, ?_⟩
    intro d hd
    simp only [List.mem_cons, List.mem_singleton, List.not_mem_nil, or_false] at hd
    rcases hd with rfl | rfl <;> exact byte_codec_ok _ (by norm_num)

/-- C3: for every valid path `P` (non-zero object id, at least one event, every event
valid and of the path's object, event data length below 2^32), packing `P` with
`sky_path_pack` and unpacking the written bytes, wherever they lie in memory, with
`sky_path_unpack` into a fresh path of `sky_path_create` succeeds and yields a path with
the same `object_id`, the same `event_count` and events of equal content in the same
order; unpack reports the byte count that pack reported. -/
theorem sky_path_pack_unpack_roundtrip {D : Type} (C : sky_event_data_codec D)
    (alloc : Nat → Nat) (uninit : sky_event D) (oid : Nat) (p : sky_path D) (hv : p.valid C)
    (before after : List Nat) :
    ∃ sz bytes q, sky_path_pack C p = (0, sz, bytes) ∧
      sky_path_unpack C alloc uninit (sky_path_create oid) (before ++ (bytes ++ after))
        before.length = some (0, q, sz) ∧
      q.object_id = p.object_id ∧ q.event_count = p.event_count ∧
      q.events.map sky_event.content = p.events.map sky_event.content := by
  obtain ⟨q, hq1, hq2, hq3⟩ := sky_path_unpack_packed C alloc uninit oid p hv before after
  refine ⟨sky_path_sizeof C p, (sky_path_pack C p).2.2, q, ?_, hq1, hq2, ?_, hq3⟩
  · rw [sky_path_pack_valid C p hv]
  · have := congrArg List.length hq3
    simpa [sky_path.event_count] using this

theorem sky_path_pack_unpack_roundtrip_witness :
    example_path.valid byte_codec ∧
    ∃ sz bytes q, sky_path_pack byte_codec example_path = (0, sz, bytes) ∧
      sky_path_unpack byte_codec (fun i => 100 + i) (tie_action 0) (sky_path_create 0)
        ([7, 7] ++ (bytes ++ [8])) [7, 7].length = some (0, q, sz) ∧
      q.object_id = example_path.object_id ∧ q.event_count = example_path.event_count ∧
      q.events.map sky_event.content = example_path.events.map sky_event.content :=
  ⟨example_path_valid,
    sky_path_pack_unpack_roundtrip byte_codec (fun i => 100 + i) (tie_action 0) 0 example_path
      example_path_valid [7, 7] [8]⟩

/-- C4: for every valid path `P`, `sky_path_pack` returns 0 and reports a byte count
equal to `sky_path_sizeof(P)`, which is 12 plus the sum of `sky_event_sizeof` over the
events of `P`; that many bytes are written, and `sky_path_sizeof_raw` applied to the
written block, wherever it lies in memory, returns the same number. -/
theorem sky_path_pack_size {D : Type} (C : sky_event_data_codec D) (p : sky_path D)
    (hv : p.valid C) (before after : List Nat) :
    ∃ bytes, sky_path_pack C p = (0, sky_path_sizeof C p, bytes) ∧
      sky_path_sizeof C p = 12 + (p.events.map (sky_event_sizeof C)).sum ∧
      bytes.length = sky_path_sizeof C p ∧
      sky_path_sizeof_raw (before ++ (bytes ++ after)) before.length = sky_path_sizeof C p := by
  have hlen := sky_events_bytes_length C p.events (fun e he => (hv.2.2.2.1 e he).2)
  have hsz : sky_path_sizeof C p = 12 + (p.events.map (sky_event_sizeof C)).sum := by
    simp [sky_path_sizeof, get_event_data_length, SKY_PATH_HEADER_LENGTH, Nat.add_comm]
  refine ⟨_, sky_path_pack_valid C p hv, hsz, ?_, ?_⟩
  · simp only [List.length_append, le_bytes_length, hlen, hsz]
  · have h := path_hdr_read (before ++ (le_bytes 8 p.object_id
        ++ le_bytes 4 (get_event_data_length C p) ++ sky_events_bytes C p.events ++ after))
      before.length p.object_id (get_event_data_length C p)
      (sky_events_bytes C p.events ++ after) (by rw [List.drop_left]; simp)
    rw [sky_path_sizeof_raw_eq, h.2.1, Nat.mod_eq_of_lt hv.2.2.2.2, hsz]
    rfl

theorem sky_path_pack_size_witness :
    example_path.valid byte_codec ∧
    ∃ bytes, sky_path_pack byte_codec example_path
        = (0, sky_path_sizeof byte_codec example_path, bytes) ∧
      sky_path_sizeof byte_codec example_path
        = 12 + (example_path.events.map (sky_event_sizeof byte_codec)).sum ∧
      bytes.length = sky_path_sizeof byte_codec example_path ∧
      sky_path_sizeof_raw ([7, 7] ++ (bytes ++ [8])) [7, 7].length
        = sky_path_sizeof byte_codec example_path :=
  ⟨example_path_valid, sky_path_pack_size byte_codec example_path example_path_valid [7, 7] [8]⟩

/-! ## The fuel is enough: the loops always return -/

theorem sky_event_sizeof_raw_ge (mem : List Nat) (ptr : Nat) :
    16 ≤ sky_event_sizeof_raw mem ptr := by
  simp [sky_event_sizeof_raw, SKY_EVENT_HEADER_LENGTH]

theorem sky_path_get_event_stats_loop_total {D : Type} (mem : List Nat) (path_ptr : Nat)
    (event : Option (sky_event D)) (len : Nat) :
    ∀ (fuel : Nat) (c : sky_cursor) (last : Int) (acc : List sky_path_event_stat),
      (c.eof = false → c.endptr - c.ptr ≤ fuel ∧ c.ptr < c.endptr ∧
        c.path_count ≤ c.path_index + 1) →
      (sky_path_get_event_stats_loop mem path_ptr event len fuel c last acc).isSome = true := by
  intro fuel
  induction fuel with
  | zero =>
    intro c last acc h
    cases heof : c.eof with
    | true => simp [sky_path_get_event_stats_loop, heof]
    | false => have := h heof; omega
  | succ f ih =>
    intro c last acc h
    cases heof : c.eof with
    | true => simp [sky_path_get_event_stats_loop, heof]
    | false =>
      obtain ⟨h1, h2, h3⟩ := h heof
      have hge := sky_event_sizeof_raw_ge mem c.ptr
      have hnext : ∃ c', sky_cursor_next mem c = (0, c') ∧
          (c'.eof = false → c'.endptr - c'.ptr ≤ f ∧ c'.ptr < c'.endptr ∧
            c'.path_count ≤ c'.path_index + 1) := by
        by_cases hlt : c.ptr + sky_event_sizeof_raw mem c.ptr < c.endptr
        · refine ⟨_, sky_cursor_next_step mem c _ rfl hlt, fun _ => ?_⟩
          simp only
          omega
        · refine ⟨_, sky_cursor_next_last mem c _ rfl (by omega) h3, fun h => ?_⟩
          simp at h
      obtain ⟨c', hc1, hc2⟩ := hnext
      rw [sky_path_get_event_stats_loop]
      simp only [heof, sky_event_unpack_hdr, hc1]
      simp only [Bool.false_eq_true, if_false, ne_eq, not_true_eq_false]
      exact ih c' _ _ hc2

/-- `sky_path_get_event_stats` returns on every memory, path pointer and event: the fuel
never runs out. -/
theorem sky_path_get_event_stats_total {D : Type} (C : sky_event_data_codec D)
    (mem : List Nat) (path_ptr : Nat) (event : Option (sky_event D)) :
    (sky_path_get_event_stats C mem path_ptr event).isSome = true := by
  have hloop := sky_path_get_event_stats_loop_total mem path_ptr event
    (match event with
      | some e => sky_event_sizeof C e
      | none => 0)
    (sky_path_sizeof_raw mem path_ptr) (sky_cursor_set_path mem sky_cursor_init path_ptr).2
    SKY_TIMESTAMP_MIN []
    (by
      intro h
      simp only [sky_cursor_set_path, sky_cursor_set_paths, sky_cursor_set_ptr,
        decide_eq_false_iff_not, SKY_PATH_HEADER_LENGTH] at h
      simp only [sky_cursor_set_path, sky_cursor_set_paths, sky_cursor_set_ptr, sky_cursor_init,
        List.length_singleton, SKY_PATH_HEADER_LENGTH]
      have := sky_path_sizeof_raw_eq mem path_ptr
      omega)
  obtain ⟨⟨rc, last, stats⟩, hr⟩ := Option.isSome_iff_exists.mp hloop
  unfold sky_path_get_event_stats
  rw [show sky_cursor_set_path mem sky_cursor_init path_ptr
      = (0, (sky_cursor_set_path mem sky_cursor_init path_ptr).2) from rfl]
  simp only [ne_eq, not_true_eq_false, if_false, hr]
  by_cases hrc : rc = 0
  · cases event with
    | none => simp [hrc]
    | some e =>
      by_cases hl : e.timestamp ≥ last
      · simp [hrc, hl]
      · simp [hrc, hl]
  · simp [hrc]

theorem sky_event_unpack_data_ptr {D : Type} (C : sky_event_data_codec D) (mem : List Nat) :
    ∀ (fuel ptr endptr : Nat) (acc ds : List D) (p : Nat),
      sky_event_unpack_data C mem fuel ptr endptr acc = some (ds, p) → ptr ≤ p := by
  intro fuel
  induction fuel with
  | zero =>
    intro ptr endptr acc ds p h
    simp only [sky_event_unpack_data] at h
    split at h
    · simp at h
    · simp only [Option.some.injEq, Prod.mk.injEq] at h
      omega
  | succ f ih =>
    intro ptr endptr acc ds p h
    rw [sky_event_unpack_data] at h
    split at h
    · split at h
      · simp at h
      · split at h
        · simp at h
        · have := ih _ _ _ _ _ h
          omega
    · simp only [Option.some.injEq, Prod.mk.injEq] at h
      omega

theorem sky_event_unpack_sz {D : Type} (C : sky_event_data_codec D) (created : sky_event D)
    (mem : List Nat) (ptr : Nat) (h : (sky_event_unpack C created mem ptr).1 = 0) :
    16 ≤ (sky_event_unpack C created mem ptr).2.2 := by
  unfold sky_event_unpack at h ⊢
  simp only [sky_event_unpack_hdr, SKY_EVENT_HEADER_LENGTH] at h ⊢
  split at h
  · simp at h
  · rename_i data p hd
    have := sky_event_unpack_data_ptr C mem _ _ _ _ _ _ hd
    simp only [hd]
    omega

theorem sky_path_unpack_loop_total {D : Type} (C : sky_event_data_codec D) (alloc : Nat → Nat)
    (uninit : sky_event D) (mem : List Nat) :
    ∀ (fuel : Nat) (path : sky_path D) (ptr endptr index : Nat), endptr - ptr ≤ fuel →
      (sky_path_unpack_loop C alloc uninit mem fuel path ptr endptr index).isSome = true := by
  intro fuel
  induction fuel with
  | zero =>
    intro path ptr endptr index h
    have : ¬ ptr < endptr := by omega
    simp [sky_path_unpack_loop, this]
  | succ f ih =>
    intro path ptr endptr index h
    rw [sky_path_unpack_loop]
    by_cases hlt : ptr < endptr
    · simp only [hlt, if_true]
      have hsz := sky_event_unpack_sz C (sky_event_create (alloc index) path.object_id 0 0)
        mem ptr
      rcases hres : sky_event_unpack C (sky_event_create (alloc index) path.object_id 0 0)
        mem ptr with ⟨rc, ev, sz⟩
      rw [hres] at hsz
      by_cases hrc : rc = 0
      · have hsz := hsz hrc
        simp only [ne_eq, hrc, not_true_eq_false, if_false]
        exact ih _ _ _ _ (by simp only at hsz; omega)
      · simp [hrc]
    · simp [hlt]

/-- `sky_path_unpack` returns on every memory, pointer and destination path: the fuel
never runs out. -/
theorem sky_path_unpack_total {D : Type} (C : sky_event_data_codec D) (alloc : Nat → Nat)
    (uninit : sky_event D) (path : sky_path D) (mem : List Nat) (ptr : Nat) :
    (sky_path_unpack C alloc uninit path mem ptr).isSome = true := by
  obtain ⟨⟨rc, q, p⟩, hr⟩ := Option.isSome_iff_exists.mp <| sky_path_unpack_loop_total C alloc uninit mem
    (mem_read mem (ptr + SKY_OBJECT_ID_SIZE) SKY_PATH_EVENT_DATA_LENGTH_SIZE)
    { path with object_id := mem_read mem ptr SKY_OBJECT_ID_SIZE }
    (ptr + SKY_OBJECT_ID_SIZE + SKY_PATH_EVENT_DATA_LENGTH_SIZE)
    (ptr + SKY_OBJECT_ID_SIZE + SKY_PATH_EVENT_DATA_LENGTH_SIZE
      + mem_read mem (ptr + SKY_OBJECT_ID_SIZE) SKY_PATH_EVENT_DATA_LENGTH_SIZE) 0 (by omega)
  unfold sky_path_unpack
  simp only [hr]
  by_cases hrc : rc = 0
  · simp [hrc]
  · simp [hrc]

/-! ## Ties and the null event in the splice stats -/

/-- C11 (counterexample): a block with one pure action record (no payload) at timestamp 7
and an incoming event at timestamp 7 with one data entry. The stat of the action record
comes first and the stat of the incoming event (the empty range at 28) second: no
data-before-action tie-break is applied. -/
theorem sky_path_get_event_stats_tie_not_before :
    (incoming_event 7).data_count > 0 ∧
    sky_path_get_event_stats byte_codec
        (raw_path_bytes 1 [{ timestamp := 7, action_id := 3, data := [] }]) 0
        (some (incoming_event 7))
      = some (0, [{ timestamp := 7, start_pos := 12, end_pos := 28, sz := 16 },
                  { timestamp := 7, start_pos := 28, end_pos := 28, sz := 17 }]) ∧
    ¬ (List.indexOf ({ timestamp := 7, start_pos := 28, end_pos := 28, sz := 17 } :
            sky_path_event_stat)
          [{ timestamp := 7, start_pos := 12, end_pos := 28, sz := 16 },
           { timestamp := 7, start_pos := 28, end_pos := 28, sz := 17 }]
        < List.indexOf ({ timestamp := 7, start_pos := 12, end_pos := 28, sz := 16 } :
            sky_path_event_stat)
          [{ timestamp := 7, start_pos := 12, end_pos := 28, sz := 16 },
           { timestamp := 7, start_pos := 28, end_pos := 28, sz := 17 }]) := by
  decide

/-- C11 (amended): for a well-formed raw path with records in non-decreasing timestamp
order that holds a record `r` at timestamp `T` (a pure action event or any other) and
every incoming event with the same timestamp `T` (with data or without), the stat of `r`
comes before the incoming event's stat: the placement compares timestamps only, and an
incoming event goes after the existing events of equal timestamp. -/
theorem sky_path_get_event_stats_tie_after {D : Type} (C : sky_event_data_codec D)
    (before after : List Nat) (oid : Nat) (xs ys : List raw_event) (r : raw_event)
    (hwf : raw_path_wf (xs ++ r :: ys)) (hs : raw_sorted (xs ++ r :: ys))
    (e : sky_event D) (he : e.in_range) (ht : e.timestamp = r.timestamp) :
    ∃ A B s, sky_path_get_event_stats C (before ++ (raw_path_bytes oid (xs ++ r :: ys) ++ after))
        before.length (some e) = some (0, A ++ s :: B) ∧
      s.timestamp = e.timestamp ∧ s.start_pos = s.end_pos ∧ s.sz = sky_event_sizeof C e ∧
      raw_stat (12 + raw_events_size xs) r ∈ A := by
  refine ⟨_, _, _, sky_path_get_event_stats_sorted C before after oid _ hwf hs e he,
    rfl, rfl, rfl, ?_⟩
  have hxs : ∀ a ∈ xs, decide (a.timestamp ≤ e.timestamp) = true := by
    intro a ha
    have := (List.pairwise_append.mp hs).2.2 a ha r (List.mem_cons_self r ys)
    simp only [decide_eq_true_eq]
    omega
  have hb : records_before e.timestamp (xs ++ r :: ys)
      = xs ++ r :: records_before e.timestamp ys := by
    unfold records_before
    rw [List.takeWhile_append_of_pos hxs, List.takeWhile_cons]
    simp [ht]
  rw [hb, raw_stats_append]
  simp [raw_stats]

theorem sky_path_get_event_stats_tie_after_witness :
    raw_path_wf ([] ++ ({ timestamp := 10, action_id := 1, data := [] } : raw_event) ::
      [{ timestamp := 20, action_id := 2, data := [1, 2] },
       { timestamp := 30, action_id := 3, data := [] }]) ∧
    raw_sorted ([] ++ ({ timestamp := 10, action_id := 1, data := [] } : raw_event) ::
      [{ timestamp := 20, action_id := 2, data := [1, 2] },
       { timestamp := 30, action_id := 3, data := [] }]) ∧
    (incoming_event 10).in_range ∧
    ∃ A B s, sky_path_get_event_stats byte_codec ([7] ++ (raw_path_bytes 1
          ([] ++ ({ timestamp := 10, action_id := 1, data := [] } : raw_event) ::
            [{ timestamp := 20, action_id := 2, data := [1, 2] },
             { timestamp := 30, action_id := 3, data := [] }]) ++ []))
        [7].length (some (incoming_event 10)) = some (0, A ++ s :: B) ∧
      s.timestamp = (incoming_event 10).timestamp ∧ s.start_pos = s.end_pos ∧
      s.sz = sky_event_sizeof byte_codec (incoming_event 10) ∧
      raw_stat (12 + raw_events_size [])
        ({ timestamp := 10, action_id := 1, data := [] } : raw_event) ∈ A :=
  ⟨s3_records_wf, s3_records_sorted, incoming_event_in_range 10 (by norm_num) (by norm_num),
    sky_path_get_event_stats_tie_after byte_codec [7] [] 1 [] _ _ s3_records_wf
      s3_records_sorted (incoming_event 10)
      (incoming_event_in_range 10 (by norm_num) (by norm_num)) rfl⟩

theorem raw_stats_getElem (rs : List raw_event) :
    ∀ (off i : Nat) (h : i < rs.length),
      (raw_stats off rs)[i]? = some (raw_stat (off + raw_events_size (rs.take i)) (rs.get ⟨i, h⟩)) := by
  induction rs with
  | nil => intro off i h; simp at h
  | cons r rs ih =>
    intro off i h
    cases i with
    | zero => simp [raw_stats, raw_events_size]
    | succ i =>
      have := ih (off + r.size) i (by simpa using h)
      simp only [raw_stats, List.getElem?_cons_succ, this, List.take_succ_cons, raw_events_size,
        List.get_eq_getElem, List.getElem_cons_succ, Nat.add_assoc]

/-- C10 (amended): for every well-formed raw path block whose records `rs` are in
non-decreasing timestamp order, placed anywhere in memory, and every incoming event `e`,
`sky_path_get_event_stats` returns 0 and the stats `A ++ s :: B`: `A` and `B` together are
the stats of the records of the block as it is (the stat of record `i` has the
`start_pos` 12 plus the sizes of the records before it, whether the record lies before or
after the insertion site), and `s`, the stat of the incoming event, carries the offset of
the insertion site, 12 plus the sizes of the records whose timestamp is at most the
incoming one, as `start_pos` and as `end_pos`, and the size of the incoming event as
`sz`; the record after the insertion site starts at that same offset: it is not shifted
by the size of the incoming event. For records at the timestamps 10, 20, 30 and an
incoming event at timestamp 5 the `start_pos` values are 12, 12, 12+sz10, 12+sz10+sz20
and the `sz` values are sz5, sz10, sz20, sz30. -/
theorem sky_path_get_event_stats_offsets {D : Type} (C : sky_event_data_codec D)
    (before after : List Nat) (oid : Nat) (rs : List raw_event) (hwf : raw_path_wf rs)
    (hs : raw_sorted rs) (e : sky_event D) (he : e.in_range) :
    ∃ A B s, sky_path_get_event_stats C (before ++ (raw_path_bytes oid rs ++ after))
        before.length (some e) = some (0, A ++ s :: B) ∧
      A = raw_stats 12 (records_before e.timestamp rs) ∧
      B = raw_stats (12 + raw_events_size (records_before e.timestamp rs))
            (records_after e.timestamp rs) ∧
      A ++ B = raw_stats 12 rs ∧
      (∀ (i : Nat) (h : i < rs.length),
        (A ++ B)[i]? = some
          { timestamp := (rs.get ⟨i, h⟩).timestamp
            start_pos := 12 + raw_events_size (rs.take i)
            end_pos := 12 + raw_events_size (rs.take i) + (rs.get ⟨i, h⟩).size
            sz := (rs.get ⟨i, h⟩).size }) ∧
      s.timestamp = e.timestamp ∧ s.sz = sky_event_sizeof C e ∧
      s.start_pos = 12 + raw_events_size (records_before e.timestamp rs) ∧
      s.end_pos = s.start_pos ∧
      (∀ x, B.head? = some x → x.start_pos = s.start_pos) ∧
      (∀ r10 r20 r30 : raw_event, rs = [r10, r20, r30] → r10.timestamp = 10 →
        r20.timestamp = 20 → r30.timestamp = 30 → e.timestamp = 5 →
        (A ++ s :: B).map (fun x => x.timestamp) = [5, 10, 20, 30] ∧
        (A ++ s :: B).map (fun x => x.start_pos)
          = [12, 12, 12 + r10.size, 12 + r10.size + r20.size] ∧
        (A ++ s :: B).map (fun x => x.sz)
          = [sky_event_sizeof C e, r10.size, r20.size, r30.size]) := by
  have hAB : raw_stats 12 (records_before e.timestamp rs)
      ++ raw_stats (12 + raw_events_size (records_before e.timestamp rs))
          (records_after e.timestamp rs) = raw_stats 12 rs := by
    rw [← raw_stats_append, records_before_append_after]
  refine ⟨_, _, _, sky_path_get_event_stats_sorted C before after oid rs hwf hs e he, rfl, rfl,
    hAB, ?_, rfl, rfl, rfl, rfl, ?_, ?_⟩
  · intro i h
    rw [hAB, raw_stats_getElem rs 12 i h]
    rfl
  · intro x hx
    cases hra : records_after e.timestamp rs with
    | nil => rw [hra] at hx; simp [raw_stats] at hx
    | cons r rest =>
      rw [hra] at hx
      simp only [raw_stats, List.head?_cons, Option.some.injEq] at hx
      rw [← hx]
      rfl
  · rintro r10 r20 r30 rfl h10 h20 h30 h5
    simp [records_before, records_after, List.takeWhile_cons, List.dropWhile_cons, h5, h10, h20,
      h30, raw_stats, raw_stat, incoming_stat, raw_events_size]

theorem sky_path_get_event_stats_offsets_witness :
    raw_path_wf s3_records ∧ raw_sorted s3_records ∧ (incoming_event 25).in_range ∧
    ∃ A B s, sky_path_get_event_stats byte_codec ([7] ++ (raw_path_bytes 1 s3_records ++ []))
        [7].length (some (incoming_event 25)) = some (0, A ++ s :: B) ∧
      A ++ B = raw_stats 12 s3_records ∧
      s.timestamp = (incoming_event 25).timestamp ∧
      s.sz = sky_event_sizeof byte_codec (incoming_event 25) ∧
      s.start_pos = 12 + raw_events_size (records_before (incoming_event 25).timestamp s3_records) ∧
      s.end_pos = s.start_pos ∧
      (∀ x, B.head? = some x → x.start_pos = s.start_pos) :=
  (sky_path_get_event_stats_offsets byte_codec [7] [] 1 s3_records s3_records_wf
      s3_records_sorted (incoming_event 25)
      (incoming_event_in_range 25 (by norm_num) (by norm_num))).elim
    (fun A hA => hA.elim (fun B hB => hB.elim (fun s h =>
      ⟨s3_records_wf, s3_records_sorted, incoming_event_in_range 25 (by norm_num) (by norm_num),
        A, B, s, h.1, h.2.2.2.1, h.2.2.2.2.2.1, h.2.2.2.2.2.2.1, h.2.2.2.2.2.2.2.1,
        h.2.2.2.2.2.2.2.2.1, h.2.2.2.2.2.2.2.2.2.1⟩)))

theorem raw_stats_chain (rs : List raw_event) (off : Nat) :
    (raw_stats off rs).Chain' (fun a b => a.end_pos = b.start_pos) ∧
      (∀ s, (raw_stats off rs).head? = some s → s.start_pos = off) ∧
      (∀ s, (raw_stats off rs).getLast? = some s → s.end_pos = off + raw_events_size rs) := by
  induction rs generalizing off with
  | nil => simp [raw_stats]
  | cons r rs ih =>
    obtain ⟨h1, h2, h3⟩ := ih (off + r.size)
    refine ⟨?_, ?_, ?_⟩
    · simp only [raw_stats]
      rw [List.chain'_cons']
      refine ⟨?_, h1⟩
      intro y hy
      have := h2 y (by simpa [Option.mem_def] using hy)
      simp [raw_stat, this]
    · intro s hs
      simp only [raw_stats, List.head?_cons, Option.some.injEq] at hs
      rw [← hs]; rfl
    · intro s hs
      cases rs with
      | nil =>
        simp only [raw_stats, List.getLast?_singleton, Option.some.injEq] at hs
        rw [← hs]; simp [raw_stat, raw_events_size]
      | cons r2 rs2 =>
        have hl : (raw_stats off (r :: r2 :: rs2)).getLast?
            = (raw_stats (off + r.size) (r2 :: rs2)).getLast? := by
          simp [raw_stats, List.getLast?_cons_cons]
        rw [hl] at hs
        have := h3 s hs
        simp only [raw_events_size] at this ⊢
        omega

/-- C12: for a well-formed raw path with `N` records (sorted or not), placed anywhere in
memory, and a null incoming event, `sky_path_get_event_stats` returns 0 with exactly `N`
stats in block order: stat `i` carries the timestamp of record `i`, `start_pos` equal to
the byte offset of record `i` in the block (12 plus the sizes of the records before it),
`sz` equal to the size of the record and `end_pos = start_pos + sz`; consecutive stats
abut, the first starts at 12 and the last ends at `sky_path_sizeof_raw` of the block. -/
theorem sky_path_get_event_stats_null {D : Type} (C : sky_event_data_codec D)
    (before after : List Nat) (oid : Nat) (rs : List raw_event) (hwf : raw_path_wf rs) :
    ∃ stats, sky_path_get_event_stats C (before ++ (raw_path_bytes oid rs ++ after))
        before.length (none : Option (sky_event D)) = some (0, stats) ∧
      stats.length = rs.length ∧
      (∀ (i : Nat) (h : i < rs.length), stats[i]? = some
        { timestamp := (rs.get ⟨i, h⟩).timestamp
          start_pos := 12 + raw_events_size (rs.take i)
          end_pos := 12 + raw_events_size (rs.take i) + (rs.get ⟨i, h⟩).size
          sz := (rs.get ⟨i, h⟩).size }) ∧
      stats.Chain' (fun a b => a.end_pos = b.start_pos) ∧
      (∀ s, stats.head? = some s → s.start_pos = 12) ∧
      (∀ s, stats.getLast? = some s → s.end_pos
        = sky_path_sizeof_raw (before ++ (raw_path_bytes oid rs ++ after)) before.length) := by
  have hres := sky_path_get_event_stats_walk C before after oid rs hwf
    (none : Option (sky_event D)) 0 rfl
  simp only [incoming, Option.map_none'] at hres
  rw [walk_none] at hres
  obtain ⟨h1, h2, h3⟩ := raw_stats_chain rs 12
  refine ⟨_, hres, raw_stats_length rs 12, ?_, h1, h2, ?_⟩
  · intro i h
    rw [raw_stats_getElem rs 12 i h]
    rfl
  · intro s hs
    rw [raw_path_sizeof_raw before after oid rs hwf.2]
    exact h3 s hs

theorem sky_path_get_event_stats_null_witness :
    raw_path_wf s3_records ∧
    ∃ stats, sky_path_get_event_stats byte_codec ([7] ++ (raw_path_bytes 1 s3_records ++ [8]))
        [7].length (none : Option (sky_event Nat)) = some (0, stats) ∧
      stats.length = s3_records.length ∧
      (∀ (i : Nat) (h : i < s3_records.length), stats[i]? = some
        { timestamp := (s3_records.get ⟨i, h⟩).timestamp
          start_pos := 12 + raw_events_size (s3_records.take i)
          end_pos := 12 + raw_events_size (s3_records.take i) + (s3_records.get ⟨i, h⟩).size
          sz := (s3_records.get ⟨i, h⟩).size }) ∧
      stats.Chain' (fun a b => a.end_pos = b.start_pos) ∧
      (∀ s, stats.head? = some s → s.start_pos = 12) ∧
      (∀ s, stats.getLast? = some s → s.end_pos
        = sky_path_sizeof_raw ([7] ++ (raw_path_bytes 1 s3_records ++ [8])) [7].length) :=
  ⟨s3_records_wf, sky_path_get_event_stats_null byte_codec [7] [8] 1 s3_records s3_records_wf⟩

/-! ## `sky_path_add_event`: rejections, duplicates, additions -/

/-- C13: for every path and every event whose `object_id` differs from the path's
`object_id`, and for every path whose own `object_id` is 0, `sky_path_add_event` returns
-1 and leaves the path unchanged: same `event_count`, same events sequence. -/
theorem sky_path_add_event_rejects {D : Type} (qsort : List (sky_event D) → List (sky_event D))
    (path : sky_path D) (event : sky_event D)
    (h : path.object_id = 0 ∨ path.object_id ≠ event.object_id) :
    sky_path_add_event qsort path event = (-1, path) ∧
      (sky_path_add_event qsort path event).2.event_count = path.event_count ∧
      (sky_path_add_event qsort path event).2.events = path.events := by
  have hres : sky_path_add_event qsort path event = (-1, path) := by
    unfold sky_path_add_event
    rcases h with h | h
    · simp [h]
    · by_cases h0 : path.object_id = 0
      · simp [h0]
      · simp [h0, h]
  rw [hres]
  exact ⟨rfl, rfl, rfl⟩

theorem sky_path_add_event_rejects_witness :
    ((sky_path_create 1 : sky_path Nat).object_id = 0 ∨
      (sky_path_create 1 : sky_path Nat).object_id ≠ (incoming_event 5).object_id + 1) ∧
    sky_path_add_event insertion_qsort (sky_path_create 1)
        { incoming_event 5 with object_id := (incoming_event 5).object_id + 1 }
      = (-1, sky_path_create 1) ∧
    (sky_path_add_event insertion_qsort (sky_path_create 1)
        { incoming_event 5 with object_id := (incoming_event 5).object_id + 1 }).2.event_count
      = (sky_path_create 1 : sky_path Nat).event_count ∧
    (sky_path_add_event insertion_qsort (sky_path_create 1)
        { incoming_event 5 with object_id := (incoming_event 5).object_id + 1 }).2.events
      = (sky_path_create 1 : sky_path Nat).events :=
  ⟨Or.inr (by decide),
    sky_path_add_event_rejects insertion_qsort (sky_path_create 1)
      { incoming_event 5 with object_id := (incoming_event 5).object_id + 1 }
      (Or.inr (by decide))⟩

theorem sky_path_add_event_fail_or_perm {D : Type}
    (qsort : List (sky_event D) → List (sky_event D)) (hq : qsort_correct qsort)
    (path : sky_path D) (e : sky_event D) :
    sky_path_add_event qsort path e = (-1, path) ∨
      (path.object_id ≠ 0 ∧ path.object_id = e.object_id ∧
        (∀ x ∈ path.events, x.addr ≠ e.addr) ∧
        ∃ q, sky_path_add_event qsort path e = (0, q) ∧ q.object_id = path.object_id ∧
          q.events.Perm (path.events ++ [e])) := by
  by_cases h0 : path.object_id = 0
  · left; simp [sky_path_add_event, h0]
  · by_cases hid : path.object_id = e.object_id
    · by_cases hany : path.events.any (fun x => x.addr == e.addr) = true
      · left
        have h0e : e.object_id ≠ 0 := hid ▸ h0
        simp [sky_path_add_event, h0e, hid, hany]
      · right
        have hnew : ∀ x ∈ path.events, x.addr ≠ e.addr := by
          intro x hx heq
          apply hany
          rw [List.any_eq_true]
          exact ⟨x, hx, by simpa using heq⟩
        refine ⟨h0, hid, hnew, _, sky_path_add_event_ok qsort path e h0 hid hnew, rfl, ?_⟩
        exact (hq _).1
    · left; simp [sky_path_add_event, h0, hid]

theorem sky_path_add_event_nodup {D : Type}
    (qsort : List (sky_event D) → List (sky_event D)) (hq : qsort_correct qsort)
    (path : sky_path D) (e : sky_event D)
    (hnd : (path.events.map (fun x => x.addr)).Nodup) :
    ((sky_path_add_event qsort path e).2.events.map (fun x => x.addr)).Nodup := by
  rcases sky_path_add_event_fail_or_perm qsort hq path e with h | ⟨_, _, hnew, q, hq1, _, hq3⟩
  · rw [h]; exact hnd
  · rw [hq1]
    refine (List.Perm.nodup_iff (List.Perm.map _ hq3)).mpr ?_
    rw [List.map_append, List.nodup_append]
    refine ⟨hnd, by simp, ?_⟩
    intro a ha hb
    simp only [List.map_cons, List.map_nil, List.mem_singleton] at hb
    obtain ⟨x, hx, hxa⟩ := List.mem_map.mp ha
    exact hnew x hx (by rw [hxa, hb])

/-- C14: for every path that already holds the event handle `e` (an event at the same
address), `sky_path_add_event(path, e)` returns -1 and leaves the path unchanged; hence,
`qsort` being a correct sort, after any sequence of `sky_path_add_event` calls on a path
whose handles are distinct (such as the path of `sky_path_create`) no event handle
occurs twice in `path->events`. -/
theorem sky_path_add_event_no_duplicate {D : Type}
    (qsort : List (sky_event D) → List (sky_event D)) (hq : qsort_correct qsort)
    (path : sky_path D) (e : sky_event D) (hmem : ∃ x ∈ path.events, x.addr = e.addr) :
    sky_path_add_event qsort path e = (-1, path) ∧
      (∀ (oid : Nat) (es : List (sky_event D)),
        ((sky_path_add_event_calls qsort (sky_path_create oid) es).events.map
          (fun x => x.addr)).Nodup) ∧
      (∀ (p0 : sky_path D) (es : List (sky_event D)),
        (p0.events.map (fun x => x.addr)).Nodup →
        ((sky_path_add_event_calls qsort p0 es).events.map (fun x => x.addr)).Nodup) := by
  have hseq : ∀ (es : List (sky_event D)) (p0 : sky_path D),
      (p0.events.map (fun x => x.addr)).Nodup →
      ((sky_path_add_event_calls qsort p0 es).events.map (fun x => x.addr)).Nodup := by
    intro es
    induction es with
    | nil => intro p0 h; exact h
    | cons a es ih =>
      intro p0 h
      exact ih _ (sky_path_add_event_nodup qsort hq p0 a h)
  refine ⟨?_, fun oid es => hseq es _ (by simp [sky_path_create]), fun p0 es h => hseq es p0 h⟩
  rcases sky_path_add_event_fail_or_perm qsort hq path e with h | ⟨_, _, hnew, _⟩
  · exact h
  · obtain ⟨x, hx, hxa⟩ := hmem
    exact absurd hxa (hnew x hx)

theorem sky_path_add_event_no_duplicate_witness :
    qsort_correct (insertion_qsort : List (sky_event Nat) → List (sky_event Nat)) ∧
    (∃ x ∈ example_path.events, x.addr = (tie_data 2).addr) ∧
    sky_path_add_event insertion_qsort example_path (tie_data 2) = (-1, example_path) ∧
      (∀ (oid : Nat) (es : List (sky_event Nat)),
        ((sky_path_add_event_calls insertion_qsort (sky_path_create oid) es).events.map
          (fun x => x.addr)).Nodup) ∧
      (∀ (p0 : sky_path Nat) (es : List (sky_event Nat)),
        (p0.events.map (fun x => x.addr)).Nodup →
        ((sky_path_add_event_calls insertion_qsort p0 es).events.map
          (fun x => x.addr)).Nodup) :=
  ⟨insertion_qsort_correct, by decide,
    sky_path_add_event_no_duplicate insertion_qsort insertion_qsort_correct example_path
      (tie_data 2) (by decide)⟩

/-- C15: for every path with a non-zero object id and every event `e` with the same
object id whose handle is not in the path, `sky_path_add_event` (with a `qsort` that
sorts correctly) returns 0, `event_count` grows by exactly one, the object id stays, and
the new events sequence is a permutation of the old events plus `e`. -/
theorem sky_path_add_event_adds {D : Type}
    (qsort : List (sky_event D) → List (sky_event D)) (hq : qsort_correct qsort)
    (path : sky_path D) (e : sky_event D) (h0 : path.object_id ≠ 0)
    (hid : e.object_id = path.object_id) (hnew : ∀ x ∈ path.events, x.addr ≠ e.addr) :
    ∃ q, sky_path_add_event qsort path e = (0, q) ∧
      q.event_count = path.event_count + 1 ∧ q.object_id = path.object_id ∧
      q.events.Perm (path.events ++ [e]) := by
  have hperm := (hq (path.events ++ [e])).1
  refine ⟨_, sky_path_add_event_ok qsort path e h0 hid.symm hnew, ?_, rfl, hperm⟩
  have := hperm.length_eq
  simpa [sky_path.event_count] using this

theorem sky_path_add_event_adds_witness :
    qsort_correct (insertion_qsort : List (sky_event Nat) → List (sky_event Nat)) ∧
    example_path.object_id ≠ 0 ∧ (tie_data 3).object_id = example_path.object_id ∧
    (∀ x ∈ example_path.events, x.addr ≠ (tie_data 3).addr) ∧
    ∃ q, sky_path_add_event insertion_qsort example_path (tie_data 3) = (0, q) ∧
      q.event_count = example_path.event_count + 1 ∧ q.object_id = example_path.object_id ∧
      q.events.Perm (example_path.events ++ [tie_data 3]) :=
  ⟨insertion_qsort_correct, by decide, by decide, by decide,
    sky_path_add_event_adds insertion_qsort insertion_qsort_correct example_path (tie_data 3)
      (by decide) (by decide) (by decide)⟩

/-! ## `sky_path_remove_event` -/

section RemoveEvent

variable {D : Type}

theorem shift_out_sublist (a : Nat) (l : List (sky_event D)) : (shift_out a l).Sublist l := by
  induction l with
  | nil => exact List.Sublist.refl _
  | cons x xs ih =>
    unfold shift_out
    split
    · exact List.sublist_cons_self x xs
    · exact ih.cons₂ x

theorem shift_out_length (a : Nat) (l : List (sky_event D)) (h : ∃ x ∈ l, x.addr = a) :
    (shift_out a l).length + 1 = l.length := by
  induction l with
  | nil => obtain ⟨x, hx, _⟩ := h; simp at hx
  | cons x xs ih =>
    unfold shift_out
    by_cases hx : x.addr = a
    · simp [hx]
    · obtain ⟨y, hy, hya⟩ := h
      rcases List.mem_cons.mp hy with rfl | hy
      · exact absurd hya hx
      · simp [hx, ih ⟨y, hy, hya⟩]

theorem shift_out_eq_filter (a : Nat) (l : List (sky_event D))
    (hnd : (l.map (fun x => x.addr)).Nodup) :
    shift_out a l = l.filter (fun x => decide (x.addr ≠ a)) := by
  induction l with
  | nil => rfl
  | cons x xs ih =>
    rw [List.map_cons, List.nodup_cons] at hnd
    unfold shift_out
    by_cases hx : x.addr = a
    · have hall : ∀ y ∈ xs, decide (y.addr ≠ a) = true := by
        intro y hy
        simp only [ne_eq, decide_eq_true_eq]
        intro hya
        exact hnd.1 (List.mem_map.mpr ⟨y, hy, by rw [hya, hx]⟩)
      rw [if_pos hx, List.filter_cons_of_neg (by simp [hx]), List.filter_eq_self.mpr hall]
    · rw [if_neg hx, List.filter_cons_of_pos (by simp [hx]), ih hnd.2]

theorem sort_key_le_iff (a b : sky_event D) :
    compare_events a b ≤ 0 ↔ sort_key_le (sort_key a) (sort_key b) := by
  rw [compare_events_le_iff]
  unfold data_last sort_key_le sort_key
  simp only [decide_eq_false_iff_not, decide_eq_true_eq]
  constructor <;> rintro (h | ⟨h1, h2 | h2⟩) <;> first | exact Or.inl h | skip
  · exact Or.inr ⟨h1, Or.inl (by omega)⟩
  · exact Or.inr ⟨h1, Or.inr h2⟩
  · exact Or.inr ⟨h1, Or.inl (by omega)⟩
  · exact Or.inr ⟨h1, Or.inr h2⟩

theorem sorted_perm_sort_key (l₁ l₂ : List (sky_event D)) (hp : l₁.Perm l₂)
    (h₁ : l₁.Pairwise (fun a b => compare_events a b ≤ 0))
    (h₂ : l₂.Pairwise (fun a b => compare_events a b ≤ 0)) :
    l₁.map sort_key = l₂.map sort_key := by
  have k₁ : (l₁.map sort_key).Pairwise sort_key_le :=
    List.pairwise_map.mpr (h₁.imp (fun h => (sort_key_le_iff _ _).mp h))
  have k₂ : (l₂.map sort_key).Pairwise sort_key_le :=
    List.pairwise_map.mpr (h₂.imp (fun h => (sort_key_le_iff _ _).mp h))
  refine List.Perm.eq_of_sorted ?_ k₁ k₂ (hp.map sort_key)
  rintro ⟨a1, a2⟩ ⟨b1, b2⟩ _ _ hab hba
  unfold sort_key_le at hab hba
  simp only at hab hba
  have h1 : a1 = b1 := by omega
  subst h1
  have h2 : a2 = b2 := by
    rcases hab with hab | ⟨_, hab⟩
    · omega
    · rcases hba with hba | ⟨_, hba⟩
      · omega
      · cases a2 <;> cases b2 <;> simp_all
  rw [h2]

theorem ordered_insert_sorted (e : sky_event D) (l : List (sky_event D))
    (h : ∀ x ∈ l, compare_events e x ≤ 0) : ordered_insert e l = e :: l := by
  cases l with
  | nil => rfl
  | cons x xs => simp [ordered_insert, h x (List.mem_cons_self x xs)]

theorem insertion_qsort_sorted (l : List (sky_event D))
    (h : l.Pairwise (fun a b => compare_events a b ≤ 0)) : insertion_qsort l = l := by
  induction l with
  | nil => rfl
  | cons x xs ih =>
    have h2 := List.pairwise_cons.mp h
    simp only [insertion_qsort]
    rw [ih h2.2, ordered_insert_sorted x xs h2.1]

end RemoveEvent

/-- C16: removing the only event of a path. For every path sorted by `compare_events`,
with distinct handles, that holds the event handle `e`, and a `qsort` that sorts
correctly: when `e` is the only event and `realloc` of zero bytes returns a null pointer,
`sky_path_remove_event(path, e)` takes the event out, leaves the path without events and
returns -1, not 0; when the path holds another event as well it returns 0, `event_count`
decreases by exactly one, `e` no longer occurs in the path and the remaining events are
the other events, sorted by `compare_events`: a permutation of them with the same
sequence of sort keys (timestamp, data flag), and exactly the other events in their
previous order when `qsort` leaves an array that is already sorted as it is. -/
theorem sky_path_remove_event_only_event {D : Type}
    (qsort : List (sky_event D) → List (sky_event D)) (hq : qsort_correct qsort)
    (path : sky_path D) (e : sky_event D)
    (hs : path.events.Pairwise (fun a b => compare_events a b ≤ 0))
    (hnd : (path.events.map (fun x => x.addr)).Nodup)
    (hmem : ∃ x ∈ path.events, x.addr = e.addr) :
    (path.event_count = 1 →
      sky_path_remove_event qsort true path e
        = (-1, { object_id := path.object_id, events := [] })) ∧
    (2 ≤ path.event_count → ∀ realloc_zero_null : Bool,
      ∃ q, sky_path_remove_event qsort realloc_zero_null path e = (0, q) ∧
        q.object_id = path.object_id ∧
        q.event_count + 1 = path.event_count ∧
        (∀ x ∈ q.events, x.addr ≠ e.addr) ∧
        q.events.Perm (path.events.filter (fun x => decide (x.addr ≠ e.addr))) ∧
        q.events.Pairwise (fun a b => compare_events a b ≤ 0) ∧
        q.events.map sort_key
          = (path.events.filter (fun x => decide (x.addr ≠ e.addr))).map sort_key ∧
        ((∀ l : List (sky_event D), l.Pairwise (fun a b => compare_events a b ≤ 0) →
            qsort l = l) →
          q.events = path.events.filter (fun x => decide (x.addr ≠ e.addr)))) := by
  have hany : path.events.any (fun x => x.addr == e.addr) = true := by
    rw [List.any_eq_true]
    obtain ⟨x, hx, hxa⟩ := hmem
    exact ⟨x, hx, by simpa using hxa⟩
  have hlen := shift_out_length e.addr path.events hmem
  have hfil := shift_out_eq_filter e.addr path.events hnd
  have hsub := shift_out_sublist e.addr path.events
  refine ⟨?_, ?_⟩
  · intro h1
    simp only [sky_path.event_count] at h1
    have h0 : (shift_out e.addr path.events).length = 0 := by omega
    have hnil : shift_out e.addr path.events = [] := List.length_eq_zero.mp h0
    simp [sky_path_remove_event, hany, sky_path.event_count, hnil]
  · intro h2 rz
    simp only [sky_path.event_count] at h2
    have hcond : ¬ ((shift_out e.addr path.events).length = 0 ∧ rz = true) := by
      rintro ⟨h1, _⟩
      omega
    have hres : sky_path_remove_event qsort rz path e
        = (0, { object_id := path.object_id, events := qsort (shift_out e.addr path.events) }) := by
      simp only [sky_path_remove_event, hany, if_true, sky_path.event_count, hcond, if_false,
        sort_events]
    obtain ⟨hperm, hsorted⟩ := hq (shift_out e.addr path.events)
    refine ⟨_, hres, rfl, ?_, ?_, ?_, hsorted, ?_, ?_⟩
    · simp only [sky_path.event_count]
      rw [hperm.length_eq]; exact hlen
    · intro x hx
      have hx' := hperm.mem_iff.mp hx
      rw [hfil] at hx'
      simpa using (List.mem_filter.mp hx').2
    · rw [← hfil]; exact hperm
    · rw [← hfil]
      exact sorted_perm_sort_key _ _ hperm hsorted (hs.sublist hsub)
    · intro hstable
      show qsort (shift_out e.addr path.events) = _
      rw [hstable _ (hs.sublist hsub), hfil]

theorem sky_path_remove_event_only_event_witness :
    qsort_correct (insertion_qsort : List (sky_event Nat) → List (sky_event Nat)) ∧
    [tie_data 3].Pairwise (fun a b => compare_events a b ≤ 0) ∧
    ([tie_data 3].map (fun x => x.addr)).Nodup ∧
    (∃ x ∈ [tie_data 3], x.addr = (tie_data 3).addr) ∧
    ({ object_id := 1, events := [tie_data 3] } : sky_path Nat).event_count = 1 ∧
    sky_path_remove_event insertion_qsort true { object_id := 1, events := [tie_data 3] }
        (tie_data 3)
      = (-1, { object_id := 1, events := [] }) :=
  ⟨insertion_qsort_correct, by decide, by decide, by decide, rfl,
    (sky_path_remove_event_only_event insertion_qsort insertion_qsort_correct
      { object_id := 1, events := [tie_data 3] } (tie_data 3) (by decide) (by decide)
      (by decide)).1 rfl⟩

/-! ## The object id invariant -/

section Owned

variable {D : Type}

theorem sky_event_unpack_object_id (C : sky_event_data_codec D) (ev : sky_event D)
    (mem : List Nat) (ptr : Nat) :
    (sky_event_unpack C ev mem ptr).2.1.object_id = ev.object_id := by
  unfold sky_event_unpack
  simp only [sky_event_unpack_hdr]
  split <;> rfl

theorem sky_path_unpack_loop_owned (C : sky_event_data_codec D) (alloc : Nat → Nat)
    (uninit : sky_event D) (mem : List Nat) :
    ∀ (fuel : Nat) (path : sky_path D) (ptr endptr index : Nat)
      (r : Int × sky_path D × Nat), index = path.events.length → path.events_owned →
      sky_path_unpack_loop C alloc uninit mem fuel path ptr endptr index = some r →
      r.2.1.events_owned ∧ r.2.1.object_id = path.object_id := by
  intro fuel
  induction fuel with
  | zero =>
    intro path ptr endptr index r _ hown h
    simp only [sky_path_unpack_loop] at h
    split at h
    · simp at h
    · simp only [Option.some.injEq] at h
      rw [← h]; exact ⟨hown, rfl⟩
  | succ f ih =>
    intro path ptr endptr index r hidx hown h
    rw [sky_path_unpack_loop] at h
    split at h
    · have hoid := sky_event_unpack_object_id C
        (sky_event_create (alloc index) path.object_id 0 0) mem ptr
      rcases hres : sky_event_unpack C (sky_event_create (alloc index) path.object_id 0 0)
        mem ptr with ⟨rc, ev, sz⟩
      rw [hres] at hoid
      dsimp only at h
      rw [hres] at h
      simp only [sky_event_create] at hoid
      simp only [hidx, list_set_length_append] at h
      have hown' : ({ object_id := path.object_id, events := path.events ++ [ev] } :
          sky_path D).events_owned := by
        intro x hx
        rcases List.mem_append.mp hx with hx | hx
        · exact hown x hx
        · rw [List.mem_singleton.mp hx]; exact hoid
      by_cases hrc : rc = 0
      · simp only [hrc, ne_eq, not_true_eq_false, if_false] at h
        exact ih ⟨path.object_id, path.events ++ [ev]⟩ _ _ _ r (by simp) hown' h
      · simp only [ne_eq, hrc, not_false_eq_true, if_true, Option.some.injEq] at h
        rw [← h]; exact ⟨hown', rfl⟩
    · simp only [Option.some.injEq] at h
      rw [← h]; exact ⟨hown, rfl⟩

theorem sky_path_unpack_owned (C : sky_event_data_codec D) (alloc : Nat → Nat)
    (uninit : sky_event D) (path : sky_path D) (mem : List Nat) (ptr : Nat)
    (r : Int × sky_path D × Nat) (hempty : path.events = [])
    (h : sky_path_unpack C alloc uninit path mem ptr = some r) : r.2.1.events_owned := by
  unfold sky_path_unpack at h
  simp only at h
  split at h
  · simp at h
  · rename_i rc q p hloop
    have := sky_path_unpack_loop_owned C alloc uninit mem _ _ _ _ _ _ (by simp [hempty])
      (by intro x hx; simp [hempty] at hx) hloop
    split at h <;> simp only [Option.some.injEq] at h <;> rw [← h] <;> exact this.1

theorem sky_path_remove_event_owned (qsort : List (sky_event D) → List (sky_event D))
    (hq : qsort_correct qsort) (rz : Bool) (path : sky_path D) (e : sky_event D)
    (hown : path.events_owned) : (sky_path_remove_event qsort rz path e).2.events_owned := by
  have hsub := (shift_out_sublist e.addr path.events).subset
  unfold sky_path_remove_event
  simp only [sort_events]
  split
  · split
    · intro x hx; exact hown x (hsub hx)
    · intro x hx; exact hown x (hsub ((hq _).1.mem_iff.mp hx))
  · intro x hx; exact hown x ((hq _).1.mem_iff.mp hx)

theorem sky_path_add_event_owned (qsort : List (sky_event D) → List (sky_event D))
    (hq : qsort_correct qsort) (path : sky_path D) (e : sky_event D)
    (hown : path.events_owned) : (sky_path_add_event qsort path e).2.events_owned := by
  rcases sky_path_add_event_fail_or_perm qsort hq path e with h | ⟨_, hid, _, q, hq1, hq2, hq3⟩
  · rw [h]; exact hown
  · rw [hq1]
    intro x hx
    have hx' := hq3.mem_iff.mp hx
    show x.object_id = q.object_id
    rw [hq2]
    rcases List.mem_append.mp hx' with hx' | hx'
    · exact hown x hx'
    · rw [List.mem_singleton.mp hx']; exact hid.symm

end Owned

/-- C17 (counterexample): `sky_path_unpack` into a path that already holds events. The
destination is a path of object 3 with two events of object 3 (at the addresses 1 and
2); the block is the raw path of object 1 with one record (timestamp 10, action 1). The
call returns 0 and reads the 28 bytes; the path now has object id 1, its slot 0 holds the
event read from the block, and its slot 1 still holds the old event of object 3: not every
event of the path has the path's object id. -/
theorem sky_path_unpack_keeps_old_events :
    sky_path_unpack byte_codec (fun i => 100 + i)
        { addr := 0, object_id := 0, timestamp := 0, action_id := 0, data := [] }
        { object_id := 3,
          events := [{ addr := 1, object_id := 3, timestamp := 4, action_id := 7, data := [] },
                     { addr := 2, object_id := 3, timestamp := 6, action_id := 8, data := [] }] }
        (raw_path_bytes 1 [{ timestamp := 10, action_id := 1, data := [] }]) 0
      = some (0,
          { object_id := 1,
            events := [{ addr := 100, object_id := 1, timestamp := 10, action_id := 1, data := [] },
                       { addr := 2, object_id := 3, timestamp := 6, action_id := 8, data := [] },
                       { addr := 0, object_id := 0, timestamp := 0, action_id := 0, data := [] }] },
          28) ∧
    ¬ ({ object_id := 1,
         events := [{ addr := 100, object_id := 1, timestamp := 10, action_id := 1, data := [] },
                    { addr := 2, object_id := 3, timestamp := 6, action_id := 8, data := [] },
                    { addr := 0, object_id := 0, timestamp := 0, action_id := 0, data := [] }] } :
        sky_path Nat).events_owned ∧
    ({ object_id := 3,
       events := [{ addr := 1, object_id := 3, timestamp := 4, action_id := 7, data := [] },
                  { addr := 2, object_id := 3, timestamp := 6, action_id := 8, data := [] }] } :
        sky_path Nat).events_owned := by
  refine ⟨by decide, ?_, ?_⟩
  · intro h
    exact absurd (h { addr := 2, object_id := 3, timestamp := 6, action_id := 8, data := [] }
      (by simp)) (by decide)
  · intro x hx
    simp only [List.mem_cons, List.mem_singleton, List.not_mem_nil, or_false] at hx
    rcases hx with rfl | rfl <;> rfl

/-- C17 (amended): every event of a path has the path's object id. This holds for the
path of `sky_path_create`, is kept by every `sky_path_add_event` and every
`sky_path_remove_event` call, whatever it returns (`qsort` being a correct sort), and
holds for the path that `sky_path_unpack` leaves, whatever it returns, when it fills a
path without events (such as the path of `sky_path_create`) from any memory. -/
theorem sky_path_events_owned {D : Type} (qsort : List (sky_event D) → List (sky_event D))
    (hq : qsort_correct qsort) :
    (∀ oid : Nat, (sky_path_create oid : sky_path D).events_owned) ∧
    (∀ (path : sky_path D) (e : sky_event D), path.events_owned →
      (sky_path_add_event qsort path e).2.events_owned) ∧
    (∀ (realloc_zero_null : Bool) (path : sky_path D) (e : sky_event D), path.events_owned →
      (sky_path_remove_event qsort realloc_zero_null path e).2.events_owned) ∧
    (∀ (C : sky_event_data_codec D) (alloc : Nat → Nat) (uninit : sky_event D)
      (path : sky_path D) (mem : List Nat) (ptr : Nat), path.events = [] →
      ∃ r, sky_path_unpack C alloc uninit path mem ptr = some r ∧ r.2.1.events_owned) := by
  refine ⟨?_, ?_, ?_, ?_⟩
  · intro oid x hx
    simp [sky_path_create] at hx
  · intro path e hown
    exact sky_path_add_event_owned qsort hq path e hown
  · intro rz path e hown
    exact sky_path_remove_event_owned qsort hq rz path e hown
  · intro C alloc uninit path mem ptr hempty
    obtain ⟨r, hr⟩ := Option.isSome_iff_exists.mp
      (sky_path_unpack_total C alloc uninit path mem ptr)
    exact ⟨r, hr, sky_path_unpack_owned C alloc uninit path mem ptr r hempty hr⟩

theorem sky_path_events_owned_witness :
    qsort_correct (insertion_qsort : List (sky_event Nat) → List (sky_event Nat)) ∧
    (∀ oid : Nat, (sky_path_create oid : sky_path Nat).events_owned) ∧
    (∀ (path : sky_path Nat) (e : sky_event Nat), path.events_owned →
      (sky_path_add_event insertion_qsort path e).2.events_owned) ∧
    (∀ (realloc_zero_null : Bool) (path : sky_path Nat) (e : sky_event Nat),
      path.events_owned →
      (sky_path_remove_event insertion_qsort realloc_zero_null path e).2.events_owned) ∧
    (∀ (C : sky_event_data_codec Nat) (alloc : Nat → Nat) (uninit : sky_event Nat)
      (path : sky_path Nat) (mem : List Nat) (ptr : Nat), path.events = [] →
      ∃ r, sky_path_unpack C alloc uninit path mem ptr = some r ∧ r.2.1.events_owned) :=
  ⟨insertion_qsort_correct, sky_path_events_owned insertion_qsort insertion_qsort_correct⟩

/-! ## Path headers: packing, empty blocks, missing bounds -/

/-- C18: `sky_path_pack_hdr` (object id below 2^64 and event data length below 2^32, as
their C types have it) returns -1, reports 0 bytes and writes nothing when `object_id`
is 0 or `event_data_length` is 0; otherwise it returns 0, reports exactly 12 bytes and
writes `object_id` as 8 bytes followed by `event_data_length` as 4 bytes: read back from
wherever the bytes lie in memory, the two fields are the values given. -/
theorem sky_path_pack_hdr_result (object_id event_data_length : Nat)
    (hoid : object_id < 2 ^ 64) (hlen : event_data_length < 2 ^ 32) :
    ((object_id = 0 ∨ event_data_length = 0) →
      sky_path_pack_hdr object_id event_data_length = (-1, 0, [])) ∧
    (object_id ≠ 0 → event_data_length ≠ 0 →
      sky_path_pack_hdr object_id event_data_length
        = (0, 12, le_bytes 8 object_id ++ le_bytes 4 event_data_length) ∧
      (le_bytes 8 object_id).length = 8 ∧ (le_bytes 4 event_data_length).length = 4 ∧
      ∀ before rest : List Nat,
        mem_read (before ++ (le_bytes 8 object_id ++ le_bytes 4 event_data_length ++ rest))
          before.length 8 = object_id ∧
        mem_read (before ++ (le_bytes 8 object_id ++ le_bytes 4 event_data_length ++ rest))
          (before.length + 8) 4 = event_data_length) := by
  refine ⟨?_, ?_⟩
  · rintro (h | h)
    · simp [sky_path_pack_hdr, h]
    · by_cases h0 : object_id = 0
      · simp [sky_path_pack_hdr, h0]
      · simp [sky_path_pack_hdr, h0, h]
  · intro h0 hl
    refine ⟨?_, le_bytes_length _ _, le_bytes_length _ _, ?_⟩
    · have : event_data_length > 0 := by omega
      simp [sky_path_pack_hdr, h0, this, SKY_PATH_HEADER_LENGTH, SKY_OBJECT_ID_SIZE,
        SKY_PATH_EVENT_DATA_LENGTH_SIZE]
    · intro before rest
      have h := path_hdr_read (before ++ (le_bytes 8 object_id ++ le_bytes 4 event_data_length
        ++ rest)) before.length object_id event_data_length rest (List.drop_left _ _)
      exact ⟨by rw [h.1]; exact Nat.mod_eq_of_lt hoid, by rw [h.2.1]; exact Nat.mod_eq_of_lt hlen⟩

theorem sky_path_pack_hdr_result_witness :
    (3 : Nat) < 2 ^ 64 ∧ (16 : Nat) < 2 ^ 32 ∧
    ((3 = 0 ∨ 16 = 0) → sky_path_pack_hdr 3 16 = (-1, 0, [])) ∧
    (3 ≠ 0 → 16 ≠ 0 →
      sky_path_pack_hdr 3 16 = (0, 12, le_bytes 8 3 ++ le_bytes 4 16) ∧
      (le_bytes 8 3).length = 8 ∧ (le_bytes 4 16).length = 4 ∧
      ∀ before rest : List Nat,
        mem_read (before ++ (le_bytes 8 3 ++ le_bytes 4 16 ++ rest)) before.length 8 = 3 ∧
        mem_read (before ++ (le_bytes 8 3 ++ le_bytes 4 16 ++ rest)) (before.length + 8) 4
          = 16) :=
  ⟨by norm_num, by norm_num, sky_path_pack_hdr_result 3 16 (by norm_num) (by norm_num)⟩

/-- C19: for every raw block whose header declares `event_data_length` 0, wherever it
lies in memory and whatever follows the header, `sky_path_unpack` into a fresh path of
`sky_path_create` returns 0, sets the path's `object_id` from the header, leaves the
path with zero events and reports exactly 12 bytes read. -/
theorem sky_path_unpack_empty_block {D : Type} (C : sky_event_data_codec D)
    (alloc : Nat → Nat) (uninit : sky_event D) (fresh_id object_id : Nat)
    (hoid : object_id < 2 ^ 64) (before rest : List Nat) :
    sky_path_unpack C alloc uninit (sky_path_create fresh_id)
        (before ++ (le_bytes 8 object_id ++ le_bytes 4 0 ++ rest)) before.length
      = some (0, { object_id := object_id, events := [] }, 12) ∧
    ({ object_id := object_id, events := [] } : sky_path D).event_count = 0 := by
  have h := path_hdr_read (before ++ (le_bytes 8 object_id ++ le_bytes 4 0 ++ rest))
    before.length object_id 0 rest (List.drop_left _ _)
  refine ⟨?_, rfl⟩
  unfold sky_path_unpack
  simp only [SKY_OBJECT_ID_SIZE, SKY_PATH_EVENT_DATA_LENGTH_SIZE, h.1, h.2.1,
    Nat.mod_eq_of_lt hoid, Nat.zero_mod, sky_path_create, sky_path_unpack_loop, Nat.add_zero,
    Nat.lt_irrefl, if_false]
  simp
  omega

theorem sky_path_unpack_empty_block_witness :
    (3 : Nat) < 2 ^ 64 ∧
    sky_path_unpack byte_codec (fun i => 100 + i) (tie_action 0) (sky_path_create 0)
        ([7, 7] ++ (le_bytes 8 3 ++ le_bytes 4 0 ++ [9, 9, 9])) [7, 7].length
      = some (0, { object_id := 3, events := [] }, 12) ∧
    ({ object_id := 3, events := [] } : sky_path Nat).event_count = 0 :=
  ⟨by norm_num,
    sky_path_unpack_empty_block byte_codec (fun i => 100 + i) (tie_action 0) 0 3 (by norm_num)
      [7, 7] [9, 9, 9]⟩

/-- C20 (counterexample): a buffer of 12 bytes that holds only a header which declares
16 bytes of event data; the memory after the buffer holds an event record. The call
does not fail: `sky_path_unpack` returns 0, decodes the record from the 16 bytes past
the end of the buffer and reports 28 bytes read. -/
theorem sky_path_unpack_reads_past_buffer :
    (le_bytes 8 1 ++ le_bytes 4 16).length = 12 ∧
    sky_path_unpack byte_codec (fun i => 100 + i) (tie_action 0) (sky_path_create 0)
        ((le_bytes 8 1 ++ le_bytes 4 16)
          ++ ({ timestamp := 5, action_id := 7, data := [] } : raw_event).bytes) 0
      = some (0, { object_id := 1,
                   events := [{ addr := 100, object_id := 1, timestamp := 5, action_id := 7,
                                data := [] }] }, 28) ∧
    (le_bytes 8 1 ++ le_bytes 4 16).length < 28 := by
  decide

theorem sky_path_unpack_loop_fails {D : Type} (C : sky_event_data_codec D)
    (alloc : Nat → Nat) (uninit : sky_event D) (mem : List Nat) (es : List (sky_event D)) :
    ∀ (fuel : Nat) (path : sky_path D) (ptr endptr index : Nat) (rest : List Nat),
      (∀ e ∈ es, e.valid C) →
      mem.drop ptr = sky_events_bytes C es ++ rest →
      ptr + (es.map (sky_event_sizeof C)).sum < endptr → endptr - ptr ≤ fuel →
      (∀ created : sky_event D,
        (sky_event_unpack C created mem (ptr + (es.map (sky_event_sizeof C)).sum)).1 ≠ 0) →
      ∃ q, sky_path_unpack_loop C alloc uninit mem fuel path ptr endptr index
        = some (-1, q, ptr + (es.map (sky_event_sizeof C)).sum) := by
  induction es with
  | nil =>
    intro fuel path ptr endptr index rest _ _ hlt hfuel hfail
    simp only [List.map_nil, List.sum_nil, Nat.add_zero] at hlt hfail ⊢
    obtain ⟨f, rfl⟩ : ∃ f, fuel = f + 1 := ⟨fuel - 1, by omega⟩
    have hrc := hfail (sky_event_create (alloc index) path.object_id 0 0)
    rcases hres : sky_event_unpack C (sky_event_create (alloc index) path.object_id 0 0)
      mem ptr with ⟨rc, ev, sz⟩
    rw [hres] at hrc
    rw [sky_path_unpack_loop]
    simp only [hlt, if_true]
    rw [hres]
    simp only at hrc
    simp only [ne_eq, hrc, not_false_eq_true, if_true]
    exact ⟨_, rfl⟩
  | cons e es ih =>
    intro fuel path ptr endptr index rest hval hdrop hlt hfuel hfail
    have hv := hval e (List.mem_cons_self e es)
    have hge := sky_event_sizeof_ge C e
    simp only [List.map_cons, List.sum_cons] at hlt hfail ⊢
    obtain ⟨f, rfl⟩ : ∃ f, fuel = f + 1 := ⟨fuel - 1, by omega⟩
    have hun := sky_event_unpack_packed C mem ptr (sky_events_bytes C es ++ rest) e
      (sky_event_create (alloc index) path.object_id 0 0) hv
      (by rw [hdrop]; simp [sky_events_bytes])
    have hdrop2 : mem.drop (ptr + sky_event_sizeof C e) = sky_events_bytes C es ++ rest := by
      have := drop_add_of_drop mem ptr (e.bytes C) (sky_events_bytes C es ++ rest)
        (by rw [hdrop]; simp [sky_events_bytes])
      rwa [sky_event_bytes_length C e hv] at this
    have hptr : ptr < endptr := by omega
    rw [sky_path_unpack_loop]
    simp only [hptr, if_true, hun, ne_eq, not_true_eq_false, if_false]
    rw [← Nat.add_assoc]
    exact ih f _ (ptr + sky_event_sizeof C e) endptr (index + 1) rest
      (fun x hx => hval x (List.mem_cons_of_mem e hx)) hdrop2 (by omega) (by omega)
      (by intro created; rw [Nat.add_assoc]; exact hfail created)

/-- C20 (amended): `sky_path_unpack` has no buffer length and checks no bound. First,
for every valid path `P` and every buffer that holds only the first `k` bytes of the
packed block (`12 ≤ k < sky_path_sizeof(P)`, so that the header declares more event data
than the buffer holds), the rest of the block lying in the memory after the buffer,
`sky_path_unpack` returns 0, reports `sky_path_sizeof(P)` bytes, more than the buffer
holds, and yields the events of `P`. Second, whenever the records `es` decode and the
decoding of the event record after them fails before the declared event data length is
consumed, `sky_path_unpack` returns -1 and reports 0 bytes. -/
theorem sky_path_unpack_no_bounds_check {D : Type} (C : sky_event_data_codec D)
    (alloc : Nat → Nat) (uninit : sky_event D) (dest : sky_path D) :
    (∀ (p : sky_path D) (before after : List Nat) (k oid : Nat), p.valid C →
      12 ≤ k → k < sky_path_sizeof C p →
      ((sky_path_pack C p).2.2.take k).length = k ∧
      ∃ q, sky_path_unpack C alloc uninit (sky_path_create oid)
          (before ++ (((sky_path_pack C p).2.2.take k
            ++ (sky_path_pack C p).2.2.drop k) ++ after)) before.length
          = some (0, q, sky_path_sizeof C p) ∧
        q.events.map sky_event.content = p.events.map sky_event.content) ∧
    (∀ (before rest : List Nat) (object_id event_data_length : Nat)
      (es : List (sky_event D)), (∀ e ∈ es, e.valid C) →
      (es.map (sky_event_sizeof C)).sum < event_data_length → event_data_length < 2 ^ 32 →
      (∀ created : sky_event D,
        (sky_event_unpack C created
          (before ++ (le_bytes 8 object_id ++ le_bytes 4 event_data_length
            ++ (sky_events_bytes C es ++ rest)))
          (before.length + 12 + (es.map (sky_event_sizeof C)).sum)).1 ≠ 0) →
      ∃ q, sky_path_unpack C alloc uninit dest
          (before ++ (le_bytes 8 object_id ++ le_bytes 4 event_data_length
            ++ (sky_events_bytes C es ++ rest))) before.length
        = some (-1, q, 0)) := by
  refine ⟨?_, ?_⟩
  · intro p before after k oid hv hk1 hk2
    obtain ⟨bytes, hb1, _, hb3, _⟩ := sky_path_pack_size C p hv [] []
    have hbytes : (sky_path_pack C p).2.2 = bytes := by rw [hb1]
    refine ⟨?_, ?_⟩
    · rw [hbytes, List.length_take, hb3]; omega
    · rw [List.take_append_drop]
      obtain ⟨q, hq1, _, hq3⟩ := sky_path_unpack_packed C alloc uninit oid p hv before after
      exact ⟨q, hq1, hq3⟩
  · intro before rest object_id event_data_length es hval hlt hlen hfail
    have hhdr := path_hdr_read (before ++ (le_bytes 8 object_id ++ le_bytes 4 event_data_length
        ++ (sky_events_bytes C es ++ rest))) before.length object_id event_data_length
      (sky_events_bytes C es ++ rest) (List.drop_left _ _)
    obtain ⟨hr1, hr2, hr3⟩ := hhdr
    obtain ⟨q, hq⟩ := sky_path_unpack_loop_fails C alloc uninit
      (before ++ (le_bytes 8 object_id ++ le_bytes 4 event_data_length
        ++ (sky_events_bytes C es ++ rest))) es event_data_length
      { dest with object_id := object_id % 2 ^ 64 } (before.length + 12)
      (before.length + 12 + event_data_length) 0 rest hval hr3 (by omega) (by omega) hfail
    have h12 : before.length + 8 + 4 = before.length + 12 := by omega
    refine ⟨q, ?_⟩
    unfold sky_path_unpack
    simp only [SKY_OBJECT_ID_SIZE, SKY_PATH_EVENT_DATA_LENGTH_SIZE, hr1, hr2,
      Nat.mod_eq_of_lt hlen, h12, hq]
    simp

theorem sky_path_unpack_no_bounds_check_witness :
    example_path.valid byte_codec ∧ 12 ≤ 20 ∧ 20 < sky_path_sizeof byte_codec example_path ∧
    (((sky_path_pack byte_codec example_path).2.2.take 20).length = 20 ∧
      ∃ q, sky_path_unpack byte_codec (fun i => 100 + i) (tie_action 0) (sky_path_create 0)
          ([7] ++ (((sky_path_pack byte_codec example_path).2.2.take 20
            ++ (sky_path_pack byte_codec example_path).2.2.drop 20) ++ [8])) [7].length
          = some (0, q, sky_path_sizeof byte_codec example_path) ∧
        q.events.map sky_event.content = example_path.events.map sky_event.content) ∧
    ∃ q, sky_path_unpack byte_codec (fun i => 100 + i) (tie_action 0) (sky_path_create 0)
        ([7] ++ (le_bytes 8 1 ++ le_bytes 4 18
          ++ (sky_events_bytes byte_codec [] ++ sky_event_pack_hdr 5 7 2))) [7].length
      = some (-1, q, 0) :=
  ⟨example_path_valid, by decide, by decide,
    (sky_path_unpack_no_bounds_check byte_codec (fun i => 100 + i) (tie_action 0)
      (sky_path_create 0)).1 example_path [7] [8] 20 0 example_path_valid (by decide)
      (by decide),
    (sky_path_unpack_no_bounds_check byte_codec (fun i => 100 + i) (tie_action 0)
      (sky_path_create 0)).2 [7] (sky_event_pack_hdr 5 7 2) 1 18 []
      (fun e he => absurd he (List.not_mem_nil e)) (by decide) (by norm_num)
      (fun created h => absurd (show (-1 : Int) = 0 from h) (by decide))⟩

/-! ## The moving-pointer copies of `mem.h` -/

theorem sky_cursor_visit_eof (mem : List Nat) (fuel : Nat) (c : sky_cursor)
    (h : c.eof = true) : sky_cursor_visit mem fuel c = some ([], c) := by
  cases fuel <;> simp [sky_cursor_visit, h]

theorem sky_cursor_visit_records (mem post : List Nat) :
    ∀ (rs : List raw_event) (r : raw_event) (c : sky_cursor) (fuel : Nat),
      (∀ x ∈ r :: rs, x.wf) →
      mem.drop c.ptr = raw_events_bytes (r :: rs) ++ post →
      c.endptr = c.ptr + raw_events_size (r :: rs) →
      c.eof = false →
      sky_cursor_visit mem (fuel + (rs.length + 1)) c
        = match sky_cursor_visit mem fuel (sky_cursor_leave mem c) with
          | none => none
          | some (visited, last) => some (raw_event_ptrs c.ptr (r :: rs) ++ visited, last) := by
  intro rs
  induction rs with
  | nil =>
    intro r c fuel hwf hdrop hend heof
    obtain ⟨hw1, hw2, hw3, hw4⟩ := hwf r (List.mem_cons_self r [])
    have hdrop1 : mem.drop c.ptr = sky_event_pack_hdr r.timestamp r.action_id r.data.length
        ++ (r.data ++ post) := by
      rw [hdrop]; simp [raw_events_bytes, raw_event.bytes]
    have hsz := sky_event_sizeof_raw_of_drop mem c.ptr _ _ _ _ hdrop1 hw1 hw2 hw3 hw4
    have hsz2 : sky_event_sizeof_raw mem c.ptr = r.size := by
      rw [hsz]; simp [raw_event.size, SKY_EVENT_HEADER_LENGTH]
    have hend2 : c.endptr = c.ptr + r.size := by rw [hend]; simp [raw_events_size]
    have hnext : (sky_cursor_next mem c).2 = sky_cursor_leave mem c := by
      simp only [sky_cursor_next, sky_cursor_leave, hsz2, hend2, ge_iff_le, le_refl, if_true]
      split <;> simp [sky_cursor_set_ptr]
    simp only [List.length_nil, Nat.zero_add, sky_cursor_visit, heof, hnext]
    simp [raw_event_ptrs]
  | cons r2 rs ih =>
    intro r c fuel hwf hdrop hend heof
    obtain ⟨hw1, hw2, hw3, hw4⟩ := hwf r (List.mem_cons_self r _)
    have hdrop1 : mem.drop c.ptr = sky_event_pack_hdr r.timestamp r.action_id r.data.length
        ++ (r.data ++ (raw_events_bytes (r2 :: rs) ++ post)) := by
      rw [hdrop]; simp [raw_events_bytes, raw_event.bytes]
    have hsz := sky_event_sizeof_raw_of_drop mem c.ptr _ _ _ _ hdrop1 hw1 hw2 hw3 hw4
    have hsz2 : sky_event_sizeof_raw mem c.ptr = r.size := by
      rw [hsz]; simp [raw_event.size, SKY_EVENT_HEADER_LENGTH]
    have hdrop2 : mem.drop (c.ptr + r.size) = raw_events_bytes (r2 :: rs) ++ post := by
      have := drop_add_of_drop mem c.ptr r.bytes (raw_events_bytes (r2 :: rs) ++ post)
        (by rw [hdrop]; simp [raw_events_bytes])
      rw [raw_event_bytes_length] at this
      exact this
    have hpos := raw_events_size_pos r2 rs
    have hend2 : c.endptr = c.ptr + r.size + raw_events_size (r2 :: rs) := by
      rw [hend]; simp only [raw_events_size]; omega
    have hnext := sky_cursor_next_step mem c r.size hsz2 (by rw [hend2]; omega)
    have hih := ih r2 { c with ptr := c.ptr + r.size, event_index := c.event_index + 1 } fuel
      (fun x hx => hwf x (List.mem_cons_of_mem r hx)) hdrop2 hend2 heof
    have hfuel : fuel + ((r2 :: rs).length + 1) = (fuel + (rs.length + 1)) + 1 := by
      simp only [List.length_cons]; omega
    rw [hfuel, sky_cursor_visit, if_neg (by simp [heof]), hnext]
    simp only []
    rw [hih]
    have hleave : sky_cursor_leave mem
        { c with ptr := c.ptr + r.size, event_index := c.event_index + 1 }
        = sky_cursor_leave mem c := rfl
    rw [hleave]
    cases sky_cursor_visit mem fuel (sky_cursor_leave mem c) with
    | none => rfl
    | some res => simp [raw_event_ptrs]

theorem raw_path_placed_hdr (mem : List Nat) (p : raw_path) (h : p.placed mem)
    (hsz : raw_events_size p.records < 2 ^ 32) :
    sky_path_sizeof_raw mem p.ptr = 12 + raw_events_size p.records ∧
      ∃ after, mem.drop (p.ptr + 12) = raw_events_bytes p.records ++ after := by
  obtain ⟨after, hpl⟩ := h
  have hh := path_hdr_read mem p.ptr p.object_id (raw_events_size p.records)
    (raw_events_bytes p.records ++ after) (by rw [hpl]; simp [raw_path_bytes])
  refine ⟨?_, after, hh.2.2⟩
  rw [sky_path_sizeof_raw_eq, hh.2.1, Nat.mod_eq_of_lt hsz]

theorem sky_cursor_visit_paths (mem : List Nat) (all : List raw_path) :
    ∀ (ps : List raw_path) (p : raw_path) (c : sky_cursor) (fuel : Nat),
      c.paths = all.map (fun q => q.ptr) → c.path_count = all.length →
      all.drop c.path_index = p :: ps →
      (∀ q ∈ p :: ps, q.placed mem ∧ raw_path_wf q.records ∧ q.records ≠ []) →
      c.ptr = p.ptr + 12 → c.endptr = p.ptr + 12 + raw_events_size p.records →
      c.eof = false →
      ∃ last, sky_cursor_visit mem (fuel + raw_paths_event_count (p :: ps)) c
          = some (raw_paths_ptrs (p :: ps), last) ∧ last.eof = true := by
  intro ps
  induction ps with
  | nil =>
    intro p c fuel _ hcount hdrop hall hptr hend heof
    obtain ⟨hpl, ⟨hwf, hsz⟩, hne⟩ := hall p (List.mem_cons_self p [])
    obtain ⟨r, rs, hrs⟩ := List.exists_cons_of_ne_nil hne
    obtain ⟨_, after, hd12⟩ := raw_path_placed_hdr mem p hpl hsz
    have hA := sky_cursor_visit_records mem after rs r c fuel
      (by rw [← hrs]; exact hwf) (by rw [hptr, hd12, hrs]) (by rw [hend, hptr, hrs]) heof
    have hlen : all.length - c.path_index = 1 := by
      have := congrArg List.length hdrop
      simpa using this
    have hl : sky_cursor_leave mem c
        = { c with ptr := c.endptr, event_index := 0, path_index := c.path_index + 1,
                   eof := true } := by
      unfold sky_cursor_leave
      rw [if_neg (by omega)]
    have hcnt : fuel + raw_paths_event_count [p] = fuel + (rs.length + 1) := by
      simp [raw_paths_event_count, hrs]
    rw [hcnt, hA, hl, sky_cursor_visit_eof mem fuel _ rfl]
    refine ⟨{ c with ptr := c.endptr, event_index := 0, path_index := c.path_index + 1,
                     eof := true }, ?_, rfl⟩
    simp [raw_paths_ptrs, hrs, hptr, SKY_PATH_HEADER_LENGTH]
  | cons q ps ih =>
    intro p c fuel hpaths hcount hdrop hall hptr hend heof
    obtain ⟨hpl, ⟨hwf, hsz⟩, hne⟩ := hall p (List.mem_cons_self p _)
    obtain ⟨r, rs, hrs⟩ := List.exists_cons_of_ne_nil hne
    obtain ⟨_, after, hd12⟩ := raw_path_placed_hdr mem p hpl hsz
    have hA := sky_cursor_visit_records mem after rs r c (fuel + raw_paths_event_count (q :: ps))
      (by rw [← hrs]; exact hwf) (by rw [hptr, hd12, hrs]) (by rw [hend, hptr, hrs]) heof
    have hdrop1 : all.drop (c.path_index + 1) = q :: ps := by
      have := congrArg (List.drop 1) hdrop
      simpa [Nat.add_comm] using this
    have hget : all[c.path_index + 1]? = some q := by
      have := congrArg List.head? hdrop1
      simpa [List.head?_drop] using this
    have hlt : c.path_index + 1 < all.length := by
      by_contra hge
      rw [List.getElem?_eq_none (by omega)] at hget
      exact absurd hget (by simp)
    obtain ⟨hplq, ⟨_, hszq⟩, hneq⟩ := hall q (List.mem_cons_of_mem p (List.mem_cons_self q ps))
    obtain ⟨hqsz, _⟩ := raw_path_placed_hdr mem q hplq hszq
    obtain ⟨r2, rs2, hrs2⟩ := List.exists_cons_of_ne_nil hneq
    have hpos := raw_events_size_pos r2 rs2
    rw [← hrs2] at hpos
    have hgetD : c.paths.getD (c.path_index + 1) 0 = q.ptr := by
      rw [hpaths]
      simp [List.getD_eq_getElem?_getD, List.getElem?_map, hget]
    have hl : sky_cursor_leave mem c
        = { c with ptr := q.ptr + 12, endptr := q.ptr + (12 + raw_events_size q.records),
                   event_index := 0, path_index := c.path_index + 1, eof := false } := by
      unfold sky_cursor_leave
      rw [if_pos (by omega), hgetD]
      simp only [sky_cursor_set_ptr, hqsz, SKY_PATH_HEADER_LENGTH]
      have : ¬ (12 + raw_events_size q.records = 12) := by omega
      simp [this]
    obtain ⟨last, hvisit, hlast⟩ := ih q
      { c with ptr := q.ptr + 12, endptr := q.ptr + (12 + raw_events_size q.records),
               event_index := 0, path_index := c.path_index + 1, eof := false } fuel
      hpaths hcount hdrop1 (fun x hx => hall x (List.mem_cons_of_mem p hx)) rfl
      (by simp only []; omega) rfl
    have hcnt : fuel + raw_paths_event_count (p :: q :: ps)
        = (fuel + raw_paths_event_count (q :: ps)) + (rs.length + 1) := by
      simp only [raw_paths_event_count, hrs, List.length_cons]; omega
    rw [hcnt, hA, hl, hvisit]
    refine ⟨last, ?_, hlast⟩
    simp [raw_paths_ptrs, hrs, hptr, SKY_PATH_HEADER_LENGTH]

theorem raw_event_ptrs_length (rs : List raw_event) :
    ∀ p, (raw_event_ptrs p rs).length = rs.length := by
  induction rs with
  | nil => intro p; rfl
  | cons r rs ih => intro p; simp [raw_event_ptrs, ih]

theorem raw_paths_ptrs_length (ps : List raw_path) :
    (raw_paths_ptrs ps).length = raw_paths_event_count ps := by
  induction ps with
  | nil => rfl
  | cons p ps ih => simp [raw_paths_ptrs, raw_paths_event_count, raw_event_ptrs_length, ih]

theorem raw_event_ptrs_timestamps (mem : List Nat) :
    ∀ (rs : List raw_event) (p : Nat) (post : List Nat), (∀ x ∈ rs, x.wf) →
      mem.drop p = raw_events_bytes rs ++ post →
      (raw_event_ptrs p rs).map (fun ptr => (sky_event_unpack_hdr mem ptr).2.1)
        = rs.map (fun r => r.timestamp) := by
  intro rs
  induction rs with
  | nil => intro p post _ _; rfl
  | cons r rs ih =>
    intro p post hwf hdrop
    obtain ⟨hw1, hw2, hw3, hw4⟩ := hwf r (List.mem_cons_self r _)
    have hdrop1 : mem.drop p = sky_event_pack_hdr r.timestamp r.action_id r.data.length
        ++ (r.data ++ (raw_events_bytes rs ++ post)) := by
      rw [hdrop]; simp [raw_events_bytes, raw_event.bytes]
    have hh := sky_event_unpack_hdr_of_drop mem p _ _ _ _ hdrop1 hw1 hw2 hw3 hw4
    have hdrop2 : mem.drop (p + r.size) = raw_events_bytes rs ++ post := by
      have := drop_add_of_drop mem p r.bytes (raw_events_bytes rs ++ post)
        (by rw [hdrop]; simp [raw_events_bytes])
      rw [raw_event_bytes_length] at this
      exact this
    simp only [raw_event_ptrs, List.map_cons, hh]
    rw [ih (p + r.size) post (fun x hx => hwf x (List.mem_cons_of_mem r hx)) hdrop2]

theorem raw_paths_ptrs_timestamps (mem : List Nat) (ps : List raw_path)
    (h : ∀ q ∈ ps, q.placed mem ∧ raw_path_wf q.records ∧ q.records ≠ []) :
    (raw_paths_ptrs ps).map (fun ptr => (sky_event_unpack_hdr mem ptr).2.1)
      = raw_paths_timestamps ps := by
  induction ps with
  | nil => rfl
  | cons p ps ih =>
    obtain ⟨hpl, ⟨hwf, hsz⟩, _⟩ := h p (List.mem_cons_self p _)
    obtain ⟨_, after, hd12⟩ := raw_path_placed_hdr mem p hpl hsz
    simp only [raw_paths_ptrs, raw_paths_timestamps, List.map_append, SKY_PATH_HEADER_LENGTH]
    rw [raw_event_ptrs_timestamps mem p.records (p.ptr + 12) after hwf hd12,
      ih (fun x hx => h x (List.mem_cons_of_mem p hx))]

/-- C21 (counterexample): a header-only path block (no event) installed before a block
with two events: `sky_cursor_set_paths` puts the cursor at `Eof` at once, so stepping
until `eof` visits no event, while the event counts of the paths sum to 2. -/
theorem sky_cursor_empty_first_path_stops :
    raw_events_size [] = 0 ∧
    (sky_cursor_set_paths empty_then_two_mem sky_cursor_init [0, 12]).2.eof = true ∧
    (sky_cursor_visit empty_then_two_mem 5
      (sky_cursor_set_paths empty_then_two_mem sky_cursor_init [0, 12]).2).map (fun r => r.1)
        = some [] ∧
    raw_paths_event_count [⟨0, 1, []⟩, ⟨12, 2, [⟨3, 1, []⟩, ⟨4, 1, []⟩]⟩] = 2 := by
  decide

/-- C21 (amended): for a cursor given paths P1..Pk that each hold at least one event
(well-formed blocks lying in memory at the installed pointers), stepping with
`sky_cursor_next` until `eof` returns, with fuel for one step per event, and visits
exactly the events of P1 in block order, then those of P2, and so on, each once: the
number of visits is the sum of the event counts, the timestamps read at the visited
positions are those of the events in that order, and `eof` is set when the loop ends,
after the last event of Pk. -/
theorem sky_cursor_visits_all_paths (mem : List Nat) (ps : List raw_path) (fuel : Nat)
    (h : ∀ q ∈ ps, q.placed mem ∧ raw_path_wf q.records ∧ q.records ≠ [])
    (hfuel : raw_paths_event_count ps ≤ fuel) :
    ∃ last, sky_cursor_visit mem fuel
        (sky_cursor_set_paths mem sky_cursor_init (ps.map (fun q => q.ptr))).2
          = some (raw_paths_ptrs ps, last) ∧
      last.eof = true ∧
      (raw_paths_ptrs ps).length = raw_paths_event_count ps ∧
      (raw_paths_ptrs ps).map (fun ptr => (sky_event_unpack_hdr mem ptr).2.1)
        = raw_paths_timestamps ps := by
  cases ps with
  | nil =>
    exact ⟨_, sky_cursor_visit_eof mem fuel _ rfl, rfl, rfl, rfl⟩
  | cons p ps =>
    obtain ⟨hpl, ⟨_, hsz⟩, hne⟩ := h p (List.mem_cons_self p _)
    obtain ⟨hpsz, _⟩ := raw_path_placed_hdr mem p hpl hsz
    obtain ⟨r, rs, hrs⟩ := List.exists_cons_of_ne_nil hne
    have hpos := raw_events_size_pos r rs
    rw [← hrs] at hpos
    have hset : (sky_cursor_set_paths mem sky_cursor_init ((p :: ps).map (fun q => q.ptr))).2
        = { paths := (p :: ps).map (fun q => q.ptr), path_count := (p :: ps).length,
            path_index := 0, event_index := 0, ptr := p.ptr + 12,
            endptr := p.ptr + (12 + raw_events_size p.records), eof := false } := by
      simp only [sky_cursor_set_paths, List.map_cons, sky_cursor_set_ptr, hpsz,
        SKY_PATH_HEADER_LENGTH, sky_cursor_init]
      have : ¬ (12 + raw_events_size p.records = 12) := by omega
      simp [this]
    obtain ⟨k, rfl⟩ : ∃ k, fuel = k + raw_paths_event_count (p :: ps) :=
      ⟨fuel - raw_paths_event_count (p :: ps), by omega⟩
    obtain ⟨last, hvisit, hlast⟩ := sky_cursor_visit_paths mem (p :: ps) ps p
      { paths := (p :: ps).map (fun q => q.ptr), path_count := (p :: ps).length,
        path_index := 0, event_index := 0, ptr := p.ptr + 12,
        endptr := p.ptr + (12 + raw_events_size p.records), eof := false } k
      rfl rfl rfl h rfl (by simp only []; omega) rfl
    rw [hset]
    exact ⟨last, hvisit, hlast, raw_paths_ptrs_length _, raw_paths_ptrs_timestamps mem _ h⟩

theorem two_paths_ok :
    ∀ q ∈ two_paths, q.placed two_paths_mem ∧ raw_path_wf q.records ∧ q.records ≠ [] := by
  intro q hq
  simp only [two_paths, List.mem_cons, List.mem_singleton, List.not_mem_nil, or_false] at hq
  rcases hq with rfl | rfl
  · refine ⟨⟨raw_path_bytes 2 [⟨3, 1, []⟩, ⟨4, 1, []⟩], rfl⟩, ⟨?_, by decide⟩, by simp⟩
    intro r hr
    simp only [List.mem_cons, List.mem_singleton, List.not_mem_nil, or_false] at hr
    rcases hr with rfl | rfl <;> simp [raw_event.wf]
  · refine ⟨⟨[], by decide⟩, ⟨?_, by decide⟩, by simp⟩
    intro r hr
    simp only [List.mem_cons, List.mem_singleton, List.not_mem_nil, or_false] at hr
    rcases hr with rfl | rfl <;> simp [raw_event.wf]

theorem sky_cursor_visits_all_paths_witness :
    (∀ q ∈ two_paths, q.placed two_paths_mem ∧ raw_path_wf q.records ∧ q.records ≠ []) ∧
    raw_paths_event_count two_paths ≤ 4 ∧
    raw_paths_timestamps two_paths = [1, 2, 3, 4] ∧
    ∃ last, sky_cursor_visit two_paths_mem 4
        (sky_cursor_set_paths two_paths_mem sky_cursor_init (two_paths.map (fun q => q.ptr))).2
          = some (raw_paths_ptrs two_paths, last) ∧
      last.eof = true ∧
      (raw_paths_ptrs two_paths).length = raw_paths_event_count two_paths ∧
      (raw_paths_ptrs two_paths).map (fun ptr => (sky_event_unpack_hdr two_paths_mem ptr).2.1)
        = raw_paths_timestamps two_paths :=
  ⟨two_paths_ok, by decide, by decide,
    sky_cursor_visits_all_paths two_paths_mem two_paths 4 two_paths_ok (by decide)⟩

/-! ## QIP: binary expressions -/

theorem qip_ast_var_ref_get_last_member_rc (n : Nat) :
    ∀ node : qip_ast_node, sizeOf node ≤ n → (qip_ast_var_ref_get_last_member node).1 = 0 := by
  induction n with
  | zero =>
    intro node h
    cases node <;> simp at h
  | succ n ih =>
    intro node h
    cases node with
    | var_ref hd name invoke args member =>
      cases member with
      | none => simp [qip_ast_var_ref_get_last_member]
      | some m =>
        rw [qip_ast_var_ref_get_last_member]
        apply ih
        simp at h
        omega
    | _ => simp [qip_ast_var_ref_get_last_member]

theorem target_node_rc (node : qip_ast_node) : (target_node node).1 = 0 := by
  unfold target_node
  split
  · exact qip_ast_var_ref_get_last_member_rc _ node (Nat.le_refl _)
  · rfl

/-- C22: for every binary expression node with a non-null LHS, whose LHS type the node
dispatcher resolves (return code 0 with the type `t` for the LHS, or for the last member
of its chain when the LHS is a variable reference), `qip_ast_binary_expr_get_type`
returns 0 and `t` when the operator is `+`, `-`, `*` or `/`, and 0 and the Boolean type
reference stored in the node when the operator is `==`; for a node made by
`qip_ast_binary_expr_create` that one is the reference of name `Boolean` that the node
allocated for itself. -/
theorem qip_ast_binary_expr_get_type_result (env : qip_env) (hdr : qip_ast_hdr)
    (operator : qip_ast_binop_e) (lhs : qip_ast_node) (rhs bt : Option qip_ast_node)
    (module : qip_module) (t : Option qip_ast_node) (addr : Nat)
    (ht : env.qip_ast_node_get_type (target_node lhs).2 module = (0, t)) :
    (operator ≠ .QIP_BINOP_EQUALS →
      qip_ast_binary_expr_get_type env (.binary_expr hdr operator (some lhs) rhs bt) module
        = (0, t)) ∧
    qip_ast_binary_expr_get_type env (.binary_expr hdr .QIP_BINOP_EQUALS (some lhs) rhs bt)
        module = (0, bt) ∧
    qip_ast_binary_expr_get_type env
        (qip_ast_binary_expr_create addr .QIP_BINOP_EQUALS (some lhs) rhs) module
      = (0, some (qip_ast_type_ref_create_cstr (addr + 1) "Boolean")) ∧
    (target_node lhs).2 = (qip_ast_var_ref_get_last_member lhs).2 := by
  have hrc := target_node_rc lhs
  refine ⟨?_, ?_, ?_, ?_⟩
  · intro hop
    rcases htn : target_node lhs with ⟨rc, tn⟩
    rw [htn] at hrc ht
    simp only at hrc ht
    cases operator <;> simp [qip_ast_binary_expr_get_type, htn, hrc, ht] at hop ⊢
  · rcases htn : target_node lhs with ⟨rc, tn⟩
    rw [htn] at hrc
    simp only at hrc
    simp [qip_ast_binary_expr_get_type, htn, hrc]
  · have hrc2 := target_node_rc (qip_ast_node.set_parent (some addr) lhs)
    rcases htn : target_node (qip_ast_node.set_parent (some addr) lhs) with ⟨rc, tn⟩
    rw [htn] at hrc2
    simp only at hrc2
    simp [qip_ast_binary_expr_create, qip_ast_binary_expr_get_type, adopt, htn, hrc2]
  · unfold target_node
    split
    · rfl
    · cases lhs <;> simp_all [qip_ast_var_ref_get_last_member, qip_ast_node.type]

theorem qip_ast_binary_expr_get_type_result_witness :
    example_env.qip_ast_node_get_type (target_node (int_lit 1 2)).2 ⟨[]⟩
      = (0, some (qip_ast_type_ref_create_cstr 101 "Int")) ∧
    ((qip_ast_binop_e.QIP_BINOP_PLUS ≠ .QIP_BINOP_EQUALS →
      qip_ast_binary_expr_get_type example_env
        (.binary_expr (qip_ast_hdr.fresh 3) .QIP_BINOP_PLUS (some (int_lit 1 2))
          (some (int_lit 2 3)) none) ⟨[]⟩
        = (0, some (qip_ast_type_ref_create_cstr 101 "Int"))) ∧
    qip_ast_binary_expr_get_type example_env
        (.binary_expr (qip_ast_hdr.fresh 3) .QIP_BINOP_EQUALS (some (int_lit 1 2))
          (some (int_lit 2 3)) none) ⟨[]⟩ = (0, none) ∧
    qip_ast_binary_expr_get_type example_env
        (qip_ast_binary_expr_create 3 .QIP_BINOP_EQUALS (some (int_lit 1 2))
          (some (int_lit 2 3))) ⟨[]⟩
      = (0, some (qip_ast_type_ref_create_cstr (3 + 1) "Boolean")) ∧
    (target_node (int_lit 1 2)).2 = (qip_ast_var_ref_get_last_member (int_lit 1 2)).2) :=
  ⟨rfl, qip_ast_binary_expr_get_type_result example_env (qip_ast_hdr.fresh 3) .QIP_BINOP_PLUS
    (int_lit 1 2) (some (int_lit 2 3)) none ⟨[]⟩ _ 3 rfl⟩

theorem qip_ast_binary_expr_validate_eq (env : qip_env) (hdr : qip_ast_hdr)
    (operator : qip_ast_binop_e) (lhs rhs : qip_ast_node) (bt : Option qip_ast_node)
    (module : qip_module) (lt rt : Option String)
    (hl : env.qip_ast_node_get_type_name (target_node lhs).2 module = (0, lt))
    (hr : env.qip_ast_node_get_type_name (target_node rhs).2 module = (0, rt)) :
    qip_ast_binary_expr_validate env (.binary_expr hdr operator (some lhs) (some rhs) bt) module
      = (0, if validate_rejects lt rt then
              { errors := module.errors ++ [⟨hdr.line_no, incompatible_types_msg lt rt⟩] }
            else module) := by
  have h1 := target_node_rc lhs
  have h2 := target_node_rc rhs
  rcases htl : target_node lhs with ⟨rc1, tl⟩
  rcases htr : target_node rhs with ⟨rc2, tr⟩
  rw [htl] at h1 hl
  rw [htr] at h2 hr
  simp only at h1 h2 hl hr
  subst h1 h2
  simp only [qip_ast_binary_expr_validate, htl, htr, hl, hr, ne_eq, not_true_eq_false,
    if_false]
  by_cases hc1 : (biseqcstr lt "Int" ≠ 0 ∨ biseqcstr lt "Float" ≠ 0)
      ∧ (biseqcstr rt "Boolean" ≠ 0 ∨ ¬ qip_is_builtin_type_name rt)
  · have hrej : validate_rejects lt rt := Or.inl hc1
    simp only [ne_eq] at hc1
    rw [if_pos hc1, if_pos hrej]
    simp [qip_module_add_error, qip_ast_node.line_no, qip_ast_node.hdr]
  · by_cases hc2 : (biseqcstr lt "Boolean" ≠ 0 ∨ ¬ qip_is_builtin_type_name lt)
        ∧ (biseqcstr rt "Int" ≠ 0 ∨ biseqcstr rt "Float" ≠ 0)
    · have hrej : validate_rejects lt rt := Or.inr hc2
      simp only [ne_eq] at hc1 hc2
      rw [if_neg hc1, if_pos hc2, if_pos hrej]
      simp [qip_module_add_error, qip_ast_node.line_no, qip_ast_node.hdr]
    · have hrej : ¬ validate_rejects lt rt := fun h => h.elim hc1 hc2
      simp only [ne_eq] at hc1 hc2
      rw [if_neg hc1, if_neg hc2, if_neg hrej]

/-- C24: for a binary expression whose LHS type resolves to `Int` and whose RHS type
resolves to `Boolean`, `qip_ast_binary_expr_validate` returns 0 and adds exactly one
error to the module, at the line of the binary expression node, whose message is exactly
`Incompatible types (Int, Boolean)`. In general, for operand types `lt` and `rt`, it
returns 0 and either leaves the module as it is or adds that one error with the message
`Incompatible types (lt, rt)`: the LHS type first, the RHS type second. -/
theorem qip_ast_binary_expr_validate_message (env : qip_env) (hdr : qip_ast_hdr)
    (operator : qip_ast_binop_e) (lhs rhs : qip_ast_node) (bt : Option qip_ast_node)
    (module : qip_module) (lt rt : String)
    (hl : env.qip_ast_node_get_type_name (target_node lhs).2 module = (0, some lt))
    (hr : env.qip_ast_node_get_type_name (target_node rhs).2 module = (0, some rt)) :
    (lt = "Int" → rt = "Boolean" →
      qip_ast_binary_expr_validate env (.binary_expr hdr operator (some lhs) (some rhs) bt)
          module
        = (0, { errors := module.errors
                  ++ [⟨hdr.line_no, "Incompatible types (Int, Boolean)"⟩] })) ∧
    (qip_ast_binary_expr_validate env (.binary_expr hdr operator (some lhs) (some rhs) bt)
          module = (0, module) ∨
      qip_ast_binary_expr_validate env (.binary_expr hdr operator (some lhs) (some rhs) bt)
          module
        = (0, { errors := module.errors
                  ++ [⟨hdr.line_no, "Incompatible types (" ++ lt ++ ", " ++ rt ++ ")"⟩] })) := by
  have h := qip_ast_binary_expr_validate_eq env hdr operator lhs rhs bt module _ _ hl hr
  refine ⟨?_, ?_⟩
  · rintro rfl rfl
    rw [h, if_pos (by decide)]
    rfl
  · by_cases hc : validate_rejects (some lt) (some rt)
    · right
      rw [h, if_pos hc]
      rfl
    · left
      rw [h, if_neg hc]

theorem qip_ast_binary_expr_validate_message_witness :
    example_env.qip_ast_node_get_type_name (target_node (int_lit 1 1)).2 ⟨[]⟩
      = (0, some "Int") ∧
    example_env.qip_ast_node_get_type_name (target_node (bool_lit 2 true)).2 ⟨[]⟩
      = (0, some "Boolean") ∧
    qip_ast_binary_expr_validate example_env
      (.binary_expr { qip_ast_hdr.fresh 3 with line_no := 7 } .QIP_BINOP_EQUALS
        (some (int_lit 1 1)) (some (bool_lit 2 true)) none) ⟨[]⟩
      = (0, ⟨[⟨7, "Incompatible types (Int, Boolean)"⟩]⟩) :=
  ⟨rfl, rfl,
    (qip_ast_binary_expr_validate_message example_env { qip_ast_hdr.fresh 3 with line_no := 7 }
      .QIP_BINOP_EQUALS (int_lit 1 1) (bool_lit 2 true) none ⟨[]⟩ "Int" "Boolean" rfl rfl).1
      rfl rfl⟩

theorem qip_ast_binary_expr_codegen_eq (env : qip_env) (hdr : qip_ast_hdr)
    (operator : qip_ast_binop_e) (lhs rhs : qip_ast_node) (bt : Option qip_ast_node)
    (module : qip_module) (value0 lv rv cv : LLVMValueRef) (lt rt : Option String)
    (hnull : rhs.type ≠ .QIP_AST_TYPE_NULL_LITERAL)
    (hlv : env.qip_ast_node_codegen (some lhs) module = (0, lv)) (hlv0 : lv ≠ .NULL)
    (hrv : env.qip_ast_node_codegen (some rhs) module = (0, rv)) (hrv0 : rv ≠ .NULL)
    (hl : env.qip_ast_node_get_type_name (target_node lhs).2 module = (0, lt))
    (hr : env.qip_ast_node_get_type_name (target_node rhs).2 module = (0, rt))
    (hcv : env.qip_module_cast_value module rv rt lt = (0, cv)) (hcv0 : cv ≠ .NULL) :
    qip_ast_binary_expr_codegen env (.binary_expr hdr operator (some lhs) (some rhs) bt)
        module value0
      = (if ((if biseqcstr lt "Int" ≠ 0 then codegen_int operator lv cv
              else if biseqcstr lt "Float" ≠ 0 then codegen_float operator lv cv
              else if biseqcstr lt "Boolean" ≠ 0 then codegen_boolean operator lv cv
              else (0, value0)).1 ≠ 0) then some (-1, .NULL)
         else some (check_value
           (if biseqcstr lt "Int" ≠ 0 then codegen_int operator lv cv
            else if biseqcstr lt "Float" ≠ 0 then codegen_float operator lv cv
            else if biseqcstr lt "Boolean" ≠ 0 then codegen_boolean operator lv cv
            else (0, value0)).2)) := by
  have h1 := target_node_rc lhs
  have h2 := target_node_rc rhs
  rcases htl : target_node lhs with ⟨rc1, tl⟩
  rcases htr : target_node rhs with ⟨rc2, tr⟩
  rw [htl] at h1 hl
  rw [htr] at h2 hr
  simp only at h1 h2 hl hr
  subst h1 h2
  simp only [qip_ast_binary_expr_codegen, hnull, if_false, hlv, hrv, hlv0, hrv0, htl, htr, hl,
    hr, hcv, hcv0, ne_eq, not_true_eq_false, not_false_eq_true, and_self, true_and]

/-- C29: for a binary expression whose RHS is not a null literal and whose operands, type
names and cast resolve (code generation of the LHS gives `lv`, of the RHS `rv`, the cast
of `rv` toward the LHS type gives `cv`), `qip_ast_binary_expr_codegen` picks the
operation from the LHS type name and the operator. `Int`: `LLVMBuildAdd`, `LLVMBuildSub`,
`LLVMBuildMul`, `LLVMBuildSDiv` and `LLVMBuildICmp` with `LLVMIntEQ` for `+`, `-`, `*`,
`/`, `==`. `Float`: `LLVMBuildFAdd`, `LLVMBuildFSub`, `LLVMBuildFMul`, `LLVMBuildFDiv` and
`LLVMBuildFCmp` with `LLVMRealOEQ`. `Boolean`: `LLVMBuildICmp` with `LLVMIntEQ` for `==`,
and -1 with a null value for `+`, `-`, `*` and `/`. Each operation is applied to `lv`
and `cv`, and the return code of an emitted operation is 0. -/
theorem qip_ast_binary_expr_codegen_dispatch (env : qip_env) (hdr : qip_ast_hdr)
    (operator : qip_ast_binop_e) (lhs rhs : qip_ast_node) (bt : Option qip_ast_node)
    (module : qip_module) (value0 lv rv cv : LLVMValueRef) (lt : String) (rt : Option String)
    (hnull : rhs.type ≠ .QIP_AST_TYPE_NULL_LITERAL)
    (hlv : env.qip_ast_node_codegen (some lhs) module = (0, lv)) (hlv0 : lv ≠ .NULL)
    (hrv : env.qip_ast_node_codegen (some rhs) module = (0, rv)) (hrv0 : rv ≠ .NULL)
    (hl : env.qip_ast_node_get_type_name (target_node lhs).2 module = (0, some lt))
    (hr : env.qip_ast_node_get_type_name (target_node rhs).2 module = (0, rt))
    (hcv : env.qip_module_cast_value module rv rt (some lt) = (0, cv)) (hcv0 : cv ≠ .NULL) :
    (lt = "Int" →
      qip_ast_binary_expr_codegen env (.binary_expr hdr operator (some lhs) (some rhs) bt)
          module value0
        = some (0, match operator with
              | .QIP_BINOP_PLUS => .LLVMBuildAdd lv cv
              | .QIP_BINOP_MINUS => .LLVMBuildSub lv cv
              | .QIP_BINOP_MUL => .LLVMBuildMul lv cv
              | .QIP_BINOP_DIV => .LLVMBuildSDiv lv cv
              | .QIP_BINOP_EQUALS => .LLVMBuildICmp_LLVMIntEQ lv cv)) ∧
    (lt = "Float" →
      qip_ast_binary_expr_codegen env (.binary_expr hdr operator (some lhs) (some rhs) bt)
          module value0
        = some (0, match operator with
              | .QIP_BINOP_PLUS => .LLVMBuildFAdd lv cv
              | .QIP_BINOP_MINUS => .LLVMBuildFSub lv cv
              | .QIP_BINOP_MUL => .LLVMBuildFMul lv cv
              | .QIP_BINOP_DIV => .LLVMBuildFDiv lv cv
              | .QIP_BINOP_EQUALS => .LLVMBuildFCmp_LLVMRealOEQ lv cv)) ∧
    (lt = "Boolean" →
      qip_ast_binary_expr_codegen env (.binary_expr hdr operator (some lhs) (some rhs) bt)
          module value0
        = some (match operator with
           | .QIP_BINOP_EQUALS => (0, .LLVMBuildICmp_LLVMIntEQ lv cv)
           | _ => (-1, .NULL))) := by
  have h := qip_ast_binary_expr_codegen_eq env hdr operator lhs rhs bt module value0 lv rv cv
    (some lt) rt hnull hlv hlv0 hrv hrv0 hl hr hcv hcv0
  refine ⟨?_, ?_, ?_⟩
  · rintro rfl
    rw [h]
    cases operator <;> simp [biseqcstr, codegen_int, check_value]
  · rintro rfl
    rw [h]
    cases operator <;> simp [biseqcstr, codegen_float, check_value]
  · rintro rfl
    rw [h]
    cases operator <;> simp [biseqcstr, codegen_boolean, check_value]

theorem qip_ast_binary_expr_codegen_dispatch_witness :
    (int_lit 2 3).type ≠ .QIP_AST_TYPE_NULL_LITERAL ∧
    example_env.qip_ast_node_codegen (some (int_lit 1 2)) ⟨[]⟩ = (0, .value 1) ∧
    LLVMValueRef.value 1 ≠ .NULL ∧
    example_env.qip_ast_node_codegen (some (int_lit 2 3)) ⟨[]⟩ = (0, .value 2) ∧
    LLVMValueRef.value 2 ≠ .NULL ∧
    example_env.qip_ast_node_get_type_name (target_node (int_lit 1 2)).2 ⟨[]⟩
      = (0, some "Int") ∧
    example_env.qip_ast_node_get_type_name (target_node (int_lit 2 3)).2 ⟨[]⟩
      = (0, some "Int") ∧
    example_env.qip_module_cast_value ⟨[]⟩ (.value 2) (some "Int") (some "Int")
      = (0, .value 2) ∧
    qip_ast_binary_expr_codegen example_env
        (.binary_expr (qip_ast_hdr.fresh 3) .QIP_BINOP_DIV (some (int_lit 1 2))
          (some (int_lit 2 3)) none) ⟨[]⟩ .NULL
      = some (0, .LLVMBuildSDiv (.value 1) (.value 2)) :=
  ⟨by decide, rfl, by decide, rfl, by decide, rfl, rfl, rfl,
    (qip_ast_binary_expr_codegen_dispatch example_env (qip_ast_hdr.fresh 3) .QIP_BINOP_DIV
      (int_lit 1 2) (int_lit 2 3) none ⟨[]⟩ .NULL (.value 1) (.value 2) (.value 2) "Int"
      (some "Int") (by decide) rfl (by decide) rfl (by decide) rfl rfl rfl (by decide)).1 rfl⟩

/-- C30: when the RHS of a binary expression is a null literal,
`qip_ast_binary_expr_codegen` asks only for the pointer to the LHS variable
(`qip_ast_node_get_var_pointer`); when that succeeds with the pointer `ptr`, the result
for `==` is 0 and `LLVMBuildIsNull(LLVMBuildLoad(ptr))`, the null test of the value loaded
from the slot. For every other operator `codegen_is_null` returns -1 with a null value,
but `qip_ast_binary_expr_codegen` does not: its check of that return code jumps to
`error:` over the initialisers of `lhs_type_name` and `rhs_type_name`, which `error:`
hands to `bdestroy`, so the call has no defined result. Neither operand is handed to
code generation and no type name is looked up: the outcome is the same in every
environment that answers `qip_ast_node_get_var_pointer` alike. -/
theorem qip_ast_binary_expr_codegen_null_check (env env2 : qip_env) (hdr : qip_ast_hdr)
    (operator : qip_ast_binop_e) (lhs : Option qip_ast_node) (rhs : qip_ast_node)
    (bt : Option qip_ast_node) (module : qip_module) (value0 ptr : LLVMValueRef)
    (hnull : rhs.type = .QIP_AST_TYPE_NULL_LITERAL)
    (hptr : env.qip_ast_node_get_var_pointer lhs module = (0, ptr))
    (henv : env2.qip_ast_node_get_var_pointer = env.qip_ast_node_get_var_pointer) :
    codegen_is_null env operator module lhs
      = (match operator with
         | .QIP_BINOP_EQUALS => (0, .LLVMBuildIsNull (.LLVMBuildLoad ptr))
         | _ => (-1, .NULL)) ∧
    qip_ast_binary_expr_codegen env (.binary_expr hdr operator lhs (some rhs) bt) module value0
      = (match operator with
         | .QIP_BINOP_EQUALS => some (0, .LLVMBuildIsNull (.LLVMBuildLoad ptr))
         | _ => none) ∧
    qip_ast_binary_expr_codegen env2 (.binary_expr hdr operator lhs (some rhs) bt) module value0
      = qip_ast_binary_expr_codegen env (.binary_expr hdr operator lhs (some rhs) bt) module
          value0 := by
  refine ⟨?_, ?_, ?_⟩
  · cases operator <;> simp [codegen_is_null, hptr, check_value]
  · cases operator <;>
      simp [qip_ast_binary_expr_codegen, hnull, codegen_is_null, hptr, check_value]
  · simp [qip_ast_binary_expr_codegen, hnull, codegen_is_null, henv]

theorem qip_ast_binary_expr_codegen_null_check_witness :
    (null_lit 2).type = .QIP_AST_TYPE_NULL_LITERAL ∧
    example_env.qip_ast_node_get_var_pointer (some (var_lit 1 "x")) ⟨[]⟩ = (0, .value 1) ∧
    codegen_is_null example_env .QIP_BINOP_PLUS ⟨[]⟩ (some (var_lit 1 "x")) = (-1, .NULL) ∧
    qip_ast_binary_expr_codegen example_env
        (.binary_expr (qip_ast_hdr.fresh 3) .QIP_BINOP_PLUS (some (var_lit 1 "x"))
          (some (null_lit 2)) none) ⟨[]⟩ .NULL
      = none :=
  ⟨rfl, rfl,
    (qip_ast_binary_expr_codegen_null_check example_env example_env (qip_ast_hdr.fresh 3)
      .QIP_BINOP_PLUS (some (var_lit 1 "x")) (null_lit 2) none ⟨[]⟩ .NULL (.value 1)
      rfl rfl rfl).1,
    (qip_ast_binary_expr_codegen_null_check example_env example_env (qip_ast_hdr.fresh 3)
      .QIP_BINOP_PLUS (some (var_lit 1 "x")) (null_lit 2) none ⟨[]⟩ .NULL (.value 1)
      rfl rfl rfl).2.1⟩

/-! ## QIP: the parser -/

theorem yybackup_decision (st : yy_state) :
    (yybackup st).2
      = if yypact.getD (st.yyss.headD 0) 0 = YYPACT_NINF then yydefault (st.yyss.headD 0)
        else yy_lookup (st.yyss.headD 0)
          (if yy_peek st ≤ YYEOF then 0 else YYTRANSLATE (yy_peek st)) := by
  unfold yybackup yy_peek
  dsimp only
  split_ifs <;> simp_all

set_option maxRecDepth 1000000 in
theorem yy_reduce_in_state_all :
    ∀ s < 210, ∀ t < 42,
      yy_reduce_in_state (yy_lookup s t) s = true ∧ yy_reduce_in_state (yydefault s) s = true := by
  decide!

theorem yy_reduce_states (s t n : Nat) (hs : s < 210) (ht : t < 42)
    (h : yy_lookup s t = .reduce n ∨ yydefault s = .reduce n) (h1 : 16 ≤ n) (h2 : n ≤ 20) :
    s = 77 + n := by
  have key := yy_reduce_in_state_all s hs t ht
  rcases h with h | h
  · have := key.1
    rw [h] at this
    simpa [yy_reduce_in_state, h1, h2] using this
  · have := key.2
    rw [h] at this
    simpa [yy_reduce_in_state, h1, h2] using this

/-- C25: the parser gives `*` and `/` higher precedence than `+` and `-`, and `+` and `-`
higher precedence than `==`. In the tables: the rule of an operator `op1`
(`expr: expr op1 expr`, rules 16 to 20) is reduced in one state only, the state
`op1.state` in which `expr op1 expr` is on top of the stack; in that state, whatever the
rest of the stack, with an operator `op2` as lookahead the parser shifts `op2` when `op2`
has the higher precedence, so that `op2` takes its operands first, and otherwise reduces
by the rule of `op1`, whose action builds `binary-expr(op1, $1, $3)`. Hence, for every
pair of operators, the statement `a op1 b op2 c;` parses (return code 0) to one statement
of the main function of the shape `op1(a, op2(b, c))` when `op2` has the higher
precedence and `op2(op1(a, b), c)` otherwise. In particular `2 + 3 * 4` parses to
`binary-expr(+, 2, binary-expr(*, 3, 4))`, `a * b + c` to
`binary-expr(+, binary-expr(*, a, b), c)`, and `a == b + c` to
`binary-expr(==, a, binary-expr(+, b, c))`. -/
theorem qip_parser_precedence (op1 op2 : qip_ast_binop_e) (st : yy_state) (s t : Nat) (rhs : List YYSTYPE) (rhs_locs : List YYLTYPE) (yyval : YYSTYPE)
    (yyloc : YYLTYPE) (heap : Nat) :
    (st.yyss.headD 0 = op1.state → yy_peek st = op2.yychar →
      (yybackup st).2 = if op1.precedence < op2.precedence then .shift op2.shift_state
                        else .reduce op1.rule) ∧
    (s < 210 → t < 42 → (yy_lookup s t = .reduce op1.rule ∨ yydefault s = .reduce op1.rule) →
      s = op1.state) ∧
    yy_action_value op1.rule rhs rhs_locs yyval yyloc heap
      = (.as_node (some (qip_set_pos
          (qip_ast_binary_expr_create heap op1 (rhs.getD 0 .garbage).node
            (rhs.getD 2 .garbage).node) yyloc)), heap + 2) ∧
    (example_parse 25 (expr_tokens (.var "a") op1 (.var "b") op2 (.var "c"))).map
        (fun r => (r.1, main_shapes r.2.2))
      = some (0, some [precedence_shape (.var "a") op1 (.var "b") op2 (.var "c")]) ∧
    (example_parse 25 (expr_tokens (.int 2) .QIP_BINOP_PLUS (.int 3) .QIP_BINOP_MUL (.int 4))).map
        (fun r => (r.1, main_shapes r.2.2))
      = some (0, some [.binary_expr .QIP_BINOP_PLUS (.operand (.int 2))
          (.binary_expr .QIP_BINOP_MUL (.operand (.int 3)) (.operand (.int 4)))]) ∧
    (example_parse 25
        (expr_tokens (.var "a") .QIP_BINOP_MUL (.var "b") .QIP_BINOP_PLUS (.var "c"))).map
        (fun r => (r.1, main_shapes r.2.2))
      = some (0, some [.binary_expr .QIP_BINOP_PLUS
          (.binary_expr .QIP_BINOP_MUL (.operand (.var "a")) (.operand (.var "b")))
          (.operand (.var "c"))]) ∧
    (example_parse 25
        (expr_tokens (.var "a") .QIP_BINOP_EQUALS (.var "b") .QIP_BINOP_PLUS (.var "c"))).map
        (fun r => (r.1, main_shapes r.2.2))
      = some (0, some [.binary_expr .QIP_BINOP_EQUALS (.operand (.var "a"))
          (.binary_expr .QIP_BINOP_PLUS (.operand (.var "b")) (.operand (.var "c")))]) := by
  refine ⟨?_, ?_, ?_, ?_, by decide, by decide, by decide⟩
  · intro htop hpeek
    rw [yybackup_decision, htop, hpeek]
    cases op1 <;> cases op2 <;> decide
  · intro hs ht h
    cases op1 <;> exact yy_reduce_states s t _ hs ht h (by decide) (by decide)
  · cases op1 <;> rfl
  · cases op1 <;> cases op2 <;> decide

theorem qip_parser_precedence_witness :
    expr_plus_expr_state.yyss.headD 0 = qip_ast_binop_e.QIP_BINOP_PLUS.state ∧
    yy_peek expr_plus_expr_state = qip_ast_binop_e.QIP_BINOP_MUL.yychar ∧
    (yybackup expr_plus_expr_state).2 = .shift 61 ∧
    (yy_lookup 93 33 = .reduce 16 ∨ yydefault 93 = .reduce 16) ∧ 93 = 77 + 16 :=
  ⟨rfl, rfl,
    (qip_parser_precedence .QIP_BINOP_PLUS .QIP_BINOP_MUL expr_plus_expr_state 93 33 [] []
      .garbage ⟨0, 0, 0, 0⟩ 0).1 rfl rfl,
    Or.inr (by decide), rfl⟩

theorem yy_action_root_other (yyn : Nat) (rhs : List YYSTYPE) (rhs_locs : List YYLTYPE)
    (yyval : YYSTYPE) (yyloc : YYLTYPE) (root : qip_ast_node) (heap : Nat)
    (h3 : yyn ≠ 3) (h4 : yyn ≠ 4) :
    (yy_action yyn rhs rhs_locs yyval yyloc root heap).2.1 = root := by
  show yy_action_root yyn rhs root = root
  unfold yy_action_root
  split <;> first | rfl | exact absurd rfl h3 | exact absurd rfl h4

/-- C26: when `yyparse` returns a non-zero `rc`, the part of `qip_parser_parse` that
follows the call returns 0 and leaves a parser with at least one error; if no error had
been added to the parser (`error_count` is 0), the errors are exactly one error with the
message `Unknown error` and the line number 0, and if there was an error the parser is
left as it is. So a call of `qip_parser_parse` whose `yyparse` returns non-zero returns 0
with `error_count` at least 1. -/
theorem qip_parser_parse_unknown_error (rc : Int) (parser : qip_parser_t) (root : qip_ast_node)
    (yymsg : Nat → Int → String) (fuel : Nat) (uninit : YYLTYPE) (heap : Nat)
    (parser2 : qip_parser_t) (name : Option String) (text : List qip_token)
    (hrc : rc ≠ 0)
    (hparse : (yyparse yymsg fuel uninit text (qip_parser_parse_setup heap name) parser2
      (heap + 3)).map (fun r => r.1) = some rc) :
    (qip_parser_parse_finish rc parser root).1 = 0 ∧
    (parser.error_count = 0 →
      (qip_parser_parse_finish rc parser root).2.1.errors = [⟨0, "Unknown error"⟩]) ∧
    (parser.error_count ≠ 0 → (qip_parser_parse_finish rc parser root).2.1 = parser) ∧
    1 ≤ (qip_parser_parse_finish rc parser root).2.1.error_count ∧
    (qip_parser_parse yymsg fuel uninit heap parser2 name text).map
        (fun r => (r.1, decide (1 ≤ r.2.1.error_count))) = some (0, true) := by
  have hfin : ∀ (p : qip_parser_t) (r : qip_ast_node),
      (qip_parser_parse_finish rc p r).1 = 0 ∧
      (p.error_count = 0 → (qip_parser_parse_finish rc p r).2.1.errors = [⟨0, "Unknown error"⟩]) ∧
      (p.error_count ≠ 0 → (qip_parser_parse_finish rc p r).2.1 = p) ∧
      1 ≤ (qip_parser_parse_finish rc p r).2.1.error_count := by
    intro p r
    by_cases h0 : p.error_count = 0
    · have hnil : p.errors = [] := List.length_eq_zero.mp h0
      simp [qip_parser_parse_finish, hrc, h0, qip_parser_add_error, qip_parser_t.error_count, hnil]
    · have hpos : 1 ≤ p.error_count := Nat.one_le_iff_ne_zero.mpr h0
      simp [qip_parser_parse_finish, h0, hpos]
  obtain ⟨h1, h2, h3, h4⟩ := hfin parser root
  refine ⟨h1, h2, h3, h4, ?_⟩
  unfold qip_parser_parse
  cases hy : yyparse yymsg fuel uninit text (qip_parser_parse_setup heap name) parser2 (heap + 3) with
  | none => rw [hy] at hparse; simp at hparse
  | some r =>
    obtain ⟨rc2, st⟩ := r
    rw [hy] at hparse
    simp only [Option.map_some', Option.some.injEq] at hparse
    subst hparse
    obtain ⟨h1, _, _, h4⟩ := hfin st.parser st.root
    simp [h1, h4]

theorem qip_parser_parse_unknown_error_witness :
    (1 : Int) ≠ 0 ∧
    (yyparse (fun _ _ => "syntax error") 8 ⟨0, 0, 0, 0⟩ broken_tokens
      (qip_parser_parse_setup 0 (some "m")) ⟨[]⟩ (0 + 3)).map (fun r => r.1) = some 1 ∧
    (qip_parser_parse_finish 1 ⟨[]⟩ (qip_parser_parse_setup 0 none)).2.1.errors
      = [⟨0, "Unknown error"⟩] ∧
    (qip_parser_parse (fun _ _ => "syntax error") 8 ⟨0, 0, 0, 0⟩ 0 ⟨[]⟩ (some "m")
        broken_tokens).map (fun r => (r.1, decide (1 ≤ r.2.1.error_count))) = some (0, true) :=
  ⟨by decide, by decide,
    (qip_parser_parse_unknown_error 1 ⟨[]⟩ (qip_parser_parse_setup 0 none)
      (fun _ _ => "syntax error") 8 ⟨0, 0, 0, 0⟩ 0 ⟨[]⟩ (some "m") broken_tokens (by decide)
      (by decide)).2.1 rfl,
    (qip_parser_parse_unknown_error 1 ⟨[]⟩ (qip_parser_parse_setup 0 none)
      (fun _ _ => "syntax error") 8 ⟨0, 0, 0, 0⟩ 0 ⟨[]⟩ (some "m") broken_tokens (by decide)
      (by decide)).2.2.2.2⟩

/-- C27 (counterexample): for the empty source, and for the source `class Foo { }` that
holds a class declaration only, `qip_parser_parse` returns 0 and a module that has no
main function (`main_function` is null); the module of the second source has its one
class. -/
theorem qip_parser_parse_no_statement_no_main :
    (example_parse 3 []).map
        (fun r => (r.1, r.2.2.isSome, (r.2.2.bind qip_ast_node.main_function).isNone))
      = some (0, true, true) ∧
    (example_parse 13 class_only_tokens).map
        (fun r => (r.1, r.2.2.isSome, (r.2.2.bind qip_ast_node.main_function).isNone,
          (r.2.2.map (fun m => m.classes.length))))
      = some (0, true, true, some 1) := by
  decide

theorem yy_action_root_ok (yyn : Nat) (rhs : List YYSTYPE) (root : qip_ast_node)
    (h : root_ok root) : root_ok (yy_action_root yyn rhs root) := by
  obtain ⟨h, name, classes, fh, ret, args, bh, bname, exprs, bound, rfl⟩ := h
  unfold yy_action_root
  split
  · exact ⟨_, _, _, _, _, _, _, _, _, _, rfl⟩
  · exact ⟨_, _, _, _, _, _, _, _, _, _, rfl⟩
  · exact ⟨_, _, _, _, _, _, _, _, _, _, rfl⟩

theorem yylex_root (st : yy_state) : (yylex st).root = st.root := by
  unfold yylex
  split <;> rfl

theorem yybackup_root (st : yy_state) : (yybackup st).1.root = st.root := by
  unfold yybackup
  dsimp only
  split_ifs <;> simp [yylex_root]

theorem yyreduce_root (st : yy_state) (yyn : Nat) :
    (yyreduce st yyn).root
      = yy_action_root yyn ((st.yyvs.take (yyr2.getD yyn 0)).reverse) st.root := rfl

theorem yyerrlab_root_inl (yymsg : Nat → Int → String) (st : yy_state) (res : yy_result)
    (h : yyerrlab yymsg st = .inl res) : res.2.root = st.root := by
  unfold yyerrlab at h
  dsimp only at h
  split_ifs at h <;> first
    | (cases h; rfl)
    | (split at h
       · cases h; rfl
       · cases h)

theorem yyerrlab_root_inr (yymsg : Nat → Int → String) (st st2 : yy_state)
    (h : yyerrlab yymsg st = .inr st2) : st2.root = st.root := by
  unfold yyerrlab at h
  dsimp only at h
  split_ifs at h <;> first
    | cases h
    | (split at h
       · cases h
       · cases h; rfl)

theorem yyparse_loop_root_ok (yymsg : Nat → Int → String) :
    ∀ (fuel : Nat) (st : yy_state) (r : yy_result), root_ok st.root →
      yyparse_loop yymsg fuel st = some r → root_ok r.2.root := by
  intro fuel
  induction fuel with
  | zero => intro st r _ h; simp [yyparse_loop] at h
  | succ fuel ih =>
    intro st r hok h
    rw [yyparse_loop] at h
    split_ifs at h with h1 h2
    · simp only [Option.some.injEq] at h
      subst h
      exact hok
    · simp only [Option.some.injEq] at h
      subst h
      exact hok
    · have hb := yybackup_root st
      rcases hyb : yybackup st with ⟨st2, todo⟩
      rw [hyb] at h hb
      simp only at hb
      cases todo with
      | shift yyn =>
        exact ih (yyshift st2 yyn) r (by show root_ok st2.root; rw [hb]; exact hok) h
      | reduce yyn =>
        refine ih (yyreduce st2 yyn) r ?_ h
        rw [yyreduce_root]
        exact yy_action_root_ok _ _ _ (by rw [hb]; exact hok)
      | errlab =>
        simp only at h
        cases hye : yyerrlab yymsg st2 with
        | inl res =>
          rw [hye] at h
          simp only [Option.some.injEq] at h
          subst h
          rw [yyerrlab_root_inl yymsg st2 res hye, hb]
          exact hok
        | inr st3 =>
          rw [hye] at h
          simp only at h
          exact ih st3 r (by rw [yyerrlab_root_inr yymsg st2 st3 hye, hb]; exact hok) h

theorem qip_parser_parse_setup_ok (heap : Nat) (name : Option String) :
    root_ok (qip_parser_parse_setup heap name) :=
  ⟨_, _, _, _, _, _, _, _, _, _, rfl⟩

theorem qip_parser_parse_finish_ok (rc : Int) (parser : qip_parser_t) (root : qip_ast_node)
    (h : root_ok root) :
    (qip_parser_parse_finish rc parser root).1 = 0 ∧
      ∃ m, (qip_parser_parse_finish rc parser root).2.2 = some m ∧ module_ok m := by
  obtain ⟨h, name, classes, fh, ret, args, bh, bname, exprs, bound, rfl⟩ := h
  cases exprs with
  | nil =>
    refine ⟨?_, .module h name classes none, ?_, ⟨_, _, _, Or.inl rfl⟩⟩
    · simp [qip_parser_parse_finish, qip_parser_add_error]
      split <;> simp_all
    · simp [qip_parser_parse_finish, qip_parser_add_error, qip_ast_node.main_function,
        qip_ast_node.body, qip_ast_node.exprs, qip_ast_module_set_main_function]
      split <;> simp_all
  | cons e es =>
    refine ⟨?_, _, ?_, ⟨h, name, classes,
      Or.inr ⟨fh, ret, args, bh, bname, e :: es, bound, by simp, rfl⟩⟩⟩
    · simp [qip_parser_parse_finish, qip_parser_add_error]
      split <;> simp_all
    · simp [qip_parser_parse_finish, qip_parser_add_error, qip_ast_node.main_function,
        qip_ast_node.body, qip_ast_node.exprs]
      split <;> simp_all

theorem qip_parser_parse_module_ok (yymsg : Nat → Int → String) (fuel : Nat) (uninit : YYLTYPE)
    (heap : Nat) (parser : qip_parser_t) (name : Option String) (text : List qip_token)
    (r : Int × qip_parser_t × Option qip_ast_node)
    (h : qip_parser_parse yymsg fuel uninit heap parser name text = some r) :
    r.1 = 0 ∧ ∃ m, r.2.2 = some m ∧ module_ok m := by
  unfold qip_parser_parse yyparse at h
  split at h
  · simp at h
  · rename_i rc st hy
    simp only [Option.some.injEq] at h
    subst h
    have hok := yyparse_loop_root_ok yymsg fuel _ (rc, st) (qip_parser_parse_setup_ok heap name) hy
    exact qip_parser_parse_finish_ok rc st.parser st.root hok

/-! ## QIP: every parse ends -/

set_option maxRecDepth 1000000 in
set_option maxHeartbeats 0 in
theorem yy_state_ok_all : ∀ s < 210, yy_state_ok s = true := by
  decide!

set_option maxRecDepth 1000000 in
theorem yy_rank_goto_ok_all : ∀ a < 57, yy_rank_goto_ok a = true := by
  decide!

set_option maxRecDepth 1000000 in
theorem yy_no_error_shift_all : ∀ s < 210, yy_no_error_shift s = true := by
  decide!

set_option maxRecDepth 1000000 in
theorem yytranslate_lt : ∀ i < 297, yytranslate.getD i YYUNDEFTOK < 42 := by
  decide!

theorem yy_rank_le : ∀ i < 210, yy_rank.getD i 0 ≤ 13 := by
  decide!

theorem yy_scan_getD (p : Int → Int → Int → Bool) :
    ∀ (cs vs : List Int) (j : Int) (k : Nat), yy_scan p j cs vs = true →
      k < cs.length → k < vs.length → p (j + k) (cs.getD k 0) (vs.getD k 0) = true := by
  intro cs
  induction cs with
  | nil => intro vs j k _ hk; simp at hk
  | cons c cs ih =>
    intro vs j k h hk hk2
    cases vs with
    | nil => simp at hk2
    | cons v vs =>
      simp only [yy_scan, Bool.and_eq_true] at h
      cases k with
      | zero => simpa using h.1
      | succ k =>
        have := ih vs (j + 1) k h.2 (by simpa using hk) (by simpa using hk2)
        simp only [List.getD_cons_succ]
        rw [show j + ((k + 1 : Nat) : Int) = j + 1 + (k : Int) by push_cast; ring]
        exact this

theorem yycheck_length : yycheck.length = 264 := by
  decide!

theorem yytable_length : yytable.length = 264 := by
  decide!

theorem yydefault_ok (s : Nat) (hs : s < 210) (b : Bool) :
    yy_todo_ok (yydefault s) s b = true := by
  have hst := yy_state_ok_all s hs
  simp only [yy_state_ok, Bool.and_eq_true] at hst
  have hd := hst.1
  unfold yydefault at hd ⊢
  split_ifs at hd ⊢
  · rfl
  · exact hd

theorem yy_lookup_ok (s t : Nat) (hs : s < 210) (ht : t < 42)
    (hp : yypact.getD s 0 ≠ YYPACT_NINF) :
    yy_todo_ok (yy_lookup s t) s (decide (t = 0)) = true := by
  have hst := yy_state_ok_all s hs
  simp only [yy_state_ok, Bool.and_eq_true, Bool.or_eq_true, decide_eq_true_eq] at hst
  have hscan := hst.2.resolve_left hp
  unfold yy_lookup
  dsimp only
  split_ifs with h1 h2
  · exact yydefault_ok s hs _
  · push_neg at h1
    obtain ⟨h0, hlast, hc⟩ := h1
    have hk : (yypact.getD s 0 + (t : Int)).toNat < 264 := by
      have : yypact.getD s 0 + (t : Int) ≤ 263 := hlast
      omega
    have he := yy_scan_getD _ yycheck yytable 0 _ hscan (by rw [yycheck_length]; exact hk)
      (by rw [yytable_length]; exact hk)
    simp only [yy_entry_ok, decide_eq_true_eq] at he
    rw [hc] at he
    have he2 := he (by rw [Int.toNat_of_nonneg h0]; ring) (by omega) (by omega)
    rw [if_pos h2] at he2
    simpa using he2
  · push_neg at h1
    obtain ⟨h0, hlast, hc⟩ := h1
    have hk : (yypact.getD s 0 + (t : Int)).toNat < 264 := by
      have : yypact.getD s 0 + (t : Int) ≤ 263 := hlast
      omega
    have he := yy_scan_getD _ yycheck yytable 0 _ hscan (by rw [yycheck_length]; exact hk)
      (by rw [yytable_length]; exact hk)
    simp only [yy_entry_ok, decide_eq_true_eq] at he
    rw [hc] at he
    have he2 := he (by rw [Int.toNat_of_nonneg h0]; ring) (by omega) (by omega)
    rw [if_neg h2] at he2
    simpa using he2

theorem yygoto_ok (yyn top : Nat) (ha : yyr1.getD yyn 0 - YYNTOKENS < 57) (ht : top < 210) :
    yygoto yyn top < 210 ∧
      yy_rank.getD (yygoto yyn top) 0 ≤ yy_rank_goto.getD (yyr1.getD yyn 0 - YYNTOKENS) 0 := by
  have hg := yy_rank_goto_ok_all _ ha
  simp only [yy_rank_goto_ok, Bool.and_eq_true, decide_eq_true_eq] at hg
  obtain ⟨hd, hscan⟩ := hg
  unfold yygoto
  dsimp only
  split_ifs with h
  · obtain ⟨h0, hlast, hc⟩ := h
    have hk : (yypgoto.getD (yyr1.getD yyn 0 - YYNTOKENS) 0 + (top : Int)).toNat < 264 := by
      have : yypgoto.getD (yyr1.getD yyn 0 - YYNTOKENS) 0 + (top : Int) ≤ 263 := hlast
      omega
    have he := yy_scan_getD _ yycheck yytable 0 _ hscan (by rw [yycheck_length]; exact hk)
      (by rw [yytable_length]; exact hk)
    simp only [yy_goto_entry_ok, decide_eq_true_eq] at he
    rw [hc] at he
    exact he (by rw [Int.toNat_of_nonneg h0]; ring) (by omega) (by omega)
  · exact hd

theorem yyerrlab1_pop_none :
    ∀ (yyss : List Nat) (yyvs : List YYSTYPE) (yyls : List YYLTYPE) (range1 : YYLTYPE),
      (∀ s ∈ yyss, s < 210) → yyerrlab1_pop yyss yyvs yyls range1 = none := by
  intro yyss
  induction yyss with
  | nil => intro yyvs yyls range1 _; rfl
  | cons s rest ih =>
    intro yyvs yyls range1 h
    have hs := yy_no_error_shift_all s (h s (List.mem_cons_self _ _))
    simp only [yy_no_error_shift, decide_eq_true_eq] at hs
    unfold yyerrlab1_pop
    rw [if_neg hs]
    cases rest with
    | nil => rfl
    | cons s2 rest2 =>
      exact ih _ _ _ (fun x hx => h x (List.mem_cons_of_mem _ hx))

theorem yyerrlab_inl (yymsg : Nat → Int → String) (st : yy_state) (h : yy_inv st) :
    ∃ res, yyerrlab yymsg st = .inl res := by
  have key : ∀ (yyvs : List YYSTYPE) (yyls : List YYLTYPE) (range1 : YYLTYPE),
      yyerrlab1_pop st.yyss yyvs yyls range1 = none :=
    fun _ _ _ => yyerrlab1_pop_none _ _ _ _ h.2
  unfold yyerrlab
  dsimp only
  split_ifs <;> simp [key]

theorem YYTRANSLATE_lt (c : Int) : YYTRANSLATE c < 42 := by
  unfold YYTRANSLATE
  split_ifs with h
  · have h2 : c ≤ 296 := h.2
    exact yytranslate_lt _ (by omega)
  · decide

theorem yyreduce_yyss (st : yy_state) (yyn : Nat) :
    (yyreduce st yyn).yyss
      = yygoto yyn ((st.yyss.drop (yyr2.getD yyn 0)).headD 0)
          :: st.yyss.drop (yyr2.getD yyn 0) := rfl

theorem yyreduce_pending (st : yy_state) (yyn : Nat) :
    yy_pending (yyreduce st yyn) = yy_pending st := rfl

theorem yybackup_step (st : yy_state) (hs : st.yyss.headD 0 < 210) :
    (yybackup st).1.yyss = st.yyss ∧ yy_pending (yybackup st).1 ≤ yy_pending st ∧
    (∀ n, (yybackup st).2 = .shift n →
      n < 210 ∧ (n = YYFINAL ∨ ¬ (yybackup st).1.yychar ≤ YYEOF)) ∧
    (∀ r, (yybackup st).2 = .reduce r → yy_reduce_ok r (st.yyss.headD 0) = true) := by
  by_cases hp : yypact.getD (st.yyss.headD 0) 0 = YYPACT_NINF
  · have e : yybackup st = (st, yydefault (st.yyss.headD 0)) := by
      unfold yybackup
      simp only [hp, if_true]
    rw [e]
    have hd := yydefault_ok _ hs false
    refine ⟨rfl, le_refl _, ?_, ?_⟩
    · intro n hn
      simp only at hn
      rw [hn] at hd
      unfold yydefault at hn
      split_ifs at hn
    · intro r hr
      simp only at hr
      rw [hr] at hd
      exact hd
  · obtain ⟨st1, hst1, hyss1, hpend1⟩ : ∃ st1 : yy_state,
        st1 = (if st.yychar = YYEMPTY then yylex st else st) ∧ st1.yyss = st.yyss
          ∧ yy_pending st1 ≤ yy_pending st := by
      refine ⟨_, rfl, ?_, ?_⟩
      · unfold yylex
        split_ifs
        · split <;> rfl
        · rfl
      · by_cases he : st.yychar = YYEMPTY
        · rw [if_pos he]
          unfold yylex yy_pending
          rw [if_pos he]
          rcases hin : st.input with _ | ⟨t, rest⟩
          · simp [YYEMPTY, YYEOF]
          · simp only [List.length_cons]
            split_ifs <;> omega
        · rw [if_neg he]
    obtain ⟨st2, hst2, hyss2, hpend2, hchar2⟩ : ∃ st2 : yy_state,
        st2 = (if st1.yychar ≤ YYEOF then { st1 with yychar := YYEOF } else st1)
          ∧ st2.yyss = st1.yyss ∧ yy_pending st2 ≤ yy_pending st1
          ∧ (st2.yychar ≤ YYEOF → st2.yychar = YYEOF) := by
      refine ⟨_, rfl, ?_, ?_, ?_⟩
      · split_ifs <;> rfl
      · by_cases he : st1.yychar ≤ YYEOF
        · rw [if_pos he]
          unfold yy_pending
          dsimp only
          simp only [YYEMPTY, YYEOF] at he ⊢
          rw [if_neg (by decide), if_pos (le_refl _)]
          split_ifs <;> omega
        · rw [if_neg he]
      · by_cases he : st1.yychar ≤ YYEOF
        · rw [if_pos he]
          intro _
          rfl
        · rw [if_neg he]
          intro h
          exact absurd h he
    have e : yybackup st
        = (st2, yy_lookup (st.yyss.headD 0)
            (if st2.yychar ≤ YYEOF then 0 else YYTRANSLATE st2.yychar)) := by
      unfold yybackup
      simp only [hp, if_false, ← hst1, ← hst2]
    rw [e]
    refine ⟨by rw [hyss2, hyss1], le_trans hpend2 hpend1, ?_, ?_⟩
    · intro n hn
      simp only at hn
      by_cases he : st2.yychar ≤ YYEOF
      · have hl := yy_lookup_ok (st.yyss.headD 0) 0 hs (by decide) hp
        rw [if_pos he] at hn
        rw [hn] at hl
        simp only [yy_todo_ok, yy_shift_ok, decide_True, decide_eq_true_eq] at hl
        exact ⟨hl.1, Or.inl (hl.2 trivial)⟩
      · have hl := yy_lookup_ok (st.yyss.headD 0) (YYTRANSLATE st2.yychar) hs
          (YYTRANSLATE_lt _) hp
        rw [if_neg he] at hn
        rw [hn] at hl
        simp only [yy_todo_ok, yy_shift_ok, decide_eq_true_eq] at hl
        exact ⟨hl.1, Or.inr he⟩
    · intro r hr
      simp only at hr
      have hl := yy_lookup_ok (st.yyss.headD 0)
        (if st2.yychar ≤ YYEOF then 0 else YYTRANSLATE st2.yychar) hs
        (by split_ifs; exact (by decide); exact YYTRANSLATE_lt _) hp
      rw [hr] at hl
      exact hl

theorem yyshift_potential (st : yy_state) (n : Nat) (hn : n < 210) (hreal : ¬ st.yychar ≤ YYEOF) :
    yy_potential (yyshift st n) < yy_potential st := by
  have hr := yy_rank_le n hn
  have hne : st.yychar ≠ YYEMPTY := by
    intro h
    rw [h] at hreal
    exact hreal (by decide)
  unfold yy_potential yy_pending yyshift
  simp only [if_true, if_neg hne, if_neg hreal, List.headD_cons, List.length_cons]
  omega

theorem yyreduce_potential (st : yy_state) (r : Nat) (hinv : yy_inv st)
    (hok : yy_reduce_ok r (st.yyss.headD 0) = true) :
    yy_inv (yyreduce st r) ∧ yy_potential (yyreduce st r) < yy_potential st := by
  obtain ⟨hne, hall⟩ := hinv
  simp only [yy_reduce_ok, decide_eq_true_eq] at hok
  obtain ⟨ha, hrank⟩ := hok
  have hdrop : ∀ s ∈ st.yyss.drop (yyr2.getD r 0), s < 210 :=
    fun s hs => hall s (List.mem_of_mem_drop hs)
  have hu : (st.yyss.drop (yyr2.getD r 0)).headD 0 < 210 := by
    cases hd : st.yyss.drop (yyr2.getD r 0) with
    | nil => simp
    | cons u rest =>
      rw [hd] at hdrop
      exact hdrop u (List.mem_cons_self _ _)
  have hg := yygoto_ok r _ ha hu
  refine ⟨⟨by rw [yyreduce_yyss]; simp, ?_⟩, ?_⟩
  · intro s hs
    rw [yyreduce_yyss] at hs
    rcases List.mem_cons.mp hs with h | h
    · rw [h]; exact hg.1
    · exact hdrop s h
  · unfold yy_potential
    rw [yyreduce_pending, yyreduce_yyss]
    simp only [List.headD_cons, List.length_cons, List.length_drop]
    have hlen : 1 ≤ st.yyss.length := List.length_pos.mpr hne
    by_cases h0 : yyr2.getD r 0 = 0
    · rw [if_pos h0] at hrank
      rw [h0] at hg ⊢
      simp only [List.drop_zero] at hg ⊢
      omega
    · rw [if_neg h0] at hrank
      by_cases hlt : yyr2.getD r 0 < st.yyss.length
      · omega
      · have hnil : st.yyss.drop (yyr2.getD r 0) = [] :=
          List.drop_eq_nil_of_le (by omega)
        rw [hnil] at hg ⊢
        simp only [List.headD_nil] at hg ⊢
        omega

theorem yyparse_loop_total (yymsg : Nat → Int → String) :
    ∀ (n : Nat) (st : yy_state), yy_inv st → yy_potential st ≤ n →
      (yyparse_loop yymsg (n + 1) st).isSome = true := by
  intro n
  induction n with
  | zero =>
    intro st hinv hpot
    have hlen : 1 ≤ st.yyss.length := List.length_pos.mpr hinv.1
    unfold yy_potential at hpot
    omega
  | succ n ih =>
    intro st hinv hpot
    have hhead : st.yyss.headD 0 < 210 := by
      obtain ⟨hne, hall⟩ := hinv
      cases hs : st.yyss with
      | nil => exact absurd hs hne
      | cons s rest =>
        rw [hs] at hall
        exact hall s (List.mem_cons_self _ _)
    rw [yyparse_loop]
    split_ifs with h1 h2
    · rfl
    · rfl
    · obtain ⟨hyss, hpend, hshift, hreduce⟩ := yybackup_step st hhead
      have hpot2 : yy_potential (yybackup st).1 ≤ yy_potential st := by
        unfold yy_potential
        rw [hyss]
        omega
      have hinv2 : yy_inv (yybackup st).1 := by
        unfold yy_inv
        rw [hyss]
        exact hinv
      rcases hyb : yybackup st with ⟨st2, todo⟩
      rw [hyb] at hyss hpend hshift hreduce hpot2 hinv2
      simp only at hyss hpend hshift hreduce hpot2 hinv2
      cases todo with
      | shift yyn =>
        obtain ⟨hn, hcase⟩ := hshift yyn rfl
        show (yyparse_loop yymsg (n + 1) (yyshift st2 yyn)).isSome = true
        rcases hcase with hfin | hreal
        · rw [yyparse_loop]
          split_ifs with h3 h4
          · rfl
          · rfl
          · exact absurd (by rw [hfin]; rfl) h4
        · refine ih _ ⟨by simp [yyshift], ?_⟩ ?_
          · intro s hs
            rcases List.mem_cons.mp hs with h | h
            · rw [h]; exact hn
            · exact hinv2.2 s h
          · have := yyshift_potential st2 yyn hn hreal
            omega
      | reduce yyn =>
        show (yyparse_loop yymsg (n + 1) (yyreduce st2 yyn)).isSome = true
        have hok := hreduce yyn rfl
        rw [← hyss] at hok
        obtain ⟨hi, hp⟩ := yyreduce_potential st2 yyn hinv2 hok
        exact ih _ hi (by omega)
      | errlab =>
        obtain ⟨res, hres⟩ := yyerrlab_inl yymsg st2 hinv2
        simp only [hres]
        rfl

theorem yyparse_loop_mono (yymsg : Nat → Int → String) :
    ∀ (fuel : Nat) (st : yy_state) (r : yy_result),
      yyparse_loop yymsg fuel st = some r → yyparse_loop yymsg (fuel + 1) st = some r := by
  intro fuel
  induction fuel with
  | zero => intro st r h; simp [yyparse_loop] at h
  | succ fuel ih =>
    intro st r h
    rw [yyparse_loop] at h ⊢
    split_ifs at h ⊢ with h1 h2
    · exact h
    · exact h
    · rcases hyb : yybackup st with ⟨st2, todo⟩
      rw [hyb] at h
      cases todo with
      | shift yyn => exact ih _ _ h
      | reduce yyn => exact ih _ _ h
      | errlab =>
        simp only at h ⊢
        cases hye : yyerrlab yymsg st2 with
        | inl res => rw [hye] at h; exact h
        | inr st3 => rw [hye] at h; exact ih _ _ h

theorem yyparse_total (yymsg : Nat → Int → String) (uninit : YYLTYPE) (input : List qip_token)
    (root : qip_ast_node) (parser : qip_parser_t) (heap : Nat) :
    (yyparse yymsg (16 * input.length + 31) uninit input root parser heap).isSome = true := by
  unfold yyparse
  refine yyparse_loop_total yymsg (16 * input.length + 30) _ ⟨by simp, ?_⟩ ?_
  · intro s hs
    simp only [List.mem_singleton] at hs
    omega
  · have h0 : yy_rank.getD 0 0 = 12 := rfl
    simp only [yy_potential, yy_pending, if_true, List.headD_cons, List.length_singleton, h0]
    omega

theorem yyparse_loop_mono_le (yymsg : Nat → Int → String) (fuel : Nat) (st : yy_state)
    (r : yy_result) (h : yyparse_loop yymsg fuel st = some r) :
    ∀ k, yyparse_loop yymsg (fuel + k) st = some r := by
  intro k
  induction k with
  | zero => exact h
  | succ k ih => exact yyparse_loop_mono yymsg (fuel + k) st r ih

theorem qip_parser_parse_total (yymsg : Nat → Int → String) (uninit : YYLTYPE) (heap : Nat)
    (parser : qip_parser_t) (name : Option String) (text : List qip_token) :
    (qip_parser_parse yymsg (16 * text.length + 31) uninit heap parser name text).isSome
      = true := by
  have h := yyparse_total yymsg uninit text (qip_parser_parse_setup heap name) parser (heap + 3)
  unfold qip_parser_parse
  cases hy : yyparse yymsg (16 * text.length + 31) uninit text
      (qip_parser_parse_setup heap name) parser (heap + 3) with
  | none => rw [hy] at h; simp at h
  | some r => rfl

/-- C27 (amended): the module returned by `qip_parser_parse` has the synthetic function
named `main` exactly when at least one free statement was added to it. The function is
set up with an empty body block; the action of the rule `module: module stmt` (rule 4)
puts the statement at the end of that block, every rule other than rules 3 and 4 leaves
the module alone and rule 3 (`module: module class`) leaves the main function alone; after
the parse a main function with an empty block is removed (`main_function` is null) and one
with a statement is kept as it is. Every call of `qip_parser_parse` returns, whatever the
tokens (the loop of `yyparse` pushes at most `16 * n + 31` states for `n` tokens), and it
returns 0 and a module that has no main function or has the function `main` with a block
of at least one statement. For the source `x;` `class Foo { }`
`2 + 3;` `y;` the module has the function `main` with the statements `x`, `2 + 3`, `y` in
source order. -/
theorem qip_parser_parse_main_function (rc : Int) (parser : qip_parser_t)
    (h fh bh : qip_ast_hdr) (name bname : Option String) (classes : List (Option qip_ast_node))
    (ret : Option qip_ast_node) (args exprs : List (Option qip_ast_node)) (bound : Bool)
    (yyn : Nat) (rhs : List YYSTYPE) (rhs_locs : List YYLTYPE) (yyval : YYSTYPE)
    (yyloc : YYLTYPE) (root : qip_ast_node) (heap : Nat)
    (yymsg : Nat → Int → String) (fuel : Nat) (uninit : YYLTYPE) (text : List qip_token) :
    (qip_parser_parse_setup heap name).main_function
      = some (.function (qip_ast_hdr.fresh (heap + 2)) (some "main") none []
          (some (.block { qip_ast_hdr.fresh (heap + 1) with parent := some (heap + 2) } none []))
          true) ∧
    (yy_action 4 rhs rhs_locs yyval yyloc
        (.module h name classes
          (some (.function fh (some "main") ret args (some (.block bh bname exprs)) bound)))
        heap).2.1
      = .module h name classes
          (some (.function fh (some "main") ret args
            (some (.block bh bname (exprs ++ [adopt bh.addr (rhs.getD 1 .garbage).node])))
            bound)) ∧
    (yyn ≠ 3 → yyn ≠ 4 → (yy_action yyn rhs rhs_locs yyval yyloc root heap).2.1 = root) ∧
    (yy_action 3 rhs rhs_locs yyval yyloc root heap).2.1.main_function = root.main_function ∧
    (exprs ≠ [] →
      (qip_parser_parse_finish rc parser
        (.module h name classes
          (some (.function fh (some "main") ret args (some (.block bh bname exprs)) bound)))).2.2
        = some (.module h name classes
            (some (.function fh (some "main") ret args (some (.block bh bname exprs)) bound)))) ∧
    (qip_parser_parse_finish rc parser
        (.module h name classes
          (some (.function fh (some "main") ret args (some (.block bh bname [])) bound)))).2.2
      = some (.module h name classes none) ∧
    (∀ r, qip_parser_parse yymsg fuel uninit heap parser name text = some r →
      r.1 = 0 ∧ ∃ m, r.2.2 = some m ∧ module_ok m) ∧
    (∃ r, qip_parser_parse yymsg (16 * text.length + 31) uninit heap parser name text = some r ∧
      r.1 = 0 ∧ ∃ m, r.2.2 = some m ∧ module_ok m) ∧
    (example_parse 40 mixed_tokens).map
        (fun r => (r.1, (r.2.2.bind qip_ast_node.main_function).bind qip_ast_node.function_name,
          main_shapes r.2.2, r.2.2.map (fun m => m.classes.length)))
      = some (0, some "main",
          some [.operand (.var "x"),
            .binary_expr .QIP_BINOP_PLUS (.operand (.int 2)) (.operand (.int 3)),
            .operand (.var "y")], some 1) := by
  refine ⟨rfl, rfl, yy_action_root_other yyn rhs rhs_locs yyval yyloc root heap, ?_, ?_, ?_,
    fun r hr => qip_parser_parse_module_ok yymsg fuel uninit heap parser name text r hr,
    ?_, by decide⟩
  · cases root <;> rfl
  · intro hne
    have hlen : exprs.length ≠ 0 := fun h0 => hne (List.length_eq_zero.mp h0)
    simp [qip_parser_parse_finish, qip_parser_add_error, qip_ast_node.main_function,
      qip_ast_node.body, qip_ast_node.exprs, hlen]
    split <;> simp_all
  · simp [qip_parser_parse_finish, qip_parser_add_error, qip_ast_node.main_function,
      qip_ast_node.body, qip_ast_node.exprs, qip_ast_module_set_main_function]
    split <;> simp_all
  · obtain ⟨r, hr⟩ := Option.isSome_iff_exists.mp
      (qip_parser_parse_total yymsg uninit heap parser name text)
    exact ⟨r, hr, qip_parser_parse_module_ok yymsg _ uninit heap parser name text r hr⟩

theorem qip_parser_parse_main_function_witness :
    ([some (int_lit 9 1)] : List (Option qip_ast_node)) ≠ [] ∧
    (qip_parser_parse_finish 0 ⟨[]⟩
        (.module (qip_ast_hdr.fresh 0) none []
          (some (.function (qip_ast_hdr.fresh 2) (some "main") none []
            (some (.block (qip_ast_hdr.fresh 1) none [some (int_lit 9 1)])) true)))).2.2
      = some (.module (qip_ast_hdr.fresh 0) none []
          (some (.function (qip_ast_hdr.fresh 2) (some "main") none []
            (some (.block (qip_ast_hdr.fresh 1) none [some (int_lit 9 1)])) true))) :=
  ⟨by simp,
    (qip_parser_parse_main_function 0 ⟨[]⟩ (qip_ast_hdr.fresh 0) (qip_ast_hdr.fresh 2)
      (qip_ast_hdr.fresh 1) none none [] none [] [some (int_lit 9 1)] true 5 [] [] .garbage
      ⟨0, 0, 0, 0⟩ (int_lit 1 1) 0 (fun _ _ => "syntax error") 3 ⟨0, 0, 0, 0⟩ []).2.2.2.2.1
      (by simp)⟩

/-! ## `compare_events` as a preorder -/

theorem compare_events_neg {D : Type} (a b : sky_event D) :
    compare_events a b = -compare_events b a := by
  unfold compare_events
  by_cases h1 : a.timestamp > b.timestamp
  · have h2 : ¬ b.timestamp > a.timestamp := by omega
    have h3 : b.timestamp < a.timestamp := by omega
    simp [h1, h2, h3]
  · by_cases h2 : a.timestamp < b.timestamp
    · have h3 : b.timestamp > a.timestamp := by omega
      simp [h1, h2, h3]
    · have h3 : ¬ b.timestamp > a.timestamp := by omega
      have h4 : ¬ b.timestamp < a.timestamp := by omega
      by_cases ha : a.data_count > 0 <;> by_cases hb : b.data_count > 0 <;>
        simp [h1, h2, h3, h4, ha, hb]

/-- C32: `compare_events` is a consistent total preorder on events. For all events `a`,
`b`, `c`: `compare_events a a` is 0; `compare_events a b` is the negation of
`compare_events b a`, so their signs are opposite; if `compare_events a b ≤ 0` and
`compare_events b c ≤ 0` then `compare_events a c ≤ 0`; one of `compare_events a b ≤ 0`
and `compare_events b a ≤ 0` holds; and `compare_events a b < 0` whenever the timestamp of
`a` is less than the timestamp of `b`. The result is always -1, 0 or 1. -/
theorem compare_events_preorder {D : Type} (a b c : sky_event D) :
    compare_events a a = 0 ∧
    compare_events a b = -compare_events b a ∧
    (compare_events a b).sign = -(compare_events b a).sign ∧
    (compare_events a b ≤ 0 → compare_events b c ≤ 0 → compare_events a c ≤ 0) ∧
    (compare_events a b ≤ 0 ∨ compare_events b a ≤ 0) ∧
    (a.timestamp < b.timestamp → compare_events a b < 0) ∧
    (compare_events a b = -1 ∨ compare_events a b = 0 ∨ compare_events a b = 1) := by
  refine ⟨?_, compare_events_neg a b, ?_, compare_events_trans a b c,
    compare_events_total a b, ?_, ?_⟩
  · simp [compare_events]
  · rw [compare_events_neg a b, Int.sign_neg]
  · intro h
    have h1 : ¬ a.timestamp > b.timestamp := by omega
    simp [compare_events, h1, h]
  · unfold compare_events
    dsimp only
    split_ifs <;> simp

theorem compare_events_preorder_witness :
    compare_events (tie_action 1 : sky_event Nat) (tie_data 2) ≤ 0 ∧
    compare_events (tie_data 2 : sky_event Nat) (incoming_event 9) ≤ 0 ∧
    compare_events (tie_action 1 : sky_event Nat) (incoming_event 9) ≤ 0 ∧
    (tie_action 1 : sky_event Nat).timestamp < (incoming_event 9).timestamp ∧
    compare_events (tie_action 1 : sky_event Nat) (incoming_event 9) < 0 :=
  ⟨by decide, by decide,
    (compare_events_preorder (tie_action 1) (tie_data 2) (incoming_event 9)).2.2.2.1
      (by decide) (by decide),
    by decide,
    (compare_events_preorder (tie_action 1) (incoming_event 9) (tie_data 2)).2.2.2.2.2.1
      (by decide)⟩


/-! ## The order of the stats -/

theorem raw_stats_map_timestamp (rs : List raw_event) (off : Nat) :
    (raw_stats off rs).map (fun s => s.timestamp) = rs.map (fun r => r.timestamp) := by
  induction rs generalizing off with
  | nil => rfl
  | cons r rs ih => simp [raw_stats, raw_stat, ih]

theorem raw_stats_sorted (rs : List raw_event) (off : Nat) (hs : raw_sorted rs) :
    (raw_stats off rs).Pairwise (fun a b => a.timestamp ≤ b.timestamp) := by
  have h : ((raw_stats off rs).map (fun s => s.timestamp)).Pairwise (fun a b => a ≤ b) := by
    rw [raw_stats_map_timestamp]
    exact List.pairwise_map.mpr hs
  exact List.pairwise_map.mp h

/-- C33: for every well-formed raw path block whose records are in non-decreasing
timestamp order, placed anywhere in memory, and every incoming event (or none),
`sky_path_get_event_stats` returns 0 with stats whose timestamps are in non-decreasing
order. With an incoming event of timestamp `t` the timestamps of the stats are the
timestamps of the records that are at most `t`, then `t`, then the timestamps of the other
records: the order of the block after the splice. -/
theorem sky_path_get_event_stats_timestamps_sorted {D : Type} (C : sky_event_data_codec D)
    (before after : List Nat) (oid : Nat) (rs : List raw_event) (hwf : raw_path_wf rs)
    (hs : raw_sorted rs) (event : Option (sky_event D))
    (he : ∀ e, event = some e → e.in_range) :
    ∃ stats, sky_path_get_event_stats C (before ++ (raw_path_bytes oid rs ++ after))
        before.length event = some (0, stats) ∧
      stats.Pairwise (fun a b => a.timestamp ≤ b.timestamp) ∧
      stats.map (fun s => s.timestamp)
        = match event with
          | some e => (records_before e.timestamp rs).map (fun r => r.timestamp)
              ++ e.timestamp :: (records_after e.timestamp rs).map (fun r => r.timestamp)
          | none => rs.map (fun r => r.timestamp) := by
  cases event with
  | none =>
    refine ⟨_, sky_path_get_event_stats_walk C before after oid rs hwf none 0 rfl, ?_, ?_⟩
    · have := walk_none rs SKY_TIMESTAMP_MIN 12
      simp only [incoming, Option.map_none'] at this ⊢
      rw [this]
      exact raw_stats_sorted rs 12 hs
    · have := walk_none rs SKY_TIMESTAMP_MIN 12
      simp only [incoming, Option.map_none'] at this ⊢
      rw [this]
      exact raw_stats_map_timestamp rs 12
  | some e =>
    have hsplit := records_before_append_after e.timestamp rs
    have hs2 : raw_sorted (records_before e.timestamp rs ++ records_after e.timestamp rs) := by
      rw [hsplit]; exact hs
    obtain ⟨hb, ha, _⟩ := List.pairwise_append.mp hs2
    refine ⟨_, sky_path_get_event_stats_sorted C before after oid rs hwf hs e (he e rfl), ?_, ?_⟩
    · rw [List.pairwise_append]
      refine ⟨raw_stats_sorted _ _ hb, ?_, ?_⟩
      · rw [List.pairwise_cons]
        refine ⟨?_, raw_stats_sorted _ _ ha⟩
        intro s hs'
        obtain ⟨r, hr, hrs⟩ := raw_stats_timestamp _ _ s hs'
        have := records_after_gt e.timestamp rs hs r hr
        simp only [incoming_stat, hrs]
        omega
      · intro s hs' s2 hs2'
        obtain ⟨r, hr, hrs⟩ := raw_stats_timestamp _ _ s hs'
        have h1 := records_before_le e.timestamp rs r hr
        rcases List.mem_cons.mp hs2' with rfl | hin
        · simp only [incoming_stat, hrs]
          exact h1
        · obtain ⟨r2, hr2, hrs2⟩ := raw_stats_timestamp _ _ s2 hin
          have h2 := records_after_gt e.timestamp rs hs r2 hr2
          rw [hrs, hrs2]
          omega
    · simp [raw_stats_map_timestamp, incoming_stat]

theorem sky_path_get_event_stats_timestamps_sorted_witness :
    raw_path_wf s3_records ∧ raw_sorted s3_records ∧
    (∀ e, some (incoming_event 20) = some e → e.in_range) ∧
    ∃ stats, sky_path_get_event_stats byte_codec ([7] ++ (raw_path_bytes 1 s3_records ++ [8]))
        [7].length (some (incoming_event 20)) = some (0, stats) ∧
      stats.Pairwise (fun a b => a.timestamp ≤ b.timestamp) ∧
      stats.map (fun s => s.timestamp)
        = (records_before (incoming_event 20).timestamp s3_records).map (fun r => r.timestamp)
            ++ (incoming_event 20).timestamp
              :: (records_after (incoming_event 20).timestamp s3_records).map
                  (fun r => r.timestamp) :=
  ⟨s3_records_wf, s3_records_sorted,
    fun e h => by
      cases h
      exact incoming_event_in_range 20 (by norm_num) (by norm_num),
    sky_path_get_event_stats_timestamps_sorted byte_codec [7] [8] 1 s3_records s3_records_wf
      s3_records_sorted (some (incoming_event 20))
      (fun e h => by
        cases h
        exact incoming_event_in_range 20 (by norm_num) (by norm_num))⟩


/-! ## QIP: what `qip_ast_binary_expr_validate` adds -/

theorem qip_ast_binary_expr_validate_errors (env : qip_env) (node : qip_ast_node)
    (module : qip_module) :
    ∃ errs : List qip_error, errs.length ≤ 1 ∧
      (qip_ast_binary_expr_validate env node module).2.errors = module.errors ++ errs := by
  have hsame : ∃ errs : List qip_error, errs.length ≤ 1 ∧ module.errors = module.errors ++ errs :=
    ⟨[], by simp, by simp⟩
  unfold qip_ast_binary_expr_validate
  split
  · rename_i hdr operator lhs rhs bt
    rcases target_node lhs with ⟨rc1, tl⟩
    rcases target_node rhs with ⟨rc2, tr⟩
    rcases env.qip_ast_node_get_type_name tl module with ⟨rc3, lt⟩
    rcases env.qip_ast_node_get_type_name tr module with ⟨rc4, rt⟩
    dsimp only
    split_ifs <;> first
      | exact hsame
      | exact ⟨[_], by simp, by simp [qip_module_add_error]⟩
      | (simp only [qip_module_add_error]; exact ⟨[_], by simp, rfl⟩)
  · exact hsame

/-- C39: `qip_ast_binary_expr_validate` adds at most one error per call, whatever the node
and the functions it calls. When the type names of the operands resolve and both are
numeric (`Int` or `Float`, in any combination), or neither is numeric, it returns 0 and
leaves the module as it is: no error is added. -/
theorem qip_ast_binary_expr_validate_no_error (env : qip_env) (node : qip_ast_node)
    (hdr : qip_ast_hdr) (operator : qip_ast_binop_e) (lhs rhs : qip_ast_node)
    (bt : Option qip_ast_node) (module : qip_module) (lt rt : String) :
    (∃ errs : List qip_error, errs.length ≤ 1 ∧
      (qip_ast_binary_expr_validate env node module).2.errors = module.errors ++ errs) ∧
    (env.qip_ast_node_get_type_name (target_node lhs).2 module = (0, some lt) →
      env.qip_ast_node_get_type_name (target_node rhs).2 module = (0, some rt) →
      (((lt = "Int" ∨ lt = "Float") ∧ (rt = "Int" ∨ rt = "Float"))
        ∨ (¬ (lt = "Int" ∨ lt = "Float") ∧ ¬ (rt = "Int" ∨ rt = "Float"))) →
      qip_ast_binary_expr_validate env (.binary_expr hdr operator (some lhs) (some rhs) bt)
          module = (0, module)) := by
  refine ⟨qip_ast_binary_expr_validate_errors env node module, ?_⟩
  intro hl hr hc
  rw [qip_ast_binary_expr_validate_eq env hdr operator lhs rhs bt module _ _ hl hr, if_neg]
  unfold validate_rejects
  rcases hc with ⟨h1, h2⟩ | ⟨h1, h2⟩
  · rcases h1 with rfl | rfl <;> rcases h2 with rfl | rfl <;>
      simp [biseqcstr, qip_is_builtin_type_name]
  · push_neg at h1 h2
    simp [biseqcstr, h1.1, h1.2, h2.1, h2.2]

theorem qip_ast_binary_expr_validate_no_error_witness :
    example_env.qip_ast_node_get_type_name (target_node (int_lit 1 2)).2 ⟨[]⟩
      = (0, some "Int") ∧
    example_env.qip_ast_node_get_type_name (target_node (float_lit 2 3)).2 ⟨[]⟩
      = (0, some "Float") ∧
    qip_ast_binary_expr_validate example_env
      (.binary_expr (qip_ast_hdr.fresh 3) .QIP_BINOP_PLUS (some (int_lit 1 2))
        (some (float_lit 2 3)) none) ⟨[]⟩ = (0, ⟨[]⟩) :=
  ⟨rfl, rfl,
    (qip_ast_binary_expr_validate_no_error example_env (int_lit 1 2) (qip_ast_hdr.fresh 3)
      .QIP_BINOP_PLUS (int_lit 1 2) (float_lit 2 3) none ⟨[]⟩ "Int" "Float").2 rfl rfl
      (Or.inl ⟨Or.inl rfl, Or.inr rfl⟩)⟩


/-! ## Packing what was unpacked -/

section Reserialize

variable {D : Type} (C : sky_event_data_codec D)

theorem sky_events_decoded_length (alloc : Nat → Nat) (oid : Nat) (es : List (sky_event D)) :
    ∀ index, (sky_events_decoded alloc oid index es).length = es.length := by
  induction es with
  | nil => intro _; rfl
  | cons e es ih => intro index; simp [sky_events_decoded, ih]

theorem sky_events_decoded_getElem (alloc : Nat → Nat) (oid : Nat) (es : List (sky_event D)) :
    ∀ (index i : Nat) (h : i < es.length),
      (sky_events_decoded alloc oid index es)[i]?
        = some (sky_event_decoded alloc oid (index + i) (es.get ⟨i, h⟩)) := by
  induction es with
  | nil => intro _ i h; simp at h
  | cons e es ih =>
    intro index i h
    cases i with
    | zero => simp [sky_events_decoded]
    | succ i =>
      have := ih (index + 1) i (by simpa using h)
      simp only [sky_events_decoded, List.getElem?_cons_succ, this, List.get_eq_getElem,
        List.getElem_cons_succ]
      congr 2
      omega

theorem sky_events_decoded_bytes (alloc : Nat → Nat) (oid : Nat) (es : List (sky_event D)) :
    ∀ index, sky_events_bytes C (sky_events_decoded alloc oid index es) = sky_events_bytes C es
      ∧ (sky_events_decoded alloc oid index es).map (sky_event_sizeof C)
        = es.map (sky_event_sizeof C) := by
  induction es with
  | nil => intro _; exact ⟨rfl, rfl⟩
  | cons e es ih =>
    intro index
    obtain ⟨h1, h2⟩ := ih (index + 1)
    refine ⟨?_, ?_⟩
    · simp only [sky_events_decoded, sky_events_bytes, h1]
      rfl
    · simp only [sky_events_decoded, List.map_cons, h2]
      rfl

theorem sky_events_decoded_valid (alloc : Nat → Nat) (oid : Nat) (hoid : oid < 2 ^ 64)
    (es : List (sky_event D)) (hv : ∀ e ∈ es, e.valid C) :
    ∀ index, ∀ x ∈ sky_events_decoded alloc oid index es, x.object_id = oid ∧ x.valid C := by
  induction es with
  | nil => intro _ x hx; simp [sky_events_decoded] at hx
  | cons e es ih =>
    intro index x hx
    simp only [sky_events_decoded, List.mem_cons] at hx
    rcases hx with rfl | hx
    · obtain ⟨⟨h1, h2, h3, _⟩, h5, h6⟩ := hv e (List.mem_cons_self e es)
      exact ⟨rfl, ⟨h1, h2, h3, hoid⟩, h5, h6⟩
    · exact ih (fun y hy => hv y (List.mem_cons_of_mem e hy)) (index + 1) x hx

theorem sky_path_unpack_loop_records (alloc : Nat → Nat) (uninit : sky_event D)
    (mem : List Nat) (es : List (sky_event D)) :
    ∀ (fuel : Nat) (path : sky_path D) (ptr : Nat) (rest : List Nat)
      (pre tail : List (sky_event D)),
      path.events = pre ++ tail → (∀ e ∈ es, e.valid C) →
      mem.drop ptr = sky_events_bytes C es ++ rest →
      (es.map (sky_event_sizeof C)).sum ≤ fuel →
      sky_path_unpack_loop C alloc uninit mem fuel path ptr
          (ptr + (es.map (sky_event_sizeof C)).sum) pre.length
        = some (0, { object_id := path.object_id,
                     events := pre ++ sky_events_decoded alloc path.object_id pre.length es
                       ++ (tail ++ List.replicate es.length uninit).drop es.length },
                ptr + (es.map (sky_event_sizeof C)).sum) := by
  induction es with
  | nil =>
    intro fuel path ptr rest pre tail hev _ _ _
    obtain ⟨oid, events⟩ := path
    simp only at hev
    subst hev
    cases fuel <;> simp [sky_path_unpack_loop, sky_events_decoded]
  | cons e es ih =>
    intro fuel path ptr rest pre tail hev hv hdrop hfuel
    have hval := hv e (List.mem_cons_self e es)
    have hge := sky_event_sizeof_ge C e
    simp only [List.map_cons, List.sum_cons] at hfuel ⊢
    obtain ⟨f, rfl⟩ : ∃ f, fuel = f + 1 := ⟨fuel - 1, by omega⟩
    have hun := sky_event_unpack_packed C mem ptr (sky_events_bytes C es ++ rest) e
      (sky_event_create (alloc pre.length) path.object_id 0 0) hval
      (by rw [hdrop]; simp [sky_events_bytes])
    have hdrop2 : mem.drop (ptr + sky_event_sizeof C e) = sky_events_bytes C es ++ rest := by
      have := drop_add_of_drop mem ptr (e.bytes C) (sky_events_bytes C es ++ rest)
        (by rw [hdrop]; simp [sky_events_bytes])
      rwa [sky_event_bytes_length C e hval] at this
    have hset : (path.events ++ [uninit]).set pre.length
          (sky_event_decoded alloc path.object_id pre.length e)
        = (pre ++ [sky_event_decoded alloc path.object_id pre.length e])
            ++ (tail ++ [uninit]).tail := by
      rw [hev]
      cases tail with
      | nil => simp [list_set_length_append]
      | cons t ts => simp [List.set_append]
    have hrec := ih f
      ⟨path.object_id, (pre ++ [sky_event_decoded alloc path.object_id pre.length e])
        ++ (tail ++ [uninit]).tail⟩
      (ptr + sky_event_sizeof C e) rest
      (pre ++ [sky_event_decoded alloc path.object_id pre.length e]) ((tail ++ [uninit]).tail)
      rfl (fun x hx => hv x (List.mem_cons_of_mem e hx)) hdrop2 (by omega)
    have hlt : ptr < ptr + (sky_event_sizeof C e + (es.map (sky_event_sizeof C)).sum) := by
      omega
    have htail : ((tail ++ [uninit]).tail ++ List.replicate es.length uninit).drop es.length
        = (tail ++ List.replicate (es.length + 1) uninit).drop (es.length + 1) := by
      cases tail with
      | nil => simp [List.replicate_succ]
      | cons t ts => simp [List.replicate_succ]
    have hun2 : sky_event_unpack C (sky_event_create (alloc pre.length) path.object_id 0 0)
        mem ptr
          = (0, sky_event_decoded alloc path.object_id pre.length e, sky_event_sizeof C e) := hun
    rw [sky_path_unpack_loop]
    simp only [hlt, if_true, hun2, ne_eq, not_true_eq_false, if_false]
    rw [hset, ← Nat.add_assoc]
    simp only [List.length_append, List.length_singleton] at hrec
    rw [hrec, htail]
    simp [sky_events_decoded, List.length_cons]

theorem sky_path_unpack_records (alloc : Nat → Nat) (uninit : sky_event D) (path : sky_path D)
    (oid : Nat) (es : List (sky_event D)) (hoid : oid < 2 ^ 64) (hv : ∀ e ∈ es, e.valid C)
    (hlen : (es.map (sky_event_sizeof C)).sum < 2 ^ 32) (before after : List Nat) :
    sky_path_unpack C alloc uninit path (before ++ (sky_path_block C oid es ++ after))
        before.length
      = some (0, { object_id := oid,
                   events := sky_events_decoded alloc oid 0 es
                     ++ (path.events ++ List.replicate es.length uninit).drop es.length },
              12 + (es.map (sky_event_sizeof C)).sum) := by
  have hhdr := path_hdr_read (before ++ (sky_path_block C oid es ++ after))
    before.length oid ((es.map (sky_event_sizeof C)).sum) (sky_events_bytes C es ++ after)
    (by rw [List.drop_left]; simp [sky_path_block])
  obtain ⟨hr1, hr2, hr3⟩ := hhdr
  have hoid2 : oid % 2 ^ 64 = oid := Nat.mod_eq_of_lt hoid
  have hedl : (es.map (sky_event_sizeof C)).sum % 2 ^ 32 = (es.map (sky_event_sizeof C)).sum :=
    Nat.mod_eq_of_lt hlen
  have hloop := sky_path_unpack_loop_records C alloc uninit
    (before ++ (sky_path_block C oid es ++ after)) es ((es.map (sky_event_sizeof C)).sum)
    { path with object_id := oid } (before.length + 12) after [] path.events rfl hv hr3
    (le_of_eq rfl)
  have h12 : before.length + 8 + 4 = before.length + 12 := by omega
  unfold sky_path_unpack
  simp only [SKY_OBJECT_ID_SIZE, SKY_PATH_EVENT_DATA_LENGTH_SIZE, hr1, hr2, hoid2, hedl, h12]
  simp only [List.length_nil, List.nil_append] at hloop
  rw [hloop]
  simp
  omega

theorem sky_path_block_length (oid : Nat) (es : List (sky_event D)) (hv : ∀ e ∈ es, e.valid C) :
    (sky_path_block C oid es).length = 12 + (es.map (sky_event_sizeof C)).sum := by
  simp only [sky_path_block, List.length_append, le_bytes_length,
    sky_events_bytes_length C es hv]

end Reserialize

/-- C34: `sky_path_pack` does not look at the return code of `sky_path_pack_hdr`. For a
path whose object id is 0 or that has no event (every event valid, so that its record
can be written), `sky_path_pack_hdr` fails (returns -1, reports 0 bytes, writes nothing), and
`sky_path_pack` still returns 0: it reports the bytes of the event records only and
writes the event records without the 12-byte header. -/
theorem sky_path_pack_header_failure_ignored {D : Type} (C : sky_event_data_codec D)
    (p : sky_path D) (hfail : p.object_id = 0 ∨ p.events = [])
    (hv : ∀ e ∈ p.events, e.valid C) :
    sky_path_pack_hdr p.object_id (get_event_data_length C p % 2 ^ 32) = (-1, 0, []) ∧
    sky_path_pack C p
      = (0, (p.events.map (sky_event_sizeof C)).sum, sky_events_bytes C p.events) ∧
    (sky_events_bytes C p.events).length + 12 = sky_path_sizeof C p := by
  have hpk := sky_path_pack_events_valid C p.events hv
  have hhdr : sky_path_pack_hdr p.object_id (get_event_data_length C p % 2 ^ 32)
      = (-1, 0, []) := by
    rcases hfail with h | h
    · simp [sky_path_pack_hdr, h]
    · by_cases h0 : p.object_id = 0
      · simp [sky_path_pack_hdr, h0]
      · simp [sky_path_pack_hdr, h0, get_event_data_length, h]
  refine ⟨hhdr, ?_, ?_⟩
  · simp only [sky_path_pack, hhdr, hpk]
    simp
  · rw [sky_events_bytes_length C p.events hv]
    simp only [sky_path_sizeof, get_event_data_length, SKY_PATH_HEADER_LENGTH]
    omega

theorem sky_path_pack_header_failure_ignored_witness :
    (zero_id_path.object_id = 0 ∨ zero_id_path.events = []) ∧
    sky_path_pack byte_codec zero_id_path
      = (0, (zero_id_path.events.map (sky_event_sizeof byte_codec)).sum,
          sky_events_bytes byte_codec zero_id_path.events) ∧
    sky_path_pack byte_codec zero_id_path
      = (0, 16, [5, 0, 0, 0, 0, 0, 0, 0, 7, 0, 0, 0, 0, 0, 0, 0]) :=
  ⟨Or.inl rfl,
    (sky_path_pack_header_failure_ignored byte_codec zero_id_path (Or.inl rfl)
      (by
        intro e he
        simp only [zero_id_path, List.mem_singleton] at he
        subst he
        exact ⟨⟨by norm_num [tie_action], by norm_num [tie_action], by norm_num [tie_action],
          by norm_num [tie_action]⟩, by decide, by simp [tie_action]⟩)).2.1,
    by decide⟩

/-- C35 (counterexample): the block of object 1 that holds its 12-byte header and no
event record. `sky_path_unpack` into a fresh path returns 0 with a path of no events and
reports 12 bytes; `sky_path_pack` of that path returns 0, reports 0 bytes and writes
nothing, so the 12 bytes of the block are not reproduced. -/
theorem sky_path_repack_header_only :
    sky_path_unpack byte_codec (fun i => 100 + i) (tie_action 0) (sky_path_create 0)
        (sky_path_block byte_codec 1 []) 0
      = some (0, { object_id := 1, events := [] }, 12) ∧
    sky_path_pack byte_codec ({ object_id := 1, events := [] } : sky_path Nat) = (0, 0, []) ∧
    (sky_path_block byte_codec 1 ([] : List (sky_event Nat))).length = 12 ∧
    sky_path_sizeof_raw (sky_path_block byte_codec 1 ([] : List (sky_event Nat))) 0 = 12 := by
  decide

/-- C35 (amended): for every raw path block that holds a non-zero object id and the
records of at least one event (every record valid, event data length below 2^32), placed
anywhere in memory, `sky_path_unpack` into a fresh path returns 0 and `sky_path_pack` of
the path it made returns 0, writes the bytes of the block, byte for byte, and reports
`sky_path_sizeof_raw` of the block, which is the length of the block. -/
theorem sky_path_unpack_pack_identity {D : Type} (C : sky_event_data_codec D)
    (alloc : Nat → Nat) (uninit : sky_event D) (fresh_id oid : Nat) (es : List (sky_event D))
    (h0 : oid ≠ 0) (hoid : oid < 2 ^ 64) (hne : es ≠ []) (hv : ∀ e ∈ es, e.valid C)
    (hlen : (es.map (sky_event_sizeof C)).sum < 2 ^ 32) (before after : List Nat) :
    ∃ q, sky_path_unpack C alloc uninit (sky_path_create fresh_id)
          (before ++ (sky_path_block C oid es ++ after)) before.length
        = some (0, q, (sky_path_block C oid es).length) ∧
      sky_path_pack C q
        = (0, sky_path_sizeof_raw (before ++ (sky_path_block C oid es ++ after)) before.length,
            sky_path_block C oid es) ∧
      sky_path_sizeof_raw (before ++ (sky_path_block C oid es ++ after)) before.length
        = (sky_path_block C oid es).length := by
  have hun := sky_path_unpack_records C alloc uninit (sky_path_create fresh_id) oid es hoid hv
    hlen before after
  have hbl := sky_path_block_length C oid es hv
  obtain ⟨hb1, hb2⟩ := sky_events_decoded_bytes C alloc oid es 0
  have hraw : sky_path_sizeof_raw (before ++ (sky_path_block C oid es ++ after)) before.length
      = 12 + (es.map (sky_event_sizeof C)).sum := by
    have h := path_hdr_read (before ++ (sky_path_block C oid es ++ after))
      before.length oid ((es.map (sky_event_sizeof C)).sum) (sky_events_bytes C es ++ after)
      (by rw [List.drop_left]; simp [sky_path_block])
    rw [sky_path_sizeof_raw_eq, h.2.1, Nat.mod_eq_of_lt hlen]
  have hq : sky_events_decoded alloc oid 0 es
      ++ ((sky_path_create fresh_id : sky_path D).events
        ++ List.replicate es.length uninit).drop es.length
      = sky_events_decoded alloc oid 0 es := by
    simp [sky_path_create]
  rw [hq] at hun
  refine ⟨_, by rw [hun, hbl], ?_, by rw [hraw, hbl]⟩
  have hvalid : ({ object_id := oid, events := sky_events_decoded alloc oid 0 es }
      : sky_path D).valid C := by
    refine ⟨h0, hoid, ?_, sky_events_decoded_valid C alloc oid hoid es hv 0, ?_⟩
    · intro hnil
      have := congrArg List.length hnil
      rw [sky_events_decoded_length] at this
      exact hne (List.length_eq_zero.mp this)
    · simp only [get_event_data_length, hb2]
      exact hlen
  rw [sky_path_pack_valid C _ hvalid, hraw]
  simp only [sky_path_sizeof, get_event_data_length, hb1, hb2, sky_path_block,
    SKY_PATH_HEADER_LENGTH]

theorem sky_path_unpack_pack_identity_witness :
    (1 : Nat) ≠ 0 ∧ (1 : Nat) < 2 ^ 64 ∧ example_path.events ≠ [] ∧
    (∀ e ∈ example_path.events, e.valid byte_codec) ∧
    (example_path.events.map (sky_event_sizeof byte_codec)).sum < 2 ^ 32 ∧
    ∃ q, sky_path_unpack byte_codec (fun i => 100 + i) (tie_action 0) (sky_path_create 0)
          ([7] ++ (sky_path_block byte_codec 1 example_path.events ++ [8])) [7].length
        = some (0, q, (sky_path_block byte_codec 1 example_path.events).length) ∧
      sky_path_pack byte_codec q
        = (0, sky_path_sizeof_raw
              ([7] ++ (sky_path_block byte_codec 1 example_path.events ++ [8])) [7].length,
            sky_path_block byte_codec 1 example_path.events) ∧
      sky_path_sizeof_raw ([7] ++ (sky_path_block byte_codec 1 example_path.events ++ [8]))
          [7].length
        = (sky_path_block byte_codec 1 example_path.events).length :=
  ⟨by decide, by norm_num, by decide, fun e he => (example_path_valid.2.2.2.1 e he).2,
    by decide,
    sky_path_unpack_pack_identity byte_codec (fun i => 100 + i) (tie_action 0) 0 1
      example_path.events (by decide) (by norm_num) (by decide)
      (fun e he => (example_path_valid.2.2.2.1 e he).2) (by decide) [7] [8]⟩

/-- C36 (counterexample): a path of object 1 that holds one event is the destination, and
the block holds one record. `sky_path_unpack` returns 0 and leaves `event_count` at 2,
not 1: the event made of the record is `events[0]`, in the place of the event that the
path held, and `events[1]` is the slot that `realloc` added, which nothing was stored
in. -/
theorem sky_path_unpack_count_adds :
    (sky_path_unpack byte_codec (fun i => 100 + i) (tie_action 0)
        { object_id := 1, events := [tie_data 9] }
        (sky_path_block byte_codec 1 [tie_action 1]) 0).map
      (fun r => (r.1, r.2.1.event_count, r.2.1.events))
      = some (0, 2, [sky_event_decoded (fun i => 100 + i) 1 0 (tie_action 1), tie_action 0]) ∧
    [tie_action 1].length = 1 := by
  decide

/-- C36 (amended): for every block that holds the records of `n` events (every record
valid, event data length below 2^32), placed anywhere in memory, and every destination
path, `sky_path_unpack` returns 0, sets the object id of the path from the header, and
leaves `event_count` at the count before the call plus `n`; `events[i]` is the event made
of the `i`-th record for every `i < n`. For a destination that held no event,
`event_count` is `n`, the number of records, and the events are exactly the events made
of the records, in the order of the block. -/
theorem sky_path_unpack_event_count {D : Type} (C : sky_event_data_codec D)
    (alloc : Nat → Nat) (uninit : sky_event D) (path : sky_path D) (oid : Nat)
    (es : List (sky_event D)) (hoid : oid < 2 ^ 64) (hv : ∀ e ∈ es, e.valid C)
    (hlen : (es.map (sky_event_sizeof C)).sum < 2 ^ 32) (before after : List Nat) :
    ∃ q, sky_path_unpack C alloc uninit path (before ++ (sky_path_block C oid es ++ after))
          before.length = some (0, q, (sky_path_block C oid es).length) ∧
      q.object_id = oid ∧
      q.event_count = path.event_count + es.length ∧
      (∀ (i : Nat) (h : i < es.length),
        q.events[i]? = some (sky_event_decoded alloc oid i (es.get ⟨i, h⟩))) ∧
      (path.events = [] →
        q.event_count = es.length ∧ q.events = sky_events_decoded alloc oid 0 es) := by
  have hun := sky_path_unpack_records C alloc uninit path oid es hoid hv hlen before after
  have hbl := sky_path_block_length C oid es hv
  have hdl := sky_events_decoded_length alloc oid es 0
  refine ⟨_, by rw [hun, hbl], rfl, ?_, ?_, ?_⟩
  · simp only [sky_path.event_count, List.length_append, hdl, List.length_drop,
      List.length_replicate]
    omega
  · intro i h
    have hget := sky_events_decoded_getElem alloc oid es 0 i h
    simp only [Nat.zero_add] at hget
    rw [List.getElem?_append_left (by rw [hdl]; exact h)]
    exact hget
  · intro hnil
    simp [sky_path.event_count, hnil, hdl]

theorem sky_path_unpack_event_count_witness :
    (1 : Nat) < 2 ^ 64 ∧ (∀ e ∈ example_path.events, e.valid byte_codec) ∧
    (example_path.events.map (sky_event_sizeof byte_codec)).sum < 2 ^ 32 ∧
    ∃ q, sky_path_unpack byte_codec (fun i => 100 + i) (tie_action 0)
          { object_id := 3, events := [tie_data 9] }
          ([7] ++ (sky_path_block byte_codec 1 example_path.events ++ [8])) [7].length
        = some (0, q, (sky_path_block byte_codec 1 example_path.events).length) ∧
      q.object_id = 1 ∧
      q.event_count
        = ({ object_id := 3, events := [tie_data 9] } : sky_path Nat).event_count
          + example_path.events.length ∧
      (∀ (i : Nat) (h : i < example_path.events.length),
        q.events[i]? = some (sky_event_decoded (fun i => 100 + i) 1 i
          (example_path.events.get ⟨i, h⟩))) ∧
      (({ object_id := 3, events := [tie_data 9] } : sky_path Nat).events = [] →
        q.event_count = example_path.events.length
          ∧ q.events = sky_events_decoded (fun i => 100 + i) 1 0 example_path.events) :=
  ⟨by norm_num, fun e he => (example_path_valid.2.2.2.1 e he).2, by decide,
    sky_path_unpack_event_count byte_codec (fun i => 100 + i) (tie_action 0)
      { object_id := 3, events := [tie_data 9] } 1 example_path.events (by norm_num)
      (fun e he => (example_path_valid.2.2.2.1 e he).2) (by decide) [7] [8]⟩

/-! ## QIP: the copy of a binary expression -/

theorem qip_ast_node_set_parent_parent (parent : Option Nat) (node : qip_ast_node) :
    (node.set_parent parent).parent = parent := by
  cases node <;> rfl

theorem adopt_parent (addr : Nat) (child : Option qip_ast_node) (c : qip_ast_node)
    (h : adopt addr child = some c) : c.parent = some addr := by
  cases child with
  | none => simp [adopt] at h
  | some x =>
    simp only [adopt, Option.map_some', Option.some.injEq] at h
    rw [← h]
    exact qip_ast_node_set_parent_parent _ _

/-- C31: for every binary expression node `n` whose children `qip_ast_node_copy` copies
(it returns 0 for the left and for the right child), `qip_ast_binary_expr_copy` returns 0
and a clone that is a newly allocated node: its address is the next free address, so it
is not `n` when `n` was allocated before; it has the operator of `n`, no parent, and a
Boolean type reference of its own, newly allocated too, not the one of `n`; its children
are what `qip_ast_node_copy` made of the children of `n`, each with the clone as parent;
a child that `qip_ast_node_copy` leaves null (as it does a null child of `n`, if it
copies `NULL` to `NULL`) stays null. -/
theorem qip_ast_binary_expr_copy_clone
    (copy : Option qip_ast_node → Nat → Int × Option qip_ast_node × Nat) (heap : Nat)
    (h : qip_ast_hdr) (operator : qip_ast_binop_e) (lhs rhs btr l r : Option qip_ast_node)
    (heap1 heap2 : Nat) (hl : copy lhs (heap + 2) = (0, l, heap1))
    (hr : copy rhs heap1 = (0, r, heap2)) :
    ∃ clone, qip_ast_binary_expr_copy copy heap (some (.binary_expr h operator lhs rhs btr)) true
        = (0, some clone, heap2) ∧
      clone = .binary_expr (qip_ast_hdr.fresh heap) operator (adopt heap l) (adopt heap r)
          (some (qip_ast_type_ref_create_cstr (heap + 1) "Boolean")) ∧
      clone.addr = heap ∧ (h.addr < heap → clone.addr ≠ h.addr) ∧
      clone.operator = some operator ∧ clone.parent = none ∧
      (∀ c, clone.lhs = some c → c.parent = some clone.addr ∧ ∃ x, l = some x) ∧
      (∀ c, clone.rhs = some c → c.parent = some clone.addr ∧ ∃ x, r = some x) ∧
      (l = none → clone.lhs = none) ∧ (r = none → clone.rhs = none) ∧
      (lhs = none → (copy none (heap + 2)).2.1 = none → clone.lhs = none) ∧
      (rhs = none → (copy none heap1).2.1 = none → clone.rhs = none) ∧
      (∃ b, clone.boolean_type_ref = some b ∧ b.addr = heap + 1 ∧ b.parent = none ∧
        ∀ nb, btr = some nb → nb.addr < heap → b.addr ≠ nb.addr) := by
  have hnull : ∀ x : Option qip_ast_node, x = none → adopt heap x = none := by
    intro x hx
    rw [hx]
    rfl
  have hsome : ∀ (x : Option qip_ast_node) (c : qip_ast_node), adopt heap x = some c →
      c.parent = some heap ∧ ∃ y, x = some y := by
    intro x c hc
    refine ⟨adopt_parent heap x c hc, ?_⟩
    cases x with
    | none => simp [adopt] at hc
    | some y => exact ⟨y, rfl⟩
  refine ⟨_, ?_, rfl, rfl, ?_, rfl, rfl, hsome l, hsome r, hnull l, hnull r, ?_, ?_, ?_⟩
  · simp only [qip_ast_binary_expr_copy, hl, hr]
    rfl
  · intro hlt
    show heap ≠ h.addr
    omega
  · intro h1 h2
    rw [h1] at hl
    rw [hl] at h2
    exact hnull l h2
  · intro h1 h2
    rw [h1] at hr
    rw [hr] at h2
    exact hnull r h2
  · refine ⟨_, rfl, rfl, rfl, ?_⟩
    intro nb _ hlt
    show heap + 1 ≠ nb.addr
    omega

theorem qip_ast_binary_expr_copy_clone_witness :
    example_copy (some (int_lit 1 2)) (10 + 2) = (0, some (int_lit 12 2), 13) ∧
    example_copy none 13 = (0, none, 13) ∧
    ∃ clone, qip_ast_binary_expr_copy example_copy 10
          (some (.binary_expr (qip_ast_hdr.fresh 3) .QIP_BINOP_PLUS (some (int_lit 1 2)) none
            (some (qip_ast_type_ref_create_cstr 4 "Boolean")))) true
        = (0, some clone, 13) ∧
      clone = .binary_expr (qip_ast_hdr.fresh 10) .QIP_BINOP_PLUS
          (adopt 10 (some (int_lit 12 2))) (adopt 10 none)
          (some (qip_ast_type_ref_create_cstr (10 + 1) "Boolean")) :=
  ⟨rfl, rfl,
    (qip_ast_binary_expr_copy_clone example_copy 10 (qip_ast_hdr.fresh 3) .QIP_BINOP_PLUS
      (some (int_lit 1 2)) none (some (qip_ast_type_ref_create_cstr 4 "Boolean"))
      (some (int_lit 12 2)) none 13 13 rfl rfl).imp (fun _ h => ⟨h.1, h.2.1⟩)⟩

/-! ## QIP: associativity -/

/-- C38: binary operators of equal precedence associate to the left. In state
`op1.state`, where `expr op1 expr` is on top of the stack, with an operator `op2` of the
same precedence as lookahead the parser reduces by the rule of `op1`, whatever the rest of
the stack; so the statement `a op1 b op2 c;` parses (return code 0) to one statement of
the main function of the shape `op2(op1(a, b), c)`. In particular `a - b - c` parses to
`binary-expr(-, binary-expr(-, a, b), c)`, `a / b * c` to
`binary-expr(*, binary-expr(/, a, b), c)` and `a == b == c` to
`binary-expr(==, binary-expr(==, a, b), c)`. -/
theorem qip_parser_left_assoc (op1 op2 : qip_ast_binop_e) (st : yy_state)
    (heq : op1.precedence = op2.precedence) :
    (st.yyss.headD 0 = op1.state → yy_peek st = op2.yychar →
      (yybackup st).2 = .reduce op1.rule) ∧
    (example_parse 25 (expr_tokens (.var "a") op1 (.var "b") op2 (.var "c"))).map
        (fun r => (r.1, main_shapes r.2.2))
      = some (0, some [.binary_expr op2
          (.binary_expr op1 (.operand (.var "a")) (.operand (.var "b")))
          (.operand (.var "c"))]) ∧
    (example_parse 25
        (expr_tokens (.var "a") .QIP_BINOP_MINUS (.var "b") .QIP_BINOP_MINUS (.var "c"))).map
        (fun r => (r.1, main_shapes r.2.2))
      = some (0, some [.binary_expr .QIP_BINOP_MINUS
          (.binary_expr .QIP_BINOP_MINUS (.operand (.var "a")) (.operand (.var "b")))
          (.operand (.var "c"))]) ∧
    (example_parse 25
        (expr_tokens (.var "a") .QIP_BINOP_DIV (.var "b") .QIP_BINOP_MUL (.var "c"))).map
        (fun r => (r.1, main_shapes r.2.2))
      = some (0, some [.binary_expr .QIP_BINOP_MUL
          (.binary_expr .QIP_BINOP_DIV (.operand (.var "a")) (.operand (.var "b")))
          (.operand (.var "c"))]) ∧
    (example_parse 25
        (expr_tokens (.var "a") .QIP_BINOP_EQUALS (.var "b") .QIP_BINOP_EQUALS (.var "c"))).map
        (fun r => (r.1, main_shapes r.2.2))
      = some (0, some [.binary_expr .QIP_BINOP_EQUALS
          (.binary_expr .QIP_BINOP_EQUALS (.operand (.var "a")) (.operand (.var "b")))
          (.operand (.var "c"))]) := by
  refine ⟨?_, ?_, by decide, by decide, by decide⟩
  · intro htop hpeek
    rw [yybackup_decision, htop, hpeek]
    cases op1 <;> cases op2 <;> first
      | exact absurd heq (by decide)
      | decide
  · cases op1 <;> cases op2 <;> first
      | exact absurd heq (by decide)
      | decide

theorem qip_parser_left_assoc_witness :
    qip_ast_binop_e.QIP_BINOP_MINUS.precedence = qip_ast_binop_e.QIP_BINOP_MINUS.precedence ∧
    expr_minus_expr_state.yyss.headD 0 = qip_ast_binop_e.QIP_BINOP_MINUS.state ∧
    yy_peek expr_minus_expr_state = qip_ast_binop_e.QIP_BINOP_MINUS.yychar ∧
    (yybackup expr_minus_expr_state).2 = .reduce 17 :=
  ⟨rfl, rfl, rfl,
    (qip_parser_left_assoc .QIP_BINOP_MINUS .QIP_BINOP_MINUS expr_minus_expr_state rfl).1
      rfl rfl⟩

/-! ## QIP: the result of every parse -/

theorem yy_last_loc_concat (pre : List qip_token) (t : qip_token) :
    yy_last_loc (pre ++ [t]) = t.yylloc := by
  simp [yy_last_loc]

set_option maxRecDepth 1000000 in
theorem yy_default_reduces_all : ∀ s < 210, yy_default_reduces s = true := by
  decide!

theorem yyerrlab_eq (yymsg : Nat → Int → String) (st : yy_state) (h : yy_inv st)
    (h0 : st.yyerrstatus = 0) :
    yyerrlab yymsg st
      = .inl (1, { st with
          parser := yyerror st.yylloc st.parser (yymsg (st.yyss.headD 0)
            (if st.yychar = YYEMPTY then YYEMPTY else YYTRANSLATE st.yychar))
          yyerrstatus := 3 }) := by
  have key : ∀ (yyvs : List YYSTYPE) (yyls : List YYLTYPE) (range1 : YYLTYPE),
      yyerrlab1_pop st.yyss yyvs yyls range1 = none :=
    fun _ _ _ => yyerrlab1_pop_none _ _ _ _ h.2
  unfold yyerrlab
  simp [h0, key]

theorem yylex_lexed (text : List qip_token) (st : yy_state) (h : yy_lexed text st) :
    yy_lexed text (yylex st) ∧ (yylex st).yyerrstatus = st.yyerrstatus
      ∧ (yylex st).parser = st.parser := by
  obtain ⟨⟨pre, h1, h2⟩, _⟩ := h
  unfold yylex
  cases hin : st.input with
  | nil =>
    refine ⟨⟨⟨pre, by rw [h1, hin], h2⟩, ?_⟩, rfl, rfl⟩
    intro hpos
    exact absurd (show (0 : Int) < 0 from hpos) (by decide)
  | cons t rest =>
    refine ⟨⟨⟨pre ++ [t], ?_, ?_⟩, ?_⟩, rfl, rfl⟩
    · rw [h1, hin]
      simp
    · exact (yy_last_loc_concat pre t).symm
    · intro _
      exact ⟨pre, t, by rw [h1, hin], rfl, rfl⟩

theorem yybackup_lexed (text : List qip_token) (st : yy_state) (h : yy_lexed text st) :
    yy_lexed text (yybackup st).1 ∧ (yybackup st).1.yyerrstatus = st.yyerrstatus
      ∧ (yybackup st).1.parser = st.parser := by
  have hl := yylex_lexed text st h
  unfold yybackup
  dsimp only
  by_cases hp : yypact.getD (st.yyss.headD 0) 0 = YYPACT_NINF
  · rw [if_pos hp]
    exact ⟨h, rfl, rfl⟩
  · rw [if_neg hp]
    dsimp only
    have h1 : yy_lexed text (if st.yychar = YYEMPTY then yylex st else st)
        ∧ (if st.yychar = YYEMPTY then yylex st else st).yyerrstatus = st.yyerrstatus
        ∧ (if st.yychar = YYEMPTY then yylex st else st).parser = st.parser := by
      split_ifs
      · exact hl
      · exact ⟨h, rfl, rfl⟩
    revert h1
    generalize (if st.yychar = YYEMPTY then yylex st else st) = st1
    intro h1
    obtain ⟨⟨ha, hb⟩, hc, hd⟩ := h1
    by_cases h2 : st1.yychar ≤ YYEOF
    · rw [if_pos h2]
      exact ⟨⟨ha, fun hpos => absurd (show (0 : Int) < YYEOF from hpos) (by decide)⟩, hc, hd⟩
    · rw [if_neg h2]
      exact ⟨⟨ha, hb⟩, hc, hd⟩

theorem yyshift_lexed (text : List qip_token) (st : yy_state) (yyn : Nat)
    (h : yy_lexed text st) : yy_lexed text (yyshift st yyn) :=
  ⟨h.1, fun hpos => absurd (show (0 : Int) < YYEMPTY from hpos) (by decide)⟩

theorem yyreduce_lexed (text : List qip_token) (st : yy_state) (yyn : Nat)
    (h : yy_lexed text st) : yy_lexed text (yyreduce st yyn) :=
  h

theorem yybackup_errlab_yychar (st : yy_state) (hs : st.yyss.headD 0 < 210)
    (h : (yybackup st).2 = .errlab) : (yybackup st).1.yychar ≠ YYEMPTY := by
  have hd := yy_default_reduces_all _ hs
  simp only [yy_default_reduces, decide_eq_true_eq] at hd
  unfold yybackup at h ⊢
  dsimp only at h ⊢
  by_cases hp : yypact.getD (st.yyss.headD 0) 0 = YYPACT_NINF
  · rw [if_pos hp] at h
    simp only [yydefault, if_neg (hd hp)] at h
    cases h
  · rw [if_neg hp]
    dsimp only
    generalize (if st.yychar = YYEMPTY then yylex st else st) = st1
    by_cases h1 : st1.yychar ≤ YYEOF
    · rw [if_pos h1]
      show YYEOF ≠ YYEMPTY
      decide
    · rw [if_neg h1]
      intro h5
      rw [h5] at h1
      exact h1 (by decide)

theorem yyparse_loop_errors (yymsg : Nat → Int → String) (text : List qip_token)
    (parser0 : qip_parser_t) :
    ∀ (fuel : Nat) (st : yy_state) (r : yy_result), yy_inv st → yy_lexed text st →
      st.yyerrstatus = 0 → st.parser = parser0 → yyparse_loop yymsg fuel st = some r →
      yy_lexed text r.2 ∧ (r.1 = 0 ∨ r.1 = 1 ∨ r.1 = 2) ∧
      (r.1 = 0 → r.2.parser = parser0) ∧
      (r.1 ≠ 0 → ∃ msg, r.2.parser = yyerror r.2.yylloc parser0 msg) ∧
      (r.1 = 1 → r.2.yychar ≠ YYEMPTY) := by
  intro fuel
  induction fuel with
  | zero => intro st r _ _ _ _ h; simp [yyparse_loop] at h
  | succ fuel ih =>
    intro st r hinv hlex herr hpar h
    have hhead : st.yyss.headD 0 < 210 := by
      obtain ⟨hne, hall⟩ := hinv
      cases hs : st.yyss with
      | nil => exact absurd hs hne
      | cons s rest =>
        rw [hs] at hall
        exact hall s (List.mem_cons_self _ _)
    rw [yyparse_loop] at h
    split_ifs at h with h1 h2
    · simp only [Option.some.injEq] at h
      subst h
      exact ⟨hlex, Or.inr (Or.inr rfl), fun h => by simp at h,
        fun _ => ⟨"memory exhausted", by rw [← hpar]⟩, fun h => by simp at h⟩
    · simp only [Option.some.injEq] at h
      subst h
      exact ⟨hlex, Or.inl rfl, fun _ => hpar, fun h => absurd rfl h,
        fun h => by simp at h⟩
    · obtain ⟨hyss, _, hshift, hreduce⟩ := yybackup_step st hhead
      obtain ⟨hlex2, herr2, hpar2⟩ := yybackup_lexed text st hlex
      have hchar := yybackup_errlab_yychar st hhead
      have hinv2 : yy_inv (yybackup st).1 := by
        unfold yy_inv
        rw [hyss]
        exact hinv
      rcases hyb : yybackup st with ⟨st2, todo⟩
      rw [hyb] at hyss hshift hreduce hlex2 herr2 hpar2 hchar hinv2 h
      simp only at hyss hshift hreduce hlex2 herr2 hpar2 hchar hinv2 h
      cases todo with
      | shift yyn =>
        obtain ⟨hn, _⟩ := hshift yyn rfl
        refine ih (yyshift st2 yyn) r ⟨by simp [yyshift], ?_⟩ (yyshift_lexed text st2 yyn hlex2) ?_
          (by rw [← hpar, ← hpar2]; rfl) h
        · intro s hs
          rcases List.mem_cons.mp hs with h | h
          · rw [h]; exact hn
          · exact hinv2.2 s h
        · show st2.yyerrstatus - 1 = 0
          rw [herr2, herr]
      | reduce yyn =>
        have hok := hreduce yyn rfl
        rw [← hyss] at hok
        obtain ⟨hi, _⟩ := yyreduce_potential st2 yyn hinv2 hok
        exact ih (yyreduce st2 yyn) r hi (yyreduce_lexed text st2 yyn hlex2)
          (by rw [← herr, ← herr2]; rfl)
          (by rw [← hpar, ← hpar2]; rfl) h
      | errlab =>
        simp only at h
        rw [yyerrlab_eq yymsg st2 hinv2 (by rw [herr2, herr])] at h
        simp only [Option.some.injEq] at h
        subst h
        exact ⟨hlex2, Or.inr (Or.inl rfl), fun h => by simp at h,
          fun _ => ⟨_, by rw [← hpar, ← hpar2]⟩, fun _ => hchar rfl⟩

/-- C37: for every parser, module name and input, `qip_parser_parse` returns (the loop of
`yyparse` pushes at most `16 * n + 31` states for `n` tokens, and more fuel does not
change the result); it returns 0 and hands back a module, also when `yyparse` fails with
the code `rc` (1 for a syntax error, 2 when the stack is full). When `yyparse` succeeds
the errors of the parser are left as they are; when it fails, exactly one error is added
to them, so that `error_count` is positive, and the message `Unknown error` is never
needed. The error carries the first line of `yylloc`, which is the location of the last
token that the lexer has handed over. At a syntax error a lookahead has been read, and
when it is a token (not the end of the input) it is that last token: the error carries
the first line of the token that no action of the state accepts; when the input ends too
early the error carries the first line of the last token of the input.
For the tokens `2`, `+`, `;` on lines 1, 2 and 3 the return code is 0, a module is handed
back and the one error carries line 3. -/
theorem qip_parser_parse_returns (yymsg : Nat → Int → String) (uninit : YYLTYPE) (heap : Nat)
    (parser : qip_parser_t) (name : Option String) (text : List qip_token) :
    ∃ (rc : Int) (st : yy_state) (m : qip_ast_node),
      yyparse yymsg (16 * text.length + 31) uninit text (qip_parser_parse_setup heap name)
          parser (heap + 3) = some (rc, st) ∧
      (∀ k, qip_parser_parse yymsg (16 * text.length + 31 + k) uninit heap parser name text
        = some (0, st.parser, some m)) ∧
      (rc = 0 ∨ rc = 1 ∨ rc = 2) ∧
      (rc = 0 → st.parser = parser) ∧
      (rc ≠ 0 → (∃ msg, st.parser.errors = parser.errors ++ [⟨st.yylloc.first_line, msg⟩])
        ∧ 0 < st.parser.error_count) ∧
      (∃ pre, text = pre ++ st.input ∧ st.yylloc = yy_last_loc pre) ∧
      (rc = 1 → st.yychar ≠ YYEMPTY ∧
        (0 < st.yychar →
          ∃ pre t, text = pre ++ t :: st.input ∧ t.yychar = st.yychar ∧ t.yylloc = st.yylloc)) ∧
      (example_parse 8 broken_lines_tokens).map (fun r => (r.1, r.2.1.errors, r.2.2.isSome))
        = some (0, [⟨3, "syntax error"⟩], true) := by
  obtain ⟨⟨rc, st⟩, hy⟩ := Option.isSome_iff_exists.mp
    (yyparse_total yymsg uninit text (qip_parser_parse_setup heap name) parser (heap + 3))
  have hloop := hy
  unfold yyparse at hloop
  obtain ⟨hlex, hrc, h0, h1, hch⟩ := yyparse_loop_errors yymsg text parser _ _ (rc, st)
    ⟨by simp, by
      intro s hs
      simp only [List.mem_singleton] at hs
      omega⟩
    ⟨by refine ⟨[], ?_, ?_⟩ <;> rfl,
      fun hpos => absurd (show (0 : Int) < YYEMPTY from hpos) (by decide)⟩ rfl rfl hloop
  simp only at hlex hrc h0 h1 hch
  have herrs : rc ≠ 0 → (∃ msg, st.parser.errors = parser.errors ++ [⟨st.yylloc.first_line, msg⟩])
      ∧ 0 < st.parser.error_count := by
    intro hne
    obtain ⟨msg, hmsg⟩ := h1 hne
    refine ⟨⟨msg, by rw [hmsg]; rfl⟩, ?_⟩
    rw [hmsg]
    simp [yyerror, qip_parser_add_error, qip_parser_t.error_count]
  have hok := yyparse_loop_root_ok yymsg _ _ (rc, st) (qip_parser_parse_setup_ok heap name) hloop
  obtain ⟨hf1, m, hf2, _⟩ := qip_parser_parse_finish_ok rc st.parser st.root hok
  have hf3 : (qip_parser_parse_finish rc st.parser st.root).2.1 = st.parser := by
    by_cases hz : rc = 0
    · simp [qip_parser_parse_finish, hz]
    · have hpos := (herrs hz).2
      have hne : ¬ st.parser.error_count = 0 := by omega
      simp [qip_parser_parse_finish, hne]
  refine ⟨rc, st, m, hy, ?_, hrc, h0, herrs, hlex.1, fun h => ⟨hch h, hlex.2⟩, by decide⟩
  intro k
  have hk := yyparse_loop_mono_le yymsg _ _ (rc, st) hloop k
  unfold qip_parser_parse yyparse
  rw [hk]
  have hfin : qip_parser_parse_finish rc st.parser st.root = (0, st.parser, some m) :=
    Prod.ext hf1 (Prod.ext hf3 hf2)
  simp only [hfin]

end Sky
